import Mathlib

/-!
# Tpetra::MultiVector: a shallow embedding

Embedding of `packages/tpetra/core/src/Tpetra_MultiVector_def.hpp` (release
build: the `HAVE_TPETRA_DEBUG` blocks are compiled out).

* Scalars are an exact-arithmetic type `S`; `size_t` values are `Nat`.
* A `Kokkos::DualView` is a handle (`DualView`) into a heap cell
  (`DualViewData`) that holds the device entries, the host entries and the two
  modification counters.  Copies and subviews of a `DualView` share the cell.
* Every process owns its own `Heap`; a collective receives the list of the
  buffers that the processes of the communicator pass to the all-reduce.
-/

namespace Tpetra

/-! ## Exceptions, memory spaces, heap -/

/-- Exceptions thrown through the `TEUCHOS_TEST_FOR_EXCEPTION` family. -/
inductive Err where
  | invalid_argument
  | runtime_error
  | logic_error
  deriving DecidableEq, Repr

/-- The two memory residencies of a `Kokkos::DualView`. -/
inductive MemSpace where
  | device
  | host
  deriving DecidableEq, Repr

/-- Modelled from the spec: the Dual Residency Buffer (`Kokkos::DualView`, whose
declaration is not part of the sources).  One allocation holds the entries of
the device copy, the entries of the host copy, and one modification marker per
residency.  Entries are addressed by (row, column) of the allocation. -/
structure DualViewData (S : Type) where
  d_view : Nat → Nat → S
  h_view : Nat → Nat → S
  modified_device : Nat
  modified_host : Nat

/-- Entries of one residency of an allocation. -/
def DualViewData.view {S : Type} (c : DualViewData S) : MemSpace → Nat → Nat → S
  | .device => c.d_view
  | .host => c.h_view

/-- Memory of one process: allocation cells, and the next unused cell. -/
structure Heap (S : Type) where
  cells : Nat → DualViewData S
  next : Nat

/-- Modelled from the spec: a `Kokkos::DualView` handle, a window
`[row0, row0 + dimension_0) x [col0, col0 + dimension_1)` into allocation `buf`.
`stride1` is the column stride (leading dimension) of the allocation. -/
structure DualView where
  buf : Nat
  row0 : Nat
  col0 : Nat
  dimension_0 : Nat
  dimension_1 : Nat
  stride1 : Nat
  deriving DecidableEq, Repr

/-- Entry `(i, j)` of the window, read in residency `sp`. -/
def DualView.get {S : Type} (h : Heap S) (sp : MemSpace) (V : DualView) (i j : Nat) : S :=
  (h.cells V.buf).view sp (V.row0 + i) (V.col0 + j)

/-- Modelled from the spec: `dual_view_type (label, rows, cols)`, a fresh
zero-filled allocation with both residencies marked non-modified. -/
def Heap.alloc {S : Type} [Zero S] (h : Heap S) (rows cols : Nat) : Heap S × DualView :=
  ({ cells := fun b => if b = h.next then ⟨fun _ _ => 0, fun _ _ => 0, 0, 0⟩ else h.cells b,
     next := h.next + 1 },
   { buf := h.next, row0 := 0, col0 := 0, dimension_0 := rows, dimension_1 := cols,
     stride1 := rows })

/-- Modelled from the spec: an allocation whose entries are left unspecified
(`Kokkos::ViewAllocateWithoutInitializing` plus `create_mirror_view`): the
entries are whatever the unused cell held; the markers are fresh. -/
def Heap.allocUninit {S : Type} (h : Heap S) (rows cols : Nat) : Heap S × DualView :=
  ({ cells := fun b =>
       if b = h.next then { h.cells b with modified_device := 0, modified_host := 0 }
       else h.cells b,
     next := h.next + 1 },
   { buf := h.next, row0 := 0, col0 := 0, dimension_0 := rows, dimension_1 := cols,
     stride1 := rows })

/-- Source: `allocDualView` (anonymous namespace).  With `zeroOut = false` the
`modify` call acts on the temporary `dv`; the returned `DualView` is built anew
from the two views and so carries fresh markers. -/
def allocDualView {S : Type} [Zero S] (h : Heap S) (lclNumRows numCols : Nat)
    (zeroOut : Bool) : Heap S × DualView :=
  if zeroOut then h.alloc lclNumRows numCols else h.allocUninit lclNumRows numCols

/-- Modelled from the spec: `Kokkos::subview (X, rowRng, colRng)`; shares the
storage and the markers of `X` and narrows the window. -/
def subview (X : DualView) (rowRng colRng : Nat × Nat) : DualView :=
  { X with
    row0 := X.row0 + rowRng.1
    col0 := X.col0 + colRng.1
    dimension_0 := rowRng.2 - rowRng.1
    dimension_1 := colRng.2 - colRng.1 }

/-- Modelled from the spec: `Kokkos::subview (X, Kokkos::ALL (), colRng)`. -/
def subviewAllRows (X : DualView) (colRng : Nat × Nat) : DualView :=
  subview X (0, X.dimension_0) colRng

/-- Modelled from the spec: `Kokkos::subview (X, rowRng, Kokkos::ALL ())`. -/
def subviewAllCols (X : DualView) (rowRng : Nat × Nat) : DualView :=
  subview X rowRng (0, X.dimension_1)

/-- Source: `takeSubview (X, ALL, colRng)`: a view with zero rows and a nonzero
number of columns is replaced by a fresh `0 x (colRng.second - colRng.first)`
allocation. -/
def takeSubview {S : Type} [Zero S] (h : Heap S) (X : DualView) (colRng : Nat × Nat) :
    Heap S × DualView :=
  if X.dimension_0 = 0 ∧ X.dimension_1 ≠ 0 then
    h.alloc 0 (colRng.2 - colRng.1)
  else
    (h, subviewAllRows X colRng)

/-- Source: `takeSubview (X, rowRng, colRng)`. -/
def takeSubviewRows {S : Type} [Zero S] (h : Heap S) (X : DualView) (rowRng colRng : Nat × Nat) :
    Heap S × DualView :=
  if X.dimension_0 = 0 ∧ X.dimension_1 ≠ 0 then
    h.alloc 0 (colRng.2 - colRng.1)
  else
    (h, subview X rowRng colRng)

/-! ## Residency markers -/

/-- Modelled from the spec: `markModified(residency)`; the marker of `sp`
becomes larger than both markers. -/
def DualViewData.modify {S : Type} (c : DualViewData S) : MemSpace → DualViewData S
  | .device => { c with modified_device := max c.modified_device c.modified_host + 1 }
  | .host => { c with modified_host := max c.modified_device c.modified_host + 1 }

/-- Modelled from the spec: `needsSync(targetResidency)`, true when the other
residency was marked modified more recently than the target. -/
def DualViewData.need_sync {S : Type} (c : DualViewData S) : MemSpace → Bool
  | .device => decide (c.modified_device < c.modified_host)
  | .host => decide (c.modified_host < c.modified_device)

/-- The other residency. -/
def MemSpace.other : MemSpace → MemSpace
  | .device => .host
  | .host => .device

/-- Replace cell `b` of the heap. -/
def Heap.setCell {S : Type} (h : Heap S) (b : Nat) (c : DualViewData S) : Heap S :=
  { h with cells := fun b' => if b' = b then c else h.cells b' }

/-- Replace the entries of residency `sp` of a cell. -/
def DualViewData.setView {S : Type} (c : DualViewData S) (sp : MemSpace) (f : Nat → Nat → S) :
    DualViewData S :=
  match sp with
  | .device => { c with d_view := f }
  | .host => { c with h_view := f }

/-- Whether allocation coordinates `(r, c)` lie in the window of `V`. -/
def DualView.covers (V : DualView) (r c : Nat) : Bool :=
  decide (V.row0 ≤ r) && decide (r < V.row0 + V.dimension_0) &&
  decide (V.col0 ≤ c) && decide (c < V.col0 + V.dimension_1)

/-- A kernel that overwrites every entry `(i, j)` of window `V` in residency
`sp` by `f i j` and touches nothing else. -/
def Heap.write {S : Type} (h : Heap S) (sp : MemSpace) (V : DualView) (f : Nat → Nat → S) :
    Heap S :=
  h.setCell V.buf
    ((h.cells V.buf).setView sp (fun r c =>
      if V.covers r c then f (r - V.row0) (c - V.col0) else (h.cells V.buf).view sp r c))

/-- Modelled from the spec: `DualView::modify<sp>` through a handle. -/
def DualView.modify {S : Type} (h : Heap S) (V : DualView) (sp : MemSpace) : Heap S :=
  h.setCell V.buf ((h.cells V.buf).modify sp)

/-- Modelled from the spec: `DualView::need_sync<sp>` through a handle. -/
def DualView.need_sync {S : Type} (h : Heap S) (V : DualView) (sp : MemSpace) : Bool :=
  (h.cells V.buf).need_sync sp

/-- Modelled from the spec: `sync(targetResidency)`: if `needsSync`, deep-copy
the window from the other residency into `sp` and clear both markers. -/
def DualView.sync {S : Type} (h : Heap S) (V : DualView) (sp : MemSpace) : Heap S :=
  if V.need_sync h sp then
    let h1 := h.write sp V (fun i j => V.get h sp.other i j)
    h1.setCell V.buf { h1.cells V.buf with modified_device := 0, modified_host := 0 }
  else h

/-! ## Map and MultiVector -/

/-- Modelled from the spec: the Distributed Map as seen by one process.
`comm = none` is a null communicator. -/
structure Map where
  nodeNumElements : Nat
  globalNumElements : Nat
  distributed : Bool
  comm : Option Nat
  deriving DecidableEq, Repr

/-- The data members of `Tpetra::MultiVector`; `map_ = none` is a null map. -/
structure MultiVector where
  map_ : Option Map
  view_ : DualView
  origView_ : DualView
  whichVectors_ : List Nat
  deriving DecidableEq, Repr

namespace MultiVector

/-- Source: `isConstantStride`. -/
def isConstantStride (X : MultiVector) : Bool := X.whichVectors_.isEmpty

/-- Source: `getLocalLength`. -/
def getLocalLength (X : MultiVector) : Nat :=
  match X.map_ with
  | none => 0
  | some m => m.nodeNumElements

/-- Source: `getGlobalLength`. -/
def getGlobalLength (X : MultiVector) : Nat :=
  match X.map_ with
  | none => 0
  | some m => m.globalNumElements

/-- Source: `getNumVectors`. -/
def getNumVectors (X : MultiVector) : Nat :=
  if X.isConstantStride then X.view_.dimension_1 else X.whichVectors_.length

/-- The leading dimension as every constructor computes it from `origView_`. -/
def LDA (origView : DualView) : Nat :=
  if origView.dimension_1 > 1 then origView.stride1 else origView.dimension_0

/-- Source: `getStride`. -/
def getStride (X : MultiVector) : Nat :=
  if X.isConstantStride then LDA X.origView_ else 0

/-- Modelled from the spec: `isDistributed`, deferred to the map. -/
def isDistributed (X : MultiVector) : Bool :=
  match X.map_ with
  | none => false
  | some m => m.distributed

/-- The communicator as `dot`, `normImpl` and `meanValue` fetch it. -/
def getComm (X : MultiVector) : Option Nat :=
  match X.map_ with
  | none => none
  | some m => m.comm

/-- Physical column of logical column `j`: the source idiom
`isConstantStride () ? j : whichVectors_[j]`. -/
def physicalColumn (X : MultiVector) (j : Nat) : Nat :=
  if X.isConstantStride then j else X.whichVectors_.getD j 0

/-- Logical entry `(i, j)` of the block, read in residency `sp`. -/
def entry {S : Type} (h : Heap S) (sp : MemSpace) (X : MultiVector) (i j : Nat) : S :=
  X.view_.get h sp i (X.physicalColumn j)

/-- Source: `sync<sp>`, applied to `getDualView ()`, that is `view_`. -/
def sync {S : Type} (h : Heap S) (X : MultiVector) (sp : MemSpace) : Heap S :=
  X.view_.sync h sp

/-- Source: `modify<sp>`, applied to `view_`. -/
def modify {S : Type} (h : Heap S) (X : MultiVector) (sp : MemSpace) : Heap S :=
  X.view_.modify h sp

/-- Source: `need_sync<sp>`, applied to `view_`. -/
def need_sync {S : Type} (h : Heap S) (X : MultiVector) (sp : MemSpace) : Bool :=
  X.view_.need_sync h sp


/-! ## Constructors -/

/-- Modelled from the spec: the reserved invalid column index,
`Teuchos::OrdinalTraits<size_t>::invalid ()`. -/
def OrdinalTraits_invalid : Nat := 2 ^ 64 - 1

/-- Source: `MultiVector (map, numVecs, zeroOut)`. -/
def fromMap {S : Type} [Zero S] (h : Heap S) (map : Option Map) (numVecs : Nat)
    (zeroOut : Bool) : Heap S × MultiVector :=
  let lclNumRows := match map with
    | none => 0
    | some m => m.nodeNumElements
  let r := allocDualView h lclNumRows numVecs zeroOut
  (r.1, { map_ := map, view_ := r.2, origView_ := r.2, whichVectors_ := [] })

/-- Source: `MultiVector (map, view, origView)`. -/
def fromViewOrig (map : Option Map) (view origView : DualView) : Except Err MultiVector :=
  let X : MultiVector := { map_ := map, view_ := view, origView_ := origView, whichVectors_ := [] }
  if LDA X.origView_ < X.getLocalLength then .error .invalid_argument else .ok X

/-- Source: `MultiVector (map, view)`. -/
def fromView (map : Option Map) (view : DualView) : Except Err MultiVector :=
  fromViewOrig map view view

/-- Source: `MultiVector (map, view, origView, whichVectors)`. -/
def fromViewOrigWhich {S : Type} [Zero S] (h : Heap S) (map : Option Map)
    (view origView : DualView) (whichVectors : List Nat) : Except Err (Heap S × MultiVector) :=
  let X : MultiVector :=
    { map_ := map, view_ := view, origView_ := origView, whichVectors_ := whichVectors }
  let lclNumRows := X.getLocalLength
  if view.dimension_1 ≠ 0 ∧ view.dimension_0 < lclNumRows then .error .invalid_argument
  else if whichVectors.length ≠ 0 ∧ whichVectors.any (fun c => c == OrdinalTraits_invalid) then
    .error .invalid_argument
  else if whichVectors.length ≠ 0 ∧
      (view.dimension_1 ≠ 0 ∧ view.dimension_1 ≤ whichVectors.foldl max 0) then
    .error .invalid_argument
  else if LDA origView < lclNumRows then .error .invalid_argument
  else if whichVectors.length = 1 then
    let colRng := (whichVectors.getD 0 0, whichVectors.getD 0 0 + 1)
    let r1 := takeSubview h view colRng
    let r2 := takeSubview r1.1 origView colRng
    .ok (r2.1, { map_ := map, view_ := r1.2, origView_ := r2.2, whichVectors_ := [] })
  else .ok (h, X)

/-- Source: `MultiVector (map, view, whichVectors)`. -/
def fromViewWhich {S : Type} [Zero S] (h : Heap S) (map : Option Map) (view : DualView)
    (whichVectors : List Nat) : Except Err (Heap S × MultiVector) :=
  fromViewOrigWhich h map view view whichVectors

/-- Source: `operator=`: view semantics, the members of `source` are taken over. -/
def assignFrom (_self source : MultiVector) : MultiVector :=
  { map_ := source.map_, view_ := source.view_, origView_ := source.origView_,
    whichVectors_ := source.whichVectors_ }

end MultiVector

/-! ## Column sub-views -/

/-- Modelled from the spec: `Teuchos::Range1D`, the inclusive index range
`[lbound, ubound]`; the empty range has `ubound = lbound - 1`. -/
structure Range1D where
  lbound : Int
  ubound : Int
  deriving DecidableEq, Repr

/-- Modelled from the spec: `Range1D::size`. -/
def Range1D.size (r : Range1D) : Int := r.ubound - r.lbound + 1

/-- The conversion `static_cast<size_t>` of a signed ordinal. -/
def size_t_cast (x : Int) : Nat := (x % 2 ^ 64).toNat

namespace MultiVector

/-- Source: `subView (const Teuchos::Range1D&)`. -/
def subView {S : Type} [Zero S] (h : Heap S) (X : MultiVector) (colRng : Range1D) :
    Except Err (Heap S × MultiVector) :=
  let numVecs := X.getNumVectors
  if size_t_cast colRng.size > numVecs then .error .runtime_error
  else if numVecs ≠ 0 ∧ colRng.size ≠ 0 ∧
      (colRng.lbound < 0 ∨ size_t_cast colRng.ubound ≥ numVecs) then
    .error .invalid_argument
  else if colRng.size = 0 then
    let r := takeSubview h X.view_ (0, 0)
    (fromViewOrig X.map_ r.2 X.origView_).map (fun Y => (r.1, Y))
  else if X.isConstantStride then
    let cols := (size_t_cast colRng.lbound, size_t_cast (colRng.ubound + 1))
    let r := takeSubview h X.view_ cols
    (fromViewOrig X.map_ r.2 X.origView_).map (fun Y => (r.1, Y))
  else if size_t_cast colRng.size = 1 then
    let col := (X.whichVectors_.getD 0 0 + size_t_cast colRng.lbound,
                X.whichVectors_.getD 0 0 + size_t_cast colRng.ubound + 1)
    let r := takeSubview h X.view_ col
    (fromViewOrig X.map_ r.2 X.origView_).map (fun Y => (r.1, Y))
  else
    let which := (X.whichVectors_.drop (size_t_cast colRng.lbound)).take
      (size_t_cast (colRng.ubound + 1) - size_t_cast colRng.lbound)
    fromViewOrigWhich h X.map_ X.view_ X.origView_ which

end MultiVector

/-! ## Local kernels on one residency -/

/-- Column `col` of a two-dimensional view: `subview (X, ALL (), col)`. -/
def column (X : DualView) (col : Nat) : DualView :=
  subviewAllRows X (col, col + 1)

/-- Modelled from the spec: fill-with-scalar, `Kokkos::deep_copy (X, alpha)`. -/
def deep_copy_scalar {S : Type} (h : Heap S) (sp : MemSpace) (X : DualView) (alpha : S) :
    Heap S :=
  h.write sp X (fun _ _ => alpha)

/-- Modelled from the spec: `Kokkos::deep_copy (dst, src)` between two views of
the same residency. -/
def deep_copy {S : Type} (h : Heap S) (sp : MemSpace) (dst src : DualView) : Heap S :=
  h.write sp dst (fun i j => src.get h sp i j)

/-- Modelled from the spec: elementwise scale, `KokkosBlas::scal (Y, alpha, X)`:
`Y(i,j) = alpha * X(i,j)`. -/
def KokkosBlas.scal {S : Type} [Mul S] (h : Heap S) (sp : MemSpace) (Y : DualView) (alpha : S)
    (X : DualView) : Heap S :=
  h.write sp Y (fun i j => alpha * X.get h sp i j)

/-- Modelled from the spec: `KokkosBlas::scal (Y, alphas, X)` with one
coefficient per column: `Y(i,j) = alphas(j) * X(i,j)`. -/
def KokkosBlas.scalCols {S : Type} [Mul S] (h : Heap S) (sp : MemSpace) (Y : DualView)
    (alphas : Nat → S) (X : DualView) : Heap S :=
  h.write sp Y (fun i j => alphas j * X.get h sp i j)

/-- Modelled from the spec: AXPBY, `KokkosBlas::axpby (alpha, X, beta, Y)`:
`Y(i,j) = alpha * X(i,j) + beta * Y(i,j)`. -/
def KokkosBlas.axpby {S : Type} [Mul S] [Add S] (h : Heap S) (sp : MemSpace) (alpha : S)
    (X : DualView) (beta : S) (Y : DualView) : Heap S :=
  h.write sp Y (fun i j => alpha * X.get h sp i j + beta * Y.get h sp i j)

namespace MultiVector

/-! ## Mutators -/

/-- The body that `putScalar` runs on the residency it has chosen. -/
def putScalarOn {S : Type} (h : Heap S) (X : MultiVector) (sp : MemSpace) (theAlpha : S) :
    Heap S :=
  let lclNumRows := X.getLocalLength
  let numVecs := X.getNumVectors
  let h1 := X.modify h sp
  let Xv := subviewAllCols X.view_ (0, lclNumRows)
  if numVecs = 1 then
    deep_copy_scalar h1 sp (column Xv 0) theAlpha
  else if X.isConstantStride then
    deep_copy_scalar h1 sp Xv theAlpha
  else
    (List.range numVecs).foldl
      (fun hh k => deep_copy_scalar hh sp (column Xv (X.whichVectors_.getD k 0)) theAlpha) h1

/-- Source: `putScalar`. -/
def putScalar {S : Type} (h : Heap S) (X : MultiVector) (alpha : S) : Heap S :=
  let useHostVersion := X.need_sync h .device
  if !useHostVersion then putScalarOn h X .device alpha
  else putScalarOn h X .host alpha

/-- The body that `scale (alpha)` runs on the residency it has chosen. -/
def scaleOn {S : Type} [Mul S] (h : Heap S) (X : MultiVector) (sp : MemSpace) (theAlpha : S) :
    Heap S :=
  let lclNumRows := X.getLocalLength
  let numVecs := X.getNumVectors
  let Y_lcl := subviewAllCols X.view_ (0, lclNumRows)
  if X.isConstantStride then
    KokkosBlas.scal h sp Y_lcl theAlpha Y_lcl
  else
    (List.range numVecs).foldl
      (fun hh k =>
        let Y_col := if X.isConstantStride then k else X.whichVectors_.getD k 0
        let Y_k := column Y_lcl Y_col
        KokkosBlas.scal hh sp Y_k theAlpha Y_k) h

/-- Source: `scale (const Scalar& alpha)`. -/
def scale {S : Type} [Mul S] [One S] [DecidableEq S] (h : Heap S) (X : MultiVector)
    (alpha : S) : Heap S :=
  if alpha = 1 then h
  else
    let useHostVersion := X.need_sync h .device
    if useHostVersion then scaleOn h X .host alpha
    else scaleOn h X .device alpha

/-- The body that `scale (alphas)` runs on the residency it has chosen. -/
def scaleViewOn {S : Type} [Mul S] (h : Heap S) (X : MultiVector) (sp : MemSpace)
    (alphas : Nat → S) : Heap S :=
  let lclNumRows := X.getLocalLength
  let numVecs := X.getNumVectors
  let Y_lcl := subviewAllCols X.view_ (0, lclNumRows)
  if X.isConstantStride then
    KokkosBlas.scalCols h sp Y_lcl alphas Y_lcl
  else
    (List.range numVecs).foldl
      (fun hh k =>
        let Y_col := if X.isConstantStride then k else X.whichVectors_.getD k 0
        let Y_k := column Y_lcl Y_col
        KokkosBlas.scal hh sp Y_k (alphas k) Y_k) h

/-- Source: `scale (const Kokkos::View<const impl_scalar_type*, device_type>&)`;
`numAlphas` is `alphas.dimension_0 ()`. -/
def scaleView {S : Type} [Mul S] (h : Heap S) (X : MultiVector) (numAlphas : Nat)
    (alphas : Nat → S) : Except Err (Heap S) :=
  if numAlphas ≠ X.getNumVectors then .error .invalid_argument
  else
    let useHostVersion := X.need_sync h .device
    if useHostVersion then .ok (scaleViewOn h X .host alphas)
    else .ok (scaleViewOn h X .device alphas)

/-- Source: `scale (const Teuchos::ArrayView<const Scalar>&)`. -/
def scaleArray {S : Type} [Mul S] [Inhabited S] (h : Heap S) (X : MultiVector)
    (alphas : List S) : Except Err (Heap S) :=
  if alphas.length ≠ X.getNumVectors then .error .invalid_argument
  else scaleView h X alphas.length (fun i => alphas.getD i default)

/-- The body that `scale (alpha, A)` runs on the residency it has chosen. -/
def scaleFromOn {S : Type} [Mul S] (h : Heap S) (X : MultiVector) (sp : MemSpace) (theAlpha : S)
    (A : MultiVector) : Heap S :=
  let lclNumRows := X.getLocalLength
  let numVecs := X.getNumVectors
  let h1 := X.sync h sp
  let h2 := X.modify h1 sp
  let Y_lcl := subviewAllCols X.view_ (0, lclNumRows)
  let X_lcl := subviewAllCols A.view_ (0, lclNumRows)
  if X.isConstantStride ∧ A.isConstantStride then
    KokkosBlas.scal h2 sp Y_lcl theAlpha X_lcl
  else
    (List.range numVecs).foldl
      (fun hh k =>
        let Y_col := if X.isConstantStride then k else X.whichVectors_.getD k 0
        let X_col := if A.isConstantStride then k else A.whichVectors_.getD k 0
        KokkosBlas.scal hh sp (column Y_lcl Y_col) theAlpha (column X_lcl X_col)) h2

/-- Source: `scale (const Scalar& alpha, const MultiVector& A)`. -/
def scaleFrom {S : Type} [Mul S] (h : Heap S) (X : MultiVector) (alpha : S) (A : MultiVector) :
    Except Err (Heap S) :=
  if X.getLocalLength ≠ A.getLocalLength then .error .invalid_argument
  else if X.getNumVectors ≠ A.getNumVectors then .error .invalid_argument
  else
    let useHostVersion := X.need_sync h .device
    if useHostVersion then .ok (scaleFromOn h X .host alpha A)
    else .ok (scaleFromOn h X .device alpha A)

/-- The body that `update (alpha, A, beta)` runs on the residency it has chosen. -/
def updateOn {S : Type} [Mul S] [Add S] (h : Heap S) (X : MultiVector) (sp : MemSpace)
    (theAlpha : S) (A : MultiVector) (theBeta : S) : Heap S :=
  let lclNumRows := X.getLocalLength
  let numVecs := X.getNumVectors
  let h1 := X.sync h sp
  let h2 := X.modify h1 sp
  let Y_lcl := subviewAllCols X.view_ (0, lclNumRows)
  let X_lcl := subviewAllCols A.view_ (0, lclNumRows)
  if X.isConstantStride ∧ A.isConstantStride then
    KokkosBlas.axpby h2 sp theAlpha X_lcl theBeta Y_lcl
  else
    (List.range numVecs).foldl
      (fun hh k =>
        let Y_col := if X.isConstantStride then k else X.whichVectors_.getD k 0
        let X_col := if A.isConstantStride then k else A.whichVectors_.getD k 0
        KokkosBlas.axpby hh sp theAlpha (column X_lcl X_col) theBeta (column Y_lcl Y_col)) h2

/-- Source: `update (alpha, A, beta)`. -/
def update {S : Type} [Mul S] [Add S] (h : Heap S) (X : MultiVector) (alpha : S)
    (A : MultiVector) (beta : S) : Except Err (Heap S) :=
  if X.getLocalLength ≠ A.getLocalLength then .error .invalid_argument
  else if X.getNumVectors ≠ A.getNumVectors then .error .invalid_argument
  else
    let useHostVersion := X.need_sync h .device
    if useHostVersion then .ok (updateOn h X .host alpha A beta)
    else .ok (updateOn h X .device alpha A beta)


/-! ## Deep copies -/

/-- Modelled from the spec: the deep-copy kernel `Details::localDeepCopy`
(declared outside these sources): copies column by column, resolving each
side's physical column through its own list when that side is not constant
stride. -/
def localDeepCopy {S : Type} (h : Heap S) (sp : MemSpace) (dst src : DualView)
    (dstConstStride srcConstStride : Bool) (dstWhichVecs srcWhichVecs : List Nat) : Heap S :=
  if dstConstStride ∧ srcConstStride then deep_copy h sp dst src
  else if dstConstStride then
    (List.range srcWhichVecs.length).foldl
      (fun hh j => deep_copy hh sp (column dst j) (column src (srcWhichVecs.getD j 0))) h
  else if srcConstStride then
    (List.range dstWhichVecs.length).foldl
      (fun hh j => deep_copy hh sp (column dst (dstWhichVecs.getD j 0)) (column src j)) h
  else
    (List.range dstWhichVecs.length).foldl
      (fun hh j =>
        deep_copy hh sp (column dst (dstWhichVecs.getD j 0)) (column src (srcWhichVecs.getD j 0))) h

/-- Modelled from the spec: `Details::localDeepCopyConstStride`. -/
def localDeepCopyConstStride {S : Type} (h : Heap S) (sp : MemSpace) (dst src : DualView) :
    Heap S :=
  deep_copy h sp dst src

/-- Source: `assign`, the copy proper (after the dimension checks). -/
def assignBody {S : Type} (h : Heap S) (X src : MultiVector) : Heap S :=
  let useHostVersion := src.need_sync h .device
  if src.isConstantStride ∧ X.isConstantStride then
    if useHostVersion then
      let h1 := X.modify h .host
      let h2 := localDeepCopyConstStride h1 .host X.view_ src.view_
      X.sync h2 .device
    else
      let h1 := X.modify h .device
      let h2 := localDeepCopyConstStride h1 .device X.view_ src.view_
      X.sync h2 .host
  else if X.isConstantStride then
    if useHostVersion then
      let h1 := localDeepCopy h .host X.view_ src.view_ true false
        src.whichVectors_ src.whichVectors_
      X.sync h1 .device
    else
      let h1 := X.modify h .device
      let h2 := localDeepCopy h1 .device X.view_ src.view_ true false
        src.whichVectors_ src.whichVectors_
      X.sync h2 .host
  else if src.isConstantStride then
    if useHostVersion then
      let h1 := localDeepCopy h .host X.view_ src.view_ X.isConstantStride src.isConstantStride
        X.whichVectors_ X.whichVectors_
      X.sync h1 .device
    else
      let h1 := localDeepCopy h .device X.view_ src.view_ X.isConstantStride src.isConstantStride
        X.whichVectors_ X.whichVectors_
      X.sync h1 .host
  else
    if useHostVersion then
      let h1 := localDeepCopy h .host X.view_ src.view_ X.isConstantStride src.isConstantStride
        X.whichVectors_ src.whichVectors_
      X.sync h1 .host
    else
      localDeepCopy h .device X.view_ src.view_ X.isConstantStride src.isConstantStride
        X.whichVectors_ src.whichVectors_

/-- Source: `assign` (the implementation of `Tpetra::deep_copy`). -/
def assign {S : Type} (h : Heap S) (X src : MultiVector) : Except Err (Heap S) :=
  if X.getGlobalLength ≠ src.getGlobalLength ∨ X.getNumVectors ≠ src.getNumVectors then
    .error .invalid_argument
  else if X.getLocalLength ≠ src.getLocalLength then .error .invalid_argument
  else .ok (assignBody h X src)

end MultiVector

/-- Source: `createCopy`. -/
def createCopy {S : Type} [Zero S] (h : Heap S) (src : MultiVector) :
    Except Err (Heap S × MultiVector) :=
  let r := MultiVector.fromMap h src.map_ src.getNumVectors false
  (r.2.assign r.1 src).map (fun h1 => (h1, r.2))

/-- Modelled from the spec: `Teuchos::DataAccess`; `other` stands for a value
that is neither `Copy` nor `View`. -/
inductive DataAccess where
  | Copy
  | View
  | other
  deriving DecidableEq, Repr

namespace MultiVector

/-- Source: `MultiVector (const MultiVector& source, const Teuchos::DataAccess)`. -/
def fromSource {S : Type} [Zero S] (h : Heap S) (source : MultiVector)
    (copyOrView : DataAccess) : Except Err (Heap S × MultiVector) :=
  match copyOrView with
  | .Copy =>
    (createCopy h source).map (fun r =>
      (r.1, { map_ := source.map_, view_ := r.2.view_, origView_ := r.2.origView_,
              whichVectors_ := r.2.whichVectors_ }))
  | .View => .ok (h, source)
  | .other => .error .invalid_argument

end MultiVector

/-! ## Collective reductions -/

/-- Modelled from the spec: `Teuchos::EReductionType`. -/
inductive EReductionType where
  | REDUCE_SUM
  | REDUCE_MAX
  deriving DecidableEq, Repr

/-- Modelled from the spec: the all-to-all reduction `Teuchos::reduceAll`.
`sendBufs` lists the local buffer of every process that takes part in the
collective; the first `count` slots of the receive buffer become the elementwise
combination, the same on every participant. -/
def reduceAll {S : Type} [LinearOrderedField S] (op : EReductionType) (count : Nat)
    (sendBufs : List (Nat → S)) (globalReducts : Nat → S) : Nat → S :=
  fun k =>
    if k < count then
      match op with
      | .REDUCE_SUM => (sendBufs.map (fun b => b k)).sum
      | .REDUCE_MAX =>
        match sendBufs with
        | [] => globalReducts k
        | b :: bs => bs.foldl (fun m c => max m (c k)) (b k)
    else globalReducts k

/-- Modelled from the spec: the dot kernel on two columns,
`KokkosBlas::dot (x, y)` for real scalars. -/
def KokkosBlas.dot {S : Type} [LinearOrderedField S] (h : Heap S) (sp : MemSpace)
    (x y : DualView) : S :=
  ∑ i in Finset.range x.dimension_0, x.get h sp i 0 * y.get h sp i 0

/-- Modelled from the spec: the column-sum kernel `KokkosBlas::sum (x)`. -/
def KokkosBlas.sum {S : Type} [LinearOrderedField S] (h : Heap S) (sp : MemSpace)
    (x : DualView) : S :=
  ∑ i in Finset.range x.dimension_0, x.get h sp i 0

/-- Modelled from the spec: the one-norm kernel `KokkosBlas::nrm1 (x)`. -/
def KokkosBlas.nrm1 {S : Type} [LinearOrderedField S] (h : Heap S) (sp : MemSpace)
    (x : DualView) : S :=
  ∑ i in Finset.range x.dimension_0, |x.get h sp i 0|

/-- Modelled from the spec: the squared two-norm kernel
`KokkosBlas::nrm2_squared (x)`. -/
def KokkosBlas.nrm2_squared {S : Type} [LinearOrderedField S] (h : Heap S) (sp : MemSpace)
    (x : DualView) : S :=
  ∑ i in Finset.range x.dimension_0, |x.get h sp i 0| * |x.get h sp i 0|

/-- Modelled from the spec: the infinity-norm kernel `KokkosBlas::nrmInf (x)`,
the largest magnitude, zero for an empty column. -/
def KokkosBlas.nrmInf {S : Type} [LinearOrderedField S] (h : Heap S) (sp : MemSpace)
    (x : DualView) : S :=
  (List.range x.dimension_0).foldl (fun m i => max m |x.get h sp i 0|) 0

/-- Source: `lclDotImpl`.  One-dimensional result views are functions of the
slot index; slots that the kernel does not write keep their content. -/
def lclDotImpl {S : Type} [LinearOrderedField S] (h : Heap S) (sp : MemSpace)
    (dotsOut : Nat → S) (X_lcl Y_lcl : DualView) (lclNumRows numVecs : Nat)
    (whichVecsX whichVecsY : List Nat) (constantStrideX constantStrideY : Bool) : Nat → S :=
  let X := subviewAllCols X_lcl (0, lclNumRows)
  let Y := subviewAllCols Y_lcl (0, lclNumRows)
  if lclNumRows = 0 then
    fun k => if k < numVecs then 0 else dotsOut k
  else if constantStrideX ∧ constantStrideY then
    if X.dimension_1 = 1 then
      let result := KokkosBlas.dot h sp (column X 0) (column Y 0)
      fun k => if k < numVecs then result else dotsOut k
    else
      fun k =>
        if k < X.dimension_1 then KokkosBlas.dot h sp (column X k) (column Y k) else dotsOut k
  else
    (List.range numVecs).foldl
      (fun theDots k =>
        let X_col := if constantStrideX then k else whichVecsX.getD k 0
        let Y_col := if constantStrideY then k else whichVecsY.getD k 0
        Function.update theDots k (KokkosBlas.dot h sp (column X X_col) (column Y Y_col)))
      dotsOut

/-- Source: `gblDotImpl`; `numVecs` is `dotsOut.dimension_0 ()`. -/
def gblDotImpl {S : Type} [LinearOrderedField S] (dotsOut : Nat → S) (numVecs : Nat)
    (comm : Option Nat) (distributed : Bool) (sendBufs : List (Nat → S)) : Nat → S :=
  if distributed ∧ comm.isSome then
    reduceAll .REDUCE_SUM numVecs sendBufs dotsOut
  else dotsOut

/-- Source: `EWhichNormImpl`. -/
inductive EWhichNormImpl where
  | IMPL_NORM_ONE
  | IMPL_NORM_TWO
  | IMPL_NORM_INF
  deriving DecidableEq, Repr

/-- Source: `EWhichNorm` (argument of `normImpl`). -/
inductive EWhichNorm where
  | NORM_ONE
  | NORM_TWO
  | NORM_INF
  deriving DecidableEq, Repr

/-- The kernel that `lclNormImpl` selects for one column. -/
def normKernel {S : Type} [LinearOrderedField S] (h : Heap S) (sp : MemSpace)
    (whichNorm : EWhichNormImpl) (x : DualView) : S :=
  match whichNorm with
  | .IMPL_NORM_INF => KokkosBlas.nrmInf h sp x
  | .IMPL_NORM_ONE => KokkosBlas.nrm1 h sp x
  | .IMPL_NORM_TWO => KokkosBlas.nrm2_squared h sp x

/-- Source: `lclNormImpl`, the kernels it launches once its two dimension
checks have passed. -/
def lclNormKernels {S : Type} [LinearOrderedField S] (h : Heap S) (sp : MemSpace)
    (normsOut : Nat → S) (X_lcl : DualView) (lclNumRows numVecs : Nat)
    (whichVecs : List Nat) (constantStride : Bool) (whichNorm : EWhichNormImpl) : Nat → S :=
  let X := subviewAllCols X_lcl (0, lclNumRows)
  if lclNumRows = 0 then
    fun k => if k < numVecs then 0 else normsOut k
  else if constantStride then
    fun k =>
      if k < X.dimension_1 then normKernel h sp whichNorm (column X k) else normsOut k
  else
    (List.range numVecs).foldl
      (fun theNorms k =>
        let X_col := if constantStride then k else whichVecs.getD k 0
        Function.update theNorms k (normKernel h sp whichNorm (column X X_col)))
      normsOut

/-- Source: `lclNormImpl`. -/
def lclNormImpl {S : Type} [LinearOrderedField S] (h : Heap S) (sp : MemSpace)
    (normsOut : Nat → S) (X_lcl : DualView) (lclNumRows numVecs : Nat)
    (whichVecs : List Nat) (constantStride : Bool) (whichNorm : EWhichNormImpl) :
    Except Err (Nat → S) :=
  let X := subviewAllCols X_lcl (0, lclNumRows)
  if lclNumRows ≠ 0 ∧ constantStride ∧
      (X.dimension_0 ≠ lclNumRows ∨ X.dimension_1 ≠ numVecs) then
    .error .logic_error
  else if lclNumRows ≠ 0 ∧ ¬ constantStride ∧
      (X.dimension_0 ≠ lclNumRows ∨ X.dimension_1 < numVecs) then
    .error .logic_error
  else
    .ok (lclNormKernels h sp normsOut X_lcl lclNumRows numVecs whichVecs constantStride
      whichNorm)

/-- Source: `gblNormImpl`; `numVecs` is `normsOut.dimension_0 ()` and `sqrt` is
`Kokkos::Details::ArithTraits<mag_type>::sqrt`. -/
def gblNormImpl {S : Type} [LinearOrderedField S] (sqrt : S → S) (normsOut : Nat → S)
    (numVecs : Nat) (comm : Option Nat) (distributed : Bool) (whichNorm : EWhichNormImpl)
    (sendBufs : List (Nat → S)) : Nat → S :=
  let reduced :=
    if distributed ∧ comm.isSome then
      if whichNorm = .IMPL_NORM_INF then reduceAll .REDUCE_MAX numVecs sendBufs normsOut
      else reduceAll .REDUCE_SUM numVecs sendBufs normsOut
    else normsOut
  if whichNorm = .IMPL_NORM_TWO then
    fun j => if j < numVecs then sqrt (reduced j) else reduced j
  else reduced

/-- One process's call `X.dot (A, dots)`: its memory, the two blocks, and the
output view (`numDots` is `dots.dimension_0 ()`). -/
structure DotCall (S : Type) where
  heap : Heap S
  X : MultiVector
  A : MultiVector
  numDots : Nat
  dots : Nat → S

/-- Source: `dot (A, dots)` up to and including `lclDotImpl`, as compiled without
`HAVE_TPETRA_DEBUG` (the block under it calls `Map::isCompatible`).  `none` is
the early return for a block without columns; otherwise the memory after the
sync of `*this` and the local dots. -/
def DotCall.localPhase {S : Type} [LinearOrderedField S] (c : DotCall S) :
    Except Err (Option (Heap S × (Nat → S))) :=
  let numVecs := c.X.getNumVectors
  if numVecs = 0 then .ok none
  else
    let lclNumRows := c.X.getLocalLength
    if lclNumRows ≠ c.A.getLocalLength then .error .runtime_error
    else if numVecs ≠ c.A.getNumVectors then .error .runtime_error
    else if c.numDots ≠ numVecs then .error .runtime_error
    else
      let useHostVersion := c.A.need_sync c.heap .device
      if useHostVersion then
        let h1 := c.X.sync c.heap .host
        .ok (some (h1, lclDotImpl h1 .host c.dots c.X.view_ c.A.view_ lclNumRows numVecs
          c.X.whichVectors_ c.A.whichVectors_ c.X.isConstantStride c.A.isConstantStride))
      else
        let h1 := c.X.sync c.heap .device
        .ok (some (h1, lclDotImpl h1 .device c.dots c.X.view_ c.A.view_ lclNumRows numVecs
          c.X.whichVectors_ c.A.whichVectors_ c.X.isConstantStride c.A.isConstantStride))

/-- Source: `dot (A, dots)`: the local phase followed by `gblDotImpl`.
`sendBufs` are the buffers handed to the all-reduce by the processes of the
communicator. -/
def DotCall.dot {S : Type} [LinearOrderedField S] (c : DotCall S)
    (sendBufs : List (Nat → S)) : Except Err (Heap S × (Nat → S)) :=
  match c.localPhase with
  | .error e => .error e
  | .ok none => .ok (c.heap, c.dots)
  | .ok (some r) =>
    .ok (r.1, gblDotImpl r.2 c.X.getNumVectors c.X.getComm c.X.isDistributed sendBufs)

/-- The buffer that the process hands to the all-reduce of `gblDotImpl`, if it
reaches that all-reduce. -/
def DotCall.sendBuf {S : Type} [LinearOrderedField S] (c : DotCall S) : Option (Nat → S) :=
  match c.localPhase with
  | .ok (some r) => if c.X.isDistributed ∧ c.X.getComm.isSome then some r.2 else none
  | _ => none

/-- The collective `dot` over the processes of one communicator, in rank order. -/
def dotAll {S : Type} [LinearOrderedField S] (cs : List (DotCall S)) :
    List (Except Err (Heap S × (Nat → S))) :=
  cs.map (fun c => c.dot (cs.filterMap DotCall.sendBuf))

/-- One process's call `X.normImpl (norms, whichNorm)`. -/
structure NormCall (S : Type) where
  heap : Heap S
  X : MultiVector
  numNorms : Nat
  norms : Nat → S

/-- Source: the translation of `EWhichNorm` at the head of `normImpl`. -/
def lclNormType (whichNorm : EWhichNorm) : EWhichNormImpl :=
  if whichNorm = .NORM_ONE then .IMPL_NORM_ONE
  else if whichNorm = .NORM_TWO then .IMPL_NORM_TWO
  else .IMPL_NORM_INF

/-- Source: `normImpl` up to and including `lclNormImpl`; `none` is the early
return for a block without columns. -/
def NormCall.localPhase {S : Type} [LinearOrderedField S] (c : NormCall S)
    (whichNorm : EWhichNorm) : Except Err (Option (Nat → S)) :=
  let numVecs := c.X.getNumVectors
  if numVecs = 0 then .ok none
  else
    let lclNumRows := c.X.getLocalLength
    if c.numNorms < numVecs then .error .runtime_error
    else
      let useHostVersion := c.X.need_sync c.heap .device
      if useHostVersion then
        (lclNormImpl c.heap .host c.norms c.X.view_ lclNumRows numVecs c.X.whichVectors_
          c.X.isConstantStride (lclNormType whichNorm)).map some
      else
        (lclNormImpl c.heap .device c.norms c.X.view_ lclNumRows numVecs c.X.whichVectors_
          c.X.isConstantStride (lclNormType whichNorm)).map some

/-- Source: `normImpl`: the local phase followed by `gblNormImpl`. -/
def NormCall.normImpl {S : Type} [LinearOrderedField S] (sqrt : S → S) (c : NormCall S)
    (whichNorm : EWhichNorm) (sendBufs : List (Nat → S)) : Except Err (Nat → S) :=
  match c.localPhase whichNorm with
  | .error e => .error e
  | .ok none => .ok c.norms
  | .ok (some lcl) =>
    .ok (gblNormImpl sqrt lcl c.X.getNumVectors c.X.getComm c.X.isDistributed
      (lclNormType whichNorm) sendBufs)

/-- The buffer that the process hands to the all-reduce of `gblNormImpl`, if it
reaches that all-reduce. -/
def NormCall.sendBuf {S : Type} [LinearOrderedField S] (whichNorm : EWhichNorm)
    (c : NormCall S) : Option (Nat → S) :=
  match c.localPhase whichNorm with
  | .ok (some lcl) => if c.X.isDistributed ∧ c.X.getComm.isSome then some lcl else none
  | _ => none

/-- The collective `normImpl` over the processes of one communicator. -/
def normAll {S : Type} [LinearOrderedField S] (sqrt : S → S) (whichNorm : EWhichNorm)
    (cs : List (NormCall S)) : List (Except Err (Nat → S)) :=
  cs.map (fun c => c.normImpl sqrt whichNorm (cs.filterMap (NormCall.sendBuf whichNorm)))

/-- Source: `norm1`, `norm2`, `normInf` over one communicator. -/
def norm1All {S : Type} [LinearOrderedField S] (sqrt : S → S) (cs : List (NormCall S)) :=
  normAll sqrt .NORM_ONE cs

/-- Source: `norm2` over one communicator. -/
def norm2All {S : Type} [LinearOrderedField S] (sqrt : S → S) (cs : List (NormCall S)) :=
  normAll sqrt .NORM_TWO cs

/-- Source: `normInf` over one communicator. -/
def normInfAll {S : Type} [LinearOrderedField S] (sqrt : S → S) (cs : List (NormCall S)) :=
  normAll sqrt .NORM_INF cs

/-- One process's call `X.meanValue (means)`; `numMeans` is `means.size ()`. -/
structure MeanCall (S : Type) where
  heap : Heap S
  X : MultiVector
  numMeans : Nat
  means : Nat → S

/-- Source: `meanValue`, the local sums on the residency it has chosen. -/
def lclSumsOn {S : Type} [LinearOrderedField S] (h : Heap S) (X : MultiVector)
    (sp : MemSpace) : Nat → S :=
  let lclNumRows := X.getLocalLength
  let numVecs := X.getNumVectors
  let X_lcl := subviewAllCols X.view_ (0, lclNumRows)
  if X.isConstantStride then
    fun k => if k < X_lcl.dimension_1 then KokkosBlas.sum h sp (column X_lcl k) else 0
  else
    (List.range numVecs).foldl
      (fun lclSums j =>
        let col := X.whichVectors_.getD j 0
        Function.update lclSums j (KokkosBlas.sum h sp (column X_lcl col)))
      (fun _ => 0)

/-- Source: `meanValue` up to the local sums. -/
def MeanCall.localPhase {S : Type} [LinearOrderedField S] (c : MeanCall S) :
    Except Err (Nat → S) :=
  if c.numMeans ≠ c.X.getNumVectors then .error .runtime_error
  else
    let useHostVersion := c.X.need_sync c.heap .device
    if useHostVersion then .ok (lclSumsOn c.heap c.X .host)
    else .ok (lclSumsOn c.heap c.X .device)

/-- Source: `meanValue`. -/
def MeanCall.meanValue {S : Type} [LinearOrderedField S] (c : MeanCall S)
    (sendBufs : List (Nat → S)) : Except Err (Nat → S) :=
  match c.localPhase with
  | .error e => .error e
  | .ok lclSums =>
    let numVecs := c.X.getNumVectors
    let meansOut : Nat → S :=
      if c.X.getComm.isSome ∧ c.X.isDistributed then
        reduceAll .REDUCE_SUM numVecs sendBufs c.means
      else fun k => if k < c.numMeans then lclSums k else c.means k
    let OneOverN : S := 1 / (c.X.getGlobalLength : S)
    .ok (fun k => if k < c.numMeans then meansOut k * OneOverN else meansOut k)

/-- The buffer that the process hands to the all-reduce of `meanValue`, if it
reaches that all-reduce. -/
def MeanCall.sendBuf {S : Type} [LinearOrderedField S] (c : MeanCall S) : Option (Nat → S) :=
  match c.localPhase with
  | .ok lclSums => if c.X.getComm.isSome ∧ c.X.isDistributed then some lclSums else none
  | _ => none

/-- The collective `meanValue` over the processes of one communicator. -/
def meanValueAll {S : Type} [LinearOrderedField S] (cs : List (MeanCall S)) :
    List (Except Err (Nat → S)) :=
  cs.map (fun c => c.meanValue (cs.filterMap MeanCall.sendBuf))

/-! ## Block invariant and logical values -/

/-- The residency that holds the newest data of the block: the host when the
device needs a sync, the device otherwise. -/
def MultiVector.current {S : Type} (h : Heap S) (X : MultiVector) : MemSpace :=
  if X.need_sync h .device then .host else .device

/-- Logical entry `(i, j)` of the block in its newest residency. -/
def MultiVector.value {S : Type} (h : Heap S) (X : MultiVector) (i j : Nat) : S :=
  X.entry h (X.current h) i j

/-- The block invariant of the data model: the visible window has one row per
local map element, every selected column lies inside the window, an explicit
column list never has exactly one entry and never more entries than the window
has columns, and the leading dimension covers the local rows. -/
def MultiVector.WF (X : MultiVector) : Prop :=
  X.view_.dimension_0 = X.getLocalLength ∧
  (∀ c ∈ X.whichVectors_, c < X.view_.dimension_1) ∧
  X.whichVectors_.length ≠ 1 ∧
  X.whichVectors_.length ≤ X.view_.dimension_1 ∧
  X.getLocalLength ≤ MultiVector.LDA X.origView_

instance (X : MultiVector) : Decidable X.WF := by
  unfold MultiVector.WF; infer_instance

end Tpetra

namespace Tpetra

/-! ## Concrete inputs -/

/-- A 2 x 3 allocation whose entry `(i, j)` is `10 i + j` in both residencies. -/
def demoHeap : Heap Int :=
  { cells := fun _ => ⟨fun i j => 10 * i + j, fun i j => 10 * i + j, 0, 0⟩, next := 1 }

/-- The window over the whole 2 x 3 allocation. -/
def demoView : DualView := ⟨0, 0, 0, 2, 3, 2⟩

/-- A map with two local rows. -/
def demoMap : Map := ⟨2, 2, false, some 0⟩

/-- The column view that selects physical columns 0 and 2. -/
def demoColumnView : MultiVector := ⟨some demoMap, demoView, demoView, [0, 2]⟩

/-- What `subView (Range1D (1, 1))` returns for `demoColumnView`: a window on physical column 1. -/
def demoSubView : MultiVector := ⟨some demoMap, ⟨0, 0, 1, 2, 1, 2⟩, demoView, []⟩

/-- A 1 x 1 allocation holding 1 in both residencies, markers in sync. -/
def syncedHeap : Heap Int :=
  { cells := fun _ => ⟨fun _ _ => 1, fun _ _ => 1, 0, 0⟩, next := 1 }

/-- The constant-stride block over the 1 x 1 allocation. -/
def syncedBlock : MultiVector :=
  ⟨some ⟨1, 1, false, some 0⟩, ⟨0, 0, 0, 1, 1, 1⟩, ⟨0, 0, 0, 1, 1, 1⟩, []⟩

/-- A block to be overwritten by assignment. -/
def emptyBlock : MultiVector := ⟨none, ⟨5, 0, 0, 0, 0, 0⟩, ⟨5, 0, 0, 0, 0, 0⟩, []⟩

end Tpetra

namespace Tpetra

/-! ## Quantities the claims on collectives speak about -/

/-- The residency in which `dot` runs on a process: the one where `A` is newest. -/
def DotCall.space {S : Type} (c : DotCall S) : MemSpace := c.A.current c.heap

/-- The memory of a process once `dot` has synced `*this` to that residency. -/
def DotCall.heapAfter {S : Type} (c : DotCall S) : Heap S := c.X.sync c.heap c.space

/-- The sum over the local rows of the products of logical column `k` of `*this`
and of `A`, each resolved through its own column selection. -/
def DotCall.localDot {S : Type} [LinearOrderedField S] (c : DotCall S) (k : Nat) : S :=
  ∑ i in Finset.range c.X.getLocalLength,
    c.X.entry c.heapAfter c.space i k * c.A.entry c.heapAfter c.space i k

/-- The sum over the local rows of logical column `k`. -/
def MultiVector.localSum {S : Type} [LinearOrderedField S] (h : Heap S) (X : MultiVector)
    (k : Nat) : S :=
  ∑ i in Finset.range X.getLocalLength, X.value h i k

/-- The sum over the local rows of the magnitudes of logical column `k`. -/
def MultiVector.localAbsSum {S : Type} [LinearOrderedField S] (h : Heap S) (X : MultiVector)
    (k : Nat) : S :=
  ∑ i in Finset.range X.getLocalLength, |X.value h i k|

/-- The sum over the local rows of the squared magnitudes of logical column `k`. -/
def MultiVector.localSumSq {S : Type} [LinearOrderedField S] (h : Heap S) (X : MultiVector)
    (k : Nat) : S :=
  ∑ i in Finset.range X.getLocalLength, |X.value h i k| * |X.value h i k|

/-- Whether a process enters the all-reduce: distributed map, non-null communicator. -/
def MultiVector.participates (X : MultiVector) : Bool :=
  X.isDistributed && X.getComm.isSome

end Tpetra

namespace Tpetra

/-! ## Concrete inputs for the collectives -/

/-- Memory of process `r` in the four-process scenario: every entry is `r + 1`. -/
def rankHeap (r : Nat) : Heap ℚ :=
  { cells := fun _ => ⟨fun _ _ => (r : ℚ) + 1, fun _ _ => (r : ℚ) + 1, 0, 0⟩, next := 1 }

/-- A single-column block over a locally replicated (not distributed) map with
two rows on every process. -/
def replicatedBlock : MultiVector :=
  ⟨some ⟨2, 2, false, some 0⟩, ⟨0, 0, 0, 2, 1, 2⟩, ⟨0, 0, 0, 2, 1, 2⟩, []⟩

/-- Four processes calling `meanValue` on the replicated block. -/
def replicatedCalls : List (MeanCall ℚ) :=
  (List.range 4).map (fun r => ⟨rankHeap r, replicatedBlock, 1, fun _ => 0⟩)

/-- A single-column block over a distributed map: one local row, four global rows. -/
def distributedBlock : MultiVector :=
  ⟨some ⟨1, 4, true, some 0⟩, ⟨0, 0, 0, 1, 1, 1⟩, ⟨0, 0, 0, 1, 1, 1⟩, []⟩

/-- Four processes calling `meanValue` on the distributed block. -/
def distributedCalls : List (MeanCall ℚ) :=
  (List.range 4).map (fun r => ⟨rankHeap r, distributedBlock, 1, fun _ => 0⟩)

end Tpetra

namespace Tpetra

/-- A 2 x 3 allocation over the rationals whose entry `(i, j)` is `10 i + j`. -/
def demoHeapQ : Heap ℚ :=
  { cells := fun _ => ⟨fun i j => 10 * i + j, fun i j => 10 * i + j, 0, 0⟩, next := 1 }

/-- On a distributed map with two local rows: the column view of physical
columns 0 and 2. -/
def distColumnView : MultiVector :=
  ⟨some ⟨2, 3, true, some 0⟩, ⟨0, 0, 0, 2, 3, 2⟩, ⟨0, 0, 0, 2, 3, 2⟩, [0, 2]⟩

/-- On the same map: the constant-stride block of physical columns 0 and 1. -/
def distTwoColumns : MultiVector :=
  ⟨some ⟨2, 3, true, some 0⟩, ⟨0, 0, 0, 2, 2, 2⟩, ⟨0, 0, 0, 2, 3, 2⟩, []⟩

/-- On the process that owns the third row: a constant-stride block of one row
and two columns. -/
def distOneRow : MultiVector :=
  ⟨some ⟨1, 3, true, some 0⟩, ⟨0, 0, 0, 1, 2, 1⟩, ⟨0, 0, 0, 1, 2, 1⟩, []⟩

/-- Two processes calling `dot`: a column view against a constant-stride block on
the first, a block against itself on the second. -/
def demoDotCalls : List (DotCall ℚ) :=
  [⟨demoHeapQ, distColumnView, distTwoColumns, 2, fun _ => 0⟩,
   ⟨demoHeapQ, distOneRow, distOneRow, 2, fun _ => 0⟩]

/-- Two processes calling a norm: a column view on the first, a constant-stride
block on the second. -/
def demoNormCalls : List (NormCall ℚ) :=
  [⟨demoHeapQ, distColumnView, 2, fun _ => 0⟩, ⟨demoHeapQ, distOneRow, 2, fun _ => 0⟩]

end Tpetra

namespace Tpetra

/-- The largest magnitude over the local rows of logical column `k`, zero when
the process has no rows. -/
def MultiVector.localMaxAbs {S : Type} [LinearOrderedField S] (h : Heap S) (X : MultiVector)
    (k : Nat) : S :=
  (List.range X.getLocalLength).foldl (fun m i => max m |X.value h i k|) 0

/-- The local phase of a norm on a process: the buffer it computes before the
global phase. -/
def NormCall.lcl {S : Type} [LinearOrderedField S] (c : NormCall S) (whichNorm : EWhichNorm) :
    Nat → S :=
  lclNormKernels c.heap (c.X.current c.heap) c.norms c.X.view_ c.X.getLocalLength
    c.X.getNumVectors c.X.whichVectors_ c.X.isConstantStride (lclNormType whichNorm)

end Tpetra

namespace Tpetra

/-- The call `X.dot (X, dots)` with one output slot, on a process given by its
memory and its block. -/
def selfDotCall {S : Type} [Zero S] (q : Heap S × MultiVector) : DotCall S :=
  ⟨q.1, q.2, q.2, 1, fun _ => 0⟩

/-- The call `X.norm2 (norms)` with one output slot, on a process given by its
memory and its block. -/
def norm2Call {S : Type} [Zero S] (q : Heap S × MultiVector) : NormCall S :=
  ⟨q.1, q.2, 1, fun _ => 0⟩

/-- Memory whose allocations hold `10 i + j` at `(i, j)`, over any scalar field. -/
def demoHeapOver (S : Type) [LinearOrderedField S] : Heap S :=
  { cells := fun _ =>
      ⟨fun i j => 10 * (i : S) + (j : S), fun i j => 10 * (i : S) + (j : S), 0, 0⟩,
    next := 1 }

/-- Two processes: a single-column constant-stride window on physical column 1
with two rows, and one with one row, over a distributed map. -/
def demoSingleColumn (S : Type) [LinearOrderedField S] : List (Heap S × MultiVector) :=
  [(demoHeapOver S,
      ⟨some ⟨2, 3, true, some 0⟩, ⟨0, 0, 1, 2, 1, 2⟩, ⟨0, 0, 0, 2, 3, 2⟩, []⟩),
   (demoHeapOver S,
      ⟨some ⟨1, 3, true, some 0⟩, ⟨0, 0, 1, 1, 1, 2⟩, ⟨0, 0, 0, 2, 3, 2⟩, []⟩)]

end Tpetra

namespace Tpetra

/-- The combined sum of squares of column 0 as process `q` obtains it: the sum
of the local sums of squares of the processes that enter the all-reduce when `q`
is one of them, and the local sum of squares of `q` otherwise. -/
def combinedSumSq {S : Type} [LinearOrderedField S] (qs : List (Heap S × MultiVector))
    (q : Heap S × MultiVector) : S :=
  if q.2.participates = true then
    ((qs.filter (fun q => q.2.participates)).map (fun q => q.2.localSumSq q.1 0)).sum
  else q.2.localSumSq q.1 0

end Tpetra

namespace Tpetra

/-! ## Offset views -/

/-- The sum of two `size_t` values (64-bit, wrapping). -/
def size_t_add (a b : Nat) : Nat := (a + b) % 2 ^ 64

/-- Number of local rows that a map gives a block: `getLocalLength` of a block
with that map. -/
def localLengthOf (map : Option Map) : Nat :=
  match map with
  | none => 0
  | some m => m.nodeNumElements

namespace MultiVector

/-- Source: `getOrigNumLocalRows`. -/
def getOrigNumLocalRows (X : MultiVector) : Nat := X.origView_.dimension_0

/-- Source: `getOrigNumLocalCols`. -/
def getOrigNumLocalCols (X : MultiVector) : Nat := X.origView_.dimension_1

/-- Source: `MultiVector (const MultiVector& X, const map_type& subMap, const
size_t offset)`, the offset-view constructor (the rank fetched for the message of
the exception is left out). -/
def offsetViewCtor {S : Type} [Zero S] (h : Heap S) (X : MultiVector) (subMap : Map)
    (offset : Nat) : Except Err (Heap S × MultiVector) :=
  let newNumRows := subMap.nodeNumElements
  let tooManyElts := size_t_add newNumRows offset > X.getOrigNumLocalRows
  if tooManyElts ∧ size_t_add newNumRows offset > X.getLocalLength then .error .runtime_error
  else
    let rowRng := (offset, size_t_add offset newNumRows)
    let newView := subviewAllCols X.origView_ rowRng
    let r :=
      if newView.dimension_0 = 0 ∧ newView.dimension_1 ≠ X.view_.dimension_1 then
        allocDualView h 0 X.getNumVectors true
      else (h, newView)
    if X.isConstantStride then
      (fromViewOrig (some subMap) r.2 X.origView_).map (fun V => (r.1, V))
    else
      fromViewOrigWhich r.1 (some subMap) r.2 X.origView_ X.whichVectors_

end MultiVector

/-- The constant-stride block over the whole 2 x 3 allocation of `demoHeap`. -/
def demoFull : MultiVector := ⟨some demoMap, demoView, demoView, []⟩

/-- Its column-range sub-view of physical columns 1 and 2. -/
def demoColumnRange : MultiVector := ⟨some demoMap, ⟨0, 0, 1, 2, 2, 2⟩, demoView, []⟩

/-- A map with one local row. -/
def oneRowMap : Map := ⟨1, 1, false, some 0⟩

/-- What the offset view of `demoColumnRange` at row offset 1 returns. -/
def demoOffsetView : MultiVector := ⟨some oneRowMap, ⟨0, 1, 0, 1, 3, 2⟩, demoView, []⟩

end Tpetra

namespace Tpetra

/-! ## Inputs for processes without local rows -/

/-- A constant-stride block of two columns on a process that owns no row of a
distributed map with three global rows. -/
def distNoRows : MultiVector :=
  ⟨some ⟨0, 3, true, some 0⟩, ⟨0, 0, 0, 0, 2, 0⟩, ⟨0, 0, 0, 0, 2, 0⟩, []⟩

/-- The call `dot` on the process without rows; the output slots hold 7 before. -/
def noRowsDotCall : DotCall ℚ := ⟨demoHeapQ, distNoRows, distNoRows, 2, fun _ => 7⟩

/-- The call of a norm on the process without rows; the output slots hold 7 before. -/
def noRowsNormCall : NormCall ℚ := ⟨demoHeapQ, distNoRows, 2, fun _ => 7⟩

end Tpetra

namespace Tpetra

/-! ## Inputs for calls on a map that is not distributed -/

/-- The call `dot` of the replicated block with itself on process 1. -/
def replicatedDotCall : DotCall ℚ := ⟨rankHeap 1, replicatedBlock, replicatedBlock, 1, fun _ => 0⟩

/-- The call of a norm on the replicated block on process 1. -/
def replicatedNormCall : NormCall ℚ := ⟨rankHeap 1, replicatedBlock, 1, fun _ => 0⟩

/-- The call `meanValue` on the replicated block on process 1. -/
def replicatedMeanCall : MeanCall ℚ := ⟨rankHeap 1, replicatedBlock, 1, fun _ => 0⟩

end Tpetra

namespace Tpetra

/-- The call `dot` of the replicated single-column block with itself, with an
output view of two slots. -/
def widerDotCall : DotCall ℚ := ⟨rankHeap 1, replicatedBlock, replicatedBlock, 2, fun _ => 0⟩

end Tpetra

namespace Tpetra

/-! ## Matrix-matrix multiply and `reduce` -/

/-- Modelled from the spec: `Teuchos::ETransp`. -/
inductive ETransp where
  | NO_TRANS
  | TRANS
  | CONJ_TRANS
  deriving DecidableEq, Repr

/-- Modelled from the spec: `Kokkos::DeviceGEMM::GEMM` for real scalars, on the
device entries of the three windows: `C := alpha op(A) op(B) + beta C`, where
the inner dimension is the column count of `op(A)`. -/
def GEMM {S : Type} [LinearOrderedField S] (h : Heap S) (transA transB : ETransp) (alpha : S)
    (A B : DualView) (beta : S) (C : DualView) : Heap S :=
  let k := if transA = .NO_TRANS then A.dimension_1 else A.dimension_0
  h.write .device C (fun i j =>
    alpha * (∑ l in Finset.range k,
      (if transA = .NO_TRANS then A.get h .device i l else A.get h .device l i) *
      (if transB = .NO_TRANS then B.get h .device l j else B.get h .device j l))
    + beta * C.get h .device i j)

/-- The constant `std::numeric_limits<int>::max ()`. -/
def INT_MAX : Nat := 2 ^ 31 - 1

/-- The conversion `static_cast<int>` of a `size_t` value (two's complement). -/
def int_cast (x : Nat) : Int := ((x : Int) + 2 ^ 31) % 2 ^ 32 - 2 ^ 31

/-- The product of two `size_t` values (64-bit, wrapping). -/
def size_t_mul (a b : Nat) : Nat := (a * b) % 2 ^ 64

namespace MultiVector

/-- Source: `reduce`, the local view that it reads and writes back
(`srcView_dev` or `srcView_host`): the view of the block, narrowed to the local
rows when the row counts differ. -/
def reduceSrcView (X : MultiVector) : DualView :=
  if X.getLocalLength ≠ X.view_.dimension_0 then subviewAllCols X.view_ (0, X.getLocalLength)
  else X.view_

/-- Source: `reduce`, the flag `contig`. -/
def reduceContig (X : MultiVector) : Bool :=
  X.isConstantStride && decide (X.getStride = X.getLocalLength)

/-- Source: `reduce`, the send buffer as the all-reduce reads it through its
pointer, slot by slot in column-major order with `lclNumRows` slots per column.
When the data are contiguous this is the local view itself; otherwise it is a
fresh zero-filled `lclNumRows x numCols` buffer into which
`Kokkos::deep_copy (srcBuf, srcView)` has copied the block that the two extents
have in common (modelled from the spec). -/
def reduceSrcBuf {S : Type} [Zero S] (h : Heap S) (sp : MemSpace) (X : MultiVector) : Nat → S :=
  let lclNumRows := X.getLocalLength
  let numCols := X.getNumVectors
  let srcView := X.reduceSrcView
  if X.reduceContig then
    fun k => srcView.get h sp (k % lclNumRows) (k / lclNumRows)
  else
    fun k =>
      if k % lclNumRows < srcView.dimension_0 ∧ k / lclNumRows < srcView.dimension_1 ∧
          k / lclNumRows < numCols then
        srcView.get h sp (k % lclNumRows) (k / lclNumRows)
      else 0

/-- Source: `reduce` up to the all-reduce.  `commSize` is what `getSize ()` of
the communicator of the block returns.  `none` is the early return on one
process; otherwise the residency in use and the send buffer. -/
def reducePack {S : Type} [Zero S] (h : Heap S) (X : MultiVector) (commSize : Nat) :
    Except Err (Option (MemSpace × (Nat → S))) :=
  if X.isDistributed then .error .runtime_error
  else if commSize = 1 then .ok none
  else
    let lclNumRows := X.getLocalLength
    if lclNumRows > INT_MAX then .error .runtime_error
    else
      let useHostVersion := X.need_sync h .device
      if useHostVersion then .ok (some (.host, X.reduceSrcBuf h .host))
      else .ok (some (.device, X.reduceSrcBuf h .device))

/-- Source: `reduce`, the write-back of the target buffer `tgtBuf` (a
column-major `lclNumRows x numCols` buffer) into the block. -/
def reduceWriteBack {S : Type} (h : Heap S) (sp : MemSpace) (X : MultiVector)
    (tgtBuf : Nat → S) : Heap S :=
  let lclNumRows := X.getLocalLength
  let numCols := X.getNumVectors
  let srcView := X.reduceSrcView
  let h1 := X.modify h sp
  if X.reduceContig ∨ X.isConstantStride then
    h1.write sp srcView (fun i j => tgtBuf (i + j * lclNumRows))
  else
    (List.range numCols).foldl
      (fun hh j => hh.write sp (column srcView j) (fun i _ => tgtBuf (i + j * lclNumRows))) h1

/-- Source: `reduce`.  `sendBufs` are the buffers handed to the all-reduce by
the processes of the communicator.  The target buffer is a fresh zero-filled
`lclNumRows x numCols` buffer; the two size invariants that the source tests
before the all-reduce hold by construction of the buffers. -/
def reduce {S : Type} [LinearOrderedField S] (h : Heap S) (X : MultiVector) (commSize : Nat)
    (sendBufs : List (Nat → S)) : Except Err (Heap S) :=
  match reducePack h X commSize with
  | .error e => .error e
  | .ok none => .ok h
  | .ok (some r) =>
    let totalAllocSize := size_t_mul X.getLocalLength X.getNumVectors
    let reduceCount := int_cast totalAllocSize
    let tgtBuf := reduceAll .REDUCE_SUM reduceCount.toNat sendBufs (fun _ => 0)
    .ok (X.reduceWriteBack h r.1 tgtBuf)

end MultiVector

end Tpetra

namespace Tpetra

/-- One process's call `C.multiply (transA, transB, alpha, A, B, beta)`, where
`C` is `*this`; `myRank` and `commSize` are what `getRank ()` and `getSize ()`
of the communicator of `C` return on the process. -/
structure MultiplyCall (S : Type) where
  heap : Heap S
  C : MultiVector
  A : MultiVector
  B : MultiVector
  transA : ETransp
  transB : ETransp
  alpha : S
  beta : S
  myRank : Nat
  commSize : Nat

namespace MultiplyCall

/-- Source: `A_is_local`. -/
def A_is_local {S : Type} (c : MultiplyCall S) : Bool := !c.A.isDistributed

/-- Source: `B_is_local`. -/
def B_is_local {S : Type} (c : MultiplyCall S) : Bool := !c.B.isDistributed

/-- Source: `C_is_local`. -/
def C_is_local {S : Type} (c : MultiplyCall S) : Bool := !c.C.isDistributed

/-- Source: `Case1`, `C(local) = A^X(local) * B^X(local)`. -/
def Case1 {S : Type} (c : MultiplyCall S) : Bool :=
  c.C_is_local && c.A_is_local && c.B_is_local

/-- Source: `Case2`, `C(local) = A^T(distr) * B(distr)`. -/
def Case2 {S : Type} (c : MultiplyCall S) : Bool :=
  c.C_is_local && !c.A_is_local && !c.B_is_local &&
    decide (c.transA ≠ .NO_TRANS) && decide (c.transB = .NO_TRANS)

/-- Source: `Case3`, `C(distr) = A(distr) * B^X(local)`. -/
def Case3 {S : Type} (c : MultiplyCall S) : Bool :=
  !c.C_is_local && !c.A_is_local && c.B_is_local && decide (c.transA = .NO_TRANS)

/-- Source: `beta_local`: in Case 2 with a nonzero `beta`, every process but
process 0 uses zero. -/
def beta_local {S : Type} [LinearOrderedField S] (c : MultiplyCall S) : S :=
  if c.beta ≠ 0 ∧ c.Case2 = true then
    if c.myRank ≠ 0 then 0 else c.beta
  else c.beta

end MultiplyCall

/-- Source: the temporaries `C_tmp`, `A_tmp`, `B_tmp` of `multiply`: a deep copy
of a block without constant stride, the block itself otherwise. -/
def constantStrideTmp {S : Type} [Zero S] (h : Heap S) (X : MultiVector) :
    Except Err (Heap S × MultiVector) :=
  if ¬ X.isConstantStride then MultiVector.fromSource h X .Copy else .ok (h, X)

/-- Source: `multiply`, the local product on the three temporaries and the copy
of the result back into `*this`. -/
def multiplyOnTmp {S : Type} [LinearOrderedField S] (c : MultiplyCall S) (h : Heap S)
    (C_tmp A_tmp B_tmp : MultiVector) : Except Err (Heap S) :=
  if ¬ C_tmp.isConstantStride ∨ ¬ B_tmp.isConstantStride ∨ ¬ A_tmp.isConstantStride then
    .error .logic_error
  else
    let A_sub := subview A_tmp.view_ (0, A_tmp.getLocalLength) (0, A_tmp.getNumVectors)
    let B_sub := subview B_tmp.view_ (0, B_tmp.getLocalLength) (0, B_tmp.getNumVectors)
    let C_sub := subview C_tmp.view_ (0, C_tmp.getLocalLength) (0, C_tmp.getNumVectors)
    let h1 := GEMM h c.transA c.transB c.alpha A_sub B_sub c.beta_local C_sub
    if ¬ c.C.isConstantStride then c.C.assign h1 C_tmp else .ok h1

/-- Source: `multiply` from the tests of the cases up to the final `reduce`.
The block under `HAVE_TPETRA_DEBUG` that precedes these tests is
`MultiplyCall.debugCheck`. -/
def MultiplyCall.localPhase {S : Type} [LinearOrderedField S] (c : MultiplyCall S) :
    Except Err (Heap S) :=
  if c.Case1 = false ∧ c.Case2 = false ∧ c.Case3 = false then .error .runtime_error
  else
    match constantStrideTmp c.heap c.C with
    | .error e => .error e
    | .ok rC =>
      match constantStrideTmp rC.1 c.A with
      | .error e => .error e
      | .ok rA =>
        match constantStrideTmp rA.1 c.B with
        | .error e => .error e
        | .ok rB => multiplyOnTmp c rB.1 rC.2 rA.2 rB.2

/-- Source: `multiply` as compiled without `HAVE_TPETRA_DEBUG`: the local phase,
then `reduce` in Case 2.  `sendBufs` are the buffers handed to the all-reduce of
`reduce` by the processes of the communicator.  `MultiplyCall.multiplyTraced` is
the call in either build, with the all-reduces it issues. -/
def MultiplyCall.multiply {S : Type} [LinearOrderedField S] (c : MultiplyCall S)
    (sendBufs : List (Nat → S)) : Except Err (Heap S) :=
  match c.localPhase with
  | .error e => .error e
  | .ok h1 => if c.Case2 then c.C.reduce h1 c.commSize sendBufs else .ok h1

/-- The buffer that the process hands to the all-reduce of `reduce`, if it
reaches that all-reduce, in the build without `HAVE_TPETRA_DEBUG`. -/
def MultiplyCall.sendBuf {S : Type} [LinearOrderedField S] (c : MultiplyCall S) :
    Option (Nat → S) :=
  match c.localPhase with
  | .ok h1 =>
    if c.Case2 then
      match c.C.reducePack h1 c.commSize with
      | .ok (some r) => some r.2
      | _ => none
    else none
  | _ => none

/-- The collective `multiply` over the processes of one communicator, in rank
order, in the build without `HAVE_TPETRA_DEBUG`; `multiplyAllTraced` is the
collective in either build. -/
def multiplyAll {S : Type} [LinearOrderedField S] (cs : List (MultiplyCall S)) :
    List (Except Err (Heap S)) :=
  cs.map (fun c => c.multiply (cs.filterMap MultiplyCall.sendBuf))

end Tpetra

namespace Tpetra

/-! ## Inputs for `multiply` -/

/-- Memory of process `r` with two 2 x 3 allocations: every entry of the first
is `r + 1`, every entry of the second is 1. -/
def productHeap (r : Nat) : Heap ℚ :=
  { cells := fun b =>
      if b = 0 then ⟨fun _ _ => (r : ℚ) + 1, fun _ _ => (r : ℚ) + 1, 0, 0⟩
      else ⟨fun _ _ => 1, fun _ _ => 1, 0, 0⟩,
    next := 2 }

/-- A distributed block of one local row and one column in the first allocation. -/
def factorA : MultiVector :=
  ⟨some ⟨1, 2, true, some 0⟩, ⟨0, 0, 0, 1, 1, 1⟩, ⟨0, 0, 0, 1, 1, 1⟩, []⟩

/-- A distributed block of one local row and two columns in the first allocation. -/
def factorB : MultiVector :=
  ⟨some ⟨1, 2, true, some 0⟩, ⟨0, 0, 0, 1, 2, 1⟩, ⟨0, 0, 0, 1, 2, 1⟩, []⟩

/-- A replicated constant-stride block of one row and two columns in the second
allocation. -/
def productC : MultiVector :=
  ⟨some ⟨1, 1, false, some 0⟩, ⟨1, 0, 0, 1, 2, 1⟩, ⟨1, 0, 0, 1, 2, 1⟩, []⟩

/-- The call `C.multiply (TRANS, NO_TRANS, 1, A, B, 1)` on process `r` of two. -/
def productCall (r : Nat) : MultiplyCall ℚ :=
  ⟨productHeap r, productC, factorA, factorB, .TRANS, .NO_TRANS, 1, 1, r, 2⟩

/-- The two processes of the product. -/
def productCalls : List (MultiplyCall ℚ) := [productCall 0, productCall 1]

/-- A call of `multiply` that fits none of the supported cases: `C` is
distributed while `A` and `B` are not. -/
def unsupportedCall : MultiplyCall ℚ :=
  ⟨productHeap 0, factorB, productC, productC, .NO_TRANS, .NO_TRANS, 1, 1, 0, 2⟩

end Tpetra

namespace Tpetra

/-- Memory of process `r` with two allocations: every entry of the first is
`r + 1`, every entry of the second is 7. -/
def stridedHeap (r : Nat) : Heap ℚ :=
  { cells := fun b =>
      if b = 0 then ⟨fun _ _ => (r : ℚ) + 1, fun _ _ => (r : ℚ) + 1, 0, 0⟩
      else ⟨fun _ _ => 7, fun _ _ => 7, 0, 0⟩,
    next := 2 }

/-- A replicated column view of one row that selects physical columns 0 and 2 of
a 1 x 3 buffer in the second allocation. -/
def stridedC : MultiVector :=
  ⟨some ⟨1, 1, false, some 0⟩, ⟨1, 0, 0, 1, 3, 1⟩, ⟨1, 0, 0, 1, 3, 1⟩, [0, 2]⟩

/-- The call `C.multiply (TRANS, NO_TRANS, 1, A, B, 0)` on process `r` of two,
with the column view `stridedC` as `C`. -/
def stridedCall (r : Nat) : MultiplyCall ℚ :=
  ⟨stridedHeap r, stridedC, factorA, factorB, .TRANS, .NO_TRANS, 1, 0, r, 2⟩

/-- The two processes of the product into the column view. -/
def stridedCalls : List (MultiplyCall ℚ) := [stridedCall 0, stridedCall 1]

end Tpetra

namespace Tpetra

/-- The call of `stridedCall r` with the constant-stride deep copy
`MultiVector (C, Copy)` of the column view in the place of the column view. -/
def copiedCall (r : Nat) : Except Err (MultiplyCall ℚ) :=
  (MultiVector.fromSource (stridedHeap r) stridedC .Copy).map
    (fun q => ⟨q.1, q.2, factorA, factorB, .TRANS, .NO_TRANS, 1, 0, r, 2⟩)

end Tpetra

namespace Tpetra

/-- The local product of `multiply` on a process, entry `(i, j)`: `alpha` times
the sum over the local rows `l` of `A(l, i) B(l, j)`, plus the local `beta`
times `C(i, j)`, all read on the device before the call. -/
def MultiplyCall.localProduct {S : Type} [LinearOrderedField S] (c : MultiplyCall S)
    (i j : Nat) : S :=
  c.alpha * (∑ l in Finset.range c.A.getLocalLength,
      c.A.entry c.heap .device l i * c.B.entry c.heap .device l j)
    + c.beta_local * c.C.entry c.heap .device i j

end Tpetra

namespace Tpetra

/-- The setting in which Case 2 of `multiply` is shown to give the summed
product, for the call on one process: the call is in Case 2; `C` is constant stride; the three blocks live in existing
allocations and their device data are current; `C` is `m x n`, `A` has `m`
columns, `B` has `n` columns, and `A` and `B` have the same local length. -/
def MultiplyCall.Case2Ready {S : Type} (c : MultiplyCall S) (m n : Nat) : Prop :=
  c.Case2 = true ∧ c.C.isConstantStride = true ∧
  (c.C.view_.buf < c.heap.next ∧ c.A.view_.buf < c.heap.next ∧ c.B.view_.buf < c.heap.next) ∧
  (c.C.need_sync c.heap .device = false ∧ c.A.need_sync c.heap .device = false ∧
    c.B.need_sync c.heap .device = false) ∧
  (c.C.getLocalLength = m ∧ c.C.getNumVectors = n ∧ c.A.getNumVectors = m ∧
    c.B.getNumVectors = n ∧ c.A.getLocalLength = c.B.getLocalLength)

instance {S : Type} (c : MultiplyCall S) (m n : Nat) : Decidable (c.Case2Ready m n) := by
  unfold MultiplyCall.Case2Ready; infer_instance

end Tpetra

namespace Tpetra

/-! ## `replaceMap` and `subView` on a list of columns -/

/-- The conversion of a `size_t` value to `Teuchos::Ordinal` (64-bit, signed). -/
def ordinal_cast (x : Nat) : Int := ((x : Int) + 2 ^ 63) % 2 ^ 64 - 2 ^ 63

/-- Source: the loop of `subView (cols)` that tests whether the index list is
contiguous: every entry is its predecessor plus one (a `size_t` sum). -/
def contiguousCols (cols : List Nat) : Bool :=
  (List.range (cols.length - 1)).all
    (fun j => cols.getD (j + 1) 0 == size_t_add (cols.getD j 0) 1)

namespace MultiVector

/-- Source: `replaceMap`.  The members `origView_` and `whichVectors_` are not
assigned. -/
def replaceMap {S : Type} [Zero S] (h : Heap S) (X : MultiVector) (newMap : Option Map) :
    Except Err (Heap S × MultiVector) :=
  if ¬ X.isConstantStride then .error .logic_error
  else
    match X.map_ with
    | none =>
      match newMap with
      | none => .error .invalid_argument
      | some m =>
        let newNumRows := m.nodeNumElements
        let origNumRows := X.view_.dimension_0
        let numCols := X.getNumVectors
        if origNumRows ≠ newNumRows ∨ X.view_.dimension_1 ≠ numCols then
          let r := allocDualView h newNumRows numCols true
          .ok (r.1, { X with view_ := r.2, map_ := newMap })
        else .ok (h, { X with map_ := newMap })
    | some _ =>
      match newMap with
      | none =>
        let r := allocDualView h 0 X.getNumVectors true
        .ok (r.1, { X with view_ := r.2, map_ := newMap })
      | some _ => .ok (h, { X with map_ := newMap })

/-- Source: `subView (const Teuchos::ArrayView<const size_t>&)`.  An index
`cols[j]` beyond `whichVectors_` (undefined in the source) reads as 0. -/
def subViewCols {S : Type} [Zero S] (h : Heap S) (X : MultiVector) (cols : List Nat) :
    Except Err (Heap S × MultiVector) :=
  let numViewCols := cols.length
  if numViewCols < 1 then .error .runtime_error
  else if contiguousCols cols then
    if numViewCols = 0 then .ok (fromMap h X.map_ numViewCols true)
    else
      X.subView h ⟨ordinal_cast (cols.getD 0 0), ordinal_cast (cols.getD (numViewCols - 1) 0)⟩
  else if X.isConstantStride then
    fromViewOrigWhich h X.map_ X.view_ X.origView_ cols
  else
    fromViewOrigWhich h X.map_ X.view_ X.origView_
      (cols.map (fun c => X.whichVectors_.getD c 0))

end MultiVector

/-- The column view that selects physical columns 2 and 0, in this order, of the
2 x 3 buffer. -/
def demoReversedView : MultiVector := ⟨some demoMap, demoView, demoView, [2, 0]⟩

/-- A window of two rows and no columns on the buffer of `demoHeap`. -/
def emptyColumnsView : DualView := ⟨0, 0, 0, 2, 0, 2⟩

/-- The single-column block that `MultiVector (null map, 1)` creates in
`demoHeap`, with the memory after its allocation. -/
def nullMapBlock : Heap Int × MultiVector := MultiVector.fromMap demoHeap none 1 true

end Tpetra

namespace Tpetra

/-- What `subView` of the single column 1 returns for `demoReversedView`: a
window on column 3 of a buffer that has the columns 0, 1 and 2. -/
def demoBeyondBuffer : MultiVector := ⟨some demoMap, ⟨0, 0, 3, 2, 1, 2⟩, demoView, []⟩

end Tpetra
namespace Tpetra

/-! ## Elementwise `abs` and `reciprocal` -/

/-- Modelled from the spec: elementwise absolute value, `KokkosBlas::abs (R, X)`:
`R(i,j) = |X(i,j)|`. -/
def KokkosBlas.abs {S : Type} [LinearOrderedField S] (h : Heap S) (sp : MemSpace)
    (R X : DualView) : Heap S :=
  h.write sp R (fun i j => |X.get h sp i j|)

/-- Modelled from the spec: elementwise reciprocal, `KokkosBlas::reciprocal (R, X)`:
`R(i,j) = 1 / X(i,j)`. -/
def KokkosBlas.reciprocal {S : Type} [LinearOrderedField S] (h : Heap S) (sp : MemSpace)
    (R X : DualView) : Heap S :=
  h.write sp R (fun i j => 1 / X.get h sp i j)

namespace MultiVector

/-- Source: `abs`.  In the column loop the source computes the column of `A` as
`isConstantStride () ? k : A.whichVectors_[k]`, with the test made on `*this`;
an index beyond `A.whichVectors_` (undefined in the source) reads as 0. -/
def abs {S : Type} [LinearOrderedField S] (h : Heap S) (X A : MultiVector) :
    Except Err (Heap S) :=
  if X.getLocalLength ≠ A.getLocalLength then .error .runtime_error
  else if A.getNumVectors ≠ X.getNumVectors then .error .runtime_error
  else
    let numVecs := X.getNumVectors
    let h1 := X.sync h .device
    let h2 := X.modify h1 .device
    let h3 := A.sync h2 .device
    let this_view_dev := X.view_
    let A_view_dev := A.view_
    if X.isConstantStride ∧ A.isConstantStride then
      .ok (KokkosBlas.abs h3 .device this_view_dev A_view_dev)
    else
      .ok ((List.range numVecs).foldl
        (fun hh k =>
          let this_col := if X.isConstantStride then k else X.whichVectors_.getD k 0
          let vector_k := column this_view_dev this_col
          let A_col := if X.isConstantStride then k else A.whichVectors_.getD k 0
          let vector_Ak := column A_view_dev A_col
          KokkosBlas.abs hh .device vector_k vector_Ak) h3)

/-- Source: `reciprocal`.  The column of `A` is computed as in `abs`.  The
kernel of the model cannot fail, so the `catch` clause, which rethrows a
`std::runtime_error` of the kernel, has no counterpart. -/
def reciprocal {S : Type} [LinearOrderedField S] (h : Heap S) (X A : MultiVector) :
    Except Err (Heap S) :=
  if X.getLocalLength ≠ A.getLocalLength then .error .runtime_error
  else if A.getNumVectors ≠ X.getNumVectors then .error .runtime_error
  else
    let numVecs := X.getNumVectors
    let h1 := X.sync h .device
    let h2 := X.modify h1 .device
    let h3 := A.sync h2 .device
    let this_view_dev := X.view_
    let A_view_dev := A.view_
    if X.isConstantStride ∧ A.isConstantStride then
      .ok (KokkosBlas.reciprocal h3 .device this_view_dev A_view_dev)
    else
      .ok ((List.range numVecs).foldl
        (fun hh k =>
          let this_col := if X.isConstantStride then k else X.whichVectors_.getD k 0
          let vector_k := column this_view_dev this_col
          let A_col := if X.isConstantStride then k else A.whichVectors_.getD k 0
          let vector_Ak := column A_view_dev A_col
          KokkosBlas.reciprocal hh .device vector_k vector_Ak) h3)

end MultiVector

/-- Memory with two allocations: entry `(i, j)` of the first is `-(10 i + j + 1)`
in both residencies, the second holds 0 everywhere; all markers are 0. -/
def signedHeap : Heap ℚ :=
  { cells := fun b =>
      if b = 0 then ⟨fun i j => -(10 * i + j + 1), fun i j => -(10 * i + j + 1), 0, 0⟩
      else ⟨fun _ _ => 0, fun _ _ => 0, 0, 0⟩,
    next := 2 }

/-- A constant-stride block of two rows and two columns in the second allocation. -/
def signedTarget : MultiVector :=
  ⟨some demoMap, ⟨1, 0, 0, 2, 2, 2⟩, ⟨1, 0, 0, 2, 2, 2⟩, []⟩

end Tpetra

namespace Tpetra

/-! ## Flat views and copies of the data -/

namespace MultiVector

/-- Source: `get1dView`.  `none` is `Teuchos::null`; otherwise the result is the
host view of the block, with the memory after `sync<Kokkos::HostSpace>`. -/
def get1dView {S : Type} (h : Heap S) (X : MultiVector) : Except Err (Heap S × Option DualView) :=
  if X.getLocalLength = 0 ∨ X.getNumVectors = 0 then .ok (h, none)
  else if ¬ X.isConstantStride then .error .runtime_error
  else
    let h1 := X.sync h .host
    let X_lcl := X.view_
    .ok (h1, some X_lcl)

/-- Source: `get1dViewNonConst`. -/
def get1dViewNonConst {S : Type} (h : Heap S) (X : MultiVector) :
    Except Err (Heap S × Option DualView) :=
  if X.getLocalLength = 0 ∨ X.getNumVectors = 0 then .ok (h, none)
  else if ¬ X.isConstantStride then .error .runtime_error
  else
    let h1 := X.sync h .host
    let X_lcl := X.view_
    .ok (h1, some X_lcl)

end MultiVector

/-- The column view of physical columns 0 and 2 of a `0 x 3` buffer, over a map
without local rows. -/
def noRowsColumnView : MultiVector :=
  ⟨some ⟨0, 0, false, some 0⟩, ⟨0, 0, 0, 0, 3, 0⟩, ⟨0, 0, 0, 0, 3, 0⟩, [0, 2]⟩

/-- Modelled from the spec: `Kokkos::deep_copy (X_out, X_in)` from an unmanaged
host view over the caller's array into a device view.  Entry `(i, j)` of `X_in`
is `data[i + (col + j) * LDA]`, where `col` is the column of the array at which
`X_in` starts; an index outside the array (undefined in the source) reads as 0. -/
def deep_copy_from_array {S : Type} [Zero S] (h : Heap S) (X_out : DualView) (data : List S)
    (LDA col : Nat) : Heap S :=
  h.write .device X_out (fun i j => data.getD (i + (col + j) * LDA) 0)

/-- Modelled from the spec: `Kokkos::deep_copy (dstColView, srcColView)` where
`dstColView` is the unmanaged view over the `numRows` slots of the caller's
array that start at slot `offset`: slot `offset + i` receives entry `i` of the
source column.  Slots outside the array (undefined in the source) are not
written. -/
def deep_copy_to_array {S : Type} (A : List S) (offset numRows : Nat) (src : Nat → S) : List S :=
  A.mapIdx (fun p v => if offset ≤ p ∧ p < offset + numRows then src (p - offset) else v)

namespace MultiVector

/-- Source: `MultiVector (map, data, LDA, numVecs)`. -/
def fromFlatArray {S : Type} [Zero S] (h : Heap S) (map : Option Map) (data : List S)
    (LDA numVecs : Nat) : Except Err (Heap S × MultiVector) :=
  let lclNumRows := match map with
    | none => 0
    | some m => m.nodeNumElements
  if LDA < lclNumRows then .error .invalid_argument
  else if numVecs ≠ 0 ∧
      data.length < size_t_add (size_t_mul LDA (numVecs - 1)) lclNumRows then
    .error .invalid_argument
  else
    let r := allocDualView h lclNumRows numVecs true
    let X : MultiVector := { map_ := map, view_ := r.2, origView_ := r.2, whichVectors_ := [] }
    let h1 := X.modify r.1 .device
    let X_out := X.view_
    let outStride := if X_out.dimension_1 > 1 then X_out.stride1 else X_out.dimension_0
    if LDA = outStride then
      .ok (deep_copy_from_array h1 X_out data LDA 0, X)
    else
      .ok ((List.range numVecs).foldl
        (fun hh j => deep_copy_from_array hh (column X_out j) data LDA j) h1, X)

/-- Source: `get1dCopy`; the result is the content of the caller's array `A`
after the call.  The two `std::logic_error` tests compare `numRows` with the
row count of a subview over `rowRange` and cannot fail. -/
def get1dCopy {S : Type} (h : Heap S) (X : MultiVector) (A : List S) (LDA : Nat) :
    Except Err (List S) :=
  let numRows := X.getLocalLength
  let numCols := X.getNumVectors
  let rowRange := (0, numRows)
  if LDA < numRows then .error .runtime_error
  else if numRows > 0 ∧ numCols > 0 ∧
      A.length < size_t_add (size_t_mul LDA (numCols - 1)) numRows then
    .error .runtime_error
  else
    let useHostVersion := X.need_sync h .device
    .ok ((List.range numCols).foldl
      (fun out j =>
        let srcCol := if X.isConstantStride then j else X.whichVectors_.getD j 0
        let dstCol := j
        if useHostVersion then
          let srcColView_host := subview X.view_ rowRange (srcCol, srcCol + 1)
          deep_copy_to_array out (LDA * dstCol) numRows (fun i => srcColView_host.get h .host i 0)
        else
          let srcColView_dev := subview X.view_ rowRange (srcCol, srcCol + 1)
          deep_copy_to_array out (LDA * dstCol) numRows (fun i => srcColView_dev.get h .device i 0))
      A)

end MultiVector

end Tpetra
namespace Tpetra

/-! ## Inputs for `reduce` on a column view -/

/-- Memory of process `r`: entry `(i, j)` of the allocation is `10 j + r + 1` in
both residencies; the markers are 0. -/
def reduceHeap (r : Nat) : Heap ℚ :=
  { cells := fun _ => ⟨fun _ j => 10 * j + r + 1, fun _ j => 10 * j + r + 1, 0, 0⟩, next := 1 }

/-- A replicated column view of one row that selects physical columns 0 and 2 of
a 1 x 3 buffer. -/
def reduceColumnView : MultiVector :=
  ⟨some ⟨1, 1, false, some 0⟩, ⟨0, 0, 0, 1, 3, 1⟩, ⟨0, 0, 0, 1, 3, 1⟩, [0, 2]⟩

end Tpetra
namespace Tpetra

/-! ## The remaining constructors, and `getVector` -/

/-- Modelled from the spec: a `Kokkos::View` in device memory that the caller
hands to a constructor; it lives outside the allocations of the heap. -/
structure DeviceView (S : Type) where
  entries : Nat → Nat → S
  dimension_0 : Nat
  dimension_1 : Nat
  stride1 : Nat

namespace MultiVector

/-- Source: `MultiVector ()`.  Modelled from the spec: the default-constructed
map has no elements, and the default-constructed `DualView` is a window without
rows and columns, here on the next unused cell. -/
def defaultCtor {S : Type} [Zero S] (h : Heap S) : Heap S × MultiVector :=
  let r := h.alloc 0 0
  (r.1, { map_ := some ⟨0, 0, false, some 0⟩, view_ := r.2, origView_ := r.2,
          whichVectors_ := [] })

/-- Source: the copy constructor `MultiVector (const MultiVector& source)`. -/
def copyCtor (source : MultiVector) : MultiVector :=
  { map_ := source.map_, view_ := source.view_, origView_ := source.origView_,
    whichVectors_ := source.whichVectors_ }

/-- Source: `MultiVector (map, d_view)`.  The pair
`dual_view_type (d_view, Kokkos::create_mirror (d_view))` becomes the next unused
cell: its device entries are those of `d_view`, its host entries, those of the
new mirror, are unspecified; the device is then marked modified. -/
def fromDeviceView {S : Type} (h : Heap S) (map : Option Map) (d_view : DeviceView S) :
    Except Err (Heap S × MultiVector) :=
  let LDA := if d_view.dimension_1 > 1 then d_view.stride1 else d_view.dimension_0
  let lclNumRows := match map with
    | none => 0
    | some m => m.nodeNumElements
  if LDA < lclNumRows then .error .invalid_argument
  else
    let V : DualView :=
      ⟨h.next, 0, 0, d_view.dimension_0, d_view.dimension_1, d_view.stride1⟩
    let h1 : Heap S :=
      { cells := fun b =>
          if b = h.next then ⟨d_view.entries, (h.cells b).h_view, 0, 0⟩ else h.cells b,
        next := h.next + 1 }
    let X : MultiVector := { map_ := map, view_ := V, origView_ := V, whichVectors_ := [] }
    .ok (X.modify h1 .device, X)

/-- Source: `MultiVector (map, ArrayOfPtrs, numVecs)`. -/
def fromArrayOfPtrs {S : Type} [Zero S] (h : Heap S) (map : Option Map)
    (ArrayOfPtrs : List (List S)) (numVecs : Nat) : Except Err (Heap S × MultiVector) :=
  let lclNumRows := match map with
    | none => 0
    | some m => m.nodeNumElements
  if numVecs < 1 ∨ numVecs ≠ ArrayOfPtrs.length then .error .runtime_error
  else if (List.range numVecs).any
      (fun j => decide ((ArrayOfPtrs.getD j []).length < lclNumRows)) then
    .error .invalid_argument
  else
    let r := allocDualView h lclNumRows numVecs true
    let X : MultiVector := { map_ := map, view_ := r.2, origView_ := r.2, whichVectors_ := [] }
    let h1 := X.modify r.1 .device
    let X_out := X.view_
    let rowRng := (0, lclNumRows)
    .ok ((List.range numVecs).foldl
      (fun hh j =>
        deep_copy_from_array hh (subview X_out rowRng (j, j + 1)) (ArrayOfPtrs.getD j [])
          lclNumRows 0) h1, X)

/-- Source: `getVector`.  The constructor `Vector (map, view, origView)` that it
calls is modelled from the spec (`Tpetra::Vector` is declared outside these
sources): it forwards to `MultiVector (map, view, origView)`.  An index beyond
`whichVectors_` (undefined in the source) reads as 0. -/
def getVector {S : Type} [Zero S] (h : Heap S) (X : MultiVector) (j : Nat) :
    Except Err (Heap S × MultiVector) :=
  let jj := if X.isConstantStride then j else X.whichVectors_.getD j 0
  let rng := (jj, jj + 1)
  let r := takeSubview h X.view_ rng
  (fromViewOrig X.map_ r.2 X.origView_).map (fun V => (r.1, V))

end MultiVector

/-- The flat array of the example: five entries. -/
def flatData : List Int := [1, 2, 3, 4, 5]

/-- What `MultiVector (demoMap, flatData, 3, 2)` returns in `demoHeap`: the
memory after the call and the block (two rows, two columns). -/
def flatBlock : Heap Int × MultiVector :=
  match MultiVector.fromFlatArray demoHeap (some demoMap) flatData 3 2 with
  | .ok r => r
  | .error _ => (demoHeap, demoFull)

/-- The column view that lists physical column 0 of the 2 x 3 buffer twice. -/
def demoRepeatedView : MultiVector := ⟨some demoMap, demoView, demoView, [0, 0]⟩

end Tpetra
namespace Tpetra

/-! ## Scalars with a not-a-number value -/

/-- A scalar type with a not-a-number value that every product propagates, as
IEEE floating-point arithmetic does. -/
inductive NanScalar where
  | num (v : Int)
  | nan
  deriving DecidableEq, Repr

instance : Mul NanScalar :=
  ⟨fun a b =>
    match a, b with
    | .num x, .num y => .num (x * y)
    | _, _ => .nan⟩

instance : One NanScalar := ⟨.num 1⟩

/-- A 2 x 3 allocation over `NanScalar`: entry `(0, 0)` is not a number, every
other entry `(i, j)` is `10 i + j`; both residencies agree and the markers are 0. -/
def nanHeap : Heap NanScalar :=
  { cells := fun _ =>
      ⟨fun i j => if i = 0 ∧ j = 0 then .nan else .num (10 * i + j),
       fun i j => if i = 0 ∧ j = 0 then .nan else .num (10 * i + j), 0, 0⟩,
    next := 1 }

end Tpetra
namespace Tpetra

/-! ## Inputs for `scale (alpha, A)` and `update` with an argument modified on the host -/

/-- Memory with two 1 x 1 allocations.  The first holds 1 in both residencies,
markers 0.  The second holds 3 on the device and 5 on the host, and its host
residency is marked modified: the host holds its newest data. -/
def staleHeap : Heap ℚ :=
  { cells := fun b =>
      if b = 0 then ⟨fun _ _ => 1, fun _ _ => 1, 0, 0⟩
      else ⟨fun _ _ => 3, fun _ _ => 5, 0, 1⟩,
    next := 2 }

/-- The constant-stride 1 x 1 block over the first allocation (`*this`). -/
def staleTarget : MultiVector :=
  ⟨some ⟨1, 1, false, some 0⟩, ⟨0, 0, 0, 1, 1, 1⟩, ⟨0, 0, 0, 1, 1, 1⟩, []⟩

/-- The constant-stride 1 x 1 block over the second allocation (the argument `A`). -/
def staleSource : MultiVector :=
  ⟨some ⟨1, 1, false, some 0⟩, ⟨1, 0, 0, 1, 1, 1⟩, ⟨1, 0, 0, 1, 1, 1⟩, []⟩

end Tpetra

namespace Tpetra

/-! ## Inputs at the edge of the size tests -/

end Tpetra

namespace Tpetra

/-! ## Inputs for `multiply` into a block last modified on the host -/

/-- Memory of process `r` with two allocations: every entry of the first is
`r + 1`; the second holds 7 on the host and 3 on the device, and its host copy
is marked modified. -/
def hostNewestHeap (r : Nat) : Heap ℚ :=
  { cells := fun b =>
      if b = 0 then ⟨fun _ _ => (r : ℚ) + 1, fun _ _ => (r : ℚ) + 1, 0, 0⟩
      else ⟨fun _ _ => 3, fun _ _ => 7, 0, 1⟩,
    next := 2 }

/-- The call `C.multiply (TRANS, NO_TRANS, 1, A, B, 1)` on process `r` of two,
with `C` the block `productC` in the second allocation of `hostNewestHeap`. -/
def hostNewestCall (r : Nat) : MultiplyCall ℚ :=
  ⟨hostNewestHeap r, productC, factorA, factorB, .TRANS, .NO_TRANS, 1, 1, r, 2⟩

/-- The two processes of that product. -/
def hostNewestCalls : List (MultiplyCall ℚ) := [hostNewestCall 0, hostNewestCall 1]

/-- The same call after `C.sync<device> ()`. -/
def deviceSyncedCall (r : Nat) : MultiplyCall ℚ :=
  ⟨productC.sync (hostNewestHeap r) .device, productC, factorA, factorB, .TRANS, .NO_TRANS,
    1, 1, r, 2⟩

/-- The two processes of the product after the sync. -/
def deviceSyncedCalls : List (MultiplyCall ℚ) := [deviceSyncedCall 0, deviceSyncedCall 1]

end Tpetra

namespace Tpetra

/-! ## The all-reduces that a call issues -/

/-- One all-reduce as the calling process issues it.  `scalars op count sendBuf`
is `Teuchos::reduceAll<int, Scalar> (comm, op, count, sendBuf, recvBuf)`;
`goodFlag lclGood` is
`reduceAll<int, int> (comm, REDUCE_MIN, lclGood, outArg (gblGood))`, the
all-reduce in the block of `multiply` under `HAVE_TPETRA_DEBUG`. -/
inductive Collective (S : Type) where
  | scalars (op : EReductionType) (count : Nat) (sendBuf : Nat → S)
  | goodFlag (lclGood : Int)

/-- The buffer that an all-reduce on scalars sends. -/
def Collective.scalarBuf {S : Type} : Collective S → Option (Nat → S)
  | .scalars _ _ b => some b
  | .goodFlag _ => none

/-- The flag that the all-reduce of the debug build of `multiply` sends. -/
def Collective.flag {S : Type} : Collective S → Option Int
  | .scalars _ _ _ => none
  | .goodFlag g => some g

/-- Modelled from the spec: `Teuchos::reduceAll<int, int>` with `REDUCE_MIN` on
one value.  `sendVals` lists the value of every process that takes part in the
collective; the result, the same on every participant, is the least of them. -/
def reduceAllMin (sendVals : List Int) (globalReduct : Int) : Int :=
  match sendVals with
  | [] => globalReduct
  | v :: vs => vs.foldl min v

/-- Source: `gblDotImpl`, with the all-reduces it issues, in the order of the
calls. -/
def gblDotImplTraced {S : Type} [LinearOrderedField S] (dotsOut : Nat → S) (numVecs : Nat)
    (comm : Option Nat) (distributed : Bool) (sendBufs : List (Nat → S)) :
    List (Collective S) × (Nat → S) :=
  if distributed ∧ comm.isSome then
    ([.scalars .REDUCE_SUM numVecs dotsOut], reduceAll .REDUCE_SUM numVecs sendBufs dotsOut)
  else ([], dotsOut)

/-- Source: `dot (A, dots)`, as compiled without `HAVE_TPETRA_DEBUG`, with the
all-reduces that the call has issued when it returns or raises. -/
def DotCall.dotTraced {S : Type} [LinearOrderedField S] (c : DotCall S)
    (sendBufs : List (Nat → S)) : List (Collective S) × Except Err (Heap S × (Nat → S)) :=
  match c.localPhase with
  | .error e => ([], .error e)
  | .ok none => ([], .ok (c.heap, c.dots))
  | .ok (some r) =>
    let g := gblDotImplTraced r.2 c.X.getNumVectors c.X.getComm c.X.isDistributed sendBufs
    (g.1, .ok (r.1, g.2))

/-- Source: `gblNormImpl`, with the all-reduces it issues. -/
def gblNormImplTraced {S : Type} [LinearOrderedField S] (sqrt : S → S) (normsOut : Nat → S)
    (numVecs : Nat) (comm : Option Nat) (distributed : Bool) (whichNorm : EWhichNormImpl)
    (sendBufs : List (Nat → S)) : List (Collective S) × (Nat → S) :=
  let reduced : List (Collective S) × (Nat → S) :=
    if distributed ∧ comm.isSome then
      if whichNorm = .IMPL_NORM_INF then
        ([.scalars .REDUCE_MAX numVecs normsOut],
          reduceAll .REDUCE_MAX numVecs sendBufs normsOut)
      else
        ([.scalars .REDUCE_SUM numVecs normsOut],
          reduceAll .REDUCE_SUM numVecs sendBufs normsOut)
    else ([], normsOut)
  if whichNorm = .IMPL_NORM_TWO then
    (reduced.1, fun j => if j < numVecs then sqrt (reduced.2 j) else reduced.2 j)
  else reduced

/-- Source: `normImpl`, with the all-reduces that the call has issued when it
returns or raises. -/
def NormCall.normImplTraced {S : Type} [LinearOrderedField S] (sqrt : S → S) (c : NormCall S)
    (whichNorm : EWhichNorm) (sendBufs : List (Nat → S)) :
    List (Collective S) × Except Err (Nat → S) :=
  match c.localPhase whichNorm with
  | .error e => ([], .error e)
  | .ok none => ([], .ok c.norms)
  | .ok (some lcl) =>
    let g := gblNormImplTraced sqrt lcl c.X.getNumVectors c.X.getComm c.X.isDistributed
      (lclNormType whichNorm) sendBufs
    (g.1, .ok g.2)

/-- Source: `meanValue`, with the all-reduces that the call has issued when it
returns or raises. -/
def MeanCall.meanValueTraced {S : Type} [LinearOrderedField S] (c : MeanCall S)
    (sendBufs : List (Nat → S)) : List (Collective S) × Except Err (Nat → S) :=
  match c.localPhase with
  | .error e => ([], .error e)
  | .ok lclSums =>
    let numVecs := c.X.getNumVectors
    let meansOut : List (Collective S) × (Nat → S) :=
      if c.X.getComm.isSome ∧ c.X.isDistributed then
        ([.scalars .REDUCE_SUM numVecs lclSums],
          reduceAll .REDUCE_SUM numVecs sendBufs c.means)
      else ([], fun k => if k < c.numMeans then lclSums k else c.means k)
    let OneOverN : S := 1 / (c.X.getGlobalLength : S)
    (meansOut.1, .ok (fun k => if k < c.numMeans then meansOut.2 k * OneOverN else meansOut.2 k))

/-- Source: `reduce`, with the all-reduce that the call has issued when it
returns or raises. -/
def MultiVector.reduceTraced {S : Type} [LinearOrderedField S] (h : Heap S) (X : MultiVector)
    (commSize : Nat) (sendBufs : List (Nat → S)) : List (Collective S) × Except Err (Heap S) :=
  match X.reducePack h commSize with
  | .error e => ([], .error e)
  | .ok none => ([], .ok h)
  | .ok (some r) =>
    let totalAllocSize := size_t_mul X.getLocalLength X.getNumVectors
    let reduceCount := int_cast totalAllocSize
    let tgtBuf := reduceAll .REDUCE_SUM reduceCount.toNat sendBufs (fun _ => 0)
    ([.scalars .REDUCE_SUM reduceCount.toNat r.2], .ok (X.reduceWriteBack h r.1 tgtBuf))

/-- Source: `multiply`, the flag `lclGood` of the block under
`HAVE_TPETRA_DEBUG`: 1 when the local dimensions of `*this`, `op(A)` and `op(B)`
are consistent, 0 otherwise. -/
def MultiplyCall.lclGood {S : Type} (c : MultiplyCall S) : Int :=
  let A_nrows := if c.transA ≠ .NO_TRANS then c.A.getNumVectors else c.A.getLocalLength
  let A_ncols := if c.transA ≠ .NO_TRANS then c.A.getLocalLength else c.A.getNumVectors
  let B_nrows := if c.transB ≠ .NO_TRANS then c.B.getNumVectors else c.B.getLocalLength
  let B_ncols := if c.transB ≠ .NO_TRANS then c.B.getLocalLength else c.B.getNumVectors
  let lclBad : Bool := decide (c.C.getLocalLength ≠ A_nrows) || decide (c.C.getNumVectors ≠ B_ncols)
    || decide (A_ncols ≠ B_nrows)
  if lclBad then 0 else 1

/-- Source: `multiply`, the block under `HAVE_TPETRA_DEBUG`: when the map and
the communicator of `*this` are not null, the all-reduce of `lclGood` with
`REDUCE_MIN`, then `std::runtime_error` unless the result is 1.  `lclGoods` are
the flags handed to the all-reduce by the processes of the communicator. -/
def MultiplyCall.debugCheck {S : Type} (c : MultiplyCall S) (lclGoods : List Int) :
    List (Collective S) × Except Err Unit :=
  if c.C.map_.isSome ∧ c.C.getComm.isSome then
    let gblGood := reduceAllMin lclGoods 0
    if gblGood ≠ 1 then ([.goodFlag c.lclGood], .error .runtime_error)
    else ([.goodFlag c.lclGood], .ok ())
  else ([], .ok ())

/-- Source: `multiply` in either build, with the all-reduces that the call has
issued when it returns or raises.  `debug` tells whether `HAVE_TPETRA_DEBUG` is
defined: the block under it comes first, then the tests of the cases, the local
product and, in Case 2, `reduce`. -/
def MultiplyCall.multiplyTraced {S : Type} [LinearOrderedField S] (debug : Bool)
    (c : MultiplyCall S) (lclGoods : List Int) (sendBufs : List (Nat → S)) :
    List (Collective S) × Except Err (Heap S) :=
  let d : List (Collective S) × Except Err Unit :=
    if debug then c.debugCheck lclGoods else ([], .ok ())
  match d.2 with
  | .error e => (d.1, .error e)
  | .ok _ =>
    match c.localPhase with
    | .error e => (d.1, .error e)
    | .ok h1 =>
      if c.Case2 then
        let r := c.C.reduceTraced h1 c.commSize sendBufs
        (d.1 ++ r.1, r.2)
      else (d.1, .ok h1)

/-- The collective `multiply` over the processes of one communicator, in rank
order, in either build.  Every process receives what the calls send: the flags
of the all-reduce of the debug build, then the buffers of the all-reduce of
`reduce` issued by the calls that get that far. -/
def multiplyAllTraced {S : Type} [LinearOrderedField S] (debug : Bool)
    (cs : List (MultiplyCall S)) : List (List (Collective S) × Except Err (Heap S)) :=
  let lclGoods := (cs.map (fun c =>
    (c.multiplyTraced debug [] []).1.filterMap Collective.flag)).flatten
  let sendBufs := (cs.map (fun c =>
    (c.multiplyTraced debug lclGoods []).1.filterMap Collective.scalarBuf)).flatten
  cs.map (fun c => c.multiplyTraced debug lclGoods sendBufs)

/-! ## Inputs for calls that return early or raise late -/

/-- A constant-stride block without columns over a distributed map with two
local rows and a communicator. -/
def noColumnsBlock : MultiVector :=
  ⟨some ⟨2, 4, true, some 0⟩, emptyColumnsView, emptyColumnsView, []⟩

/-- The call `dot` of the block without columns with itself. -/
def noColumnsDotCall : DotCall ℚ := ⟨demoHeapQ, noColumnsBlock, noColumnsBlock, 0, fun _ => 0⟩

/-- The call of a norm on the block without columns. -/
def noColumnsNormCall : NormCall ℚ := ⟨demoHeapQ, noColumnsBlock, 0, fun _ => 0⟩

/-- The call `meanValue` on the block without columns. -/
def noColumnsMeanCall : MeanCall ℚ := ⟨demoHeapQ, noColumnsBlock, 0, fun _ => 0⟩

/-- A call of `multiply` with consistent local dimensions (1 x 1 times 1 x 1
into 1 x 1) that fits none of the supported cases: `C` is distributed while `A`
and `B` are not. -/
def unsupportedSquareCall : MultiplyCall ℚ :=
  ⟨productHeap 0, factorA, syncedBlock, syncedBlock, .NO_TRANS, .NO_TRANS, 1, 1, 0, 2⟩

/-- The Case 2 call of `productCall` on process `r` with a one-column `B`: the
product has one column, `C` has two. -/
def mismatchedCall (r : Nat) : MultiplyCall ℚ :=
  ⟨productHeap r, productC, factorA, factorA, .TRANS, .NO_TRANS, 1, 1, r, 2⟩

/-- A replicated constant-stride block of `2 ^ 31` rows and one column in the
second allocation: one row more than `int` can count. -/
def tallC : MultiVector :=
  ⟨some ⟨2 ^ 31, 2 ^ 31, false, some 0⟩, ⟨1, 0, 0, 2 ^ 31, 1, 2 ^ 31⟩,
    ⟨1, 0, 0, 2 ^ 31, 1, 2 ^ 31⟩, []⟩

/-- A distributed block of one local row and `2 ^ 31` columns in the first
allocation. -/
def wideA : MultiVector :=
  ⟨some ⟨1, 2, true, some 0⟩, ⟨0, 0, 0, 1, 2 ^ 31, 1⟩, ⟨0, 0, 0, 1, 2 ^ 31, 1⟩, []⟩

/-- Memory of process `r` with two allocations, one of `1 x 2 ^ 31` entries
`r + 1` and one of `2 ^ 31 x 1` zeros. -/
def tallHeap (r : Nat) : Heap ℚ :=
  { cells := fun b =>
      if b = 0 then ⟨fun _ _ => (r : ℚ) + 1, fun _ _ => (r : ℚ) + 1, 0, 0⟩
      else ⟨fun _ _ => 0, fun _ _ => 0, 0, 0⟩,
    next := 2 }

/-- The Case 2 call `C.multiply (TRANS, NO_TRANS, 1, A, B, 0)` on process `r` of
two, with `C = tallC` of `2 ^ 31` rows, `A = wideA` and `B = factorA`. -/
def tallCall (r : Nat) : MultiplyCall ℚ :=
  ⟨tallHeap r, tallC, wideA, factorA, .TRANS, .NO_TRANS, 1, 0, r, 2⟩

end Tpetra

/-! # Theorems -/

namespace Tpetra

/-! ## Lemmas on the heap -/

theorem view_write {S : Type} (h : Heap S) (sp : MemSpace) (V : DualView) (f : Nat → Nat → S)
    (b : Nat) (sp' : MemSpace) (r c : Nat) :
    ((h.write sp V f).cells b).view sp' r c =
      if b = V.buf ∧ sp' = sp ∧ V.covers r c = true then f (r - V.row0) (c - V.col0)
      else (h.cells b).view sp' r c := by
  unfold Heap.write Heap.setCell DualViewData.setView
  by_cases hb : b = V.buf
  · subst hb
    cases sp <;> cases sp' <;> simp [DualViewData.view]
  · simp [hb]

theorem flags_write {S : Type} (h : Heap S) (sp : MemSpace) (V : DualView) (f : Nat → Nat → S)
    (b : Nat) :
    ((h.write sp V f).cells b).modified_device = (h.cells b).modified_device ∧
    ((h.write sp V f).cells b).modified_host = (h.cells b).modified_host := by
  unfold Heap.write Heap.setCell DualViewData.setView
  by_cases hb : b = V.buf
  · subst hb
    cases sp <;> simp
  · simp [hb]

theorem need_sync_write {S : Type} (h : Heap S) (sp : MemSpace) (V : DualView)
    (f : Nat → Nat → S) (b : Nat) (sp' : MemSpace) :
    ((h.write sp V f).cells b).need_sync sp' = (h.cells b).need_sync sp' := by
  have hf := flags_write h sp V f b
  cases sp' <;> simp [DualViewData.need_sync, hf.1, hf.2]

theorem cells_write_of_ne {S : Type} (h : Heap S) (sp : MemSpace) (V : DualView)
    (f : Nat → Nat → S) (b : Nat) (hb : b ≠ V.buf) :
    (h.write sp V f).cells b = h.cells b := by
  simp [Heap.write, Heap.setCell, hb]

theorem next_write {S : Type} (h : Heap S) (sp : MemSpace) (V : DualView) (f : Nat → Nat → S) :
    (h.write sp V f).next = h.next := rfl

theorem view_modify {S : Type} (h : Heap S) (V : DualView) (sp : MemSpace) (b : Nat)
    (sp' : MemSpace) : ((V.modify h sp).cells b).view sp' = (h.cells b).view sp' := by
  unfold DualView.modify Heap.setCell DualViewData.modify
  by_cases hb : b = V.buf
  · subst hb
    cases sp <;> cases sp' <;> simp [DualViewData.view]
  · simp [hb]

theorem cells_modify_of_ne {S : Type} (h : Heap S) (V : DualView) (sp : MemSpace) (b : Nat)
    (hb : b ≠ V.buf) : (V.modify h sp).cells b = h.cells b := by
  simp [DualView.modify, Heap.setCell, hb]

theorem need_sync_modify_self {S : Type} (h : Heap S) (V : DualView) (sp : MemSpace) :
    ((V.modify h sp).cells V.buf).need_sync sp = false ∧
    ((V.modify h sp).cells V.buf).need_sync sp.other = true := by
  unfold DualView.modify Heap.setCell DualViewData.modify
  cases sp <;> simp [DualViewData.need_sync, MemSpace.other] <;> omega

theorem cells_sync_of_ne {S : Type} (h : Heap S) (V : DualView) (sp : MemSpace) (b : Nat)
    (hb : b ≠ V.buf) : (V.sync h sp).cells b = h.cells b := by
  unfold DualView.sync
  split
  · simp [Heap.setCell, hb, cells_write_of_ne]
  · rfl

theorem covers_iff (V : DualView) (r c : Nat) :
    V.covers r c = true ↔
      V.row0 ≤ r ∧ r < V.row0 + V.dimension_0 ∧ V.col0 ≤ c ∧ c < V.col0 + V.dimension_1 := by
  simp [DualView.covers, and_assoc]

/-- Reading in `sp` after `sync<sp>`: inside the window the entry is the one of
the other residency when a sync was needed, and the old one otherwise. -/
theorem get_sync {S : Type} (h : Heap S) (V : DualView) (sp : MemSpace) (i j : Nat)
    (hi : i < V.dimension_0) (hj : j < V.dimension_1) :
    V.get (V.sync h sp) sp i j =
      if V.need_sync h sp = true then V.get h sp.other i j else V.get h sp i j := by
  unfold DualView.sync
  by_cases hn : V.need_sync h sp = true
  · simp only [hn, if_true]
    have hc : V.covers (V.row0 + i) (V.col0 + j) = true := by
      rw [covers_iff]; omega
    simp only [DualView.get, Heap.setCell, if_true]
    have := view_write h sp V (fun i j => V.get h sp.other i j) V.buf sp (V.row0 + i) (V.col0 + j)
    simp only [hc, and_self, if_true, DualView.get, Nat.add_sub_cancel_left] at this
    cases sp <;> simpa [DualViewData.view] using this
  · simp [hn]

end Tpetra

namespace Tpetra

/-! ## Lemmas on `putScalar` -/

theorem view_foldl_fill {S : Type} (sp : MemSpace) (Xv : DualView) (v : S) (cols : List Nat) :
    ∀ (h : Heap S) (b : Nat) (sp' : MemSpace) (r c : Nat),
    ((cols.foldl (fun hh col => deep_copy_scalar hh sp (column Xv col) v) h).cells b).view sp' r c =
      if b = Xv.buf ∧ sp' = sp ∧ ∃ col ∈ cols, (column Xv col).covers r c = true then v
      else (h.cells b).view sp' r c := by
  induction cols with
  | nil => intro h b sp' r c; simp
  | cons col cols ih =>
    intro h b sp' r c
    rw [List.foldl_cons, ih]
    unfold deep_copy_scalar
    rw [view_write]
    have hbuf : (column Xv col).buf = Xv.buf := rfl
    by_cases h1 : b = Xv.buf ∧ sp' = sp
    · by_cases h2 : ∃ col' ∈ cols, (column Xv col').covers r c = true
      · have h3 : ∃ col' ∈ col :: cols, (column Xv col').covers r c = true := by
          obtain ⟨c', hc', hcov⟩ := h2
          exact ⟨c', List.mem_cons_of_mem _ hc', hcov⟩
        simp [h1, h2, h3]
      · by_cases h4 : (column Xv col).covers r c = true
        · have h3 : ∃ col' ∈ col :: cols, (column Xv col').covers r c = true :=
            ⟨col, List.mem_cons_self _ _, h4⟩
          rw [if_neg (fun hh => h2 hh.2.2), if_pos ⟨by rw [hbuf]; exact h1.1, h1.2, h4⟩,
            if_pos ⟨h1.1, h1.2, h3⟩]
        · have h3 : ¬ ∃ col' ∈ col :: cols, (column Xv col').covers r c = true := by
            rintro ⟨c', hc', hcov⟩
            rcases List.mem_cons.mp hc' with rfl | hc'
            · exact h4 hcov
            · exact h2 ⟨c', hc', hcov⟩
          rw [if_neg (fun hh => h2 hh.2.2), if_neg (fun hh => h4 hh.2.2),
            if_neg (fun hh => h3 hh.2.2)]
    · rw [if_neg (fun hh => h1 ⟨hh.1, hh.2.1⟩),
        if_neg (fun hh => h1 ⟨by rw [← hbuf]; exact hh.1, hh.2.1⟩),
        if_neg (fun hh => h1 ⟨hh.1, hh.2.1⟩)]

theorem need_sync_foldl_fill {S : Type} (sp : MemSpace) (Xv : DualView) (v : S)
    (cols : List Nat) :
    ∀ (h : Heap S) (b : Nat) (sp' : MemSpace),
    ((cols.foldl (fun hh col => deep_copy_scalar hh sp (column Xv col) v) h).cells b).need_sync sp'
      = (h.cells b).need_sync sp' := by
  induction cols with
  | nil => intro h b sp'; rfl
  | cons col cols ih =>
    intro h b sp'
    rw [List.foldl_cons, ih]
    exact need_sync_write _ _ _ _ _ _

theorem cells_foldl_fill_of_ne {S : Type} (sp : MemSpace) (Xv : DualView) (v : S)
    (cols : List Nat) :
    ∀ (h : Heap S) (b : Nat), b ≠ Xv.buf →
    (cols.foldl (fun hh col => deep_copy_scalar hh sp (column Xv col) v) h).cells b
      = h.cells b := by
  induction cols with
  | nil => intro h b _; rfl
  | cons col cols ih =>
    intro h b hb
    rw [List.foldl_cons, ih _ _ hb]
    exact cells_write_of_ne _ _ _ _ _ hb

theorem foldl_range_getD {α : Type} (F : α → Nat → α) (l : List Nat) (n : Nat) (a : α) :
    (List.range n).foldl (fun hh k => F hh (l.getD k 0)) a
      = ((List.range n).map (fun k => l.getD k 0)).foldl F a := by
  rw [List.foldl_map]

/-- After `putScalar` on residency `sp`, every logical entry reads the scalar in `sp`. -/
theorem entry_putScalarOn {S : Type} (h : Heap S) (X : MultiVector) (sp : MemSpace) (v : S)
    (i j : Nat) (hlen : X.whichVectors_.length ≠ 1) (hi : i < X.getLocalLength)
    (hj : j < X.getNumVectors) :
    X.entry (MultiVector.putScalarOn h X sp v) sp i j = v := by
  unfold MultiVector.putScalarOn MultiVector.entry DualView.get
  simp only []
  by_cases hcs : X.isConstantStride = true
  · have hpc : X.physicalColumn j = j := by simp [MultiVector.physicalColumn, hcs]
    have hnv : X.getNumVectors = X.view_.dimension_1 := by simp [MultiVector.getNumVectors, hcs]
    rw [hpc]
    by_cases h1 : X.getNumVectors = 1
    · rw [if_pos h1]
      unfold deep_copy_scalar
      rw [view_write, if_pos]
      refine ⟨rfl, rfl, ?_⟩
      rw [covers_iff]
      simp only [column, subviewAllRows, subviewAllCols, subview]
      omega
    · rw [if_neg h1, if_pos hcs]
      unfold deep_copy_scalar
      rw [view_write, if_pos]
      refine ⟨rfl, rfl, ?_⟩
      rw [covers_iff]
      simp only [subviewAllCols, subview]
      omega
  · have hne : X.whichVectors_ ≠ [] := by
      intro he; apply hcs; simp [MultiVector.isConstantStride, he]
    have hnv : X.getNumVectors = X.whichVectors_.length := by
      simp [MultiVector.getNumVectors, hcs]
    have hpc : X.physicalColumn j = X.whichVectors_.getD j 0 := by
      simp [MultiVector.physicalColumn, hcs]
    rw [if_neg (by omega), if_neg hcs]
    rw [(foldl_range_getD (fun hh col => deep_copy_scalar hh sp
      (column (subviewAllCols X.view_ (0, X.getLocalLength)) col) v)), view_foldl_fill, if_pos]
    refine ⟨rfl, rfl, X.whichVectors_.getD j 0, ?_, ?_⟩
    · rw [List.mem_map]
      exact ⟨j, List.mem_range.mpr hj, rfl⟩
    · rw [covers_iff, hpc]
      simp only [column, subviewAllRows, subviewAllCols, subview]
      omega

/-- `putScalar` on residency `sp` leaves `sp` the newest residency. -/
theorem need_sync_putScalarOn {S : Type} (h : Heap S) (X : MultiVector) (sp : MemSpace)
    (v : S) :
    X.need_sync (MultiVector.putScalarOn h X sp v) sp = false ∧
    X.need_sync (MultiVector.putScalarOn h X sp v) sp.other = true := by
  have hm := need_sync_modify_self h X.view_ sp
  unfold MultiVector.putScalarOn MultiVector.need_sync DualView.need_sync
  simp only []
  split
  · unfold deep_copy_scalar
    rw [need_sync_write, need_sync_write]
    exact hm
  · split
    · unfold deep_copy_scalar
      rw [need_sync_write, need_sync_write]
      exact hm
    · rw [(foldl_range_getD (fun hh col => deep_copy_scalar hh sp
      (column (subviewAllCols X.view_ (0, X.getLocalLength)) col) v)),
        need_sync_foldl_fill, need_sync_foldl_fill]
      exact hm

end Tpetra

namespace Tpetra

/-! ## Frame lemmas: which cells an operation can change -/

theorem cells_foldl_of_ne {S α : Type} (F : Heap S → α → Heap S) (b : Nat)
    (hF : ∀ hh a, (F hh a).cells b = hh.cells b) (steps : List α) :
    ∀ h : Heap S, (steps.foldl F h).cells b = h.cells b := by
  induction steps with
  | nil => intro h; rfl
  | cons a steps ih => intro h; rw [List.foldl_cons, ih, hF]

theorem cells_putScalarOn_of_ne {S : Type} (h : Heap S) (X : MultiVector) (sp : MemSpace)
    (v : S) (b : Nat) (hb : b ≠ X.view_.buf) :
    (MultiVector.putScalarOn h X sp v).cells b = h.cells b := by
  have hm : (X.modify h sp).cells b = h.cells b := cells_modify_of_ne h X.view_ sp b hb
  unfold MultiVector.putScalarOn
  simp only []
  split
  · refine (cells_write_of_ne _ _ _ _ _ ?_).trans hm
    exact hb
  · split
    · refine (cells_write_of_ne _ _ _ _ _ ?_).trans hm
      exact hb
    · rw [cells_foldl_of_ne _ b _ _, hm]
      intro hh k
      refine cells_write_of_ne _ _ _ _ _ ?_
      exact hb

theorem cells_putScalar_of_ne {S : Type} (h : Heap S) (X : MultiVector) (v : S) (b : Nat)
    (hb : b ≠ X.view_.buf) : (X.putScalar h v).cells b = h.cells b := by
  simp only [MultiVector.putScalar]
  split <;> exact cells_putScalarOn_of_ne _ _ _ _ _ hb

theorem cells_deep_copy_of_ne {S : Type} (h : Heap S) (sp : MemSpace) (dst src : DualView)
    (b : Nat) (hb : b ≠ dst.buf) : (deep_copy h sp dst src).cells b = h.cells b := by
  refine cells_write_of_ne _ _ _ _ _ ?_
  exact hb

theorem cells_localDeepCopy_of_ne {S : Type} (h : Heap S) (sp : MemSpace) (dst src : DualView)
    (dc sc : Bool) (dw sw : List Nat) (b : Nat) (hb : b ≠ dst.buf) :
    (MultiVector.localDeepCopy h sp dst src dc sc dw sw).cells b = h.cells b := by
  unfold MultiVector.localDeepCopy
  split
  · exact cells_deep_copy_of_ne _ _ _ _ _ hb
  · split
    · rw [cells_foldl_of_ne _ b _ _]
      intro hh j
      refine cells_deep_copy_of_ne _ _ _ _ _ ?_
      exact hb
    · split
      · rw [cells_foldl_of_ne _ b _ _]
        intro hh j
        refine cells_deep_copy_of_ne _ _ _ _ _ ?_
        exact hb
      · rw [cells_foldl_of_ne _ b _ _]
        intro hh j
        refine cells_deep_copy_of_ne _ _ _ _ _ ?_
        exact hb

theorem cells_assignBody_of_ne {S : Type} (h : Heap S) (X src : MultiVector) (b : Nat)
    (hb : b ≠ X.view_.buf) : (MultiVector.assignBody h X src).cells b = h.cells b := by
  unfold MultiVector.assignBody MultiVector.sync MultiVector.modify
    MultiVector.localDeepCopyConstStride
  simp only []
  repeat' split
  all_goals
    simp only [cells_sync_of_ne _ _ _ _ hb, cells_deep_copy_of_ne _ _ _ _ _ hb,
      cells_localDeepCopy_of_ne _ _ _ _ _ _ _ _ _ hb, cells_modify_of_ne _ _ _ _ hb]

theorem cells_allocUninit_of_ne {S : Type} (h : Heap S) (rows cols b : Nat) (hb : b ≠ h.next) :
    (h.allocUninit rows cols).1.cells b = h.cells b := by
  simp [Heap.allocUninit, hb]

/-- `createCopy` always succeeds; the copy is a constant-stride block in the
fresh cell `h.next`, and no other cell changes. -/
theorem createCopy_ok {S : Type} [Zero S] (h : Heap S) (src : MultiVector) :
    ∃ h1 cpy, createCopy h src = .ok (h1, cpy) ∧ cpy.view_.buf = h.next ∧
      cpy.whichVectors_ = [] ∧ cpy.map_ = src.map_ ∧
      cpy.view_.dimension_1 = src.getNumVectors ∧
      cpy.view_.dimension_0 = src.getLocalLength ∧
      ∀ b, b ≠ h.next → h1.cells b = h.cells b := by
  have hmap : (MultiVector.fromMap h src.map_ src.getNumVectors false).2.map_ = src.map_ := rfl
  have hbuf : (MultiVector.fromMap h src.map_ src.getNumVectors false).2.view_.buf = h.next := rfl
  have hwv : (MultiVector.fromMap h src.map_ src.getNumVectors false).2.whichVectors_ = [] := rfl
  have hd1 : (MultiVector.fromMap h src.map_ src.getNumVectors false).2.view_.dimension_1
      = src.getNumVectors := rfl
  have hd0 : (MultiVector.fromMap h src.map_ src.getNumVectors false).2.view_.dimension_0
      = src.getLocalLength := rfl
  have hh0 : ∀ b, b ≠ h.next →
      (MultiVector.fromMap h src.map_ src.getNumVectors false).1.cells b = h.cells b := by
    intro b hb
    simp [MultiVector.fromMap, allocDualView, Heap.allocUninit, hb]
  have hg : (MultiVector.fromMap h src.map_ src.getNumVectors false).2.getGlobalLength
      = src.getGlobalLength := by
    simp [MultiVector.getGlobalLength, hmap]
  have hl : (MultiVector.fromMap h src.map_ src.getNumVectors false).2.getLocalLength
      = src.getLocalLength := by
    simp [MultiVector.getLocalLength, hmap]
  have hn : (MultiVector.fromMap h src.map_ src.getNumVectors false).2.getNumVectors
      = src.getNumVectors := rfl
  refine ⟨MultiVector.assignBody (MultiVector.fromMap h src.map_ src.getNumVectors false).1
      (MultiVector.fromMap h src.map_ src.getNumVectors false).2 src,
    (MultiVector.fromMap h src.map_ src.getNumVectors false).2, ?_, hbuf, hwv, hmap, hd1, hd0, ?_⟩
  · unfold createCopy MultiVector.assign
    simp only [hg, hl, hn, ne_eq, not_true_eq_false, or_self, if_false]
    rfl
  · intro b hb
    rw [cells_assignBody_of_ne _ _ _ _ (by rw [hbuf]; exact hb)]
    exact hh0 b hb

end Tpetra

namespace Tpetra

/-! ## Claims -/

/-- C1 (the code departs from the claim): for the column view `demoColumnView` with
physical columns `[0, 2]` of a 2 x 3 buffer, `subView (Range1D (1, 1))`, the
range `[1, 2)`, succeeds and has one column, but that column is physical column
`whichVectors_[0] + 1 = 1`: its entry `(0, 0)` reads 1, whereas entry `(0, 1)`
of `demoColumnView` (physical column 2) reads 2, in either residency. -/
theorem C1_subView_single_column_reads_wrong_column :
    MultiVector.fromViewWhich demoHeap (some demoMap) demoView [0, 2]
      = .ok (demoHeap, demoColumnView) ∧
    demoColumnView.WF ∧ demoColumnView.getNumVectors = 2 ∧ demoColumnView.isConstantStride = false ∧
    demoColumnView.subView demoHeap ⟨1, 1⟩ = .ok (demoHeap, demoSubView) ∧
    demoSubView.getNumVectors = 1 ∧
    demoSubView.entry demoHeap .device 0 0 = (1 : Int) ∧
    demoColumnView.entry demoHeap .device 0 1 = (2 : Int) ∧
    demoSubView.entry demoHeap .host 0 0 = (1 : Int) ∧
    demoColumnView.entry demoHeap .host 0 1 = (2 : Int) :=
  ⟨rfl, by decide, rfl, rfl, rfl, rfl, rfl, rfl, rfl, rfl⟩

/-- C2 (the code departs from the claim): on a block whose residencies are in
sync and hold 1, `scale (2)` and `scale ([2])` write 2 into the device copy and
leave both modification markers at 0; the following `sync<host>` therefore
copies nothing and the host still reads 1, not the value of the latest write. -/
theorem C2_scale_leaves_no_residency_modified :
    syncedBlock.WF ∧
    ((syncedBlock.scale syncedHeap 2).cells 0).modified_device = 0 ∧
    ((syncedBlock.scale syncedHeap 2).cells 0).modified_host = 0 ∧
    syncedBlock.entry (syncedBlock.scale syncedHeap 2) .device 0 0 = (2 : Int) ∧
    syncedBlock.entry (syncedBlock.sync (syncedBlock.scale syncedHeap 2) .host) .host 0 0 = (1 : Int) ∧
    (∃ h1, syncedBlock.scaleArray syncedHeap [2] = .ok h1 ∧
      (h1.cells 0).modified_device = 0 ∧ (h1.cells 0).modified_host = 0 ∧
      syncedBlock.entry h1 .device 0 0 = (2 : Int) ∧
      syncedBlock.entry (syncedBlock.sync h1 .host) .host 0 0 = (1 : Int)) :=
  ⟨by decide, rfl, rfl, rfl, rfl, _, rfl, rfl, rfl, rfl, rfl⟩

/-- C3: after the assignment `Y = X` the block `Y` has the buffer, original
buffer, column selection and map of `X`, and after `Y.putScalar (v)` every
logical entry `(i, j)` of `X` reads `v`: in the newest residency, and in either
residency after a sync to it. -/
theorem C3_assignment_shares_storage {S : Type} (h : Heap S) (X Y0 : MultiVector) (v : S)
    (i j : Nat) (hwf : X.WF) (hi : i < X.getLocalLength) (hj : j < X.getNumVectors) :
    (Y0.assignFrom X).view_ = X.view_ ∧ (Y0.assignFrom X).origView_ = X.origView_ ∧
    (Y0.assignFrom X).whichVectors_ = X.whichVectors_ ∧ (Y0.assignFrom X).map_ = X.map_ ∧
    X.value ((Y0.assignFrom X).putScalar h v) i j = v ∧
    ∀ sp, X.entry (X.sync ((Y0.assignFrom X).putScalar h v) sp) sp i j = v := by
  have hY : Y0.assignFrom X = X := rfl
  rw [hY]
  obtain ⟨hrows, hcols, hlen, -, -⟩ := hwf
  refine ⟨rfl, rfl, rfl, rfl, ?_, ?_⟩
  · unfold MultiVector.value MultiVector.current
    simp only [MultiVector.putScalar]
    by_cases hn : X.need_sync h .device = true
    · simp only [hn, Bool.not_true, Bool.false_eq_true, if_false]
      have h2 := (need_sync_putScalarOn h X .host v).2
      simp only [MemSpace.other] at h2
      rw [h2, if_pos rfl]
      exact entry_putScalarOn h X .host v i j hlen hi hj
    · simp only [Bool.not_eq_true] at hn
      simp only [hn, Bool.not_false, if_true]
      have h2 := (need_sync_putScalarOn h X .device v).1
      rw [h2]
      simp only [Bool.false_eq_true, if_false]
      exact entry_putScalarOn h X .device v i j hlen hi hj
  · intro sp
    have hi' : i < X.view_.dimension_0 := by omega
    have hj' : X.physicalColumn j < X.view_.dimension_1 := by
      unfold MultiVector.physicalColumn
      by_cases hcs : X.isConstantStride = true
      · simp only [hcs, if_true]
        simpa [MultiVector.getNumVectors, hcs] using hj
      · simp only [hcs, Bool.false_eq_true, if_false]
        have hj2 : j < X.whichVectors_.length := by
          simpa [MultiVector.getNumVectors, hcs] using hj
        apply hcols
        rw [List.getD_eq_getElem _ _ hj2]
        exact List.getElem_mem _
    unfold MultiVector.entry MultiVector.sync
    rw [get_sync _ _ _ _ _ hi' hj']
    simp only [MultiVector.putScalar]
    by_cases hn : X.need_sync h .device = true
    · simp only [hn, Bool.not_true, Bool.false_eq_true, if_false]
      have h1 := need_sync_putScalarOn h X .host v
      have he := entry_putScalarOn h X .host v i j hlen hi hj
      simp only [MultiVector.need_sync, MemSpace.other] at h1
      cases sp
      · rw [if_pos h1.2]; exact he
      · rw [if_neg (by rw [h1.1]; simp)]; exact he
    · simp only [Bool.not_eq_true] at hn
      simp only [hn, Bool.not_false, if_true]
      have h1 := need_sync_putScalarOn h X .device v
      have he := entry_putScalarOn h X .device v i j hlen hi hj
      simp only [MultiVector.need_sync, MemSpace.other] at h1
      cases sp
      · rw [if_neg (by rw [h1.1]; simp)]; exact he
      · rw [if_pos h1.2]; exact he

/-- Witness for C3 on the column view `demoColumnView` with `v = 7` at entry `(1, 1)`. -/
theorem C3_assignment_shares_storage_witness :
    demoColumnView.WF ∧ 1 < demoColumnView.getLocalLength ∧ 1 < demoColumnView.getNumVectors ∧
    demoColumnView.value ((emptyBlock.assignFrom demoColumnView).putScalar demoHeap 7) 1 1 = 7 ∧
    ∀ sp, demoColumnView.entry
      (demoColumnView.sync ((emptyBlock.assignFrom demoColumnView).putScalar demoHeap 7) sp)
      sp 1 1 = 7 :=
  ⟨by decide, by decide, by decide,
    (C3_assignment_shares_storage demoHeap demoColumnView emptyBlock 7 1 1 (by decide) (by decide)
      (by decide)).2.2.2.2⟩

/-- C4: `MultiVector (X, Copy)` always succeeds and returns a block `Y` in a
fresh allocation; after `Y.putScalar (v)` every allocation that existed before
the copy is unchanged (entries of both residencies and markers), so every entry
of `X` and of its underlying buffer reads as before. -/
theorem C4_copy_is_isolated {S : Type} [Zero S] (h : Heap S) (X : MultiVector) (v : S)
    (hX : X.view_.buf < h.next) :
    ∃ h1 Y, MultiVector.fromSource h X .Copy = .ok (h1, Y) ∧
      Y.view_.buf = h.next ∧
      (∀ b, b < h.next → (Y.putScalar h1 v).cells b = h.cells b) ∧
      (∀ sp i j, X.entry (Y.putScalar h1 v) sp i j = X.entry h sp i j) ∧
      (∀ sp r c, ((Y.putScalar h1 v).cells X.view_.buf).view sp r c
        = (h.cells X.view_.buf).view sp r c) := by
  obtain ⟨h1, cpy, hc, hbuf, -, -, -, -, hframe⟩ := createCopy_ok h X
  have hcells : ∀ b, b < h.next →
      (MultiVector.putScalar h1
        { map_ := X.map_, view_ := cpy.view_, origView_ := cpy.origView_,
          whichVectors_ := cpy.whichVectors_ } v).cells b = h.cells b := by
    intro b hb
    rw [cells_putScalar_of_ne _ _ _ _ (by show b ≠ cpy.view_.buf; omega)]
    exact hframe b (by omega)
  refine ⟨h1, { map_ := X.map_, view_ := cpy.view_, origView_ := cpy.origView_,
                whichVectors_ := cpy.whichVectors_ }, ?_, hbuf, hcells, ?_, ?_⟩
  · simp [MultiVector.fromSource, hc, Except.map]
  · intro sp i j
    unfold MultiVector.entry DualView.get
    rw [hcells _ hX]
  · intro sp r c
    rw [hcells _ hX]

/-- Witness for C4 on the column view `demoColumnView`. -/
theorem C4_copy_is_isolated_witness :
    demoColumnView.view_.buf < demoHeap.next ∧
    ∃ h1 Y, MultiVector.fromSource demoHeap demoColumnView .Copy = .ok (h1, Y) ∧
      Y.view_.buf = demoHeap.next ∧
      (∀ b, b < demoHeap.next → (Y.putScalar h1 7).cells b = demoHeap.cells b) ∧
      (∀ sp i j, demoColumnView.entry (Y.putScalar h1 7) sp i j
        = demoColumnView.entry demoHeap sp i j) ∧
      (∀ sp r c, ((Y.putScalar h1 7).cells demoColumnView.view_.buf).view sp r c
        = (demoHeap.cells demoColumnView.view_.buf).view sp r c) :=
  ⟨by decide, C4_copy_is_isolated demoHeap demoColumnView 7 (by decide)⟩

end Tpetra

namespace Tpetra

/-! ## Lemmas on the local kernels -/

theorem foldl_update_range {S : Type} (g : Nat → S) (f0 : Nat → S) (n : Nat) (k : Nat) :
    ((List.range n).foldl (fun f j => Function.update f j (g j)) f0) k
      = if k < n then g k else f0 k := by
  induction n with
  | zero => simp
  | succ n ih =>
    rw [List.range_succ, List.foldl_append, List.foldl_cons, List.foldl_nil]
    by_cases hk : k = n
    · subst hk
      simp
    · rw [Function.update_noteq hk, ih]
      by_cases hlt : k < n
      · simp [hlt, Nat.lt_succ_of_lt hlt]
      · have : ¬ k < n + 1 := by omega
        simp [hlt, this]

theorem get_column_subviewAllCols {S : Type} (h : Heap S) (sp : MemSpace) (V : DualView)
    (n c i : Nat) : (column (subviewAllCols V (0, n)) c).get h sp i 0 = V.get h sp i c := by
  simp [column, subviewAllRows, subviewAllCols, subview, DualView.get]

theorem dimension_0_column_subviewAllCols (V : DualView) (n c : Nat) :
    (column (subviewAllCols V (0, n)) c).dimension_0 = n := by
  simp [column, subviewAllRows, subviewAllCols, subview]

theorem dimension_1_subviewAllCols (V : DualView) (n : Nat) :
    (subviewAllCols V (0, n)).dimension_1 = V.dimension_1 := by
  simp [subviewAllCols, subview]

theorem dimension_0_subviewAllCols (V : DualView) (n : Nat) :
    (subviewAllCols V (0, n)).dimension_0 = n := by
  simp [subviewAllCols, subview]

theorem dot_columns {S : Type} [LinearOrderedField S] (h : Heap S) (sp : MemSpace)
    (V W : DualView) (n c1 c2 : Nat) :
    KokkosBlas.dot h sp (column (subviewAllCols V (0, n)) c1)
        (column (subviewAllCols W (0, n)) c2)
      = ∑ i in Finset.range n, V.get h sp i c1 * W.get h sp i c2 := by
  unfold KokkosBlas.dot
  rw [dimension_0_column_subviewAllCols]
  simp only [get_column_subviewAllCols]

theorem sum_column {S : Type} [LinearOrderedField S] (h : Heap S) (sp : MemSpace)
    (V : DualView) (n c : Nat) :
    KokkosBlas.sum h sp (column (subviewAllCols V (0, n)) c)
      = ∑ i in Finset.range n, V.get h sp i c := by
  unfold KokkosBlas.sum
  rw [dimension_0_column_subviewAllCols]
  simp only [get_column_subviewAllCols]

theorem nrm1_column {S : Type} [LinearOrderedField S] (h : Heap S) (sp : MemSpace)
    (V : DualView) (n c : Nat) :
    KokkosBlas.nrm1 h sp (column (subviewAllCols V (0, n)) c)
      = ∑ i in Finset.range n, |V.get h sp i c| := by
  unfold KokkosBlas.nrm1
  rw [dimension_0_column_subviewAllCols]
  simp only [get_column_subviewAllCols]

theorem nrm2_squared_column {S : Type} [LinearOrderedField S] (h : Heap S) (sp : MemSpace)
    (V : DualView) (n c : Nat) :
    KokkosBlas.nrm2_squared h sp (column (subviewAllCols V (0, n)) c)
      = ∑ i in Finset.range n, |V.get h sp i c| * |V.get h sp i c| := by
  unfold KokkosBlas.nrm2_squared
  rw [dimension_0_column_subviewAllCols]
  simp only [get_column_subviewAllCols]

theorem nrmInf_column {S : Type} [LinearOrderedField S] (h : Heap S) (sp : MemSpace)
    (V : DualView) (n c : Nat) :
    KokkosBlas.nrmInf h sp (column (subviewAllCols V (0, n)) c)
      = (List.range n).foldl (fun m i => max m |V.get h sp i c|) 0 := by
  unfold KokkosBlas.nrmInf
  rw [dimension_0_column_subviewAllCols]
  simp only [get_column_subviewAllCols]

/-- What `lclDotImpl` leaves in slot `k` of the result. -/
theorem lclDotImpl_apply {S : Type} [LinearOrderedField S] (h : Heap S) (sp : MemSpace)
    (dotsOut : Nat → S) (X_lcl Y_lcl : DualView) (lclNumRows numVecs : Nat)
    (wX wY : List Nat) (cX cY : Bool) (k : Nat) (hk : k < numVecs)
    (hX : cX = true → X_lcl.dimension_1 = numVecs) :
    lclDotImpl h sp dotsOut X_lcl Y_lcl lclNumRows numVecs wX wY cX cY k
      = ∑ i in Finset.range lclNumRows,
          X_lcl.get h sp i (if cX = true then k else wX.getD k 0) *
          Y_lcl.get h sp i (if cY = true then k else wY.getD k 0) := by
  unfold lclDotImpl
  simp only []
  by_cases h0 : lclNumRows = 0
  · subst h0
    simp [hk]
  · rw [if_neg h0]
    by_cases hc : cX = true ∧ cY = true
    · rw [if_pos hc]
      have hd := hX hc.1
      rw [dimension_1_subviewAllCols, hd]
      by_cases h1 : numVecs = 1
      · rw [if_pos h1]
        have hk0 : k = 0 := by omega
        subst hk0
        simp only [hk, if_true, dot_columns, hc.1, hc.2]
      · rw [if_neg h1]
        simp only [hk, if_true, dot_columns, hc.1, hc.2]
    · rw [if_neg hc]
      rw [foldl_update_range (fun k =>
        KokkosBlas.dot h sp
          (column (subviewAllCols X_lcl (0, lclNumRows)) (if cX = true then k else wX.getD k 0))
          (column (subviewAllCols Y_lcl (0, lclNumRows)) (if cY = true then k else wY.getD k 0)))]
      rw [if_pos hk, dot_columns]

/-- What the local sums of `meanValue` hold in slot `k`. -/
theorem lclSumsOn_apply {S : Type} [LinearOrderedField S] (h : Heap S) (X : MultiVector)
    (sp : MemSpace) (k : Nat) (hk : k < X.getNumVectors) :
    lclSumsOn h X sp k = ∑ i in Finset.range X.getLocalLength, X.entry h sp i k := by
  unfold lclSumsOn MultiVector.entry MultiVector.physicalColumn
  simp only []
  by_cases hcs : X.isConstantStride = true
  · have hnv : X.getNumVectors = X.view_.dimension_1 := by simp [MultiVector.getNumVectors, hcs]
    rw [if_pos hcs, dimension_1_subviewAllCols, if_pos (by omega), sum_column]
    simp only [hcs, if_true]
  · rw [if_neg hcs]
    rw [foldl_update_range (fun j =>
      KokkosBlas.sum h sp (column (subviewAllCols X.view_ (0, X.getLocalLength))
        (X.whichVectors_.getD j 0)))]
    rw [if_pos hk, sum_column]
    simp only [hcs, Bool.false_eq_true, if_false]

/-! ## Lemmas on the all-reduce -/

theorem filterMap_eq_map_of_forall {α β : Type} (f : α → Option β) (g : α → β) (l : List α)
    (hf : ∀ a ∈ l, f a = some (g a)) : l.filterMap f = l.map g := by
  induction l with
  | nil => rfl
  | cons a l ih =>
    rw [List.filterMap_cons, hf a (List.mem_cons_self _ _), List.map_cons,
      ih (fun b hb => hf b (List.mem_cons_of_mem _ hb))]

theorem filterMap_eq_map_filter {α β : Type} (f : α → Option β) (g : α → β) (P : α → Bool)
    (l : List α) (hf : ∀ a ∈ l, f a = if P a = true then some (g a) else none) :
    l.filterMap f = (l.filter P).map g := by
  induction l with
  | nil => rfl
  | cons a l ih =>
    have ha := hf a (List.mem_cons_self _ _)
    have ih' := ih (fun b hb => hf b (List.mem_cons_of_mem _ hb))
    by_cases hP : P a = true
    · rw [List.filterMap_cons, ha, if_pos hP, List.filter_cons_of_pos hP, List.map_cons, ih']
    · rw [List.filterMap_cons, ha, if_neg hP, List.filter_cons_of_neg hP, ih']

theorem reduceAll_sum_apply {S : Type} [LinearOrderedField S] (count : Nat)
    (sendBufs : List (Nat → S)) (recv : Nat → S) (k : Nat) (hk : k < count) :
    reduceAll .REDUCE_SUM count sendBufs recv k = (sendBufs.map (fun b => b k)).sum := by
  simp [reduceAll, hk]

end Tpetra

namespace Tpetra

/-! ## Lemmas on `dot` -/

theorem DotCall.dot_localPhase_eq {S : Type} [LinearOrderedField S] (c : DotCall S)
    (hn : c.X.getNumVectors ≠ 0) (hl : c.X.getLocalLength = c.A.getLocalLength)
    (hv : c.X.getNumVectors = c.A.getNumVectors) (hd : c.numDots = c.X.getNumVectors) :
    c.localPhase = .ok (some (c.heapAfter,
      lclDotImpl c.heapAfter c.space c.dots c.X.view_ c.A.view_ c.X.getLocalLength
        c.X.getNumVectors c.X.whichVectors_ c.A.whichVectors_ c.X.isConstantStride
        c.A.isConstantStride)) := by
  unfold DotCall.localPhase DotCall.heapAfter DotCall.space MultiVector.current
  simp only [hn, if_false, ne_eq, hl, not_true_eq_false, hd]
  rw [if_neg (by rw [← hv]; simp)]
  split <;> rfl

theorem DotCall.dot_lcl_apply {S : Type} [LinearOrderedField S] (c : DotCall S) (k : Nat)
    (hk : k < c.X.getNumVectors) :
    lclDotImpl c.heapAfter c.space c.dots c.X.view_ c.A.view_ c.X.getLocalLength
        c.X.getNumVectors c.X.whichVectors_ c.A.whichVectors_ c.X.isConstantStride
        c.A.isConstantStride k = c.localDot k := by
  rw [lclDotImpl_apply _ _ _ _ _ _ _ _ _ _ _ _ hk]
  · rfl
  · intro hcs
    simp [MultiVector.getNumVectors, hcs]

end Tpetra

namespace Tpetra

end Tpetra

namespace Tpetra

/-! ## Lemmas on `meanValue` -/

theorem MeanCall.mean_localPhase_eq {S : Type} [LinearOrderedField S] (c : MeanCall S)
    (hm : c.numMeans = c.X.getNumVectors) :
    c.localPhase = .ok (lclSumsOn c.heap c.X (c.X.current c.heap)) := by
  unfold MeanCall.localPhase MultiVector.current
  simp only [hm, ne_eq, not_true_eq_false, if_false]
  split <;> rfl

theorem MeanCall.mean_lcl_apply {S : Type} [LinearOrderedField S] (c : MeanCall S) (k : Nat)
    (hk : k < c.X.getNumVectors) :
    lclSumsOn c.heap c.X (c.X.current c.heap) k = c.X.localSum c.heap k := by
  rw [lclSumsOn_apply _ _ _ _ hk]
  rfl

/-- The result of `meanValue` on a process whose map is not distributed: the
local column sum times the reciprocal of the global length. -/
theorem MeanCall.meanValue_not_distributed {S : Type} [LinearOrderedField S] (c : MeanCall S)
    (bufs : List (Nat → S)) (hm : c.numMeans = c.X.getNumVectors)
    (hnd : c.X.isDistributed = false) :
    ∃ r, c.meanValue bufs = .ok r ∧
      ∀ k, k < c.X.getNumVectors →
        r k = c.X.localSum c.heap k * (1 / (c.X.getGlobalLength : S)) := by
  unfold MeanCall.meanValue
  rw [MeanCall.mean_localPhase_eq c hm]
  refine ⟨_, rfl, ?_⟩
  intro k hk
  simp only [hnd, Bool.false_eq_true, and_false, if_false, hm, hk, if_true]
  rw [MeanCall.mean_lcl_apply c k hk]

/-- On a process whose map is not distributed, whose global length equals its
positive local length and whose single column holds `v` in every row,
`meanValue` returns `v`. -/
theorem MeanCall.meanValue_replicated_const {S : Type} [LinearOrderedField S] (c : MeanCall S)
    (bufs : List (Nat → S)) (v : S) (hnd : c.X.isDistributed = false)
    (hv : c.X.getNumVectors = 1) (hm : c.numMeans = 1)
    (hg : c.X.getGlobalLength = c.X.getLocalLength) (hpos : 0 < c.X.getLocalLength)
    (hval : ∀ i, i < c.X.getLocalLength → c.X.value c.heap i 0 = v) :
    ∃ r, c.meanValue bufs = .ok r ∧ r 0 = v := by
  obtain ⟨r, hr, hk⟩ := MeanCall.meanValue_not_distributed c bufs (by omega) hnd
  refine ⟨r, hr, ?_⟩
  rw [hk 0 (by omega), hg]
  unfold MultiVector.localSum
  rw [Finset.sum_congr rfl (fun i hi => hval i (Finset.mem_range.mp hi))]
  rw [Finset.sum_const, Finset.card_range, nsmul_eq_mul]
  have hne : (c.X.getLocalLength : S) ≠ 0 := by
    exact_mod_cast Nat.pos_iff_ne_zero.mp hpos
  field_simp

end Tpetra

namespace Tpetra

theorem meanValueAll_get {S : Type} [LinearOrderedField S] (cs : List (MeanCall S))
    (p : Nat) (hp : p < cs.length) :
    (meanValueAll cs)[p]? = some ((cs[p]).meanValue (cs.filterMap MeanCall.sendBuf)) := by
  simp [meanValueAll, List.getElem?_map, List.getElem?_eq_getElem hp]

theorem replicatedCalls_getElem (q : Nat) (hq : q < replicatedCalls.length) :
    replicatedCalls[q] = ⟨rankHeap q, replicatedBlock, 1, fun _ => 0⟩ := by
  simp [replicatedCalls]

/-- C6 (as stated, refuted): on the four processes of `replicatedCalls`, whose
map is not distributed and whose entries are `r + 1` on process `r`, it is not
the case that `meanValue` returns 5/2 on every process. -/
theorem C6_meanValue_replicated_counterexample :
    ¬ ∀ p, p < 4 → ∃ r, (meanValueAll replicatedCalls)[p]? = some (.ok r) ∧ r 0 = 5 / 2 := by
  intro H
  obtain ⟨r, hr, h52⟩ := H 0 (by decide)
  have hlen : 0 < replicatedCalls.length := by decide
  rw [meanValueAll_get _ 0 hlen] at hr
  obtain ⟨r', hr', h1⟩ := MeanCall.meanValue_replicated_const (replicatedCalls[0])
    (replicatedCalls.filterMap MeanCall.sendBuf) 1 rfl rfl rfl rfl Nat.zero_lt_two
    (by intro i _; simp [replicatedCalls, MultiVector.value, MultiVector.entry, DualView.get,
          rankHeap, DualViewData.view, MultiVector.current]
        split <;> rfl)
  rw [hr'] at hr
  have hrr : r' = r := by
    injection hr with hr
    injection hr
  rw [← hrr, h1] at h52
  norm_num at h52

/-- C6 (amended): on processes whose map is not distributed (no all-reduce takes
place), with a single column, global length equal to the positive local length,
and every entry on process `r` equal to `r + 1`, `meanValue` returns `r + 1` on
process `r`. -/
theorem C6_meanValue_replicated_is_local {S : Type} [LinearOrderedField S]
    (cs : List (MeanCall S))
    (hrep : ∀ c ∈ cs, c.X.isDistributed = false ∧ c.X.getNumVectors = 1 ∧ c.numMeans = 1 ∧
      c.X.getGlobalLength = c.X.getLocalLength ∧ 0 < c.X.getLocalLength)
    (hval : ∀ q (hq : q < cs.length) i, i < (cs[q]).X.getLocalLength →
      (cs[q]).X.value (cs[q]).heap i 0 = (q : S) + 1)
    (p : Nat) (hp : p < cs.length) :
    ∃ r, (meanValueAll cs)[p]? = some (.ok r) ∧ r 0 = (p : S) + 1 := by
  obtain ⟨hnd, hv, hm, hg, hpos⟩ := hrep _ (List.getElem_mem hp)
  obtain ⟨r, hr, h1⟩ := MeanCall.meanValue_replicated_const (cs[p])
    (cs.filterMap MeanCall.sendBuf) ((p : S) + 1) hnd hv hm hg hpos (hval p hp)
  exact ⟨r, by rw [meanValueAll_get _ p hp, hr], h1⟩

/-- Witness for C6 (amended): the four processes of `replicatedCalls`, process 3. -/
theorem C6_meanValue_replicated_is_local_witness :
    replicatedCalls.length = 4 ∧
    ∃ r, (meanValueAll replicatedCalls)[3]? = some (.ok r) ∧ r 0 = ((3 : Nat) : ℚ) + 1 :=
  ⟨by decide,
    C6_meanValue_replicated_is_local replicatedCalls
      (by
        intro c hc
        simp only [replicatedCalls, List.mem_map, List.mem_range] at hc
        obtain ⟨r, -, rfl⟩ := hc
        exact ⟨rfl, rfl, rfl, rfl, Nat.zero_lt_two⟩)
      (by
        intro q hq i _
        rw [replicatedCalls_getElem q hq]
        simp only [MultiVector.value, MultiVector.entry, DualView.get, rankHeap,
          DualViewData.view, MultiVector.current]
        split <;> rfl)
      3 (by decide)⟩

/-- C7: on processes that share a distributed map with a non-null communicator
and global length `N > 0`, `meanValue` succeeds on every process and slot `k` of
its result is the sum over all processes of the local sums of logical column `k`
(resolved through the column selection, read in the newest residency), divided
by `N`; the right side is the same for every process. -/
theorem C7_meanValue_is_global_mean {S : Type} [LinearOrderedField S] (cs : List (MeanCall S))
    (n N : Nat) (_hN : 0 < N)
    (hdist : ∀ c ∈ cs, c.X.isDistributed = true ∧ c.X.getComm.isSome = true)
    (hshape : ∀ c ∈ cs, c.X.getNumVectors = n ∧ c.numMeans = n ∧ c.X.getGlobalLength = N)
    (p : Nat) (hp : p < cs.length) :
    ∃ r, (meanValueAll cs)[p]? = some (.ok r) ∧
      ∀ k, k < n → r k = (cs.map (fun c => c.X.localSum c.heap k)).sum / (N : S) := by
  have hmem : cs[p] ∈ cs := List.getElem_mem _
  obtain ⟨hv, hm, hg⟩ := hshape _ hmem
  obtain ⟨hdi, hco⟩ := hdist _ hmem
  have hbufs : cs.filterMap MeanCall.sendBuf
      = cs.map (fun c => lclSumsOn c.heap c.X (c.X.current c.heap)) := by
    apply filterMap_eq_map_of_forall
    intro c hc
    obtain ⟨hv', hm', -⟩ := hshape c hc
    obtain ⟨hdi', hco'⟩ := hdist c hc
    unfold MeanCall.sendBuf
    rw [MeanCall.mean_localPhase_eq c (by omega)]
    simp [hdi', hco']
  rw [meanValueAll_get _ p hp]
  unfold MeanCall.meanValue
  rw [MeanCall.mean_localPhase_eq _ (by omega)]
  refine ⟨_, rfl, ?_⟩
  intro k hk
  simp only [hdi, hco, and_self, if_true, hm, hk, hg]
  rw [reduceAll_sum_apply _ _ _ _ (by omega), hbufs, List.map_map, ← div_eq_mul_one_div]
  congr 2
  apply List.map_congr_left
  intro c hc
  obtain ⟨hv', -, -⟩ := hshape c hc
  exact MeanCall.mean_lcl_apply c k (by omega)

/-- Witness for C7: the four processes of `distributedCalls` (one row each,
global length 4), process 0. -/
theorem C7_meanValue_is_global_mean_witness :
    (0 : Nat) < 4 ∧
    ∃ r, (meanValueAll distributedCalls)[0]? = some (.ok r) ∧
      ∀ k, k < 1 →
        r k = (distributedCalls.map (fun c => c.X.localSum c.heap k)).sum / ((4 : Nat) : ℚ) :=
  ⟨by decide,
    C7_meanValue_is_global_mean distributedCalls 1 4 (by decide)
      (by
        intro c hc
        simp only [distributedCalls, List.mem_map, List.mem_range] at hc
        obtain ⟨r, -, rfl⟩ := hc
        exact ⟨rfl, rfl⟩)
      (by
        intro c hc
        simp only [distributedCalls, List.mem_map, List.mem_range] at hc
        obtain ⟨r, -, rfl⟩ := hc
        exact ⟨rfl, rfl, rfl⟩)
      0 (by decide)⟩

end Tpetra

namespace Tpetra

end Tpetra

namespace Tpetra

/-! ## Lemmas on the norms -/

theorem le_foldl_max_init {α S : Type} [LinearOrder S] (f : α → S) (l : List α) :
    ∀ a : S, a ≤ l.foldl (fun m x => max m (f x)) a := by
  induction l with
  | nil => intro a; exact le_refl a
  | cons x l ih => intro a; exact le_trans (le_max_left a (f x)) (ih _)

theorem le_foldl_max_of_mem {α S : Type} [LinearOrder S] (f : α → S) (l : List α) :
    ∀ (a : S) (x : α), x ∈ l → f x ≤ l.foldl (fun m x => max m (f x)) a := by
  induction l with
  | nil => intro a x hx; cases hx
  | cons y l ih =>
    intro a x hx
    rcases List.mem_cons.mp hx with rfl | hx
    · exact le_trans (le_max_right a (f x)) (le_foldl_max_init f l _)
    · exact ih _ x hx

theorem foldl_max_eq {α S : Type} [LinearOrder S] (f : α → S) (l : List α) :
    ∀ a : S, l.foldl (fun m x => max m (f x)) a = a ∨
      ∃ x ∈ l, l.foldl (fun m x => max m (f x)) a = f x := by
  induction l with
  | nil => intro a; exact Or.inl rfl
  | cons y l ih =>
    intro a
    rcases ih (max a (f y)) with h | ⟨x, hx, h⟩
    · rcases max_choice a (f y) with hm | hm
      · left; rw [List.foldl_cons, h, hm]
      · right; exact ⟨y, List.mem_cons_self _ _, by rw [List.foldl_cons, h, hm]⟩
    · right; exact ⟨x, List.mem_cons_of_mem _ hx, by rw [List.foldl_cons, h]⟩

theorem lclNormImpl_eq_ok {S : Type} [LinearOrderedField S] (h : Heap S) (sp : MemSpace)
    (normsOut : Nat → S) (X_lcl : DualView) (lclNumRows numVecs : Nat) (wv : List Nat)
    (cs : Bool) (whichNorm : EWhichNormImpl)
    (hc : cs = true → X_lcl.dimension_1 = numVecs) (hnc : numVecs ≤ X_lcl.dimension_1) :
    lclNormImpl h sp normsOut X_lcl lclNumRows numVecs wv cs whichNorm
      = .ok (lclNormKernels h sp normsOut X_lcl lclNumRows numVecs wv cs whichNorm) := by
  unfold lclNormImpl
  simp only [dimension_0_subviewAllCols, dimension_1_subviewAllCols, ne_eq, not_true_eq_false,
    false_or]
  rw [if_neg, if_neg]
  · rintro ⟨-, -, hlt⟩
    omega
  · rintro ⟨-, hcs, hne⟩
    exact hne (hc hcs)

theorem lclNormKernels_apply {S : Type} [LinearOrderedField S] (h : Heap S) (sp : MemSpace)
    (normsOut : Nat → S) (X_lcl : DualView) (lclNumRows numVecs : Nat) (wv : List Nat)
    (cs : Bool) (whichNorm : EWhichNormImpl) (k : Nat) (hk : k < numVecs)
    (hc : cs = true → X_lcl.dimension_1 = numVecs) :
    lclNormKernels h sp normsOut X_lcl lclNumRows numVecs wv cs whichNorm k
      = normKernel h sp whichNorm
          (column (subviewAllCols X_lcl (0, lclNumRows)) (if cs = true then k else wv.getD k 0)) := by
  unfold lclNormKernels
  simp only []
  by_cases h0 : lclNumRows = 0
  · subst h0
    rw [if_pos rfl]
    simp only [hk, if_true]
    cases whichNorm <;>
      simp only [normKernel, KokkosBlas.nrmInf, KokkosBlas.nrm1, KokkosBlas.nrm2_squared,
        dimension_0_column_subviewAllCols, Finset.range_zero, Finset.sum_empty, List.range_zero,
        List.foldl_nil]
  · rw [if_neg h0]
    by_cases hcs : cs = true
    · rw [if_pos hcs, dimension_1_subviewAllCols, hc hcs]
      simp only [hk, if_true, hcs]
    · rw [if_neg hcs]
      rw [foldl_update_range (fun k => normKernel h sp whichNorm
        (column (subviewAllCols X_lcl (0, lclNumRows)) (if cs = true then k else wv.getD k 0)))]
      rw [if_pos hk]

theorem NormCall.norm_localPhase_eq {S : Type} [LinearOrderedField S] (c : NormCall S)
    (whichNorm : EWhichNorm) (hn : c.X.getNumVectors ≠ 0) (hnn : c.X.getNumVectors ≤ c.numNorms)
    (hcols : c.X.getNumVectors ≤ c.X.view_.dimension_1) :
    c.localPhase whichNorm = .ok (some (c.lcl whichNorm)) := by
  have hc : c.X.isConstantStride = true → c.X.view_.dimension_1 = c.X.getNumVectors := by
    intro hcs
    simp [MultiVector.getNumVectors, hcs]
  unfold NormCall.localPhase NormCall.lcl MultiVector.current
  simp only [hn, if_false]
  rw [if_neg (by omega)]
  split <;> rw [lclNormImpl_eq_ok _ _ _ _ _ _ _ _ _ hc hcols] <;> rfl

theorem NormCall.norm_localPhase_zero {S : Type} [LinearOrderedField S] (c : NormCall S)
    (whichNorm : EWhichNorm) (hn : c.X.getNumVectors = 0) :
    c.localPhase whichNorm = .ok none := by
  unfold NormCall.localPhase
  simp [hn]

theorem NormCall.norm_lcl_apply {S : Type} [LinearOrderedField S] (c : NormCall S)
    (whichNorm : EWhichNorm) (k : Nat) (hk : k < c.X.getNumVectors) :
    c.lcl whichNorm k = normKernel c.heap (c.X.current c.heap) (lclNormType whichNorm)
      (column (subviewAllCols c.X.view_ (0, c.X.getLocalLength)) (c.X.physicalColumn k)) := by
  unfold NormCall.lcl
  rw [lclNormKernels_apply _ _ _ _ _ _ _ _ _ _ hk]
  · rfl
  · intro hcs
    simp [MultiVector.getNumVectors, hcs]

theorem NormCall.lcl_two {S : Type} [LinearOrderedField S] (c : NormCall S) (k : Nat)
    (hk : k < c.X.getNumVectors) : c.lcl .NORM_TWO k = c.X.localSumSq c.heap k := by
  rw [NormCall.norm_lcl_apply c _ k hk]
  show KokkosBlas.nrm2_squared _ _ _ = _
  rw [nrm2_squared_column]
  rfl

theorem NormCall.lcl_one {S : Type} [LinearOrderedField S] (c : NormCall S) (k : Nat)
    (hk : k < c.X.getNumVectors) : c.lcl .NORM_ONE k = c.X.localAbsSum c.heap k := by
  rw [NormCall.norm_lcl_apply c _ k hk]
  show KokkosBlas.nrm1 _ _ _ = _
  rw [nrm1_column]
  rfl

theorem NormCall.lcl_inf {S : Type} [LinearOrderedField S] (c : NormCall S) (k : Nat)
    (hk : k < c.X.getNumVectors) : c.lcl .NORM_INF k = c.X.localMaxAbs c.heap k := by
  rw [NormCall.norm_lcl_apply c _ k hk]
  show KokkosBlas.nrmInf _ _ _ = _
  rw [nrmInf_column]
  rfl

theorem NormCall.norm_sendBuf_eq {S : Type} [LinearOrderedField S] (c : NormCall S)
    (whichNorm : EWhichNorm) (hn : c.X.getNumVectors ≠ 0) (hnn : c.X.getNumVectors ≤ c.numNorms)
    (hcols : c.X.getNumVectors ≤ c.X.view_.dimension_1) :
    NormCall.sendBuf whichNorm c
      = if c.X.participates = true then some (c.lcl whichNorm) else none := by
  unfold NormCall.sendBuf MultiVector.participates
  rw [NormCall.norm_localPhase_eq c whichNorm hn hnn hcols]
  simp

theorem normAll_get {S : Type} [LinearOrderedField S] (sqrt : S → S)
    (whichNorm : EWhichNorm) (cs : List (NormCall S)) (p : Nat) (hp : p < cs.length) :
    (normAll sqrt whichNorm cs)[p]?
      = some ((cs[p]).normImpl sqrt whichNorm (cs.filterMap (NormCall.sendBuf whichNorm))) := by
  simp [normAll, List.getElem?_map, List.getElem?_eq_getElem hp]

/-- Characterisation of the local maximum magnitude. -/
theorem localMaxAbs_spec {S : Type} [LinearOrderedField S] (h : Heap S) (X : MultiVector)
    (k : Nat) :
    (∀ i, i < X.getLocalLength → |X.value h i k| ≤ X.localMaxAbs h k) ∧
    ((∃ i, i < X.getLocalLength ∧ X.localMaxAbs h k = |X.value h i k|) ∨
      (X.getLocalLength = 0 ∧ X.localMaxAbs h k = 0)) := by
  unfold MultiVector.localMaxAbs
  constructor
  · intro i hi
    exact le_foldl_max_of_mem (fun i => |X.value h i k|) _ 0 i (List.mem_range.mpr hi)
  · rcases foldl_max_eq (fun i => |X.value h i k|) (List.range X.getLocalLength) 0 with
      h0 | ⟨i, hi, he⟩
    · by_cases hr : X.getLocalLength = 0
      · exact Or.inr ⟨hr, h0⟩
      · left
        refine ⟨0, by omega, ?_⟩
        have hle := le_foldl_max_of_mem (fun i => |X.value h i k|)
          (List.range X.getLocalLength) 0 0 (List.mem_range.mpr (by omega))
        rw [h0] at hle ⊢
        exact le_antisymm (abs_nonneg _) hle
    · exact Or.inl ⟨i, List.mem_range.mp hi, he⟩

end Tpetra

namespace Tpetra

theorem participates_iff (X : MultiVector) :
    X.participates = true ↔ X.isDistributed = true ∧ X.getComm.isSome = true := by
  simp [MultiVector.participates]

theorem NormCall.filterMap_sendBuf {S : Type} [LinearOrderedField S] (whichNorm : EWhichNorm)
    (cs : List (NormCall S)) (n : Nat) (hn : n ≠ 0)
    (hshape : ∀ c ∈ cs, c.X.getNumVectors = n ∧ n ≤ c.numNorms ∧ n ≤ c.X.view_.dimension_1) :
    cs.filterMap (NormCall.sendBuf whichNorm)
      = (cs.filter (fun c => c.X.participates)).map (fun c => c.lcl whichNorm) := by
  apply filterMap_eq_map_filter
  intro c hc
  obtain ⟨hv, hnn, hcols⟩ := hshape c hc
  exact NormCall.norm_sendBuf_eq c whichNorm (by omega) (by omega) (by omega)

/-- C8: slot `k` of `norm2` is the square root of the combined sum of squares.
Every process that enters the all-reduce hands over its local sum of squared
magnitudes (no square root); its result is the square root of the sum of those
contributions, and a process that does not enter the all-reduce returns the
square root of its local sum of squares: the square root is applied once, after
the global phase. -/
theorem C8_norm2_sqrt_after_reduction {S : Type} [LinearOrderedField S] (sqrt : S → S)
    (cs : List (NormCall S)) (n : Nat)
    (hshape : ∀ c ∈ cs, c.X.getNumVectors = n ∧ n ≤ c.numNorms ∧ n ≤ c.X.view_.dimension_1)
    (p : Nat) (hp : p < cs.length) :
    ∃ r, (norm2All sqrt cs)[p]? = some (.ok r) ∧
      ∀ k, k < n →
        (∀ c ∈ cs, c.X.participates = true →
          ∃ b, NormCall.sendBuf .NORM_TWO c = some b ∧ b k = c.X.localSumSq c.heap k) ∧
        ((cs[p]).X.participates = true →
          r k = sqrt (((cs.filter (fun c => c.X.participates)).map
            (fun c => c.X.localSumSq c.heap k)).sum)) ∧
        ((cs[p]).X.participates = false →
          r k = sqrt ((cs[p]).X.localSumSq (cs[p]).heap k)) := by
  have hmem : cs[p] ∈ cs := List.getElem_mem _
  obtain ⟨hv, hnn, hcols⟩ := hshape _ hmem
  unfold norm2All
  rw [normAll_get _ _ _ p hp]
  unfold NormCall.normImpl
  by_cases hn : n = 0
  · subst hn
    rw [NormCall.norm_localPhase_zero _ _ hv]
    exact ⟨_, rfl, fun k hk => absurd hk (Nat.not_lt_zero k)⟩
  · rw [NormCall.norm_localPhase_eq _ _ (by omega) (by omega) (by omega)]
    refine ⟨_, rfl, ?_⟩
    intro k hk
    refine ⟨?_, ?_, ?_⟩
    · intro c hc hpart
      obtain ⟨hv', hnn', hcols'⟩ := hshape c hc
      refine ⟨c.lcl .NORM_TWO, ?_, NormCall.lcl_two c k (by omega)⟩
      rw [NormCall.norm_sendBuf_eq c _ (by omega) (by omega) (by omega), if_pos hpart]
    · intro hpart
      have hdc := (participates_iff _).mp hpart
      have hty : lclNormType .NORM_TWO = .IMPL_NORM_TWO := rfl
      simp only [gblNormImpl, hty, if_true, hv, hk, hdc.1, hdc.2, and_self]
      rw [if_neg (by decide), reduceAll_sum_apply _ _ _ _ hk,
        NormCall.filterMap_sendBuf _ cs n hn hshape, List.map_map]
      congr 2
      apply List.map_congr_left
      intro c hc
      obtain ⟨hv', -, -⟩ := hshape c (List.mem_of_mem_filter hc)
      exact NormCall.lcl_two c k (by omega)
    · intro hpart
      have hdc : ¬ ((cs[p]).X.isDistributed = true ∧ (cs[p]).X.getComm.isSome = true) := by
        intro hh
        rw [(participates_iff _).mpr hh] at hpart
        exact Bool.noConfusion hpart
      have hty : lclNormType .NORM_TWO = .IMPL_NORM_TWO := rfl
      simp only [gblNormImpl, hty, if_true, hv, hk]
      rw [if_neg hdc, NormCall.lcl_two _ k (by omega)]

/-- Witness for C8: the two processes of `demoNormCalls`, process 0, with the
identity in the place of the square root. -/
theorem C8_norm2_sqrt_after_reduction_witness :
    (∀ c ∈ demoNormCalls,
      c.X.getNumVectors = 2 ∧ 2 ≤ c.numNorms ∧ 2 ≤ c.X.view_.dimension_1) ∧
    ∃ r, (norm2All id demoNormCalls)[0]? = some (.ok r) ∧
      ∀ k, k < 2 →
        (∀ c ∈ demoNormCalls, c.X.participates = true →
          ∃ b, NormCall.sendBuf .NORM_TWO c = some b ∧ b k = c.X.localSumSq c.heap k) ∧
        ((demoNormCalls[0]).X.participates = true →
          r k = id (((demoNormCalls.filter (fun c => c.X.participates)).map
            (fun c => c.X.localSumSq c.heap k)).sum)) ∧
        ((demoNormCalls[0]).X.participates = false →
          r k = id ((demoNormCalls[0]).X.localSumSq (demoNormCalls[0]).heap k)) :=
  have hshape : ∀ c ∈ demoNormCalls,
      c.X.getNumVectors = 2 ∧ 2 ≤ c.numNorms ∧ 2 ≤ c.X.view_.dimension_1 := by
    intro c hc
    simp only [demoNormCalls, List.mem_cons, List.mem_singleton, List.not_mem_nil,
      or_false] at hc
    rcases hc with rfl | rfl <;> exact ⟨rfl, by decide, by decide⟩
  ⟨hshape, C8_norm2_sqrt_after_reduction id demoNormCalls 2 hshape 0 (by decide)⟩

end Tpetra

namespace Tpetra

theorem reduceAll_max_spec {S : Type} [LinearOrderedField S] (count : Nat)
    (sendBufs : List (Nat → S)) (recv : Nat → S) (k : Nat) (hk : k < count)
    (hne : sendBufs ≠ []) :
    (∀ b ∈ sendBufs, b k ≤ reduceAll .REDUCE_MAX count sendBufs recv k) ∧
    ∃ b ∈ sendBufs, reduceAll .REDUCE_MAX count sendBufs recv k = b k := by
  cases sendBufs with
  | nil => exact absurd rfl hne
  | cons b bs =>
    simp only [reduceAll, hk, if_true]
    constructor
    · intro c hc
      rcases List.mem_cons.mp hc with rfl | hc
      · exact le_foldl_max_init (fun c : Nat → S => c k) bs _
      · exact le_foldl_max_of_mem (fun c : Nat → S => c k) bs _ c hc
    · rcases foldl_max_eq (fun c : Nat → S => c k) bs (b k) with h0 | ⟨c, hc, he⟩
      · exact ⟨b, List.mem_cons_self _ _, h0⟩
      · exact ⟨c, List.mem_cons_of_mem _ hc, he⟩

theorem filter_participates_eq_self {S : Type} (cs : List (NormCall S))
    (hdist : ∀ c ∈ cs, c.X.isDistributed = true ∧ c.X.getComm.isSome = true) :
    cs.filter (fun c => c.X.participates) = cs := by
  rw [List.filter_eq_self]
  intro c hc
  exact (participates_iff _).mpr (hdist c hc)

/-- C10: over a distributed map with a non-null communicator, slot `k` of
`normInf` is the greatest of the processes' local maxima of the magnitudes of
logical column `k` (a max-reduction: it bounds every local maximum and equals one
of them, and each local maximum bounds the magnitudes of the local rows and is
one of them, or zero on a process without rows), while slot `k` of `norm1` is
the sum over the processes of the local sums of magnitudes (a sum-reduction). -/
theorem C10_normInf_max_norm1_sum {S : Type} [LinearOrderedField S] (sqrt : S → S)
    (cs : List (NormCall S)) (n : Nat)
    (hdist : ∀ c ∈ cs, c.X.isDistributed = true ∧ c.X.getComm.isSome = true)
    (hshape : ∀ c ∈ cs, c.X.getNumVectors = n ∧ n ≤ c.numNorms ∧ n ≤ c.X.view_.dimension_1)
    (p : Nat) (hp : p < cs.length) :
    (∃ r, (normInfAll sqrt cs)[p]? = some (.ok r) ∧
      ∀ k, k < n →
        (∀ c ∈ cs, c.X.localMaxAbs c.heap k ≤ r k) ∧
        (∃ c ∈ cs, r k = c.X.localMaxAbs c.heap k) ∧
        (∀ c ∈ cs,
          (∀ i, i < c.X.getLocalLength → |c.X.value c.heap i k| ≤ c.X.localMaxAbs c.heap k) ∧
          ((∃ i, i < c.X.getLocalLength ∧ c.X.localMaxAbs c.heap k = |c.X.value c.heap i k|) ∨
            (c.X.getLocalLength = 0 ∧ c.X.localMaxAbs c.heap k = 0)))) ∧
    (∃ r, (norm1All sqrt cs)[p]? = some (.ok r) ∧
      ∀ k, k < n → r k = (cs.map (fun c => c.X.localAbsSum c.heap k)).sum) := by
  have hmem : cs[p] ∈ cs := List.getElem_mem _
  obtain ⟨hv, hnn, hcols⟩ := hshape _ hmem
  obtain ⟨hdi, hco⟩ := hdist _ hmem
  unfold normInfAll norm1All
  rw [normAll_get _ _ _ p hp, normAll_get _ _ _ p hp]
  unfold NormCall.normImpl
  by_cases hn : n = 0
  · subst hn
    rw [NormCall.norm_localPhase_zero _ _ hv, NormCall.norm_localPhase_zero _ _ hv]
    exact ⟨⟨_, rfl, fun k hk => absurd hk (Nat.not_lt_zero k)⟩,
      ⟨_, rfl, fun k hk => absurd hk (Nat.not_lt_zero k)⟩⟩
  · rw [NormCall.norm_localPhase_eq _ _ (by omega) (by omega) (by omega),
      NormCall.norm_localPhase_eq _ _ (by omega) (by omega) (by omega)]
    have hne : cs ≠ [] := by
      intro he
      rw [he] at hp
      exact Nat.not_lt_zero _ hp
    constructor
    · refine ⟨_, rfl, ?_⟩
      intro k hk
      have hty : lclNormType .NORM_INF = .IMPL_NORM_INF := rfl
      simp only [gblNormImpl, hty, if_true, hv, hdi, hco, and_self]
      rw [if_neg (by decide), NormCall.filterMap_sendBuf _ cs n hn hshape,
        filter_participates_eq_self cs hdist]
      obtain ⟨hle, b, hb, hbe⟩ := reduceAll_max_spec n (cs.map (fun c => c.lcl .NORM_INF))
        ((cs[p]).lcl .NORM_INF) k hk (by simpa using hne)
      refine ⟨?_, ?_, fun c _ => localMaxAbs_spec c.heap c.X k⟩
      · intro c hc
        obtain ⟨hv', -, -⟩ := hshape c hc
        rw [← NormCall.lcl_inf c k (by omega)]
        exact hle _ (List.mem_map.mpr ⟨c, hc, rfl⟩)
      · obtain ⟨c, hc, rfl⟩ := List.mem_map.mp hb
        obtain ⟨hv', -, -⟩ := hshape c hc
        exact ⟨c, hc, by rw [hbe, NormCall.lcl_inf c k (by omega)]⟩
    · refine ⟨_, rfl, ?_⟩
      intro k hk
      have hty : lclNormType .NORM_ONE = .IMPL_NORM_ONE := rfl
      simp only [gblNormImpl, hty, hv, hdi, hco, and_self, if_true]
      rw [if_neg (by decide), if_neg (by decide), reduceAll_sum_apply _ _ _ _ hk,
        NormCall.filterMap_sendBuf _ cs n hn hshape, filter_participates_eq_self cs hdist,
        List.map_map]
      congr 1
      apply List.map_congr_left
      intro c hc
      obtain ⟨hv', -, -⟩ := hshape c hc
      exact NormCall.lcl_one c k (by omega)

end Tpetra

namespace Tpetra

/-- Witness for C10: the two processes of `demoNormCalls`, process 1. -/
theorem C10_normInf_max_norm1_sum_witness :
    (∀ c ∈ demoNormCalls, c.X.isDistributed = true ∧ c.X.getComm.isSome = true) ∧
    (∃ r, (normInfAll id demoNormCalls)[1]? = some (.ok r) ∧
      ∀ k, k < 2 →
        (∀ c ∈ demoNormCalls, c.X.localMaxAbs c.heap k ≤ r k) ∧
        (∃ c ∈ demoNormCalls, r k = c.X.localMaxAbs c.heap k) ∧
        (∀ c ∈ demoNormCalls,
          (∀ i, i < c.X.getLocalLength → |c.X.value c.heap i k| ≤ c.X.localMaxAbs c.heap k) ∧
          ((∃ i, i < c.X.getLocalLength ∧ c.X.localMaxAbs c.heap k = |c.X.value c.heap i k|) ∨
            (c.X.getLocalLength = 0 ∧ c.X.localMaxAbs c.heap k = 0)))) ∧
    (∃ r, (norm1All id demoNormCalls)[1]? = some (.ok r) ∧
      ∀ k, k < 2 → r k = (demoNormCalls.map (fun c => c.X.localAbsSum c.heap k)).sum) :=
  have hdist : ∀ c ∈ demoNormCalls, c.X.isDistributed = true ∧ c.X.getComm.isSome = true := by
    intro c hc
    simp only [demoNormCalls, List.mem_cons, List.mem_singleton, List.not_mem_nil,
      or_false] at hc
    rcases hc with rfl | rfl <;> exact ⟨rfl, rfl⟩
  ⟨hdist,
    C10_normInf_max_norm1_sum id demoNormCalls 2 hdist
      (by
        intro c hc
        simp only [demoNormCalls, List.mem_cons, List.mem_singleton, List.not_mem_nil,
          or_false] at hc
        rcases hc with rfl | rfl <;> exact ⟨rfl, by decide, by decide⟩)
      1 (by decide)⟩

/-! ## Lemmas relating `dot` and `norm2` -/

theorem sync_current {S : Type} (h : Heap S) (X : MultiVector) :
    X.sync h (X.current h) = h := by
  unfold MultiVector.sync MultiVector.current DualView.sync MultiVector.need_sync
    DualView.need_sync
  cases hd : (h.cells X.view_.buf).need_sync .device
  · simp [hd]
  · have hh : (h.cells X.view_.buf).need_sync .host = false := by
      simp only [DualViewData.need_sync, decide_eq_true_eq, decide_eq_false_iff_not] at hd ⊢
      omega
    simp [hh]

theorem selfDotCall_localDot {S : Type} [LinearOrderedField S] (q : Heap S × MultiVector)
    (k : Nat) : (selfDotCall q).localDot k = q.2.localSumSq q.1 k := by
  unfold DotCall.localDot DotCall.heapAfter DotCall.space MultiVector.localSumSq
    MultiVector.value
  simp only [selfDotCall, sync_current]
  apply Finset.sum_congr rfl
  intro i _
  rw [abs_mul_abs_self]

theorem localSumSq_nonneg {S : Type} [LinearOrderedField S] (h : Heap S) (X : MultiVector)
    (k : Nat) : 0 ≤ X.localSumSq h k := by
  unfold MultiVector.localSumSq
  apply Finset.sum_nonneg
  intro i _
  exact mul_nonneg (abs_nonneg _) (abs_nonneg _)

theorem DotCall.dot_sendBuf_eq {S : Type} [LinearOrderedField S] (c : DotCall S)
    (hn : c.X.getNumVectors ≠ 0) (hl : c.X.getLocalLength = c.A.getLocalLength)
    (hv : c.X.getNumVectors = c.A.getNumVectors) (hd : c.numDots = c.X.getNumVectors) :
    c.sendBuf = if c.X.participates = true then
      some (lclDotImpl c.heapAfter c.space c.dots c.X.view_ c.A.view_ c.X.getLocalLength
        c.X.getNumVectors c.X.whichVectors_ c.A.whichVectors_ c.X.isConstantStride
        c.A.isConstantStride) else none := by
  unfold DotCall.sendBuf MultiVector.participates
  rw [DotCall.dot_localPhase_eq c hn hl hv hd]
  simp

theorem dotAll_get {S : Type} [LinearOrderedField S] (cs : List (DotCall S))
    (p : Nat) (hp : p < cs.length) :
    (dotAll cs)[p]? = some ((cs[p]).dot (cs.filterMap DotCall.sendBuf)) := by
  simp [dotAll, List.getElem?_map, List.getElem?_eq_getElem hp]

end Tpetra

namespace Tpetra

theorem combinedSumSq_nonneg {S : Type} [LinearOrderedField S]
    (qs : List (Heap S × MultiVector)) (q : Heap S × MultiVector) :
    0 ≤ combinedSumSq qs q := by
  unfold combinedSumSq
  split
  · apply List.sum_nonneg
    intro x hx
    obtain ⟨q', -, rfl⟩ := List.mem_map.mp hx
    exact localSumSq_nonneg _ _ _
  · exact localSumSq_nonneg _ _ _

/-- `X.dot (X)` on single-column blocks: slot 0 is the combined sum of squares. -/
theorem dot_self_single {S : Type} [LinearOrderedField S] (qs : List (Heap S × MultiVector))
    (hcol : ∀ q ∈ qs, q.2.getNumVectors = 1) (p : Nat) (hp : p < qs.length) :
    ∃ h1 d, (dotAll (qs.map selfDotCall))[p]? = some (.ok (h1, d)) ∧
      d 0 = combinedSumSq qs qs[p] := by
  have hpc : p < (qs.map (selfDotCall (S := S))).length := by simpa using hp
  have hbufs : (qs.map (selfDotCall (S := S))).filterMap DotCall.sendBuf
      = ((qs.map (selfDotCall (S := S))).filter (fun c => c.X.participates)).map (fun c =>
          lclDotImpl c.heapAfter c.space c.dots c.X.view_ c.A.view_ c.X.getLocalLength
            c.X.getNumVectors c.X.whichVectors_ c.A.whichVectors_ c.X.isConstantStride
            c.A.isConstantStride) := by
    apply filterMap_eq_map_filter
    intro c hc
    obtain ⟨q, hq, rfl⟩ := List.mem_map.mp hc
    have h1 := hcol q hq
    exact DotCall.dot_sendBuf_eq _ (by show q.2.getNumVectors ≠ 0; omega) rfl rfl
      (by show 1 = q.2.getNumVectors; omega)
  have h1 := hcol _ (List.getElem_mem hp)
  rw [dotAll_get _ p hpc, List.getElem_map]
  unfold DotCall.dot
  rw [DotCall.dot_localPhase_eq _ (by show (qs[p]).2.getNumVectors ≠ 0; omega) rfl rfl
    (by show 1 = (qs[p]).2.getNumVectors; omega)]
  refine ⟨_, _, rfl, ?_⟩
  unfold combinedSumSq gblDotImpl
  by_cases hpart : (qs[p]).2.participates = true
  · have hdc : (selfDotCall qs[p]).X.isDistributed = true ∧
        (selfDotCall qs[p]).X.getComm.isSome = true := (participates_iff _).mp hpart
    rw [if_pos hdc, if_pos hpart,
      reduceAll_sum_apply _ _ _ _ (by show 0 < (qs[p]).2.getNumVectors; omega), hbufs,
      List.map_map, List.filter_map, List.map_map]
    congr 1
    apply List.map_congr_left
    intro q hq
    have hq' := hcol q (List.mem_of_mem_filter hq)
    exact (DotCall.dot_lcl_apply (selfDotCall q) 0 (by show 0 < q.2.getNumVectors; omega)).trans
      (selfDotCall_localDot q 0)
  · have hdc : ¬ ((selfDotCall qs[p]).X.isDistributed = true ∧
        (selfDotCall qs[p]).X.getComm.isSome = true) :=
      fun hh => hpart ((participates_iff _).mpr hh)
    rw [if_neg hdc, if_neg hpart]
    exact (DotCall.dot_lcl_apply (selfDotCall qs[p]) 0
      (by show 0 < (qs[p]).2.getNumVectors; omega)).trans (selfDotCall_localDot _ 0)

/-- `X.norm2 ()` on single-column blocks: slot 0 is the square root of the
combined sum of squares. -/
theorem norm2_single {S : Type} [LinearOrderedField S] (sqrt : S → S)
    (qs : List (Heap S × MultiVector))
    (hcol : ∀ q ∈ qs, q.2.getNumVectors = 1 ∧ 1 ≤ q.2.view_.dimension_1) (p : Nat)
    (hp : p < qs.length) :
    ∃ nr, (norm2All sqrt (qs.map norm2Call))[p]? = some (.ok nr) ∧
      nr 0 = sqrt (combinedSumSq qs qs[p]) := by
  have hpc : p < (qs.map (norm2Call (S := S))).length := by simpa using hp
  have hshape : ∀ c ∈ qs.map (norm2Call (S := S)),
      c.X.getNumVectors = 1 ∧ 1 ≤ c.numNorms ∧ 1 ≤ c.X.view_.dimension_1 := by
    intro c hc
    obtain ⟨q, hq, rfl⟩ := List.mem_map.mp hc
    exact ⟨(hcol q hq).1, le_refl 1, (hcol q hq).2⟩
  obtain ⟨h1, h2⟩ := hcol _ (List.getElem_mem hp)
  unfold norm2All
  rw [normAll_get _ _ _ p hpc, List.getElem_map]
  unfold NormCall.normImpl
  rw [NormCall.norm_localPhase_eq _ _ (by show (qs[p]).2.getNumVectors ≠ 0; omega)
    (by show (qs[p]).2.getNumVectors ≤ 1; omega)
    (by show (qs[p]).2.getNumVectors ≤ (qs[p]).2.view_.dimension_1; omega)]
  refine ⟨_, rfl, ?_⟩
  have hty : lclNormType .NORM_TWO = .IMPL_NORM_TWO := rfl
  have hnv : (norm2Call qs[p]).X.getNumVectors = 1 := h1
  unfold combinedSumSq
  simp only [gblNormImpl, hty, if_true, hnv, Nat.lt_one_iff]
  by_cases hpart : (qs[p]).2.participates = true
  · have hdc : (norm2Call qs[p]).X.isDistributed = true ∧
        (norm2Call qs[p]).X.getComm.isSome = true := (participates_iff _).mp hpart
    rw [if_pos hdc, if_neg (by decide), if_pos hpart, reduceAll_sum_apply _ _ _ _ (by omega),
      NormCall.filterMap_sendBuf _ _ 1 (by omega) hshape, List.map_map, List.filter_map,
      List.map_map]
    congr 2
    apply List.map_congr_left
    intro q hq
    have hq' := hcol q (List.mem_of_mem_filter hq)
    exact NormCall.lcl_two (norm2Call q) 0 (by show 0 < q.2.getNumVectors; omega)
  · have hdc : ¬ ((norm2Call qs[p]).X.isDistributed = true ∧
        (norm2Call qs[p]).X.getComm.isSome = true) :=
      fun hh => hpart ((participates_iff _).mpr hh)
    rw [if_neg hdc, if_neg hpart]
    congr 1
    exact NormCall.lcl_two (norm2Call qs[p]) 0 (by show 0 < (qs[p]).2.getNumVectors; omega)

/-- C9: for single-column blocks over real scalars, on any number of processes,
with any square root function that squares back on non-negative arguments:
`X.dot (X)` and `X.norm2 ()` succeed on every process, slot 0 of the dot result
is the combined sum of squares `s`, slot 0 of the norm is `sqrt s`, and hence
the dot result equals the square of the norm. -/
theorem C9_dot_self_eq_norm2_squared {S : Type} [LinearOrderedField S] (sqrt : S → S)
    (hsqrt : ∀ s, 0 ≤ s → sqrt s * sqrt s = s) (qs : List (Heap S × MultiVector))
    (hcol : ∀ q ∈ qs, q.2.getNumVectors = 1 ∧ 1 ≤ q.2.view_.dimension_1) (p : Nat)
    (hp : p < qs.length) :
    ∃ h1 d nr, (dotAll (qs.map selfDotCall))[p]? = some (.ok (h1, d)) ∧
      (norm2All sqrt (qs.map norm2Call))[p]? = some (.ok nr) ∧
      d 0 = combinedSumSq qs qs[p] ∧ nr 0 = sqrt (combinedSumSq qs qs[p]) ∧
      d 0 = nr 0 ^ 2 := by
  obtain ⟨h1, d, hd, hd0⟩ := dot_self_single qs (fun q hq => (hcol q hq).1) p hp
  obtain ⟨nr, hn, hn0⟩ := norm2_single sqrt qs hcol p hp
  refine ⟨h1, d, nr, hd, hn, hd0, hn0, ?_⟩
  rw [hd0, hn0, pow_two, hsqrt _ (combinedSumSq_nonneg qs _)]

/-- Witness for C9: the two processes of `demoSingleColumn` over the real
numbers with the real square root, process 0. -/
theorem C9_dot_self_eq_norm2_squared_witness :
    (∀ s : ℝ, 0 ≤ s → Real.sqrt s * Real.sqrt s = s) ∧
    ∃ h1 d nr, (dotAll ((demoSingleColumn ℝ).map selfDotCall))[0]? = some (.ok (h1, d)) ∧
      (norm2All Real.sqrt ((demoSingleColumn ℝ).map norm2Call))[0]? = some (.ok nr) ∧
      d 0 = combinedSumSq (demoSingleColumn ℝ) (demoSingleColumn ℝ)[0] ∧
      nr 0 = Real.sqrt (combinedSumSq (demoSingleColumn ℝ) (demoSingleColumn ℝ)[0]) ∧
      d 0 = nr 0 ^ 2 :=
  ⟨fun _ hs => Real.mul_self_sqrt hs,
    C9_dot_self_eq_norm2_squared Real.sqrt (fun _ hs => Real.mul_self_sqrt hs)
      (demoSingleColumn ℝ)
      (by
        intro q hq
        simp only [demoSingleColumn, List.mem_cons, List.mem_singleton, List.not_mem_nil,
          or_false] at hq
        rcases hq with rfl | rfl <;> exact ⟨rfl, le_refl 1⟩)
      0 (by decide)⟩

end Tpetra

namespace Tpetra

/-! ## Claims on offset views and single-column construction -/

/-- C19 (the code departs from the claim): `demoColumnRange` is the column-range
sub-view `[1, 3)` of the 2 x 3 block `demoFull`, with two columns.  Its offset
view with a one-row sub-map at offset 1 succeeds, is constant stride, but has
three columns, and its entry `(0, 0)` reads 10, the entry at row 1 of physical
column 0, whereas logical column 0 of `demoColumnRange` is physical column 1,
whose row 1 reads 11. -/
theorem C19_offset_view_of_column_range_takes_all_columns :
    demoFull.subView demoHeap ⟨1, 2⟩ = .ok (demoHeap, demoColumnRange) ∧
    demoColumnRange.WF ∧ demoColumnRange.getNumVectors = 2 ∧
    demoColumnRange.offsetViewCtor demoHeap oneRowMap 1 = .ok (demoHeap, demoOffsetView) ∧
    demoOffsetView.getLocalLength = 1 ∧
    demoOffsetView.isConstantStride = demoColumnRange.isConstantStride ∧
    demoOffsetView.getNumVectors = 3 ∧
    demoOffsetView.entry demoHeap .device 0 0 = (10 : Int) ∧
    demoColumnRange.entry demoHeap .device 1 0 = (11 : Int) ∧
    demoOffsetView.entry demoHeap .host 0 0 = (10 : Int) ∧
    demoColumnRange.entry demoHeap .host 1 0 = (11 : Int) :=
  ⟨rfl, by decide, rfl, rfl, rfl, rfl, rfl, rfl, rfl, rfl, rfl⟩

/-- C20: constructing a block from a map, a buffer (and, in the four-argument
form, an original buffer) and the one-entry column list `[c]`, with `c` below
the column count of the buffer, the buffer rows and the leading dimension
covering the local rows of the map: the construction succeeds, the block is
constant stride with one column, and its entry `(i, 0)` is entry `(i, c)` of the
supplied buffer in either residency; allocations that existed stay as they were. -/
theorem C20_single_column_list_is_constant_stride {S : Type} [Zero S] (h : Heap S)
    (map : Option Map) (view origView : DualView) (c : Nat)
    (hc : c < view.dimension_1) (hvalid : c ≠ MultiVector.OrdinalTraits_invalid)
    (hrows : localLengthOf map ≤ view.dimension_0)
    (hlda : localLengthOf map ≤ MultiVector.LDA origView) (hbuf : view.buf < h.next) :
    ∃ h1 Y, MultiVector.fromViewOrigWhich h map view origView [c] = .ok (h1, Y) ∧
      Y.isConstantStride = true ∧ Y.getNumVectors = 1 ∧
      Y.getLocalLength = localLengthOf map ∧
      (∀ sp i, i < Y.getLocalLength → Y.entry h1 sp i 0 = view.get h sp i c) ∧
      (∀ b, b < h.next → h1.cells b = h.cells b) ∧
      (origView = view →
        MultiVector.fromViewWhich h map view [c] = .ok (h1, Y)) := by
  have hll : MultiVector.getLocalLength
      { map_ := map, view_ := view, origView_ := origView, whichVectors_ := [c] }
      = localLengthOf map := rfl
  have hd1 : view.dimension_1 ≠ 0 := by omega
  have hstep : MultiVector.fromViewOrigWhich h map view origView [c]
      = .ok ((takeSubview (takeSubview h view (c, c + 1)).1 origView (c, c + 1)).1,
          { map_ := map, view_ := (takeSubview h view (c, c + 1)).2,
            origView_ := (takeSubview (takeSubview h view (c, c + 1)).1 origView (c, c + 1)).2,
            whichVectors_ := [] }) := by
    unfold MultiVector.fromViewOrigWhich
    simp only [hll]
    rw [if_neg (by omega), if_neg (by simpa using hvalid), if_neg (by simp; omega),
      if_neg (by omega), if_pos (by rfl : [c].length = 1)]
    rfl
  refine ⟨_, _, hstep, rfl, ?_, rfl, ?_, ?_, ?_⟩
  · show (if (([] : List Nat).isEmpty = true) then
        (takeSubview h view (c, c + 1)).2.dimension_1 else 0) = 1
    rw [if_pos (by rfl : ([] : List Nat).isEmpty = true)]
    unfold takeSubview
    by_cases h0 : view.dimension_0 = 0 ∧ view.dimension_1 ≠ 0
    · rw [if_pos h0]
      simp [Heap.alloc]
    · rw [if_neg h0]
      simp [subviewAllRows, subview]
  · intro sp i hi
    have hi' : i < localLengthOf map := hi
    have hne : ¬ (view.dimension_0 = 0 ∧ view.dimension_1 ≠ 0) := by
      rintro ⟨h0, -⟩
      omega
    have hv : takeSubview h view (c, c + 1) = (h, subviewAllRows view (c, c + 1)) := by
      unfold takeSubview
      rw [if_neg hne]
    unfold MultiVector.entry MultiVector.physicalColumn DualView.get
    simp only [hv, MultiVector.isConstantStride, List.isEmpty_nil, if_true]
    have hcell : (takeSubview h origView (c, c + 1)).1.cells view.buf = h.cells view.buf := by
      unfold takeSubview
      split
      · simp only [Heap.alloc]
        rw [if_neg (by omega)]
      · rfl
    show ((takeSubview h origView (c, c + 1)).1.cells view.buf).view sp _ _ = _
    rw [hcell]
    simp [subviewAllRows, subview]
  · intro b hb
    have h1 : ∀ (hh : Heap S) (V : DualView) (b : Nat), b < hh.next →
        (takeSubview hh V (c, c + 1)).1.cells b = hh.cells b ∧
        hh.next ≤ (takeSubview hh V (c, c + 1)).1.next := by
      intro hh V b hb
      unfold takeSubview
      split
      · simp only [Heap.alloc]
        exact ⟨by rw [if_neg (by omega)], by omega⟩
      · exact ⟨rfl, le_refl _⟩
    have ha := h1 h view b hb
    have hb2 := h1 (takeSubview h view (c, c + 1)).1 origView b (by omega)
    rw [hb2.1, ha.1]
  · intro he
    subst he
    exact hstep

/-- Witness for C20: the column list `[2]` on the 2 x 3 buffer of `demoHeap`. -/
theorem C20_single_column_list_is_constant_stride_witness :
    (2 : Nat) < demoView.dimension_1 ∧
    ∃ h1 Y, MultiVector.fromViewOrigWhich demoHeap (some demoMap) demoView demoView [2]
        = .ok (h1, Y) ∧
      Y.isConstantStride = true ∧ Y.getNumVectors = 1 ∧
      Y.getLocalLength = localLengthOf (some demoMap) ∧
      (∀ sp i, i < Y.getLocalLength → Y.entry h1 sp i 0 = demoView.get demoHeap sp i 2) ∧
      (∀ b, b < demoHeap.next → h1.cells b = demoHeap.cells b) ∧
      (demoView = demoView →
        MultiVector.fromViewWhich demoHeap (some demoMap) demoView [2] = .ok (h1, Y)) :=
  ⟨by decide,
    C20_single_column_list_is_constant_stride demoHeap (some demoMap) demoView demoView 2
      (by decide) (by decide) (by decide) (by decide) (by decide)⟩

end Tpetra

namespace Tpetra

/-! ## Processes without local rows -/

theorem lclDotImpl_zero_rows {S : Type} [LinearOrderedField S] (h : Heap S) (sp : MemSpace)
    (dotsOut : Nat → S) (X_lcl Y_lcl : DualView) (numVecs : Nat) (wx wy : List Nat)
    (cx cy : Bool) (k : Nat) (hk : k < numVecs) :
    lclDotImpl h sp dotsOut X_lcl Y_lcl 0 numVecs wx wy cx cy k = 0 := by
  simp [lclDotImpl, hk]

theorem lclNormImpl_zero_rows {S : Type} [LinearOrderedField S] (h : Heap S) (sp : MemSpace)
    (normsOut : Nat → S) (X_lcl : DualView) (numVecs : Nat) (wv : List Nat)
    (cs : Bool) (whichNorm : EWhichNormImpl) :
    lclNormImpl h sp normsOut X_lcl 0 numVecs wv cs whichNorm
      = .ok (fun k => if k < numVecs then 0 else normsOut k) := by
  simp [lclNormImpl, lclNormKernels]

theorem NormCall.norm_localPhase_zero_rows {S : Type} [LinearOrderedField S] (c : NormCall S)
    (whichNorm : EWhichNorm) (hn : c.X.getNumVectors ≠ 0) (hnn : c.X.getNumVectors ≤ c.numNorms)
    (hrows : c.X.getLocalLength = 0) :
    c.localPhase whichNorm
      = .ok (some (fun k => if k < c.X.getNumVectors then 0 else c.norms k)) := by
  unfold NormCall.localPhase
  simp only [hn, if_false, hrows]
  rw [if_neg (by omega)]
  split <;> rw [lclNormImpl_zero_rows] <;> rfl

theorem getElem_append_cons_length {α : Type} (pre post : List α) (c : α) :
    (pre ++ c :: post)[pre.length]? = some c := by
  rw [List.getElem?_append_right (le_refl _)]
  simp

theorem sum_append_cons_zero {S : Type} [LinearOrderedField S] (pre post : List (Nat → S))
    (b : Nat → S) (k : Nat) (hb : b k = 0) :
    ((pre ++ b :: post).map (fun b => b k)).sum = ((pre ++ post).map (fun b => b k)).sum := by
  simp [hb]

end Tpetra

namespace Tpetra

/-- C11: on a process without local rows and with `n > 0` columns, the local
phase of `dot` and of each norm runs and leaves 0 in each of the `n` result
slots.  When the process enters the all-reduce, that buffer of zeros is what it
hands over, and its final result is the combination of the buffers handed over
by the other processes: their sum for `dot` and `norm1`, the square root of their
sum for `norm2`, and for `normInf` an upper bound of them that is one of them as
soon as one of them is not negative (and 0 when there is no other process). -/
theorem C11_zero_rows_local_phase_writes_zero {S : Type} [LinearOrderedField S]
    (sqrt : S → S) (n : Nat) (dpre dpost : List (DotCall S)) (dc : DotCall S)
    (w : EWhichNorm) (npre npost : List (NormCall S)) (nc : NormCall S)
    (hn : n ≠ 0)
    (hdrows : dc.X.getLocalLength = 0 ∧ dc.A.getLocalLength = 0)
    (hdshape : dc.X.getNumVectors = n ∧ dc.A.getNumVectors = n ∧ dc.numDots = n)
    (hnrows : nc.X.getLocalLength = 0)
    (hnshape : nc.X.getNumVectors = n ∧ n ≤ nc.numNorms) :
    (∃ h1 lcl, dc.localPhase = .ok (some (h1, lcl)) ∧ (∀ k, k < n → lcl k = 0) ∧
      (dc.X.participates = true →
        dc.sendBuf = some lcl ∧
        ∃ r, (dotAll (dpre ++ dc :: dpost))[dpre.length]? = some (.ok (h1, r)) ∧
          ∀ k, k < n →
            r k = (((dpre ++ dpost).filterMap DotCall.sendBuf).map (fun b => b k)).sum)) ∧
    (∃ lcl, nc.localPhase w = .ok (some lcl) ∧ (∀ k, k < n → lcl k = 0) ∧
      (nc.X.participates = true →
        NormCall.sendBuf w nc = some lcl ∧
        ∃ r, (normAll sqrt w (npre ++ nc :: npost))[npre.length]? = some (.ok r) ∧
          ∀ k, k < n →
            (w = .NORM_ONE →
              r k = (((npre ++ npost).filterMap (NormCall.sendBuf w)).map (fun b => b k)).sum) ∧
            (w = .NORM_TWO →
              r k = sqrt
                (((npre ++ npost).filterMap (NormCall.sendBuf w)).map (fun b => b k)).sum) ∧
            (w = .NORM_INF →
              (∀ b ∈ (npre ++ npost).filterMap (NormCall.sendBuf w), b k ≤ r k) ∧
              ((∃ b ∈ (npre ++ npost).filterMap (NormCall.sendBuf w), 0 ≤ b k) →
                ∃ b ∈ (npre ++ npost).filterMap (NormCall.sendBuf w), r k = b k) ∧
              ((npre ++ npost).filterMap (NormCall.sendBuf w) = [] → r k = 0)))) := by
  obtain ⟨hxr, har⟩ := hdrows
  obtain ⟨hxv, hav, hnd⟩ := hdshape
  obtain ⟨hnv, hnn⟩ := hnshape
  constructor
  · have hlp := DotCall.dot_localPhase_eq dc (by omega) (by omega) (by omega) (by omega)
    have hz : ∀ k, k < n → lclDotImpl dc.heapAfter dc.space dc.dots dc.X.view_ dc.A.view_
        dc.X.getLocalLength dc.X.getNumVectors dc.X.whichVectors_ dc.A.whichVectors_
        dc.X.isConstantStride dc.A.isConstantStride k = 0 := by
      intro k hk
      rw [hxr]
      exact lclDotImpl_zero_rows _ _ _ _ _ _ _ _ _ _ k (by omega)
    refine ⟨_, _, hlp, hz, ?_⟩
    intro hpart
    have hsb := DotCall.dot_sendBuf_eq dc (by omega) (by omega) (by omega) (by omega)
    rw [if_pos hpart] at hsb
    refine ⟨hsb, ?_⟩
    have hdc := (participates_iff _).mp hpart
    have hget : (dotAll (dpre ++ dc :: dpost))[dpre.length]?
        = some (dc.dot ((dpre ++ dc :: dpost).filterMap DotCall.sendBuf)) := by
      unfold dotAll
      rw [List.getElem?_map, getElem_append_cons_length]
      rfl
    rw [hget]
    unfold DotCall.dot
    rw [hlp]
    refine ⟨_, rfl, ?_⟩
    intro k hk
    simp only [gblDotImpl, hdc.1, hdc.2, and_self, if_true]
    rw [reduceAll_sum_apply _ _ _ _ (by omega), List.filterMap_append, List.filterMap_cons, hsb,
      List.filterMap_append]
    exact sum_append_cons_zero _ _ _ k (hz k hk)
  · have hlp := NormCall.norm_localPhase_zero_rows nc w (by omega) (by omega) hnrows
    have hz : ∀ k, k < n → (fun k => if k < nc.X.getNumVectors then (0 : S) else nc.norms k) k
        = 0 := by
      intro k hk
      simp [hnv, hk]
    refine ⟨_, hlp, hz, ?_⟩
    intro hpart
    have hdc := (participates_iff _).mp hpart
    have hsb : NormCall.sendBuf w nc
        = some (fun k => if k < nc.X.getNumVectors then (0 : S) else nc.norms k) := by
      unfold NormCall.sendBuf
      rw [hlp]
      simp [hdc.1, hdc.2]
    refine ⟨hsb, ?_⟩
    have hget : (normAll sqrt w (npre ++ nc :: npost))[npre.length]?
        = some (nc.normImpl sqrt w
            ((npre ++ nc :: npost).filterMap (NormCall.sendBuf w))) := by
      unfold normAll
      rw [List.getElem?_map, getElem_append_cons_length]
      rfl
    rw [hget]
    unfold NormCall.normImpl
    rw [hlp]
    refine ⟨_, rfl, ?_⟩
    intro k hk
    have hk' : k < nc.X.getNumVectors := by omega
    rw [List.filterMap_append, List.filterMap_cons, hsb, List.filterMap_append]
    refine ⟨?_, ?_, ?_⟩
    · intro hw
      subst hw
      have hty : lclNormType .NORM_ONE = .IMPL_NORM_ONE := rfl
      simp only [gblNormImpl, hty, hdc.1, hdc.2, and_self, if_true]
      rw [if_neg (by decide), if_neg (by decide), reduceAll_sum_apply _ _ _ _ hk']
      exact sum_append_cons_zero _ _ _ k (hz k hk)
    · intro hw
      subst hw
      have hty : lclNormType .NORM_TWO = .IMPL_NORM_TWO := rfl
      simp only [gblNormImpl, hty, hdc.1, hdc.2, and_self, if_true, hk']
      rw [if_neg (by decide), reduceAll_sum_apply _ _ _ _ hk']
      exact congrArg sqrt (sum_append_cons_zero _ _ _ k (hz k hk))
    · intro hw
      subst hw
      have hty : lclNormType .NORM_INF = .IMPL_NORM_INF := rfl
      simp only [gblNormImpl, hty, hdc.1, hdc.2, and_self, if_true]
      rw [if_neg (by decide)]
      obtain ⟨hle, b, hb, hbe⟩ := reduceAll_max_spec nc.X.getNumVectors
        (List.filterMap (NormCall.sendBuf .NORM_INF) npre ++
          (fun k => if k < nc.X.getNumVectors then (0 : S) else nc.norms k) ::
            List.filterMap (NormCall.sendBuf .NORM_INF) npost)
        (fun k => if k < nc.X.getNumVectors then (0 : S) else nc.norms k) k hk' (by simp)
      have hcase : (∃ b ∈ List.filterMap (NormCall.sendBuf .NORM_INF) npre ++
            List.filterMap (NormCall.sendBuf .NORM_INF) npost,
          reduceAll .REDUCE_MAX nc.X.getNumVectors
            (List.filterMap (NormCall.sendBuf .NORM_INF) npre ++
              (fun k => if k < nc.X.getNumVectors then (0 : S) else nc.norms k) ::
                List.filterMap (NormCall.sendBuf .NORM_INF) npost)
            (fun k => if k < nc.X.getNumVectors then (0 : S) else nc.norms k) k = b k) ∨
          reduceAll .REDUCE_MAX nc.X.getNumVectors
            (List.filterMap (NormCall.sendBuf .NORM_INF) npre ++
              (fun k => if k < nc.X.getNumVectors then (0 : S) else nc.norms k) ::
                List.filterMap (NormCall.sendBuf .NORM_INF) npost)
            (fun k => if k < nc.X.getNumVectors then (0 : S) else nc.norms k) k = 0 := by
        rcases List.mem_append.mp hb with hb1 | hb2
        · exact Or.inl ⟨b, List.mem_append_left _ hb1, hbe⟩
        · rcases List.mem_cons.mp hb2 with rfl | hb3
          · exact Or.inr (hbe.trans (hz k hk))
          · exact Or.inl ⟨b, List.mem_append_right _ hb3, hbe⟩
      refine ⟨?_, ?_, ?_⟩
      · intro b' hb'
        apply hle
        rcases List.mem_append.mp hb' with h1 | h2
        · exact List.mem_append_left _ h1
        · exact List.mem_append_right _ (List.mem_cons_of_mem _ h2)
      · rintro ⟨b', hb', hpos⟩
        rcases hcase with hc | hc0
        · exact hc
        · refine ⟨b', hb', ?_⟩
          have hle' : b' k ≤ _ := hle b' (by
            rcases List.mem_append.mp hb' with h1 | h2
            · exact List.mem_append_left _ h1
            · exact List.mem_append_right _ (List.mem_cons_of_mem _ h2))
          rw [hc0] at hle' ⊢
          exact le_antisymm hpos hle'
      · intro hnil
        rcases hcase with ⟨b', hb', -⟩ | hc0
        · rw [hnil] at hb'
          exact absurd hb' (List.not_mem_nil _)
        · exact hc0

end Tpetra

namespace Tpetra

/-- Witness for C11: the process without rows joins the two processes of
`demoDotCalls` and of `demoNormCalls`, with the identity in the place of the
square root and `normInf` as the norm. -/
theorem C11_zero_rows_local_phase_writes_zero_witness :
    (2 ≠ 0) ∧
    (noRowsDotCall.X.getLocalLength = 0 ∧ noRowsDotCall.A.getLocalLength = 0) ∧
    (noRowsDotCall.X.getNumVectors = 2 ∧ noRowsDotCall.A.getNumVectors = 2 ∧
      noRowsDotCall.numDots = 2) ∧
    noRowsNormCall.X.getLocalLength = 0 ∧
    (noRowsNormCall.X.getNumVectors = 2 ∧ 2 ≤ noRowsNormCall.numNorms) ∧
    (∃ h1 lcl, noRowsDotCall.localPhase = .ok (some (h1, lcl)) ∧ (∀ k, k < 2 → lcl k = 0) ∧
      (noRowsDotCall.X.participates = true →
        noRowsDotCall.sendBuf = some lcl ∧
        ∃ r, (dotAll (demoDotCalls ++ noRowsDotCall :: []))[demoDotCalls.length]?
            = some (.ok (h1, r)) ∧
          ∀ k, k < 2 →
            r k = (((demoDotCalls ++ []).filterMap DotCall.sendBuf).map (fun b : Nat → ℚ => b k)).sum)) ∧
    (∃ lcl, noRowsNormCall.localPhase .NORM_INF = .ok (some lcl) ∧ (∀ k, k < 2 → lcl k = 0) ∧
      (noRowsNormCall.X.participates = true →
        NormCall.sendBuf .NORM_INF noRowsNormCall = some lcl ∧
        ∃ r, (normAll id .NORM_INF (demoNormCalls ++ noRowsNormCall :: []))[demoNormCalls.length]?
            = some (.ok r) ∧
          ∀ k, k < 2 →
            (EWhichNorm.NORM_INF = .NORM_ONE →
              r k = (((demoNormCalls ++ []).filterMap
                (NormCall.sendBuf .NORM_INF)).map (fun b : Nat → ℚ => b k)).sum) ∧
            (EWhichNorm.NORM_INF = .NORM_TWO →
              r k = id
                (((demoNormCalls ++ []).filterMap
                  (NormCall.sendBuf .NORM_INF)).map (fun b : Nat → ℚ => b k)).sum) ∧
            (EWhichNorm.NORM_INF = .NORM_INF →
              (∀ b ∈ (demoNormCalls ++ []).filterMap (NormCall.sendBuf .NORM_INF), b k ≤ r k) ∧
              ((∃ b ∈ (demoNormCalls ++ []).filterMap (NormCall.sendBuf .NORM_INF), 0 ≤ b k) →
                ∃ b ∈ (demoNormCalls ++ []).filterMap (NormCall.sendBuf .NORM_INF), r k = b k) ∧
              ((demoNormCalls ++ []).filterMap (NormCall.sendBuf .NORM_INF) = [] → r k = 0)))) :=
  ⟨by decide, by decide, by decide, by decide, by decide,
    C11_zero_rows_local_phase_writes_zero id 2 demoDotCalls [] noRowsDotCall .NORM_INF
      demoNormCalls [] noRowsNormCall (by decide) (by decide) (by decide) (by decide)
      (by decide)⟩

end Tpetra

namespace Tpetra

/-! ## Calls that skip the all-reduce -/

theorem not_participates_iff (X : MultiVector) :
    X.participates = false ↔ ¬ (X.isDistributed = true ∧ X.getComm.isSome = true) := by
  rw [← participates_iff]
  simp

theorem MeanCall.mean_sendBuf_eq {S : Type} [LinearOrderedField S] (c : MeanCall S)
    (hm : c.numMeans = c.X.getNumVectors) :
    c.sendBuf = if c.X.participates = true then
      some (lclSumsOn c.heap c.X (c.X.current c.heap)) else none := by
  unfold MeanCall.sendBuf MultiVector.participates
  rw [MeanCall.mean_localPhase_eq c hm]
  simp [and_comm]

end Tpetra

namespace Tpetra

/-! ## The size of the output of `dot` -/

/-- C14 (counterexample): the operands of `widerDotCall` have equal local length
and one column each, and the output view has two slots, which is at least one;
yet `dot` raises `runtime_error`. -/
theorem C14_dot_rejects_larger_output_counterexample :
    widerDotCall.X.getLocalLength = widerDotCall.A.getLocalLength ∧
    widerDotCall.X.getNumVectors = 1 ∧ widerDotCall.A.getNumVectors = 1 ∧
    widerDotCall.X.getNumVectors ≤ widerDotCall.numDots ∧
    widerDotCall.dot [] = .error .runtime_error := by
  refine ⟨by decide, by decide, by decide, by decide, ?_⟩
  have hlp : widerDotCall.localPhase = .error .runtime_error := by
    unfold DotCall.localPhase
    rw [if_neg (by decide), if_neg (by decide), if_neg (by decide), if_pos (by decide)]
  unfold DotCall.dot
  rw [hlp]

/-- C14 (amended): for operands with equal local length and `n >= 1` columns
each, `dot` succeeds when the output view has exactly `n` slots and raises
`runtime_error` when it has any other number of slots, fewer or more, whatever
buffers the other processes exchange. -/
theorem C14_dot_requires_exact_output_size {S : Type} [LinearOrderedField S] (c : DotCall S)
    (bufs : List (Nat → S)) (n : Nat) (hn : 1 ≤ n)
    (hl : c.X.getLocalLength = c.A.getLocalLength)
    (hv : c.X.getNumVectors = n ∧ c.A.getNumVectors = n) :
    (c.numDots = n → ∃ h1 r, c.dot bufs = .ok (h1, r)) ∧
    (c.numDots ≠ n → c.dot bufs = .error .runtime_error) := by
  obtain ⟨hxv, hav⟩ := hv
  constructor
  · intro hd
    unfold DotCall.dot
    rw [DotCall.dot_localPhase_eq c (by omega) hl (by omega) (by omega)]
    exact ⟨_, _, rfl⟩
  · intro hd
    have hlp : c.localPhase = .error .runtime_error := by
      unfold DotCall.localPhase
      simp only []
      rw [if_neg (by omega), if_neg (by simpa using hl), if_neg (by simp; omega),
        if_pos (by omega)]
    unfold DotCall.dot
    rw [hlp]

/-- Witness for C14: the replicated single-column block with itself, `n = 1`. -/
theorem C14_dot_requires_exact_output_size_witness :
    (1 ≤ 1) ∧
    replicatedDotCall.X.getLocalLength = replicatedDotCall.A.getLocalLength ∧
    (replicatedDotCall.X.getNumVectors = 1 ∧ replicatedDotCall.A.getNumVectors = 1) ∧
    (replicatedDotCall.numDots = 1 → ∃ h1 r, replicatedDotCall.dot [] = .ok (h1, r)) ∧
    (replicatedDotCall.numDots ≠ 1 → replicatedDotCall.dot [] = .error .runtime_error) :=
  ⟨by decide, by decide, by decide,
    C14_dot_requires_exact_output_size replicatedDotCall [] 1 (by decide) (by decide)
      (by decide)⟩

end Tpetra

namespace Tpetra

/-! ## Lemmas on `multiply` -/

theorem constantStrideTmp_ok {S : Type} [Zero S] (h : Heap S) (X : MultiVector) :
    ∃ h1 T, constantStrideTmp h X = .ok (h1, T) ∧ T.isConstantStride = true ∧
      T.map_ = X.map_ ∧ T.getNumVectors = X.getNumVectors ∧
      (X.isConstantStride = true → h1 = h ∧ T = X) := by
  unfold constantStrideTmp
  by_cases hcs : X.isConstantStride = true
  · rw [if_neg (by simp [hcs])]
    exact ⟨h, X, rfl, hcs, rfl, rfl, fun _ => ⟨rfl, rfl⟩⟩
  · rw [if_pos hcs]
    obtain ⟨h1, cpy, hc, -, hwv, -, hd1, -, -⟩ := createCopy_ok h X
    refine ⟨h1, (⟨X.map_, cpy.view_, cpy.origView_, cpy.whichVectors_⟩ : MultiVector),
      ?_, ?_, rfl, ?_, fun hh => absurd hh hcs⟩
    · simp [MultiVector.fromSource, hc, Except.map]
    · simp [MultiVector.isConstantStride, hwv]
    · simp [MultiVector.getNumVectors, MultiVector.isConstantStride, hwv, hd1]

theorem multiplyOnTmp_ok {S : Type} [LinearOrderedField S] (c : MultiplyCall S) (h : Heap S)
    (C_tmp A_tmp B_tmp : MultiVector) (hC : C_tmp.isConstantStride = true)
    (hA : A_tmp.isConstantStride = true) (hB : B_tmp.isConstantStride = true)
    (hmap : C_tmp.map_ = c.C.map_) (hnv : C_tmp.getNumVectors = c.C.getNumVectors) :
    ∃ h1, multiplyOnTmp c h C_tmp A_tmp B_tmp = .ok h1 := by
  unfold multiplyOnTmp
  rw [if_neg (by simp [hA, hB, hC])]
  simp only []
  split
  · unfold MultiVector.assign
    rw [if_neg, if_neg]
    · exact ⟨_, rfl⟩
    · simp [MultiVector.getLocalLength, hmap]
    · simp [MultiVector.getGlobalLength, hmap, hnv]
  · exact ⟨_, rfl⟩

theorem MultiplyCall.localPhase_ok {S : Type} [LinearOrderedField S] (c : MultiplyCall S)
    (hcase : ¬ (c.Case1 = false ∧ c.Case2 = false ∧ c.Case3 = false)) :
    ∃ h1, c.localPhase = .ok h1 := by
  unfold MultiplyCall.localPhase
  rw [if_neg hcase]
  obtain ⟨hC, TC, hTC, hcsC, hmapC, hnvC, -⟩ := constantStrideTmp_ok c.heap c.C
  obtain ⟨hA, TA, hTA, hcsA, -, -, -⟩ := constantStrideTmp_ok hC c.A
  obtain ⟨hB, TB, hTB, hcsB, -, -, -⟩ := constantStrideTmp_ok hA c.B
  simp only [hTC, hTA, hTB]
  exact multiplyOnTmp_ok c hB TC TA TB hcsC hcsA hcsB hmapC hnvC

theorem MultiplyCall.localPhase_unsupported {S : Type} [LinearOrderedField S]
    (c : MultiplyCall S) (hcase : c.Case1 = false ∧ c.Case2 = false ∧ c.Case3 = false) :
    c.localPhase = .error .runtime_error := by
  unfold MultiplyCall.localPhase
  rw [if_pos hcase]

theorem reduce_ok {S : Type} [LinearOrderedField S] (h : Heap S) (X : MultiVector)
    (commSize : Nat) (bufs : List (Nat → S)) (hnd : X.isDistributed = false)
    (hrows : X.getLocalLength ≤ INT_MAX) : ∃ h1, X.reduce h commSize bufs = .ok h1 := by
  unfold MultiVector.reduce MultiVector.reducePack
  simp only [hnd, Bool.false_eq_true, if_false]
  by_cases h1 : commSize = 1
  · simp only [h1, if_true]
    exact ⟨_, rfl⟩
  · simp only [h1, if_false]
    rw [if_neg (by omega)]
    by_cases hns : X.need_sync h .device = true
    · simp only [hns, if_true]
      exact ⟨_, rfl⟩
    · simp only [hns, if_false]
      exact ⟨_, rfl⟩

theorem MultiplyCall.case_iff {S : Type} (c : MultiplyCall S) :
    (c.Case1 = true ↔
      c.C.isDistributed = false ∧ c.A.isDistributed = false ∧ c.B.isDistributed = false) ∧
    (c.Case2 = true ↔
      c.C.isDistributed = false ∧ c.A.isDistributed = true ∧ c.B.isDistributed = true ∧
        c.transA ≠ .NO_TRANS ∧ c.transB = .NO_TRANS) ∧
    (c.Case3 = true ↔
      c.C.isDistributed = true ∧ c.A.isDistributed = true ∧ c.transA = .NO_TRANS ∧
        c.B.isDistributed = false) := by
  unfold MultiplyCall.Case1 MultiplyCall.Case2 MultiplyCall.Case3 MultiplyCall.C_is_local
    MultiplyCall.A_is_local MultiplyCall.B_is_local
  refine ⟨?_, ?_, ?_⟩
  · cases c.C.isDistributed <;> cases c.A.isDistributed <;> cases c.B.isDistributed <;> simp
  · cases c.C.isDistributed <;> cases c.A.isDistributed <;> cases c.B.isDistributed <;> simp
  · cases c.C.isDistributed <;> cases c.A.isDistributed <;> cases c.B.isDistributed <;> simp

end Tpetra

namespace Tpetra

theorem MultiplyCall.multiply_ok_or_unsupported {S : Type} [LinearOrderedField S]
    (c : MultiplyCall S) (bufs : List (Nat → S)) (hrows : c.C.getLocalLength ≤ INT_MAX) :
    ((c.Case1 = true ∨ c.Case2 = true ∨ c.Case3 = true) → ∃ h1, c.multiply bufs = .ok h1) ∧
    (¬ (c.Case1 = true ∨ c.Case2 = true ∨ c.Case3 = true) →
      c.multiply bufs = .error .runtime_error) := by
  constructor
  · intro hsup
    have hcase : ¬ (c.Case1 = false ∧ c.Case2 = false ∧ c.Case3 = false) := by
      rintro ⟨h1, h2, h3⟩
      rw [h1, h2, h3] at hsup
      simp at hsup
    obtain ⟨h1, hlp⟩ := MultiplyCall.localPhase_ok c hcase
    unfold MultiplyCall.multiply
    rw [hlp]
    by_cases h2 : c.Case2 = true
    · simp only [h2, if_true]
      exact reduce_ok h1 c.C c.commSize bufs (((MultiplyCall.case_iff c).2.1.mp h2).1) hrows
    · simp only [h2, if_false]
      exact ⟨_, rfl⟩
  · intro hsup
    have hcase : c.Case1 = false ∧ c.Case2 = false ∧ c.Case3 = false := by
      refine ⟨?_, ?_, ?_⟩
      · cases h : c.Case1
        · rfl
        · exact absurd (Or.inl h) hsup
      · cases h : c.Case2
        · rfl
        · exact absurd (Or.inr (Or.inl h)) hsup
      · cases h : c.Case3
        · rfl
        · exact absurd (Or.inr (Or.inr h)) hsup
    unfold MultiplyCall.multiply
    rw [MultiplyCall.localPhase_unsupported c hcase]

end Tpetra

namespace Tpetra

/-! ## `multiply` into a column view -/

set_option maxHeartbeats 4000000 in
/-- C17 (the code departs from the claim): two processes run Case 2 of
`multiply` with `alpha = 1`, `beta = 0`, `A = [r + 1]` and `B = [r + 1, r + 1]`
on process `r`, and `C` the column view of physical columns 0 and 2 of a 1 x 3
buffer that holds 7 everywhere.  On constant-stride deep copies of `C` both
columns of the result are `1 * 1 + 2 * 2 = 5`.  On the column view, process 0
ends with 5 in logical column 0 but 1 (its local product only) in logical column
1, and physical column 1, which `C` does not select, goes from 7 to 14. -/
theorem C17_multiply_case2_column_view_reduces_wrong_columns :
    stridedC.isConstantStride = false ∧ (stridedCall 0).Case2 = true ∧
    (stridedCall 1).Case2 = true ∧
    (∃ c0 c1 hc, copiedCall 0 = .ok c0 ∧ copiedCall 1 = .ok c1 ∧
      c0.C.isConstantStride = true ∧
      (multiplyAll [c0, c1])[0]? = some (.ok hc) ∧
      c0.C.value hc 0 0 = 5 ∧ c0.C.value hc 0 1 = 5) ∧
    (∃ h0, (multiplyAll stridedCalls)[0]? = some (.ok h0) ∧
      stridedC.value h0 0 0 = 5 ∧ stridedC.value h0 0 1 = 1 ∧
      stridedC.view_.get (stridedHeap 0) .device 0 1 = 7 ∧
      stridedC.view_.get (stridedHeap 0) .host 0 1 = 7 ∧
      stridedC.view_.get h0 .device 0 1 = 14) := by
  refine ⟨rfl, rfl, rfl, ⟨_, _, _, rfl, rfl, rfl, rfl, ?_, ?_⟩, ⟨_, rfl, ?_, ?_, ?_, ?_, ?_⟩⟩
  all_goals
    simp [MultiVector.value, MultiVector.current, MultiVector.entry, DualView.get,
      MultiVector.physicalColumn, stridedC, stridedCalls,
      MultiVector.assignBody, GEMM, MultiVector.fromMap, stridedCall, stridedHeap, factorA,
      factorB, Heap.write, Heap.setCell, DualViewData.setView, DualViewData.view,
      MultiVector.localDeepCopy, MultiVector.localDeepCopyConstStride, deep_copy,
      MultiVector.sync, DualView.sync,
      MultiVector.modify, DualView.modify, DualViewData.modify, MultiVector.need_sync,
      DualView.need_sync, DualViewData.need_sync, allocDualView, Heap.allocUninit, subview,
      column, subviewAllRows, subviewAllCols, MultiVector.isConstantStride,
      MultiVector.getNumVectors,
      MultiVector.getLocalLength, MultiplyCall.beta_local, DualView.covers, List.range_succ,
      MemSpace.other, Finset.sum_range_succ, MultiVector.reduceWriteBack,
      MultiVector.reduceSrcView, MultiVector.reduceContig, MultiVector.getStride,
      MultiVector.LDA, size_t_mul, int_cast, reduceAll, MultiplyCall.sendBuf,
      MultiplyCall.localPhase, MultiplyCall.Case1, MultiplyCall.Case2, MultiplyCall.Case3,
      MultiplyCall.C_is_local, MultiplyCall.A_is_local, MultiplyCall.B_is_local,
      constantStrideTmp, multiplyOnTmp, MultiVector.fromSource, createCopy, MultiVector.assign,
      MultiVector.isDistributed, MultiVector.reducePack, MultiVector.reduceSrcBuf, INT_MAX,
      MultiVector.getGlobalLength, Except.map]
  all_goals norm_num

end Tpetra

namespace Tpetra

/-! ## Lemmas on the temporaries of `multiply` -/

theorem view_foldl_copy_columns {S : Type} (sp : MemSpace) (dst src : DualView)
    (wv : List Nat) (hne : src.buf ≠ dst.buf) (h : Heap S) :
    ∀ n,
      (((List.range n).foldl
        (fun hh j => deep_copy hh sp (column dst j) (column src (wv.getD j 0))) h).cells src.buf
          = h.cells src.buf) ∧
      (∀ sp' r c, sp' ≠ sp →
        (((List.range n).foldl
          (fun hh j => deep_copy hh sp (column dst j) (column src (wv.getD j 0))) h).cells
            dst.buf).view sp' r c = (h.cells dst.buf).view sp' r c) ∧
      (∀ l j, l < dst.dimension_0 → j < n →
        (((List.range n).foldl
          (fun hh j => deep_copy hh sp (column dst j) (column src (wv.getD j 0))) h).cells
            dst.buf).view sp (dst.row0 + l) (dst.col0 + j)
          = (h.cells src.buf).view sp (src.row0 + l) (src.col0 + wv.getD j 0)) := by
  intro n
  induction n with
  | zero =>
    refine ⟨rfl, fun _ _ _ _ => rfl, ?_⟩
    intro l j _ hj
    exact absurd hj (Nat.not_lt_zero j)
  | succ n ih =>
    obtain ⟨ih1, ih2, ih3⟩ := ih
    rw [List.range_succ, List.foldl_append]
    simp only [List.foldl_cons, List.foldl_nil]
    generalize List.foldl (fun hh j => deep_copy hh sp (column dst j) (column src (wv.getD j 0)))
      h (List.range n) = H at ih1 ih2 ih3 ⊢
    refine ⟨?_, ?_, ?_⟩
    · rw [cells_deep_copy_of_ne _ _ _ _ _ (by simpa [column, subviewAllRows, subview] using hne)]
      exact ih1
    · intro sp' r c hsp
      unfold deep_copy
      rw [view_write]
      rw [if_neg (fun hh => hsp hh.2.1)]
      exact ih2 sp' r c hsp
    · intro l j hl hj
      unfold deep_copy
      rw [view_write]
      by_cases hjn : j = n
      · subst hjn
        rw [if_pos]
        · simp only [DualView.get, column, subviewAllRows, subview]
          rw [ih1]
          congr 1 <;> omega
        · refine ⟨rfl, rfl, ?_⟩
          rw [covers_iff]
          simp only [column, subviewAllRows, subview]
          omega
      · rw [if_neg]
        · exact ih3 l j hl (by omega)
        · rintro ⟨-, -, hc⟩
          rw [covers_iff] at hc
          simp only [column, subviewAllRows, subview] at hc
          omega

end Tpetra

namespace Tpetra

theorem next_foldl_of {S α : Type} (F : Heap S → α → Heap S)
    (hF : ∀ hh a, (F hh a).next = hh.next) (l : List α) :
    ∀ h : Heap S, (l.foldl F h).next = h.next := by
  induction l with
  | nil => intro h; rfl
  | cons a l ih =>
    intro h
    rw [List.foldl_cons, ih, hF]

theorem next_sync {S : Type} (h : Heap S) (V : DualView) (sp : MemSpace) :
    (V.sync h sp).next = h.next := by
  unfold DualView.sync
  split <;> rfl

theorem view_sync_other {S : Type} (h : Heap S) (V : DualView) (sp sp' : MemSpace)
    (hsp : sp' ≠ sp) (b r c : Nat) :
    ((V.sync h sp).cells b).view sp' r c = (h.cells b).view sp' r c := by
  unfold DualView.sync
  split
  · by_cases hb : b = V.buf
    · subst hb
      have hw := view_write h sp V (fun i j => V.get h sp.other i j) V.buf sp' r c
      rw [if_neg (fun hh => hsp hh.2.1)] at hw
      rw [← hw]
      cases sp' <;> simp [Heap.setCell, DualViewData.view]
    · simp [Heap.setCell, hb, cells_write_of_ne]
  · rfl

theorem createCopy_eq_assignBody {S : Type} [Zero S] (h : Heap S) (src : MultiVector) :
    createCopy h src
      = .ok (MultiVector.assignBody (MultiVector.fromMap h src.map_ src.getNumVectors false).1
          (MultiVector.fromMap h src.map_ src.getNumVectors false).2 src,
        (MultiVector.fromMap h src.map_ src.getNumVectors false).2) := by
  have hmap : (MultiVector.fromMap h src.map_ src.getNumVectors false).2.map_ = src.map_ := rfl
  have hg : (MultiVector.fromMap h src.map_ src.getNumVectors false).2.getGlobalLength
      = src.getGlobalLength := by
    simp [MultiVector.getGlobalLength, hmap]
  have hl : (MultiVector.fromMap h src.map_ src.getNumVectors false).2.getLocalLength
      = src.getLocalLength := by
    simp [MultiVector.getLocalLength, hmap]
  have hn : (MultiVector.fromMap h src.map_ src.getNumVectors false).2.getNumVectors
      = src.getNumVectors := rfl
  unfold createCopy MultiVector.assign
  simp only [hg, hl, hn, ne_eq, not_true_eq_false, or_self, if_false]
  rfl

/-- The body of the deep copy of a column view whose device data are current:
the fresh constant-stride block gets column `j` from physical column
`whichVectors_[j]`, then is synced to the host. -/
theorem assignBody_copy_of_column_view {S : Type} [Zero S] (h : Heap S) (src : MultiVector)
    (hcs : src.isConstantStride = false) (hbuf : src.view_.buf < h.next)
    (hns : src.need_sync h .device = false) :
    MultiVector.assignBody (MultiVector.fromMap h src.map_ src.getNumVectors false).1
        (MultiVector.fromMap h src.map_ src.getNumVectors false).2 src
      = (MultiVector.fromMap h src.map_ src.getNumVectors false).2.view_.sync
          ((List.range src.whichVectors_.length).foldl
            (fun hh j => deep_copy hh .device
              (column (MultiVector.fromMap h src.map_ src.getNumVectors false).2.view_ j)
              (column src.view_ (src.whichVectors_.getD j 0)))
            ((MultiVector.fromMap h src.map_ src.getNumVectors false).2.view_.modify
              (MultiVector.fromMap h src.map_ src.getNumVectors false).1 .device)) .host := by
  have hdc : (MultiVector.fromMap h src.map_ src.getNumVectors false).2.isConstantStride = true :=
    rfl
  have hns0 : src.need_sync (MultiVector.fromMap h src.map_ src.getNumVectors false).1 .device
      = false := by
    have hc : (MultiVector.fromMap h src.map_ src.getNumVectors false).1.cells src.view_.buf
        = h.cells src.view_.buf := by
      simp only [MultiVector.fromMap, allocDualView]
      exact cells_allocUninit_of_ne h _ _ _ (by omega)
    have he : src.need_sync (MultiVector.fromMap h src.map_ src.getNumVectors false).1 .device
        = src.need_sync h .device := by
      unfold MultiVector.need_sync DualView.need_sync
      rw [hc]
    rw [he]
    exact hns
  unfold MultiVector.assignBody
  simp only [hcs, hdc, hns0, Bool.false_eq_true, false_and, if_false, if_true]
  unfold MultiVector.localDeepCopy
  simp only [Bool.false_eq_true, and_false, if_false, if_true]
  rfl

end Tpetra

namespace Tpetra

/-- The temporary that `multiply` makes of a block whose device data are
current: a constant-stride block with the same dimensions whose device entry
`(l, i)` is logical entry `(l, i)` of the block; existing allocations stay as
they were, and the temporary lives in an allocation below the new bound. -/
theorem constantStrideTmp_spec {S : Type} [Zero S] (h : Heap S) (X : MultiVector)
    (hbuf : X.view_.buf < h.next) (hns : X.need_sync h .device = false) :
    ∃ h1 T, constantStrideTmp h X = .ok (h1, T) ∧ T.isConstantStride = true ∧
      T.getLocalLength = X.getLocalLength ∧ T.getNumVectors = X.getNumVectors ∧
      (∀ l i, l < X.getLocalLength → i < X.getNumVectors →
        T.view_.get h1 .device l i = X.entry h .device l i) ∧
      (∀ b, b < h.next → h1.cells b = h.cells b) ∧ h.next ≤ h1.next ∧
      T.view_.buf < h1.next ∧ (X.isConstantStride = true → h1 = h ∧ T = X) := by
  by_cases hcs : X.isConstantStride = true
  · refine ⟨h, X, ?_, hcs, rfl, rfl, ?_, fun _ _ => rfl, le_refl _, hbuf, fun _ => ⟨rfl, rfl⟩⟩
    · unfold constantStrideTmp
      rw [if_neg (by simp [hcs])]
    · intro l i _ _
      simp [MultiVector.entry, MultiVector.physicalColumn, hcs]
  · have hcs' : X.isConstantStride = false := by simpa using hcs
    have hbody := assignBody_copy_of_column_view h X hcs' hbuf hns
    have hcc := createCopy_eq_assignBody h X
    generalize MultiVector.assignBody (MultiVector.fromMap h X.map_ X.getNumVectors false).1
      (MultiVector.fromMap h X.map_ X.getNumVectors false).2 X = E at hcc hbody
    have hfold := view_foldl_copy_columns (S := S) .device
      (MultiVector.fromMap h X.map_ X.getNumVectors false).2.view_ X.view_ X.whichVectors_
      (by show X.view_.buf ≠ h.next; omega)
      ((MultiVector.fromMap h X.map_ X.getNumVectors false).2.view_.modify
        (MultiVector.fromMap h X.map_ X.getNumVectors false).1 .device)
      X.whichVectors_.length
    obtain ⟨-, -, hf3⟩ := hfold
    have hnv : X.getNumVectors = X.whichVectors_.length := by
      simp [MultiVector.getNumVectors, hcs']
    refine ⟨E, (⟨X.map_, (MultiVector.fromMap h X.map_ X.getNumVectors false).2.view_,
        (MultiVector.fromMap h X.map_ X.getNumVectors false).2.origView_,
        (MultiVector.fromMap h X.map_ X.getNumVectors false).2.whichVectors_⟩ : MultiVector),
      ?_, rfl, rfl, rfl, ?_, ?_, ?_, ?_, fun hh => absurd hh hcs⟩
    · unfold constantStrideTmp
      rw [if_pos hcs]
      unfold MultiVector.fromSource
      simp only [hcc]
      rfl
    · intro l i hl hi
      rw [hbody]
      unfold DualView.get
      rw [view_sync_other _ _ _ _ (by decide)]
      have h3 := hf3 l i (by simpa [MultiVector.fromMap, allocDualView, Heap.allocUninit,
        MultiVector.getLocalLength] using hl) (by omega)
      rw [h3]
      rw [cells_modify_of_ne _ _ _ _ (by show X.view_.buf ≠ h.next; omega)]
      have hc : (MultiVector.fromMap h X.map_ X.getNumVectors false).1.cells X.view_.buf
          = h.cells X.view_.buf := by
        simp only [MultiVector.fromMap, allocDualView]
        exact cells_allocUninit_of_ne h _ _ _ (by omega)
      rw [hc]
      simp [MultiVector.entry, MultiVector.physicalColumn, hcs', DualView.get]
    · intro b hb
      have hne : b ≠ h.next := by omega
      rw [hbody, cells_sync_of_ne _ _ _ _ (by exact hne)]
      rw [cells_foldl_of_ne _ b _ _]
      · rw [cells_modify_of_ne _ _ _ _ (by exact hne)]
        simp only [MultiVector.fromMap, allocDualView]
        exact cells_allocUninit_of_ne h _ _ _ hne
      · intro hh j
        refine cells_deep_copy_of_ne _ _ _ _ _ ?_
        exact hne
    · rw [hbody, next_sync, next_foldl_of (fun hh j => deep_copy hh .device
        (column (MultiVector.fromMap h X.map_ X.getNumVectors false).2.view_ j)
        (column X.view_ (X.whichVectors_.getD j 0))) (fun hh a => rfl)]
      show h.next ≤ h.next + 1
      omega
    · rw [hbody, next_sync, next_foldl_of (fun hh j => deep_copy hh .device
        (column (MultiVector.fromMap h X.map_ X.getNumVectors false).2.view_ j)
        (column X.view_ (X.whichVectors_.getD j 0))) (fun hh a => rfl)]
      show h.next < h.next + 1
      omega

end Tpetra

namespace Tpetra

theorem get_eq_of_cells {S : Type} (h h1 : Heap S) (V : DualView) (sp : MemSpace) (i j : Nat)
    (hc : h1.cells V.buf = h.cells V.buf) : V.get h1 sp i j = V.get h sp i j := by
  simp [DualView.get, hc]

theorem entry_eq_of_cells {S : Type} (h h1 : Heap S) (X : MultiVector) (sp : MemSpace)
    (i j : Nat) (hc : h1.cells X.view_.buf = h.cells X.view_.buf) :
    X.entry h1 sp i j = X.entry h sp i j := by
  unfold MultiVector.entry
  exact get_eq_of_cells h h1 _ sp _ _ hc

theorem need_sync_eq_of_cells {S : Type} (h h1 : Heap S) (X : MultiVector) (sp : MemSpace)
    (hc : h1.cells X.view_.buf = h.cells X.view_.buf) :
    X.need_sync h1 sp = X.need_sync h sp := by
  simp [MultiVector.need_sync, DualView.need_sync, hc]

theorem get_subview_zero {S : Type} (h : Heap S) (V : DualView) (sp : MemSpace)
    (a b i j : Nat) : (subview V (0, a) (0, b)).get h sp i j = V.get h sp i j := by
  simp [DualView.get, subview]

/-- The entries that `GEMM` leaves on the device in the window of `C`. -/
theorem get_GEMM {S : Type} [LinearOrderedField S] (h : Heap S) (transA transB : ETransp)
    (alpha beta : S) (A B C : DualView) (i j : Nat) (hi : i < C.dimension_0)
    (hj : j < C.dimension_1) :
    C.get (GEMM h transA transB alpha A B beta C) .device i j
      = alpha * (∑ l in Finset.range (if transA = .NO_TRANS then A.dimension_1
            else A.dimension_0),
          (if transA = .NO_TRANS then A.get h .device i l else A.get h .device l i) *
          (if transB = .NO_TRANS then B.get h .device l j else B.get h .device j l))
        + beta * C.get h .device i j := by
  unfold GEMM
  simp only [DualView.get]
  rw [view_write, if_pos]
  · simp only [Nat.add_sub_cancel_left]
  · refine ⟨rfl, rfl, ?_⟩
    rw [covers_iff]
    omega

theorem flags_GEMM {S : Type} [LinearOrderedField S] (h : Heap S) (transA transB : ETransp)
    (alpha beta : S) (A B C : DualView) (b : Nat) :
    ((GEMM h transA transB alpha A B beta C).cells b).modified_device
      = (h.cells b).modified_device ∧
    ((GEMM h transA transB alpha A B beta C).cells b).modified_host
      = (h.cells b).modified_host := by
  unfold GEMM
  exact flags_write _ _ _ _ _

end Tpetra

namespace Tpetra

/-! ## Case 2 of `multiply` -/

/-- The local phase of Case 2 on a constant-stride `C`, with operands whose
device data are current: it succeeds, the device entries of `C` become the local
product, and the markers of `C` stay as they were. -/
theorem MultiplyCall.localPhase_case2 {S : Type} [LinearOrderedField S] (c : MultiplyCall S)
    (m n : Nat) (hcase : c.Case2 = true) (hC : c.C.isConstantStride = true)
    (hbC : c.C.view_.buf < c.heap.next) (hbA : c.A.view_.buf < c.heap.next)
    (hbB : c.B.view_.buf < c.heap.next)
    (hnA : c.A.need_sync c.heap .device = false) (hnB : c.B.need_sync c.heap .device = false)
    (hm : c.C.getLocalLength = m) (hn : c.C.getNumVectors = n)
    (hAm : c.A.getNumVectors = m) (hBn : c.B.getNumVectors = n)
    (hk : c.A.getLocalLength = c.B.getLocalLength) :
    ∃ h1, c.localPhase = .ok h1 ∧
      (∀ i j, i < m → j < n → c.C.view_.get h1 .device i j = c.localProduct i j) ∧
      (h1.cells c.C.view_.buf).modified_device = (c.heap.cells c.C.view_.buf).modified_device ∧
      (h1.cells c.C.view_.buf).modified_host = (c.heap.cells c.C.view_.buf).modified_host := by
  obtain ⟨-, hdA, hdB, htA, htB⟩ := (MultiplyCall.case_iff c).2.1.mp hcase
  have hTC : constantStrideTmp c.heap c.C = .ok (c.heap, c.C) := by
    unfold constantStrideTmp
    rw [if_neg (by simp [hC])]
  obtain ⟨hA, TA, hTA, hcsA, hlA, hnvA, hgA, hcA, hleA, hbTA, -⟩ :=
    constantStrideTmp_spec c.heap c.A hbA hnA
  have hnB' : c.B.need_sync hA .device = false := by
    rw [need_sync_eq_of_cells c.heap hA c.B .device (hcA _ hbB)]
    exact hnB
  obtain ⟨hB, TB, hTB, hcsB, hlB, hnvB, hgB, hcB, hleB, hbTB, -⟩ :=
    constantStrideTmp_spec hA c.B (by omega) hnB'
  have hlp : c.localPhase = .ok (GEMM hB c.transA c.transB c.alpha
      (subview TA.view_ (0, TA.getLocalLength) (0, TA.getNumVectors))
      (subview TB.view_ (0, TB.getLocalLength) (0, TB.getNumVectors)) c.beta_local
      (subview c.C.view_ (0, c.C.getLocalLength) (0, c.C.getNumVectors))) := by
    unfold MultiplyCall.localPhase
    rw [if_neg (by simp [hcase])]
    simp only [hTC, hTA, hTB]
    unfold multiplyOnTmp
    rw [if_neg (by simp [hC, hcsA, hcsB])]
    simp only [hC, not_true_eq_false, if_false]
  have hCcell : hB.cells c.C.view_.buf = c.heap.cells c.C.view_.buf := by
    rw [hcB _ (by omega), hcA _ hbC]
  refine ⟨_, hlp, ?_, ?_, ?_⟩
  · intro i j hi hj
    have hg := get_GEMM hB c.transA c.transB c.alpha c.beta_local
      (subview TA.view_ (0, TA.getLocalLength) (0, TA.getNumVectors))
      (subview TB.view_ (0, TB.getLocalLength) (0, TB.getNumVectors))
      (subview c.C.view_ (0, c.C.getLocalLength) (0, c.C.getNumVectors)) i j
      (by simp only [subview]; omega) (by simp only [subview]; omega)
    rw [get_subview_zero, get_subview_zero] at hg
    rw [hg]
    unfold MultiplyCall.localProduct
    simp only [htA, htB, if_false, if_true]
    have hk0 : (subview TA.view_ (0, TA.getLocalLength) (0, TA.getNumVectors)).dimension_0
        = c.A.getLocalLength := by
      simp only [subview]
      omega
    rw [hk0]
    congr 1
    · congr 1
      apply Finset.sum_congr rfl
      intro l hl
      have hl' : l < c.A.getLocalLength := Finset.mem_range.mp hl
      rw [get_subview_zero, get_subview_zero]
      congr 1
      · rw [get_eq_of_cells hA hB TA.view_ .device l i (hcB _ hbTA)]
        exact hgA l i hl' (by omega)
      · rw [hgB l j (by omega) (by omega)]
        exact entry_eq_of_cells c.heap hA c.B .device l j (hcA _ hbB)
    · congr 1
      rw [get_eq_of_cells c.heap hB c.C.view_ .device i j hCcell]
      simp [MultiVector.entry, MultiVector.physicalColumn, hC]
  · rw [(flags_GEMM _ _ _ _ _ _ _ _ _).1]
    show (hB.cells c.C.view_.buf).modified_device = _
    rw [hCcell]
  · rw [(flags_GEMM _ _ _ _ _ _ _ _ _).2]
    show (hB.cells c.C.view_.buf).modified_host = _
    rw [hCcell]

end Tpetra

namespace Tpetra

/-! ## Lemmas on `reduce` -/

theorem reduceSrcView_eq (X : MultiVector) :
    X.reduceSrcView.buf = X.view_.buf ∧ X.reduceSrcView.row0 = X.view_.row0 ∧
    X.reduceSrcView.col0 = X.view_.col0 ∧ X.reduceSrcView.dimension_0 = X.getLocalLength ∧
    X.reduceSrcView.dimension_1 = X.view_.dimension_1 := by
  unfold MultiVector.reduceSrcView
  by_cases hr : X.getLocalLength ≠ X.view_.dimension_0
  · rw [if_pos hr]
    simp [subviewAllCols, subview]
  · rw [if_neg hr]
    exact ⟨rfl, rfl, rfl, by omega, rfl⟩

theorem reduceSrcView_get {S : Type} (h : Heap S) (X : MultiVector) (sp : MemSpace)
    (i j : Nat) : X.reduceSrcView.get h sp i j = X.view_.get h sp i j := by
  obtain ⟨hb, hr, hc, -, -⟩ := reduceSrcView_eq X
  simp only [DualView.get, hb, hr, hc]

theorem int_cast_size_t_mul (m n : Nat) (hsz : m * n < 2 ^ 31) :
    (int_cast (size_t_mul m n)).toNat = m * n := by
  unfold int_cast size_t_mul
  have h1 : m * n % 2 ^ 64 = m * n := Nat.mod_eq_of_lt (by omega)
  rw [h1]
  generalize m * n = x at hsz
  omega

theorem reducePack_device {S : Type} [Zero S] (h : Heap S) (X : MultiVector) (commSize : Nat)
    (hnd : X.isDistributed = false) (hsz : commSize ≠ 1) (hrows : X.getLocalLength ≤ INT_MAX)
    (hns : X.need_sync h .device = false) :
    X.reducePack h commSize = .ok (some (.device, X.reduceSrcBuf h .device)) := by
  unfold MultiVector.reducePack
  simp only [hnd, Bool.false_eq_true, if_false, hsz, hns]
  rw [if_neg (by omega)]

theorem reducePack_single {S : Type} [Zero S] (h : Heap S) (X : MultiVector)
    (hnd : X.isDistributed = false) : X.reducePack h 1 = .ok none := by
  unfold MultiVector.reducePack
  simp only [hnd, Bool.false_eq_true, if_false, if_true]

theorem reduceSrcBuf_apply {S : Type} [Zero S] (h : Heap S) (X : MultiVector) (sp : MemSpace)
    (hcs : X.isConstantStride = true) (k : Nat)
    (hk : k < X.getLocalLength * X.getNumVectors) :
    X.reduceSrcBuf h sp k = X.view_.get h sp (k % X.getLocalLength) (k / X.getLocalLength) := by
  obtain ⟨-, -, -, hd0, hd1⟩ := reduceSrcView_eq X
  have hnv : X.getNumVectors = X.view_.dimension_1 := by
    simp [MultiVector.getNumVectors, hcs]
  have hm : 0 < X.getLocalLength := by
    rcases Nat.eq_zero_or_pos X.getLocalLength with h0 | h0
    · rw [h0, Nat.zero_mul] at hk
      exact absurd hk (Nat.not_lt_zero k)
    · exact h0
  have hdiv : k / X.getLocalLength < X.getNumVectors := by
    rw [Nat.div_lt_iff_lt_mul hm, Nat.mul_comm]
    exact hk
  unfold MultiVector.reduceSrcBuf
  split
  · exact reduceSrcView_get h X sp _ _
  · have hcond : k % X.getLocalLength < X.reduceSrcView.dimension_0 ∧
        k / X.getLocalLength < X.reduceSrcView.dimension_1 ∧
        k / X.getLocalLength < X.getNumVectors :=
      ⟨by rw [hd0]; exact Nat.mod_lt _ hm, by rw [hd1, ← hnv]; exact hdiv, hdiv⟩
    beta_reduce
    rw [if_pos hcond]
    exact reduceSrcView_get h X sp _ _

theorem reduceWriteBack_get {S : Type} (h : Heap S) (X : MultiVector) (tgtBuf : Nat → S)
    (hcs : X.isConstantStride = true) (i j : Nat) (hi : i < X.getLocalLength)
    (hj : j < X.getNumVectors) :
    X.view_.get (X.reduceWriteBack h .device tgtBuf) .device i j
      = tgtBuf (i + j * X.getLocalLength) ∧
    X.need_sync (X.reduceWriteBack h .device tgtBuf) .device = false := by
  obtain ⟨hb, hr, hc, hd0, hd1⟩ := reduceSrcView_eq X
  have hnv : X.getNumVectors = X.view_.dimension_1 := by
    simp [MultiVector.getNumVectors, hcs]
  unfold MultiVector.reduceWriteBack
  simp only []
  rw [if_pos (Or.inr hcs)]
  constructor
  · simp only [DualView.get]
    rw [view_write, if_pos]
    · rw [hr, hc]
      simp only [Nat.add_sub_cancel_left]
    · refine ⟨hb.symm, rfl, ?_⟩
      rw [covers_iff]
      omega
  · unfold MultiVector.need_sync DualView.need_sync
    rw [need_sync_write]
    exact (need_sync_modify_self h X.view_ .device).1

end Tpetra

namespace Tpetra

theorem add_mul_lt_mul (i j m n : Nat) (hi : i < m) (hj : j < n) : i + j * m < m * n := by
  have h1 : (j + 1) * m ≤ n * m := Nat.mul_le_mul_right m hj
  rw [Nat.add_mul, Nat.one_mul] at h1
  rw [Nat.mul_comm m n]
  omega

/-- After the local phase of a ready Case 2 call the device data of `C` are
still current. -/
theorem MultiplyCall.case2_local {S : Type} [LinearOrderedField S] (c : MultiplyCall S)
    (m n : Nat) (hr : c.Case2Ready m n) :
    ∃ h1, c.localPhase = .ok h1 ∧
      (∀ i j, i < m → j < n → c.C.view_.get h1 .device i j = c.localProduct i j) ∧
      c.C.need_sync h1 .device = false := by
  obtain ⟨hcase, hC, ⟨hbC, hbA, hbB⟩, ⟨hnC, hnA, hnB⟩, ⟨hm, hn, hAm, hBn, hk⟩⟩ := hr
  obtain ⟨h1, hlp, hg, hmd, hmh⟩ :=
    MultiplyCall.localPhase_case2 c m n hcase hC hbC hbA hbB hnA hnB hm hn hAm hBn hk
  refine ⟨h1, hlp, hg, ?_⟩
  rw [← hnC]
  simp only [MultiVector.need_sync, DualView.need_sync, DualViewData.need_sync, hmd, hmh]

/-- The buffer that a ready Case 2 call hands to the all-reduce: none on a
communicator of one process, otherwise the local product in column-major order. -/
theorem MultiplyCall.case2_sendBuf {S : Type} [LinearOrderedField S] (c : MultiplyCall S)
    (m n : Nat) (hr : c.Case2Ready m n) (hrows : m ≤ INT_MAX) :
    (c.commSize = 1 → c.sendBuf = none) ∧
    (c.commSize ≠ 1 → ∃ b, c.sendBuf = some b ∧
      ∀ i j, i < m → j < n → b (i + j * m) = c.localProduct i j) := by
  obtain ⟨h1, hlp, hg, hns⟩ := MultiplyCall.case2_local c m n hr
  obtain ⟨hcase, hC, -, -, ⟨hm, hn, -, -, -⟩⟩ := hr
  have hnd : c.C.isDistributed = false := ((MultiplyCall.case_iff c).2.1.mp hcase).1
  constructor
  · intro h1c
    unfold MultiplyCall.sendBuf
    rw [hlp]
    simp only [hcase, if_true, h1c, reducePack_single h1 c.C hnd]
  · intro hne
    refine ⟨c.C.reduceSrcBuf h1 .device, ?_, ?_⟩
    · unfold MultiplyCall.sendBuf
      rw [hlp]
      simp only [hcase, if_true,
        reducePack_device h1 c.C c.commSize hnd hne (by omega) hns]
    · intro i j hi hj
      rw [reduceSrcBuf_apply h1 c.C .device hC _ (by rw [hm, hn]; exact add_mul_lt_mul i j m n hi hj)]
      rw [hm, Nat.add_mul_mod_self_right, Nat.mod_eq_of_lt hi,
        Nat.add_mul_div_right _ _ (by omega : 0 < m), Nat.div_eq_of_lt hi, Nat.zero_add]
      exact hg i j hi hj

/-- The result of a ready Case 2 call: the local product on a communicator of
one process, otherwise the sum of the buffers handed to the all-reduce. -/
theorem MultiplyCall.case2_result {S : Type} [LinearOrderedField S] (c : MultiplyCall S)
    (m n : Nat) (bufs : List (Nat → S)) (hr : c.Case2Ready m n) (hrows : m ≤ INT_MAX)
    (hsize : m * n < 2 ^ 31) :
    ∃ h2, c.multiply bufs = .ok h2 ∧
      ∀ i j, i < m → j < n →
        c.C.value h2 i j =
          if c.commSize = 1 then c.localProduct i j
          else (bufs.map (fun b => b (i + j * m))).sum := by
  obtain ⟨h1, hlp, hg, hns⟩ := MultiplyCall.case2_local c m n hr
  obtain ⟨hcase, hC, -, -, ⟨hm, hn, -, -, -⟩⟩ := hr
  have hnd : c.C.isDistributed = false := ((MultiplyCall.case_iff c).2.1.mp hcase).1
  have hval : ∀ (hh : Heap S) (i j : Nat), c.C.need_sync hh .device = false →
      c.C.value hh i j = c.C.view_.get hh .device i j := by
    intro hh i j hn0
    simp [MultiVector.value, MultiVector.current, hn0, MultiVector.entry,
      MultiVector.physicalColumn, hC]
  by_cases h1c : c.commSize = 1
  · refine ⟨h1, ?_, ?_⟩
    · unfold MultiplyCall.multiply
      rw [hlp]
      simp only [hcase, if_true]
      unfold MultiVector.reduce
      rw [h1c, reducePack_single h1 c.C hnd]
    · intro i j hi hj
      rw [if_pos h1c, hval h1 i j hns]
      exact hg i j hi hj
  · refine ⟨c.C.reduceWriteBack h1 .device
      (reduceAll .REDUCE_SUM (int_cast (size_t_mul c.C.getLocalLength c.C.getNumVectors)).toNat
        bufs (fun _ => 0)), ?_, ?_⟩
    · unfold MultiplyCall.multiply
      rw [hlp]
      simp only [hcase, if_true]
      unfold MultiVector.reduce
      rw [reducePack_device h1 c.C c.commSize hnd h1c (by omega) hns]
    · intro i j hi hj
      obtain ⟨hwg, hwn⟩ := reduceWriteBack_get h1 c.C
        (reduceAll .REDUCE_SUM (int_cast (size_t_mul c.C.getLocalLength c.C.getNumVectors)).toNat
          bufs (fun _ => 0)) hC i j (by omega) (by omega)
      rw [if_neg h1c, hval _ i j hwn, hwg, hm, hn, int_cast_size_t_mul m n hsize,
        reduceAll_sum_apply _ _ _ _ (add_mul_lt_mul i j m n hi hj)]

end Tpetra

namespace Tpetra

theorem value_eq_entry_device {S : Type} (h : Heap S) (X : MultiVector) (i j : Nat)
    (hns : X.need_sync h .device = false) : X.value h i j = X.entry h .device i j := by
  simp [MultiVector.value, MultiVector.current, hns]

/-- The local product of a ready Case 2 call in terms of the logical values:
`beta` counts on process 0 only. -/
theorem MultiplyCall.localProduct_eq {S : Type} [LinearOrderedField S] (c : MultiplyCall S)
    (m n : Nat) (hr : c.Case2Ready m n) (i j : Nat) :
    c.localProduct i j
      = c.alpha * (∑ l in Finset.range c.A.getLocalLength,
          c.A.value c.heap l i * c.B.value c.heap l j)
        + (if c.myRank = 0 then c.beta else 0) * c.C.value c.heap i j := by
  obtain ⟨hcase, -, -, ⟨hnC, hnA, hnB⟩, -⟩ := hr
  unfold MultiplyCall.localProduct
  rw [value_eq_entry_device _ _ i j hnC]
  have hb : c.beta_local = if c.myRank = 0 then c.beta else 0 := by
    unfold MultiplyCall.beta_local
    by_cases hb0 : c.beta = 0
    · simp [hb0]
    · by_cases hr0 : c.myRank = 0
      · simp [hb0, hcase, hr0]
      · simp [hb0, hcase, hr0]
  rw [hb]
  congr 2
  apply Finset.sum_congr rfl
  intro l _
  rw [value_eq_entry_device _ _ l i hnA, value_eq_entry_device _ _ l j hnB]

theorem sum_rank_zero {S : Type} [LinearOrderedField S] (cs : List (MultiplyCall S))
    (hrank : ∀ p (hp : p < cs.length), (cs[p]).myRank = p) (hne : cs ≠ []) (b x : S) :
    (cs.map (fun c => (if c.myRank = 0 then b else 0) * x)).sum = b * x := by
  cases cs with
  | nil => exact absurd rfl hne
  | cons c0 tl =>
    have h0 : c0.myRank = 0 := hrank 0 (Nat.succ_pos _)
    have htl : ∀ y ∈ tl.map (fun c => (if c.myRank = 0 then b else 0) * x), y = 0 := by
      intro y hy
      obtain ⟨c, hc, rfl⟩ := List.mem_map.mp hy
      obtain ⟨q, hq, rfl⟩ := List.getElem_of_mem hc
      have hq1 := hrank (q + 1) (Nat.succ_lt_succ hq)
      have hq2 : (tl[q]).myRank = q + 1 := hq1
      rw [if_neg (by omega), zero_mul]
    rw [List.map_cons, List.sum_cons, List.sum_eq_zero htl, h0, if_pos rfl, add_zero]

theorem multiplyAll_get {S : Type} [LinearOrderedField S] (cs : List (MultiplyCall S))
    (p : Nat) (hp : p < cs.length) :
    (multiplyAll cs)[p]? = some ((cs[p]).multiply (cs.filterMap MultiplyCall.sendBuf)) := by
  simp [multiplyAll, List.getElem?_map, List.getElem?_eq_getElem hp]

end Tpetra

namespace Tpetra

/-- Case 2 of `multiply` on current device data: processes `0 .. P - 1` of one
communicator (process `p` has rank `p`)
call `multiply` in Case 2 with the same `alpha` and `beta`, a constant-stride
`m x n` block `C` that holds the replicated value `C0`, `A` with `m` columns and
`B` with `n` columns of equal local length, all with current device data, and
`m n` small enough for the `int` count of the all-reduce.  Then the call
succeeds on every process and entry `(i, j)` of `C` becomes `alpha` times the sum
over all processes of the local sums of `A(l, i) B(l, j)`, plus `beta C0(i, j)`
once, whether `beta` is zero or not. -/
theorem multiply_case2_adds_beta_term_once_of_current_device {S : Type} [LinearOrderedField S]
    (cs : List (MultiplyCall S)) (alpha beta : S) (m n : Nat) (C0 : Nat → Nat → S)
    (hrank : ∀ p (hp : p < cs.length), (cs[p]).myRank = p ∧ (cs[p]).commSize = cs.length)
    (hready : ∀ c ∈ cs, c.Case2Ready m n ∧ c.alpha = alpha ∧ c.beta = beta)
    (hsize : m ≤ INT_MAX ∧ m * n < 2 ^ 31)
    (hC0 : ∀ c ∈ cs, ∀ i j, i < m → j < n → c.C.value c.heap i j = C0 i j)
    (p : Nat) (hp : p < cs.length) :
    ∃ h2, (multiplyAll cs)[p]? = some (.ok h2) ∧
      ∀ i j, i < m → j < n →
        (cs[p]).C.value h2 i j =
          alpha * (cs.map (fun c => ∑ l in Finset.range c.A.getLocalLength,
              c.A.value c.heap l i * c.B.value c.heap l j)).sum
            + beta * C0 i j := by
  have hmem : cs[p] ∈ cs := List.getElem_mem _
  have hne : cs ≠ [] := by
    intro he
    rw [he] at hp
    exact Nat.not_lt_zero _ hp
  obtain ⟨h2, hmul, hval⟩ := MultiplyCall.case2_result (cs[p]) m n
    (cs.filterMap MultiplyCall.sendBuf) (hready _ hmem).1 hsize.1 hsize.2
  refine ⟨h2, by rw [multiplyAll_get cs p hp, hmul], ?_⟩
  intro i j hi hj
  -- the sum of the local products over all processes
  have hsum : (cs.map (fun c => c.localProduct i j)).sum
      = alpha * (cs.map (fun c => ∑ l in Finset.range c.A.getLocalLength,
            c.A.value c.heap l i * c.B.value c.heap l j)).sum
          + beta * C0 i j := by
    have hterm : ∀ c ∈ cs, c.localProduct i j
        = alpha * (∑ l in Finset.range c.A.getLocalLength,
            c.A.value c.heap l i * c.B.value c.heap l j)
          + (if c.myRank = 0 then beta else 0) * C0 i j := by
      intro c hc
      obtain ⟨hr, ha, hb⟩ := hready c hc
      rw [MultiplyCall.localProduct_eq c m n hr i j, ha, hb, hC0 c hc i j hi hj]
    rw [List.map_congr_left hterm, List.sum_map_add, List.sum_map_mul_left,
      sum_rank_zero cs (fun q hq => (hrank q hq).1) hne]
  rw [hval i j hi hj, ← hsum]
  by_cases h1 : (cs[p]).commSize = 1
  · rw [if_pos h1]
    have hlen : cs.length = 1 := by rw [← (hrank p hp).2]; exact h1
    obtain ⟨c, rfl⟩ := List.length_eq_one.mp hlen
    have hp0 : p = 0 := by simpa using hp
    subst hp0
    simp
  · rw [if_neg h1]
    have hlen : cs.length ≠ 1 := by rw [← (hrank p hp).2]; exact h1
    have hbufs : cs.filterMap MultiplyCall.sendBuf
        = cs.map (fun c => c.sendBuf.getD (fun _ => 0)) := by
      apply filterMap_eq_map_of_forall
      intro c hc
      obtain ⟨q, hq, rfl⟩ := List.getElem_of_mem hc
      obtain ⟨b, hb, -⟩ := (MultiplyCall.case2_sendBuf (cs[q]) m n (hready _ hc).1 hsize.1).2
        (by rw [(hrank q hq).2]; exact hlen)
      rw [hb]
      rfl
    rw [hbufs, List.map_map]
    congr 1
    apply List.map_congr_left
    intro c hc
    obtain ⟨q, hq, rfl⟩ := List.getElem_of_mem hc
    obtain ⟨b, hb, hbv⟩ := (MultiplyCall.case2_sendBuf (cs[q]) m n (hready _ hc).1 hsize.1).2
      (by rw [(hrank q hq).2]; exact hlen)
    simp only [Function.comp, hb, Option.getD_some]
    exact hbv i j hi hj

end Tpetra

namespace Tpetra

/-- An instance of the result on current device data: the two processes of `productCalls` (`alpha = beta = 1`,
`C` a 1 x 2 block of ones), process 0. -/
theorem multiply_case2_adds_beta_term_once_of_current_device_instance :
    (∀ p (hp : p < productCalls.length),
      (productCalls[p]).myRank = p ∧ (productCalls[p]).commSize = productCalls.length) ∧
    (∀ c ∈ productCalls, c.Case2Ready 1 2 ∧ c.alpha = 1 ∧ c.beta = 1) ∧
    (1 ≤ INT_MAX ∧ 1 * 2 < 2 ^ 31) ∧
    (∀ c ∈ productCalls, ∀ i j, i < 1 → j < 2 → c.C.value c.heap i j = (fun _ _ => (1 : ℚ)) i j) ∧
    ∃ h2, (multiplyAll productCalls)[0]? = some (.ok h2) ∧
      ∀ i j, i < 1 → j < 2 →
        (productCalls[0]).C.value h2 i j =
          1 * (productCalls.map (fun c => ∑ l in Finset.range c.A.getLocalLength,
              c.A.value c.heap l i * c.B.value c.heap l j)).sum
            + 1 * (fun _ _ => (1 : ℚ)) i j := by
  have hrank : ∀ p (hp : p < productCalls.length),
      (productCalls[p]).myRank = p ∧ (productCalls[p]).commSize = productCalls.length := by
    intro p hp
    have hp2 : p < 2 := hp
    interval_cases p <;> exact ⟨rfl, rfl⟩
  have hready : ∀ c ∈ productCalls, c.Case2Ready 1 2 ∧ c.alpha = 1 ∧ c.beta = 1 := by
    intro c hc
    simp only [productCalls, List.mem_cons, List.mem_singleton, List.not_mem_nil, or_false] at hc
    rcases hc with rfl | rfl
    · exact ⟨by decide, rfl, rfl⟩
    · exact ⟨by decide, rfl, rfl⟩
  have hC0 : ∀ c ∈ productCalls, ∀ i j, i < 1 → j < 2 →
      c.C.value c.heap i j = (fun _ _ => (1 : ℚ)) i j := by
    intro c hc i j _ _
    simp only [productCalls, List.mem_cons, List.mem_singleton, List.not_mem_nil, or_false] at hc
    rcases hc with rfl | rfl <;>
      simp [MultiVector.value, MultiVector.current, MultiVector.entry, DualView.get,
        productCall, productC, productHeap, DualViewData.view, MultiVector.need_sync,
        DualView.need_sync, DualViewData.need_sync]
  exact ⟨hrank, hready, by decide, hC0,
    multiply_case2_adds_beta_term_once_of_current_device productCalls 1 1 1 2 (fun _ _ => 1) hrank hready
      (by decide) hC0 0 (by decide)⟩

end Tpetra

namespace Tpetra

/-! ## `scale (1)` and `putScalar` -/

/-- C30: `X.scale (1)` returns at once: the memory after the call, entries and
residency markers of every allocation included, is the memory before it (the
members of the block, its map and its column selection, are not assigned by
`scale` at all). -/
theorem C30_scale_one_is_identity {S : Type} [Mul S] [One S] [DecidableEq S] (h : Heap S)
    (X : MultiVector) : X.scale h 1 = h := by
  unfold MultiVector.scale
  rw [if_pos rfl]

end Tpetra

namespace Tpetra

theorem putScalar_eq_putScalarOn {S : Type} (h : Heap S) (X : MultiVector) (v : S) :
    X.putScalar h v = MultiVector.putScalarOn h X (X.current h) v := by
  unfold MultiVector.putScalar MultiVector.current
  cases X.need_sync h .device <;> rfl

/-- What `putScalar` on residency `sp` leaves alone in the allocation of the
block: the other residency, and every entry outside the local rows of the
selected physical columns. -/
theorem view_putScalarOn_frame {S : Type} (h : Heap S) (X : MultiVector) (sp : MemSpace)
    (v : S) (sp' : MemSpace) (r c : Nat) (hlen : X.whichVectors_.length ≠ 1)
    (hout : sp' ≠ sp ∨ ¬ (X.view_.row0 ≤ r ∧ r < X.view_.row0 + X.getLocalLength ∧
      ∃ j, j < X.getNumVectors ∧ c = X.view_.col0 + X.physicalColumn j)) :
    ((MultiVector.putScalarOn h X sp v).cells X.view_.buf).view sp' r c
      = (h.cells X.view_.buf).view sp' r c := by
  have hm : ((X.modify h sp).cells X.view_.buf).view sp' r c = (h.cells X.view_.buf).view sp' r c := by
    unfold MultiVector.modify
    rw [view_modify]
  unfold MultiVector.putScalarOn
  simp only []
  by_cases hcs : X.isConstantStride = true
  · have hnv : X.getNumVectors = X.view_.dimension_1 := by simp [MultiVector.getNumVectors, hcs]
    have hpc : ∀ j, X.physicalColumn j = j := by
      intro j; simp [MultiVector.physicalColumn, hcs]
    by_cases h1 : X.getNumVectors = 1
    · rw [if_pos h1]
      unfold deep_copy_scalar
      rw [view_write, if_neg, hm]
      rintro ⟨-, hsp, hcov⟩
      rw [covers_iff] at hcov
      simp only [column, subviewAllRows, subviewAllCols, subview] at hcov
      rcases hout with ho | ho
      · exact ho hsp
      · exact ho ⟨by omega, by omega, 0, by omega, by rw [hpc]; omega⟩
    · rw [if_neg h1, if_pos hcs]
      unfold deep_copy_scalar
      rw [view_write, if_neg, hm]
      rintro ⟨-, hsp, hcov⟩
      rw [covers_iff] at hcov
      simp only [subviewAllCols, subview] at hcov
      rcases hout with ho | ho
      · exact ho hsp
      · exact ho ⟨by omega, by omega, c - X.view_.col0, by omega, by rw [hpc]; omega⟩
  · have hnv : X.getNumVectors = X.whichVectors_.length := by
      simp [MultiVector.getNumVectors, hcs]
    have hpc : ∀ j, X.physicalColumn j = X.whichVectors_.getD j 0 := by
      intro j; simp [MultiVector.physicalColumn, hcs]
    rw [if_neg (by omega), if_neg hcs]
    rw [(foldl_range_getD (fun hh col => deep_copy_scalar hh sp
      (column (subviewAllCols X.view_ (0, X.getLocalLength)) col) v)), view_foldl_fill, if_neg, hm]
    rintro ⟨-, hsp, col, hcol, hcov⟩
    rw [covers_iff] at hcov
    simp only [column, subviewAllRows, subviewAllCols, subview] at hcov
    obtain ⟨j, hj, rfl⟩ := List.mem_map.mp hcol
    rcases hout with ho | ho
    · exact ho hsp
    · exact ho ⟨by omega, by omega, j, List.mem_range.mp hj, by rw [hpc]; omega⟩

/-- C29: for a block whose explicit column list, if any, does not have exactly
one entry (the constructors collapse such a list), `X.putScalar (v)` works on
the residency that holds the newest data, the device unless the host is newer:
afterwards every entry `(i, j)` with `i < localLength` and `j < numVectors` reads
`v` there (and as the logical value), that residency is marked modified (the
other one needs a sync), and the other residency, every entry in a physical
column that `X` does not select, and every other allocation are unchanged. -/
theorem C29_putScalar_fills_selected_columns {S : Type} (h : Heap S) (X : MultiVector) (v : S)
    (hlen : X.whichVectors_.length ≠ 1) :
    (∀ i j, i < X.getLocalLength → j < X.getNumVectors →
      X.entry (X.putScalar h v) (X.current h) i j = v ∧ X.value (X.putScalar h v) i j = v) ∧
    (X.need_sync (X.putScalar h v) (X.current h) = false ∧
      X.need_sync (X.putScalar h v) (X.current h).other = true) ∧
    (∀ sp r c, (¬ ∃ j, j < X.getNumVectors ∧ c = X.view_.col0 + X.physicalColumn j) →
      ((X.putScalar h v).cells X.view_.buf).view sp r c = (h.cells X.view_.buf).view sp r c) ∧
    (∀ r c, ((X.putScalar h v).cells X.view_.buf).view (X.current h).other r c
      = (h.cells X.view_.buf).view (X.current h).other r c) ∧
    (∀ b, b ≠ X.view_.buf → (X.putScalar h v).cells b = h.cells b) := by
  have hns := need_sync_putScalarOn h X (X.current h) v
  rw [← putScalar_eq_putScalarOn] at hns
  have hcur : X.current (X.putScalar h v) = X.current h := by
    cases hc : X.current h
    · rw [hc] at hns
      simp [MultiVector.current, hns.1]
    · rw [hc] at hns
      have h2 : X.need_sync (X.putScalar h v) .device = true := hns.2
      simp [MultiVector.current, h2]
  refine ⟨?_, hns, ?_, ?_, fun b hb => cells_putScalar_of_ne h X v b hb⟩
  · intro i j hi hj
    have he : X.entry (X.putScalar h v) (X.current h) i j = v := by
      rw [putScalar_eq_putScalarOn]
      exact entry_putScalarOn h X _ v i j hlen hi hj
    refine ⟨he, ?_⟩
    unfold MultiVector.value
    rw [hcur]
    exact he
  · intro sp r c hc
    rw [putScalar_eq_putScalarOn]
    exact view_putScalarOn_frame h X _ v sp r c hlen (Or.inr (fun hh => hc hh.2.2))
  · intro r c
    rw [putScalar_eq_putScalarOn]
    refine view_putScalarOn_frame h X _ v _ r c hlen (Or.inl ?_)
    cases X.current h <;> decide

/-- Witness for C29: the column view `demoColumnView` of physical columns 0 and
2, filled with 7. -/
theorem C29_putScalar_fills_selected_columns_witness :
    demoColumnView.whichVectors_.length ≠ 1 ∧
    (∀ i j, i < demoColumnView.getLocalLength → j < demoColumnView.getNumVectors →
      demoColumnView.entry (demoColumnView.putScalar demoHeap 7)
        (demoColumnView.current demoHeap) i j = 7 ∧
      demoColumnView.value (demoColumnView.putScalar demoHeap 7) i j = 7) ∧
    (demoColumnView.need_sync (demoColumnView.putScalar demoHeap 7)
        (demoColumnView.current demoHeap) = false ∧
      demoColumnView.need_sync (demoColumnView.putScalar demoHeap 7)
        (demoColumnView.current demoHeap).other = true) ∧
    (∀ sp r c, (¬ ∃ j, j < demoColumnView.getNumVectors ∧
        c = demoColumnView.view_.col0 + demoColumnView.physicalColumn j) →
      (((demoColumnView.putScalar demoHeap 7).cells demoColumnView.view_.buf).view sp r c
        = (demoHeap.cells demoColumnView.view_.buf).view sp r c)) ∧
    (∀ r c, ((demoColumnView.putScalar demoHeap 7).cells demoColumnView.view_.buf).view
        (demoColumnView.current demoHeap).other r c
      = (demoHeap.cells demoColumnView.view_.buf).view
        (demoColumnView.current demoHeap).other r c) ∧
    (∀ b, b ≠ demoColumnView.view_.buf →
      (demoColumnView.putScalar demoHeap 7).cells b = demoHeap.cells b) :=
  ⟨by decide, C29_putScalar_fills_selected_columns demoHeap demoColumnView 7 (by decide)⟩

end Tpetra

namespace Tpetra

/-! ## Construction from an explicit column list -/

theorem le_foldl_max_iff (wv : List Nat) (n : Nat) (hn : n ≠ 0) :
    n ≤ wv.foldl max 0 ↔ ∃ c ∈ wv, n ≤ c := by
  have hfold : wv.foldl max 0 = wv.foldl (fun m x => max m (id x)) 0 := rfl
  rw [hfold]
  constructor
  · intro hle
    rcases foldl_max_eq (id : Nat → Nat) wv 0 with h0 | ⟨x, hx, he⟩
    · rw [h0] at hle
      omega
    · exact ⟨x, hx, by rw [he] at hle; exact hle⟩
  · rintro ⟨c, hc, hle⟩
    exact le_trans hle (le_foldl_max_of_mem (id : Nat → Nat) wv 0 c hc)

theorem any_invalid_iff (wv : List Nat) :
    wv.any (fun c => c == MultiVector.OrdinalTraits_invalid) = true
      ↔ MultiVector.OrdinalTraits_invalid ∈ wv := by
  rw [List.any_eq_true]
  constructor
  · rintro ⟨c, hc, he⟩
    rw [beq_iff_eq] at he
    rw [← he]
    exact hc
  · intro hm
    exact ⟨_, hm, by rw [beq_iff_eq]⟩

/-- The four-argument constructor, once the row check and the leading-dimension
check pass: it raises `invalid_argument` on a reserved index or, for a buffer
with columns, on an index beyond the columns, and succeeds otherwise. -/
theorem fromViewOrigWhich_cases {S : Type} [Zero S] (h : Heap S) (map : Option Map)
    (view origView : DualView) (wv : List Nat) (hne : wv ≠ [])
    (hrows : view.dimension_1 ≠ 0 → localLengthOf map ≤ view.dimension_0)
    (hlda : localLengthOf map ≤ MultiVector.LDA origView) :
    ((MultiVector.OrdinalTraits_invalid ∈ wv ∨
        (view.dimension_1 ≠ 0 ∧ ∃ c ∈ wv, view.dimension_1 ≤ c)) →
      MultiVector.fromViewOrigWhich h map view origView wv = .error .invalid_argument) ∧
    (¬ (MultiVector.OrdinalTraits_invalid ∈ wv ∨
        (view.dimension_1 ≠ 0 ∧ ∃ c ∈ wv, view.dimension_1 ≤ c)) →
      ∃ h1 Y, MultiVector.fromViewOrigWhich h map view origView wv = .ok (h1, Y) ∧
        (Y.whichVectors_ = wv ∨ Y.whichVectors_ = [])) := by
  have hll : MultiVector.getLocalLength
      { map_ := map, view_ := view, origView_ := origView, whichVectors_ := wv }
      = localLengthOf map := rfl
  have hlen : wv.length ≠ 0 := by
    intro h0
    exact hne (List.length_eq_zero.mp h0)
  have h1 : ¬ (view.dimension_1 ≠ 0 ∧ view.dimension_0 < localLengthOf map) := by
    rintro ⟨hd, hlt⟩
    have := hrows hd
    omega
  constructor
  · intro hbad
    unfold MultiVector.fromViewOrigWhich
    simp only [hll]
    rw [if_neg h1]
    by_cases hinv : MultiVector.OrdinalTraits_invalid ∈ wv
    · rw [if_pos ⟨hlen, (any_invalid_iff wv).mpr hinv⟩]
    · rw [if_neg (fun hh => hinv ((any_invalid_iff wv).mp hh.2))]
      rcases hbad with hb | ⟨hd, hb⟩
      · exact absurd hb hinv
      · rw [if_pos ⟨hlen, hd, (le_foldl_max_iff wv _ hd).mpr hb⟩]
  · intro hgood
    have hinv : MultiVector.OrdinalTraits_invalid ∉ wv := fun hh => hgood (Or.inl hh)
    have hmax : ¬ (wv.length ≠ 0 ∧ (view.dimension_1 ≠ 0 ∧ view.dimension_1 ≤ wv.foldl max 0)) := by
      rintro ⟨-, hd, hle⟩
      exact hgood (Or.inr ⟨hd, (le_foldl_max_iff wv _ hd).mp hle⟩)
    unfold MultiVector.fromViewOrigWhich
    simp only [hll]
    rw [if_neg h1, if_neg (fun hh => hinv ((any_invalid_iff wv).mp hh.2)), if_neg hmax,
      if_neg (by omega)]
    by_cases hone : wv.length = 1
    · rw [if_pos hone]
      exact ⟨_, _, rfl, Or.inr rfl⟩
    · rw [if_neg hone]
      exact ⟨_, _, rfl, Or.inl rfl⟩

end Tpetra

namespace Tpetra

/-- C21: for a non-empty column list and an original buffer whose leading
dimension covers the local rows of the map.  If the buffer has at least one
column and enough rows, the constructor raises `invalid_argument` exactly when
the list holds the reserved invalid index or an index that is not below the
column count of the buffer, and succeeds otherwise.  If the buffer has no
column, the column bound is not tested: the constructor succeeds for every list
without the reserved index.  The three-argument constructor is the case where
the original buffer is the buffer itself. -/
theorem C21_column_list_rejected_iff {S : Type} [Zero S] (h : Heap S) (map : Option Map)
    (view origView : DualView) (wv : List Nat) (hne : wv ≠ [])
    (hlda : localLengthOf map ≤ MultiVector.LDA origView) :
    (view.dimension_1 ≠ 0 → localLengthOf map ≤ view.dimension_0 →
      (MultiVector.fromViewOrigWhich h map view origView wv = .error .invalid_argument ↔
        (MultiVector.OrdinalTraits_invalid ∈ wv ∨ ∃ c ∈ wv, view.dimension_1 ≤ c)) ∧
      (¬ (MultiVector.OrdinalTraits_invalid ∈ wv ∨ ∃ c ∈ wv, view.dimension_1 ≤ c) →
        ∃ h1 Y, MultiVector.fromViewOrigWhich h map view origView wv = .ok (h1, Y))) ∧
    (view.dimension_1 = 0 → MultiVector.OrdinalTraits_invalid ∉ wv →
      ∃ h1 Y, MultiVector.fromViewOrigWhich h map view origView wv = .ok (h1, Y)) ∧
    MultiVector.fromViewWhich h map view wv
      = MultiVector.fromViewOrigWhich h map view view wv := by
  refine ⟨?_, ?_, rfl⟩
  · intro hd hrows
    obtain ⟨hbad, hgood⟩ := fromViewOrigWhich_cases h map view origView wv hne
      (fun _ => hrows) hlda
    have hiff : (MultiVector.OrdinalTraits_invalid ∈ wv ∨
          (view.dimension_1 ≠ 0 ∧ ∃ c ∈ wv, view.dimension_1 ≤ c)) ↔
        (MultiVector.OrdinalTraits_invalid ∈ wv ∨ ∃ c ∈ wv, view.dimension_1 ≤ c) := by
      constructor
      · rintro (hh | ⟨-, hh⟩)
        · exact Or.inl hh
        · exact Or.inr hh
      · rintro (hh | hh)
        · exact Or.inl hh
        · exact Or.inr ⟨hd, hh⟩
    refine ⟨⟨?_, fun hb => hbad (hiff.mpr hb)⟩, ?_⟩
    · intro herr
      by_contra hnb
      obtain ⟨h1, Y, hok, -⟩ := hgood (fun hh => hnb (hiff.mp hh))
      rw [hok] at herr
      exact Except.noConfusion herr
    · intro hnb
      obtain ⟨h1, Y, hok, -⟩ := hgood (fun hh => hnb (hiff.mp hh))
      exact ⟨h1, Y, hok⟩
  · intro hd hinv
    obtain ⟨-, hgood⟩ := fromViewOrigWhich_cases h map view origView wv hne
      (fun hh => absurd hd hh) hlda
    obtain ⟨h1, Y, hok, -⟩ := hgood (by
      rintro (hh | ⟨hh, -⟩)
      · exact hinv hh
      · exact hh hd)
    exact ⟨h1, Y, hok⟩

/-- Witness for C21: the list `[0, 2]` on the 2 x 3 buffer of `demoHeap`. -/
theorem C21_column_list_rejected_iff_witness :
    ([0, 2] : List Nat) ≠ [] ∧ localLengthOf (some demoMap) ≤ MultiVector.LDA demoView ∧
    (demoView.dimension_1 ≠ 0 → localLengthOf (some demoMap) ≤ demoView.dimension_0 →
      (MultiVector.fromViewOrigWhich demoHeap (some demoMap) demoView demoView [0, 2]
          = .error .invalid_argument ↔
        (MultiVector.OrdinalTraits_invalid ∈ [0, 2] ∨
          ∃ c ∈ [0, 2], demoView.dimension_1 ≤ c)) ∧
      (¬ (MultiVector.OrdinalTraits_invalid ∈ [0, 2] ∨
          ∃ c ∈ [0, 2], demoView.dimension_1 ≤ c) →
        ∃ h1 Y, MultiVector.fromViewOrigWhich demoHeap (some demoMap) demoView demoView [0, 2]
          = .ok (h1, Y))) ∧
    (demoView.dimension_1 = 0 → MultiVector.OrdinalTraits_invalid ∉ [0, 2] →
      ∃ h1 Y, MultiVector.fromViewOrigWhich demoHeap (some demoMap) demoView demoView [0, 2]
        = .ok (h1, Y)) ∧
    MultiVector.fromViewWhich demoHeap (some demoMap) demoView [0, 2]
      = MultiVector.fromViewOrigWhich demoHeap (some demoMap) demoView demoView [0, 2] :=
  ⟨by decide, by decide,
    C21_column_list_rejected_iff demoHeap (some demoMap) demoView demoView [0, 2] (by decide)
      (by decide)⟩

/-- C22 (counterexample): on a buffer with two rows and no column, construction
from the list `[0, 2]` succeeds and stores the list, although neither index is
below the column count 0 of the buffer. -/
theorem C22_zero_column_buffer_counterexample :
    MultiVector.fromViewWhich demoHeap (some demoMap) emptyColumnsView [0, 2]
      = .ok (demoHeap, ⟨some demoMap, emptyColumnsView, emptyColumnsView, [0, 2]⟩) ∧
    ¬ (∀ c ∈ [0, 2], c < emptyColumnsView.dimension_1) := by
  refine ⟨rfl, ?_⟩
  decide

/-- C22 (amended): when construction from a buffer with at least one column and
an explicit column list succeeds, every index of the list, and with it every
physical column index stored in the column selection of the block, is below the
column count of the buffer. -/
theorem C22_stored_columns_within_buffer {S : Type} [Zero S] (h h1 : Heap S)
    (map : Option Map) (view origView : DualView) (wv : List Nat) (Y : MultiVector)
    (hd : view.dimension_1 ≠ 0)
    (hok : MultiVector.fromViewOrigWhich h map view origView wv = .ok (h1, Y)) :
    (∀ c ∈ wv, c < view.dimension_1) ∧ (∀ c ∈ Y.whichVectors_, c < view.dimension_1) := by
  have hfold : wv.foldl max 0 = wv.foldl (fun m x => max m (id x)) 0 := rfl
  unfold MultiVector.fromViewOrigWhich at hok
  simp only [] at hok
  split_ifs at hok with c1 c2 c3 c4 c5
  · have hwv : ∀ c ∈ wv, c < view.dimension_1 := by
      intro c hc
      have hlen : wv.length ≠ 0 := by
        intro h0
        rw [List.length_eq_zero.mp h0] at hc
        exact absurd hc (List.not_mem_nil c)
      have hle := le_foldl_max_of_mem (id : Nat → Nat) wv 0 c hc
      rw [← hfold] at hle
      by_contra hge
      exact c3 ⟨hlen, hd, le_trans (by simpa using hge) hle⟩
    have hY : Y.whichVectors_ = [] := by
      injection hok with hok
      injection hok with _ hY
      rw [← hY]
    refine ⟨hwv, ?_⟩
    rw [hY]
    intro c hc
    exact absurd hc (List.not_mem_nil c)
  · have hwv : ∀ c ∈ wv, c < view.dimension_1 := by
      intro c hc
      have hlen : wv.length ≠ 0 := by
        intro h0
        rw [List.length_eq_zero.mp h0] at hc
        exact absurd hc (List.not_mem_nil c)
      have hle := le_foldl_max_of_mem (id : Nat → Nat) wv 0 c hc
      rw [← hfold] at hle
      by_contra hge
      exact c3 ⟨hlen, hd, le_trans (by simpa using hge) hle⟩
    have hY : Y.whichVectors_ = wv := by
      injection hok with hok
      injection hok with _ hY
      rw [← hY]
    refine ⟨hwv, ?_⟩
    rw [hY]
    exact hwv

/-- Witness for C22: the list `[0, 2]` on the 2 x 3 buffer of `demoHeap`. -/
theorem C22_stored_columns_within_buffer_witness :
    demoView.dimension_1 ≠ 0 ∧
    MultiVector.fromViewOrigWhich demoHeap (some demoMap) demoView demoView [0, 2]
      = .ok (demoHeap, demoColumnView) ∧
    (∀ c ∈ [0, 2], c < demoView.dimension_1) ∧
    (∀ c ∈ demoColumnView.whichVectors_, c < demoView.dimension_1) :=
  ⟨by decide, rfl,
    C22_stored_columns_within_buffer demoHeap demoHeap (some demoMap) demoView demoView [0, 2]
      demoColumnView (by decide) rfl⟩

end Tpetra

namespace Tpetra

/-! ## `replaceMap` -/

/-- C23: on a constant-stride block with a non-null map, `replaceMap (null)`
succeeds and leaves a constant-stride block with a null map, local length 0, a
visible buffer without rows, and the column count it had before. -/
theorem C23_replaceMap_null_keeps_columns {S : Type} [Zero S] (h : Heap S) (X : MultiVector)
    (hcs : X.isConstantStride = true) (hmap : X.map_.isSome = true) :
    ∃ h1 Y, X.replaceMap h none = .ok (h1, Y) ∧ Y.map_ = none ∧ Y.getLocalLength = 0 ∧
      Y.getNumVectors = X.getNumVectors ∧ Y.isConstantStride = true ∧
      Y.view_.dimension_0 = 0 := by
  obtain ⟨m, hm⟩ := Option.isSome_iff_exists.mp hmap
  have hwv : X.whichVectors_ = [] := by
    simpa [MultiVector.isConstantStride] using hcs
  refine ⟨(allocDualView h 0 X.getNumVectors true).1,
    { X with view_ := (allocDualView h 0 X.getNumVectors true).2, map_ := none }, ?_, rfl, rfl,
    ?_, hcs, rfl⟩
  · unfold MultiVector.replaceMap
    rw [if_neg (by simp [hcs])]
    simp only [hm]
  · simp [MultiVector.getNumVectors, MultiVector.isConstantStride, hwv, allocDualView,
      Heap.alloc]

/-- Witness for C23: the constant-stride block `demoFull` with three columns. -/
theorem C23_replaceMap_null_keeps_columns_witness :
    demoFull.isConstantStride = true ∧ demoFull.map_.isSome = true ∧
    demoFull.getNumVectors = 3 ∧
    ∃ h1 Y, demoFull.replaceMap demoHeap none = .ok (h1, Y) ∧ Y.map_ = none ∧
      Y.getLocalLength = 0 ∧ Y.getNumVectors = demoFull.getNumVectors ∧
      Y.isConstantStride = true ∧ Y.view_.dimension_0 = 0 :=
  ⟨rfl, rfl, rfl, C23_replaceMap_null_keeps_columns demoHeap demoFull rfl rfl⟩

/-- C24: on a constant-stride block with a null map and `k` columns,
`replaceMap` with a map of `n` local elements succeeds; the block then has local
length `n`, `k` columns and a visible buffer of `n` rows and `k` columns.  If the
buffer did not have `n` rows it is a fresh allocation that reads zero everywhere
in both residencies, and no earlier allocation changes; otherwise buffer and
memory are kept. -/
theorem C24_replaceMap_from_null_reallocates {S : Type} [Zero S] (h : Heap S)
    (X : MultiVector) (m : Map) (hcs : X.isConstantStride = true) (hmap : X.map_ = none) :
    ∃ h1 Y, X.replaceMap h (some m) = .ok (h1, Y) ∧ Y.map_ = some m ∧
      Y.getLocalLength = m.nodeNumElements ∧ Y.getNumVectors = X.getNumVectors ∧
      Y.view_.dimension_0 = m.nodeNumElements ∧ Y.view_.dimension_1 = X.getNumVectors ∧
      (X.view_.dimension_0 ≠ m.nodeNumElements →
        (∀ sp i j, Y.view_.get h1 sp i j = 0) ∧ Y.view_.buf = h.next ∧
        ∀ b, b < h.next → h1.cells b = h.cells b) ∧
      (X.view_.dimension_0 = m.nodeNumElements → h1 = h ∧ Y.view_ = X.view_) := by
  have hwv : X.whichVectors_ = [] := by
    simpa [MultiVector.isConstantStride] using hcs
  have hnv : X.getNumVectors = X.view_.dimension_1 := by
    simp [MultiVector.getNumVectors, hcs]
  by_cases hr : X.view_.dimension_0 = m.nodeNumElements
  · refine ⟨h, { X with map_ := some m }, ?_, rfl, rfl, rfl, hr, hnv.symm,
      fun hh => absurd hr hh, fun _ => ⟨rfl, rfl⟩⟩
    unfold MultiVector.replaceMap
    rw [if_neg (by simp [hcs])]
    simp only [hmap]
    rw [if_neg (by rw [hnv]; simp [hr])]
  · refine ⟨(allocDualView h m.nodeNumElements X.getNumVectors true).1,
      { X with view_ := (allocDualView h m.nodeNumElements X.getNumVectors true).2,
               map_ := some m }, ?_, rfl, rfl, ?_, rfl, rfl, fun _ => ⟨?_, rfl, ?_⟩,
      fun hh => absurd hh hr⟩
    · unfold MultiVector.replaceMap
      rw [if_neg (by simp [hcs])]
      simp only [hmap]
      rw [if_pos (Or.inl hr)]
    · simp [MultiVector.getNumVectors, MultiVector.isConstantStride, hwv, allocDualView,
        Heap.alloc]
    · intro sp i j
      cases sp <;>
        simp [DualView.get, allocDualView, Heap.alloc, DualViewData.view]
    · intro b hb
      simp only [allocDualView, Heap.alloc, if_true]
      rw [if_neg (by omega)]

/-- Witness for C24: the single-column block made from a null map, given the map
`demoMap` with two local elements. -/
theorem C24_replaceMap_from_null_reallocates_witness :
    nullMapBlock.2.isConstantStride = true ∧ nullMapBlock.2.map_ = none ∧
    ∃ h1 Y, nullMapBlock.2.replaceMap nullMapBlock.1 (some demoMap) = .ok (h1, Y) ∧
      Y.map_ = some demoMap ∧
      Y.getLocalLength = demoMap.nodeNumElements ∧
      Y.getNumVectors = nullMapBlock.2.getNumVectors ∧
      Y.view_.dimension_0 = demoMap.nodeNumElements ∧
      Y.view_.dimension_1 = nullMapBlock.2.getNumVectors ∧
      (nullMapBlock.2.view_.dimension_0 ≠ demoMap.nodeNumElements →
        (∀ sp i j, Y.view_.get h1 sp i j = 0) ∧ Y.view_.buf = nullMapBlock.1.next ∧
        ∀ b, b < nullMapBlock.1.next → h1.cells b = nullMapBlock.1.cells b) ∧
      (nullMapBlock.2.view_.dimension_0 = demoMap.nodeNumElements →
        h1 = nullMapBlock.1 ∧ Y.view_ = nullMapBlock.2.view_) :=
  ⟨rfl, rfl, C24_replaceMap_from_null_reallocates nullMapBlock.1 nullMapBlock.2 demoMap rfl rfl⟩

end Tpetra

namespace Tpetra

/-- C25 (counterexample): `replaceMap` on the column view `demoColumnView` raises
`logic_error`, and on a constant-stride block with a null map, given a null map,
it raises `invalid_argument`; neither exception is `runtime_error`. -/
theorem C25_replaceMap_error_kinds_counterexample :
    demoColumnView.isConstantStride = false ∧
    demoColumnView.replaceMap demoHeap (some demoMap) = .error .logic_error ∧
    demoColumnView.replaceMap demoHeap (some demoMap) ≠ .error .runtime_error ∧
    nullMapBlock.2.isConstantStride = true ∧ nullMapBlock.2.map_ = none ∧
    nullMapBlock.2.replaceMap nullMapBlock.1 none = .error .invalid_argument ∧
    nullMapBlock.2.replaceMap nullMapBlock.1 none ≠ .error .runtime_error := by
  have h1 : demoColumnView.replaceMap demoHeap (some demoMap) = .error .logic_error := rfl
  have h2 : nullMapBlock.2.replaceMap nullMapBlock.1 none = .error .invalid_argument := rfl
  refine ⟨rfl, h1, ?_, rfl, rfl, h2, ?_⟩
  · rw [h1]
    intro he
    injection he with he
    exact Err.noConfusion he
  · rw [h2]
    intro he
    injection he with he
    exact Err.noConfusion he

/-- C25 (amended): `replaceMap` raises in exactly two situations: `logic_error`
when the block is not constant stride, and `invalid_argument` when the block is
constant stride and both its map and the new map are null.  In every other
situation it succeeds, and it never raises `runtime_error`.  A call that raises
returns no new memory and no new block: map, buffer and dimensions are as
before. -/
theorem C25_replaceMap_raises_in_two_situations {S : Type} [Zero S] (h : Heap S)
    (X : MultiVector) (newMap : Option Map) :
    (X.isConstantStride = false → X.replaceMap h newMap = .error .logic_error) ∧
    (X.isConstantStride = true → X.map_ = none → newMap = none →
      X.replaceMap h newMap = .error .invalid_argument) ∧
    (X.isConstantStride = true → ¬ (X.map_ = none ∧ newMap = none) →
      ∃ h1 Y, X.replaceMap h newMap = .ok (h1, Y)) ∧
    X.replaceMap h newMap ≠ .error .runtime_error := by
  have hA : X.isConstantStride = false → X.replaceMap h newMap = .error .logic_error := by
    intro hcs
    unfold MultiVector.replaceMap
    rw [if_pos (by simp [hcs])]
  have hB : X.isConstantStride = true → X.map_ = none → newMap = none →
      X.replaceMap h newMap = .error .invalid_argument := by
    intro hcs hm hn
    unfold MultiVector.replaceMap
    rw [if_neg (by simp [hcs])]
    simp only [hm, hn]
  have hC : X.isConstantStride = true → ¬ (X.map_ = none ∧ newMap = none) →
      ∃ h1 Y, X.replaceMap h newMap = .ok (h1, Y) := by
    intro hcs hnn
    unfold MultiVector.replaceMap
    rw [if_neg (by simp [hcs])]
    cases hm : X.map_ with
    | none =>
      cases hn : newMap with
      | none => exact absurd ⟨hm, hn⟩ hnn
      | some m =>
        simp only []
        split <;> exact ⟨_, _, rfl⟩
    | some m0 =>
      cases hn : newMap with
      | none => exact ⟨_, _, rfl⟩
      | some m => exact ⟨_, _, rfl⟩
  refine ⟨hA, hB, hC, ?_⟩
  intro he
  cases hcs : X.isConstantStride
  · rw [hA hcs] at he
    injection he with he
    exact Err.noConfusion he
  · by_cases hnn : X.map_ = none ∧ newMap = none
    · rw [hB hcs hnn.1 hnn.2] at he
      injection he with he
      exact Err.noConfusion he
    · obtain ⟨h1, Y, hok⟩ := hC hcs hnn
      rw [hok] at he
      exact Except.noConfusion he

/-- Witness for C25: the column view `demoColumnView`, the null-map block given a
null map, and the null-map block given `demoMap`. -/
theorem C25_replaceMap_raises_in_two_situations_witness :
    demoColumnView.replaceMap demoHeap (some demoMap) = .error .logic_error ∧
    nullMapBlock.2.replaceMap nullMapBlock.1 none = .error .invalid_argument ∧
    (∃ h1 Y, nullMapBlock.2.replaceMap nullMapBlock.1 (some demoMap) = .ok (h1, Y)) ∧
    nullMapBlock.2.replaceMap nullMapBlock.1 (some demoMap) ≠ .error .runtime_error :=
  ⟨(C25_replaceMap_raises_in_two_situations demoHeap demoColumnView (some demoMap)).1 rfl,
    (C25_replaceMap_raises_in_two_situations nullMapBlock.1 nullMapBlock.2 none).2.1 rfl rfl rfl,
    (C25_replaceMap_raises_in_two_situations nullMapBlock.1 nullMapBlock.2
      (some demoMap)).2.2.1 rfl (by decide),
    (C25_replaceMap_raises_in_two_situations nullMapBlock.1 nullMapBlock.2
      (some demoMap)).2.2.2⟩

/-- C26 (the code departs from the claim): the single-column block made from a
null map satisfies the block invariant (no rows, leading dimension 0).  After
`replaceMap` with the map `demoMap` of two local elements, a legal call that
succeeds, the visible buffer has two rows and the local length is 2, but the
original buffer is still the one without rows: its leading dimension 0 is below
the local length, the invariant fails, and the constructor that `subView` runs
on the members of the block rejects them with `invalid_argument`. -/
theorem C26_replaceMap_leaves_origView_stale :
    nullMapBlock.2.isConstantStride = true ∧ nullMapBlock.2.map_ = none ∧
    nullMapBlock.2.WF ∧
    ∃ h1 Y, nullMapBlock.2.replaceMap nullMapBlock.1 (some demoMap) = .ok (h1, Y) ∧
      Y.view_.dimension_0 = 2 ∧ Y.getLocalLength = 2 ∧
      Y.origView_ = nullMapBlock.2.origView_ ∧ Y.origView_.dimension_0 = 0 ∧
      MultiVector.LDA Y.origView_ = 0 ∧
      ¬ (Y.getLocalLength ≤ MultiVector.LDA Y.origView_) ∧ ¬ Y.WF ∧
      Y.subView h1 ⟨0, 0⟩ = .error .invalid_argument := by
  refine ⟨rfl, rfl, by decide, _, _, rfl, rfl, rfl, rfl, rfl, rfl, by decide, by decide, rfl⟩

end Tpetra

namespace Tpetra

/-! ## `subView` on a list of columns -/

/-- C27 (the code departs from the claim): for the column view `demoColumnView`
with physical columns `[0, 2]`, the one-entry list `[1]` is contiguous and is
routed to the range-based path, which returns the window on physical column
`whichVectors_[0] + 1 = 1`.  The result has one column, but its entry `(0, 0)`
reads 1 whereas entry `(0, 1)` of `demoColumnView` (physical column 2) reads 2,
in either residency. -/
theorem C27_subView_list_single_column_reads_wrong_column :
    demoColumnView.WF ∧ (∀ c ∈ [1], c < demoColumnView.getNumVectors) ∧
    contiguousCols [1] = true ∧
    demoColumnView.subViewCols demoHeap [1] = .ok (demoHeap, demoSubView) ∧
    demoSubView.getNumVectors = 1 ∧
    demoSubView.entry demoHeap .device 0 0 = (1 : Int) ∧
    demoColumnView.entry demoHeap .device 0 1 = (2 : Int) ∧
    demoSubView.entry demoHeap .host 0 0 = (1 : Int) ∧
    demoColumnView.entry demoHeap .host 0 1 = (2 : Int) :=
  ⟨by decide, by decide, rfl, rfl, rfl, rfl, rfl, rfl, rfl⟩

/-- C28 (the code departs from the claim): the column view `demoReversedView`
selects physical columns `[2, 0]` of a buffer with three columns, so it
satisfies the column-bound invariant.  Asking for its single logical column 1,
by range or by list, raises nothing and returns a constant-stride block whose
column window starts at `whichVectors_[0] + 1 = 3`, past the last column of the
buffer; its entry `(0, 0)` is read at column 3 of the allocation. -/
theorem C28_subView_single_column_window_leaves_buffer :
    demoReversedView.WF ∧ (∀ c ∈ demoReversedView.whichVectors_, c < demoView.dimension_1) ∧
    demoReversedView.subView demoHeap ⟨1, 1⟩ = .ok (demoHeap, demoBeyondBuffer) ∧
    demoReversedView.subViewCols demoHeap [1] = .ok (demoHeap, demoBeyondBuffer) ∧
    demoBeyondBuffer.isConstantStride = true ∧ demoBeyondBuffer.getNumVectors = 1 ∧
    demoBeyondBuffer.view_.col0 = 3 ∧
    ¬ (demoBeyondBuffer.view_.col0 + demoBeyondBuffer.view_.dimension_1
        ≤ demoReversedView.view_.col0 + demoReversedView.view_.dimension_1) ∧
    demoBeyondBuffer.entry demoHeap .device 0 0 = (demoHeap.cells 0).view .device 0 3 :=
  ⟨by decide, by decide, rfl, rfl, rfl, rfl, rfl, by decide, rfl⟩

end Tpetra
namespace Tpetra

/-! ## `abs` and `reciprocal` of a column view -/

/-- C34 (the code departs from the claim): `this` is a constant-stride block of
two rows and two columns, `A` the column view of physical columns 0 and 2 of a
2 x 3 buffer whose entry `(i, j)` is `-(10 i + j + 1)`; the local lengths and
the column counts agree.  Logical entry `(1, 1)` of `A` is `-13`.  After
`this.abs (A)` entry `(1, 0)` of `this` is 11, but entry `(1, 1)` is 12, the
absolute value of physical column 1 of the buffer of `A`, not 13; after
`this.reciprocal (A)` entry `(1, 1)` is `-1/12`, not `-1/13`. -/
theorem C34_abs_reciprocal_read_wrong_column_of_column_view :
    signedTarget.isConstantStride = true ∧ demoColumnView.isConstantStride = false ∧
    signedTarget.getLocalLength = demoColumnView.getLocalLength ∧
    signedTarget.getNumVectors = demoColumnView.getNumVectors ∧
    demoColumnView.value signedHeap 1 0 = -11 ∧
    demoColumnView.value signedHeap 1 1 = -13 ∧
    (∃ h1, signedTarget.abs signedHeap demoColumnView = .ok h1 ∧
      signedTarget.value h1 1 0 = 11 ∧ signedTarget.value h1 1 1 = 12) ∧
    (∃ h2, signedTarget.reciprocal signedHeap demoColumnView = .ok h2 ∧
      signedTarget.value h2 1 0 = -1 / 11 ∧ signedTarget.value h2 1 1 = -1 / 12) := by
  refine ⟨rfl, rfl, rfl, rfl, ?_, ?_, ⟨_, rfl, ?_, ?_⟩, ⟨_, rfl, ?_, ?_⟩⟩
  all_goals
    simp [MultiVector.value, MultiVector.current, MultiVector.entry, DualView.get,
      MultiVector.physicalColumn, signedTarget, signedHeap, demoColumnView, demoView, demoMap,
      Heap.write, Heap.setCell, DualViewData.setView, DualViewData.view,
      MultiVector.sync, DualView.sync, MultiVector.modify, DualView.modify, DualViewData.modify,
      MultiVector.need_sync, DualView.need_sync, DualViewData.need_sync, subview,
      column, subviewAllRows, MultiVector.isConstantStride, MultiVector.getNumVectors,
      MultiVector.getLocalLength, DualView.covers, List.range_succ, MemSpace.other,
      KokkosBlas.abs, KokkosBlas.reciprocal]
  all_goals norm_num

end Tpetra
namespace Tpetra

/-! ## `get1dView` and `get1dViewNonConst` -/

/-- C35, counterexample: the column view of physical columns 0 and 2 over a map
without local rows is not constant stride, yet `get1dView` and
`get1dViewNonConst` return the null array for it and raise nothing. -/
theorem C35_get1dView_zero_rows_counterexample :
    noRowsColumnView.isConstantStride = false ∧ noRowsColumnView.getLocalLength = 0 ∧
    noRowsColumnView.get1dView demoHeap ≠ .error .runtime_error ∧
    noRowsColumnView.get1dViewNonConst demoHeap ≠ .error .runtime_error ∧
    (∃ h, noRowsColumnView.get1dView demoHeap = .ok (h, none)) ∧
    (∃ h, noRowsColumnView.get1dViewNonConst demoHeap = .ok (h, none)) := by
  refine ⟨rfl, rfl, ?_, ?_, ⟨_, rfl⟩, ⟨_, rfl⟩⟩
  · simp [MultiVector.get1dView, noRowsColumnView, MultiVector.getLocalLength]
  · simp [MultiVector.get1dViewNonConst, noRowsColumnView, MultiVector.getLocalLength]

/-- C35, amended: for every block that is not constant stride, `get1dView` and
`get1dViewNonConst` raise `std::runtime_error` when the block has at least one
local row, and return the null array, leaving the memory as it is, when it has
no local row. -/
theorem C35_get1dView_rejects_column_views_with_rows {S : Type} (h : Heap S) (X : MultiVector)
    (hcs : X.isConstantStride = false) :
    (X.getLocalLength ≠ 0 →
      X.get1dView h = .error .runtime_error ∧ X.get1dViewNonConst h = .error .runtime_error) ∧
    (X.getLocalLength = 0 →
      X.get1dView h = .ok (h, none) ∧ X.get1dViewNonConst h = .ok (h, none)) := by
  have hnv : X.getNumVectors ≠ 0 := by
    unfold MultiVector.getNumVectors
    rw [hcs]
    simp only [Bool.false_eq_true, if_false]
    intro h0
    have : X.whichVectors_ = [] := List.length_eq_zero.mp h0
    simp [MultiVector.isConstantStride, this] at hcs
  constructor
  · intro hrows
    unfold MultiVector.get1dView MultiVector.get1dViewNonConst
    simp [hrows, hnv, hcs]
  · intro hrows
    unfold MultiVector.get1dView MultiVector.get1dViewNonConst
    simp [hrows]

/-- Witness for C35: the column view `demoColumnView` with two local rows is
rejected; the column view `noRowsColumnView` without local rows gets the null
array. -/
theorem C35_get1dView_rejects_column_views_with_rows_witness :
    (demoColumnView.isConstantStride = false ∧ demoColumnView.getLocalLength ≠ 0 ∧
      demoColumnView.get1dView demoHeap = .error .runtime_error ∧
      demoColumnView.get1dViewNonConst demoHeap = .error .runtime_error) ∧
    (noRowsColumnView.isConstantStride = false ∧ noRowsColumnView.getLocalLength = 0 ∧
      noRowsColumnView.get1dView demoHeap = .ok (demoHeap, none) ∧
      noRowsColumnView.get1dViewNonConst demoHeap = .ok (demoHeap, none)) :=
  ⟨⟨rfl, by decide,
      (C35_get1dView_rejects_column_views_with_rows demoHeap demoColumnView rfl).1 (by decide)⟩,
    ⟨rfl, rfl,
      (C35_get1dView_rejects_column_views_with_rows demoHeap noRowsColumnView rfl).2 rfl⟩⟩

end Tpetra
namespace Tpetra

/-! ## `reduce` on a column view -/

/-- C37 (the code departs from the claim): two processes call `reduce` on the
column view of physical columns 0 and 2 of a 1 x 3 buffer over a map that is not
distributed; on process `r` the physical columns hold `r + 1`, `r + 11` and
`r + 21`.  The logical entries are `(1, 21)` on process 0 and `(2, 22)` on
process 1, so the sums are 3 and 43.  After the call, process 0 has 3 in logical
column 0, but logical column 1 still holds 21, and physical column 1, which the
view does not select, went from 11 to 23, the sum of its old values. -/
theorem C37_reduce_column_view_sums_wrong_columns :
    reduceColumnView.isConstantStride = false ∧ reduceColumnView.isDistributed = false ∧
    reduceColumnView.value (reduceHeap 0) 0 0 = 1 ∧
    reduceColumnView.value (reduceHeap 1) 0 0 = 2 ∧
    reduceColumnView.value (reduceHeap 0) 0 1 = 21 ∧
    reduceColumnView.value (reduceHeap 1) 0 1 = 22 ∧
    reduceColumnView.view_.get (reduceHeap 0) .device 0 1 = 11 ∧
    (∃ b0 b1 h0,
      reduceColumnView.reducePack (reduceHeap 0) 2 = .ok (some (.device, b0)) ∧
      reduceColumnView.reducePack (reduceHeap 1) 2 = .ok (some (.device, b1)) ∧
      reduceColumnView.reduce (reduceHeap 0) 2 [b0, b1] = .ok h0 ∧
      reduceColumnView.value h0 0 0 = 3 ∧ reduceColumnView.value h0 0 1 = 21 ∧
      reduceColumnView.view_.get h0 .device 0 1 = 23) := by
  refine ⟨rfl, rfl, ?_, ?_, ?_, ?_, ?_, ⟨_, _, _, rfl, rfl, rfl, ?_, ?_, ?_⟩⟩
  all_goals
    simp [MultiVector.value, MultiVector.current, MultiVector.entry, DualView.get,
      MultiVector.physicalColumn, reduceColumnView, reduceHeap,
      Heap.write, Heap.setCell, DualViewData.setView, DualViewData.view,
      MultiVector.modify, DualView.modify, DualViewData.modify, MultiVector.need_sync,
      DualView.need_sync, DualViewData.need_sync, subview,
      column, subviewAllRows, subviewAllCols, MultiVector.isConstantStride,
      MultiVector.getNumVectors, MultiVector.getLocalLength, DualView.covers, List.range_succ,
      MultiVector.reduceWriteBack, MultiVector.reduceSrcView, MultiVector.reduceContig,
      MultiVector.getStride, MultiVector.LDA, size_t_mul, int_cast, reduceAll,
      MultiVector.isDistributed, MultiVector.reducePack, MultiVector.reduceSrcBuf, INT_MAX,
      MultiVector.reduce]
  all_goals norm_num

end Tpetra
namespace Tpetra

/-! ## Construction from a flat array, and `get1dCopy` -/

theorem need_sync_foldl_of {S α : Type} (F : Heap S → α → Heap S)
    (hF : ∀ hh a b sp, ((F hh a).cells b).need_sync sp = (hh.cells b).need_sync sp)
    (steps : List α) :
    ∀ (h : Heap S) (b : Nat) (sp : MemSpace),
      ((steps.foldl F h).cells b).need_sync sp = (h.cells b).need_sync sp := by
  induction steps with
  | nil => intro h b sp; rfl
  | cons a steps ih => intro h b sp; rw [List.foldl_cons, ih, hF]

/-- A loop that writes column `j` of a view for `j = 0, ..., n - 1`, the data
written not depending on the memory. -/
theorem view_foldl_write_range {S : Type} (sp : MemSpace) (V : DualView)
    (g : Nat → Nat → Nat → S) :
    ∀ (n : Nat) (h : Heap S) (b : Nat) (sp' : MemSpace) (r c : Nat),
    (((List.range n).foldl (fun hh j => hh.write sp (column V j) (g j)) h).cells b).view sp' r c =
      if b = V.buf ∧ sp' = sp ∧ V.row0 ≤ r ∧ r < V.row0 + V.dimension_0 ∧
          V.col0 ≤ c ∧ c < V.col0 + n
      then g (c - V.col0) (r - V.row0) 0 else (h.cells b).view sp' r c := by
  intro n
  induction n with
  | zero =>
    intro h b sp' r c
    have : ¬ (b = V.buf ∧ sp' = sp ∧ V.row0 ≤ r ∧ r < V.row0 + V.dimension_0 ∧
        V.col0 ≤ c ∧ c < V.col0 + 0) := by omega
    simp only [List.range_zero, List.foldl_nil]
    rw [if_neg this]
  | succ n ih =>
    intro h b sp' r c
    rw [List.range_succ, List.foldl_append, List.foldl_cons, List.foldl_nil, view_write, ih]
    have hbuf : (column V n).buf = V.buf := rfl
    have hcov : (column V n).covers r c = true ↔
        V.row0 ≤ r ∧ r < V.row0 + V.dimension_0 ∧ c = V.col0 + n := by
      rw [covers_iff]
      simp only [column, subviewAllRows, subview]
      omega
    rw [hbuf]
    by_cases h1 : b = V.buf ∧ sp' = sp ∧ V.row0 ≤ r ∧ r < V.row0 + V.dimension_0
    · by_cases h2 : c = V.col0 + n
      · rw [if_pos ⟨h1.1, h1.2.1, hcov.mpr ⟨h1.2.2.1, h1.2.2.2, h2⟩⟩,
          if_pos ⟨h1.1, h1.2.1, h1.2.2.1, h1.2.2.2, by omega, by omega⟩]
        have e1 : c - V.col0 = n := by omega
        have e2 : c - (column V n).col0 = 0 := by
          simp only [column, subviewAllRows, subview]; omega
        have e3 : (column V n).row0 = V.row0 := by
          simp only [column, subviewAllRows, subview]; omega
        rw [e1, e2, e3]
      · rw [if_neg (fun hh => h2 (hcov.mp hh.2.2).2.2)]
        by_cases h3 : V.col0 ≤ c ∧ c < V.col0 + n
        · rw [if_pos ⟨h1.1, h1.2.1, h1.2.2.1, h1.2.2.2, h3.1, h3.2⟩,
            if_pos ⟨h1.1, h1.2.1, h1.2.2.1, h1.2.2.2, h3.1, by omega⟩]
        · rw [if_neg (fun hh => h3 ⟨hh.2.2.2.2.1, hh.2.2.2.2.2⟩),
            if_neg (fun hh => h3 ⟨hh.2.2.2.2.1, by omega⟩)]
    · rw [if_neg (fun hh => h1 ⟨hh.1, hh.2.1, (hcov.mp hh.2.2).1, (hcov.mp hh.2.2).2.1⟩),
        if_neg (fun hh => h1 ⟨hh.1, hh.2.1, hh.2.2.1, hh.2.2.2.1⟩),
        if_neg (fun hh => h1 ⟨hh.1, hh.2.1, hh.2.2.1, hh.2.2.2.1⟩)]

theorem size_t_bound_eq (LDA m n : Nat) (hfit : LDA * m + n < 2 ^ 64) :
    size_t_add (size_t_mul LDA m) n = LDA * m + n := by
  unfold size_t_add size_t_mul
  rw [Nat.mod_eq_of_lt (by omega : LDA * m < 2 ^ 64), Nat.mod_eq_of_lt hfit]

/-- What the flat-array constructor returns when its two tests pass. -/
theorem fromFlatArray_ok {S : Type} [Zero S] (h : Heap S) (map : Option Map) (data : List S)
    (LDA numVecs : Nat) (h1 : ¬ LDA < localLengthOf map)
    (h2 : ¬ (numVecs ≠ 0 ∧
      data.length < size_t_add (size_t_mul LDA (numVecs - 1)) (localLengthOf map))) :
    ∃ hh, MultiVector.fromFlatArray h map data LDA numVecs
        = .ok (hh, ⟨map, ⟨h.next, 0, 0, localLengthOf map, numVecs, localLengthOf map⟩,
            ⟨h.next, 0, 0, localLengthOf map, numVecs, localLengthOf map⟩, []⟩) ∧
      hh.next = h.next + 1 ∧ (∀ b, b ≠ h.next → hh.cells b = h.cells b) ∧
      (hh.cells h.next).need_sync .device = false ∧
      (∀ i j, i < localLengthOf map → j < numVecs →
        (hh.cells h.next).view .device i j = data.getD (i + j * LDA) 0) := by
  cases map
  all_goals
    simp only [localLengthOf] at h1 h2 ⊢
    unfold MultiVector.fromFlatArray
    simp only [if_neg h1, if_neg h2, allocDualView, if_true, Heap.alloc, ite_self]
    split
    · refine ⟨_, rfl, rfl, ?_, ?_, ?_⟩
      · intro b hb
        unfold deep_copy_from_array
        rw [cells_write_of_ne _ _ _ _ _ hb]
        simp [MultiVector.modify, DualView.modify, Heap.setCell, hb]
      · unfold deep_copy_from_array
        rw [need_sync_write]
        simp [MultiVector.modify, DualView.modify, Heap.setCell, DualViewData.modify,
          DualViewData.need_sync]
      · intro i j hi hj
        unfold deep_copy_from_array
        rw [view_write, if_pos]
        · simp
        · refine ⟨rfl, rfl, ?_⟩
          rw [covers_iff]
          simp only []
          omega
    · refine ⟨_, rfl, ?_, ?_, ?_, ?_⟩
      · exact (next_foldl_of (fun hh j => deep_copy_from_array hh (column _ j) data LDA j)
          (fun hh a => rfl) _ _).trans rfl
      · intro b hb
        rw [cells_foldl_of_ne _ b _ _]
        · simp [MultiVector.modify, DualView.modify, Heap.setCell, hb]
        · intro hh a
          unfold deep_copy_from_array
          exact cells_write_of_ne _ _ _ _ _ hb
      · rw [need_sync_foldl_of]
        · simp [MultiVector.modify, DualView.modify, Heap.setCell, DualViewData.modify,
            DualViewData.need_sync]
        · intro hh a b sp
          unfold deep_copy_from_array
          exact need_sync_write _ _ _ _ _ _
      · intro i j hi hj
        unfold deep_copy_from_array
        rw [view_foldl_write_range .device _ (fun j i j' => data.getD (i + (j + j') * LDA) 0),
          if_pos]
        · simp
        · refine ⟨rfl, rfl, ?_⟩
          simp only []
          omega

end Tpetra
namespace Tpetra

end Tpetra
namespace Tpetra

theorem getElem_deep_copy_to_array {S : Type} (A : List S) (offset numRows : Nat)
    (src : Nat → S) (p : Nat) :
    (deep_copy_to_array A offset numRows src)[p]? =
      A[p]?.map (fun v => if offset ≤ p ∧ p < offset + numRows then src (p - offset) else v) := by
  unfold deep_copy_to_array
  rw [List.getElem?_mapIdx]

/-- The column loop of `get1dCopy` on an array with leading dimension `L`, for
columns of `n <= L` rows: slot `p` receives entry `(p % L, p / L)` when that is
an entry of the first `m` columns, and keeps its value otherwise. -/
theorem getElem_foldl_copy_to_array {S : Type} (L n : Nat) (hLn : n ≤ L)
    (g : Nat → Nat → S) :
    ∀ (m : Nat) (A : List S) (p : Nat),
    ((List.range m).foldl (fun out j => deep_copy_to_array out (L * j) n (g j)) A)[p]? =
      A[p]?.map (fun v => if p % L < n ∧ p / L < m then g (p / L) (p % L) else v) := by
  intro m
  induction m with
  | zero => intro A p; simp
  | succ m ih =>
    intro A p
    rw [List.range_succ, List.foldl_append, List.foldl_cons, List.foldl_nil,
      getElem_deep_copy_to_array, ih, Option.map_map]
    congr 1
    funext v
    simp only [Function.comp]
    by_cases hr : L * m ≤ p ∧ p < L * m + n
    · have hL : 0 < L := by omega
      obtain ⟨i, rfl⟩ : ∃ i, p = i + L * m := ⟨p - L * m, by omega⟩
      have hi : i < n := by omega
      have hd : (i + L * m) / L = m := by
        rw [Nat.add_mul_div_left _ _ hL, Nat.div_eq_of_lt (by omega)]; omega
      have hm : (i + L * m) % L = i := by
        rw [Nat.add_mul_mod_self_left, Nat.mod_eq_of_lt (by omega)]
      rw [if_pos hr, hd, hm, if_pos ⟨hi, by omega⟩, Nat.add_sub_cancel]
    · rw [if_neg hr]
      have hdm := Nat.div_add_mod p L
      by_cases hc : p % L < n ∧ p / L < m
      · rw [if_pos hc, if_pos ⟨hc.1, by omega⟩]
      · rw [if_neg hc, if_neg]
        rintro ⟨h1, h2⟩
        have h3 : p / L = m := by omega
        rw [h3] at hdm
        exact hr ⟨by omega, by omega⟩

theorem length_deep_copy_to_array {S : Type} (A : List S) (offset numRows : Nat)
    (src : Nat → S) : (deep_copy_to_array A offset numRows src).length = A.length := by
  unfold deep_copy_to_array
  rw [List.length_mapIdx]

theorem length_foldl_copy_to_array {S : Type} (L n : Nat) (g : Nat → Nat → S) :
    ∀ (m : Nat) (A : List S),
    ((List.range m).foldl (fun out j => deep_copy_to_array out (L * j) n (g j)) A).length
      = A.length := by
  intro m
  induction m with
  | zero => intro A; rfl
  | succ m ih =>
    intro A
    rw [List.range_succ, List.foldl_append, List.foldl_cons, List.foldl_nil,
      length_deep_copy_to_array, ih]

theorem fromFlatArray_inv {S : Type} [Zero S] (h : Heap S) (map : Option Map) (data : List S)
    (LDA numVecs : Nat) (r : Heap S × MultiVector)
    (hX : MultiVector.fromFlatArray h map data LDA numVecs = .ok r) :
    ¬ LDA < localLengthOf map ∧
    ¬ (numVecs ≠ 0 ∧
      data.length < size_t_add (size_t_mul LDA (numVecs - 1)) (localLengthOf map)) := by
  cases map
  all_goals
    simp only [localLengthOf]
    unfold MultiVector.fromFlatArray at hX
    simp only [] at hX
    constructor
    · intro hc
      rw [if_pos hc] at hX
      cases hX
    · intro hc
      rw [if_pos hc] at hX
      split at hX <;> cases hX

end Tpetra
namespace Tpetra

/-- C39: let the constructor `MultiVector (map, data, LDA, numCols)` return the
block `X` over a map with `n` local rows (the bound `LDA * (numCols - 1) + n`
fitting in `size_t`), and let `out` be an array of fewer than `2^64` slots.
`X.get1dCopy (out, LDA2)` raises `std::runtime_error` when `LDA2 < n`.  When
`LDA2 >= n` and `out` has at least `LDA2 * (numCols - 1) + n` slots, it returns,
the array keeps its length, slot `i + j * LDA2` holds `data[i + j * LDA]` for
all `i < n` and `j < numCols`, and every other slot keeps its value. -/
theorem C39_flat_array_round_trip {S : Type} [Zero S] (h : Heap S) (map : Option Map)
    (data : List S) (LDA numCols : Nat) (h1 : Heap S) (X : MultiVector) (out : List S)
    (LDA2 : Nat)
    (hfit : LDA * (numCols - 1) + localLengthOf map < 2 ^ 64)
    (hX : MultiVector.fromFlatArray h map data LDA numCols = .ok (h1, X))
    (hout : out.length < 2 ^ 64) :
    (LDA2 < localLengthOf map → X.get1dCopy h1 out LDA2 = .error .runtime_error) ∧
    (localLengthOf map ≤ LDA2 → LDA2 * (numCols - 1) + localLengthOf map ≤ out.length →
      ∃ out', X.get1dCopy h1 out LDA2 = .ok out' ∧ out'.length = out.length ∧
        (∀ i j, i < localLengthOf map → j < numCols →
          ∃ v, data[i + j * LDA]? = some v ∧ out'[i + j * LDA2]? = some v) ∧
        (∀ p, (¬ ∃ i j, i < localLengthOf map ∧ j < numCols ∧ p = i + j * LDA2) →
          out'[p]? = out[p]?)) := by
  obtain ⟨c1, c2⟩ := fromFlatArray_inv h map data LDA numCols _ hX
  obtain ⟨hh, he, -, -, hns, hv⟩ := fromFlatArray_ok h map data LDA numCols c1 c2
  rw [he] at hX
  obtain ⟨rfl, rfl⟩ := Prod.mk.inj (Except.ok.inj hX)
  rw [size_t_bound_eq LDA (numCols - 1) (localLengthOf map) hfit] at c2
  have hrows : MultiVector.getLocalLength
      (⟨map, ⟨h.next, 0, 0, localLengthOf map, numCols, localLengthOf map⟩,
        ⟨h.next, 0, 0, localLengthOf map, numCols, localLengthOf map⟩, []⟩ : MultiVector)
      = localLengthOf map := by
    cases map <;> rfl
  constructor
  · intro hl
    unfold MultiVector.get1dCopy
    simp only [hrows, if_pos hl]
  · intro hl hlen
    have hb := size_t_bound_eq LDA2 (numCols - 1) (localLengthOf map) (by omega)
    unfold MultiVector.get1dCopy
    simp only [hrows, if_neg (Nat.not_lt.mpr hl), hb, MultiVector.getNumVectors,
      MultiVector.isConstantStride, List.isEmpty_nil, if_true, MultiVector.need_sync,
      DualView.need_sync, hns, Bool.false_eq_true, if_false]
    rw [if_neg (by omega)]
    refine ⟨_, rfl, ?_, ?_, ?_⟩
    · exact length_foldl_copy_to_array LDA2 (localLengthOf map)
        (fun j i => DualView.get hh .device
          (subview ⟨h.next, 0, 0, localLengthOf map, numCols, localLengthOf map⟩
            (0, localLengthOf map) (j, j + 1)) i 0) _ _
    · intro i j hi hj
      have hL : 0 < LDA2 := by omega
      have hjl : j * LDA ≤ (numCols - 1) * LDA := Nat.mul_le_mul_right _ (by omega)
      have hjl2 : j * LDA2 ≤ (numCols - 1) * LDA2 := Nat.mul_le_mul_right _ (by omega)
      have hc1 : (numCols - 1) * LDA = LDA * (numCols - 1) := Nat.mul_comm _ _
      have hc2 : (numCols - 1) * LDA2 = LDA2 * (numCols - 1) := Nat.mul_comm _ _
      have hin : i + j * LDA < data.length := by
        have := Nat.not_lt.mp (fun hlt => c2 ⟨by omega, hlt⟩)
        omega
      have hin2 : i + j * LDA2 < out.length := by omega
      refine ⟨data[i + j * LDA], List.getElem?_eq_getElem hin, ?_⟩
      rw [getElem_foldl_copy_to_array LDA2 (localLengthOf map) hl
        (fun j i => DualView.get hh .device
          (subview ⟨h.next, 0, 0, localLengthOf map, numCols, localLengthOf map⟩
            (0, localLengthOf map) (j, j + 1)) i 0)]
      have hd : (i + j * LDA2) / LDA2 = j := by
        rw [Nat.mul_comm j LDA2, Nat.add_mul_div_left _ _ hL, Nat.div_eq_of_lt (by omega)]
        omega
      have hm : (i + j * LDA2) % LDA2 = i := by
        rw [Nat.mul_comm j LDA2, Nat.add_mul_mod_self_left, Nat.mod_eq_of_lt (by omega)]
      rw [List.getElem?_eq_getElem hin2, Option.map_some', hd, hm, if_pos ⟨hi, hj⟩]
      have hval := hv i j hi hj
      rw [List.getD_eq_getElem _ _ hin] at hval
      simp only [DualView.get, subview, Nat.zero_add, Nat.add_zero]
      rw [← hval]
    · intro p hp
      rw [getElem_foldl_copy_to_array LDA2 (localLengthOf map) hl
        (fun j i => DualView.get hh .device
          (subview ⟨h.next, 0, 0, localLengthOf map, numCols, localLengthOf map⟩
            (0, localLengthOf map) (j, j + 1)) i 0)]
      have hno : ¬ (p % LDA2 < localLengthOf map ∧ p / LDA2 < numCols) := by
        intro hc
        apply hp
        refine ⟨p % LDA2, p / LDA2, hc.1, hc.2, ?_⟩
        have := Nat.div_add_mod p LDA2
        rw [Nat.mul_comm (p / LDA2) LDA2]
        omega
      simp only [if_neg hno]
      cases out[p]? <;> rfl

end Tpetra
namespace Tpetra

/-- Witness for C39: the block built from five entries with leading dimension 3
(two rows, two columns) is copied into an array of seven slots with leading
dimension 4; with leading dimension 1 the copy is refused. -/
theorem C39_flat_array_round_trip_witness :
    3 * (2 - 1) + localLengthOf (some demoMap) < 2 ^ 64 ∧
    MultiVector.fromFlatArray demoHeap (some demoMap) flatData 3 2
      = .ok (flatBlock.1, flatBlock.2) ∧
    ([9, 9, 9, 9, 9, 9, 9] : List Int).length < 2 ^ 64 ∧
    (1 < localLengthOf (some demoMap) ∧
      flatBlock.2.get1dCopy flatBlock.1 [9, 9, 9, 9, 9, 9, 9] 1 = .error .runtime_error) ∧
    (localLengthOf (some demoMap) ≤ 4 ∧
      4 * (2 - 1) + localLengthOf (some demoMap) ≤ ([9, 9, 9, 9, 9, 9, 9] : List Int).length ∧
      ∃ out', flatBlock.2.get1dCopy flatBlock.1 [9, 9, 9, 9, 9, 9, 9] 4 = .ok out' ∧
        out'.length = ([9, 9, 9, 9, 9, 9, 9] : List Int).length ∧
        (∀ i j, i < localLengthOf (some demoMap) → j < 2 →
          ∃ v, flatData[i + j * 3]? = some v ∧ out'[i + j * 4]? = some v) ∧
        (∀ p, (¬ ∃ i j, i < localLengthOf (some demoMap) ∧ j < 2 ∧ p = i + j * 4) →
          out'[p]? = ([9, 9, 9, 9, 9, 9, 9] : List Int)[p]?)) :=
  ⟨by decide, rfl, by decide,
    ⟨by decide,
      (C39_flat_array_round_trip demoHeap (some demoMap) flatData 3 2 flatBlock.1 flatBlock.2
        [9, 9, 9, 9, 9, 9, 9] 1 (by decide) rfl (by decide)).1 (by decide)⟩,
    ⟨by decide, by decide,
      (C39_flat_array_round_trip demoHeap (some demoMap) flatData 3 2 flatBlock.1 flatBlock.2
        [9, 9, 9, 9, 9, 9, 9] 4 (by decide) rfl (by decide)).2 (by decide) (by decide)⟩⟩

end Tpetra
namespace Tpetra

/-! ## The column list never has exactly one entry -/

theorem except_map_ok {ε α β : Type} (x : Except ε α) (f : α → β) (r : β)
    (hx : x.map f = .ok r) : ∃ a, x = .ok a ∧ f a = r := by
  cases x with
  | error e => simp [Except.map] at hx
  | ok a => exact ⟨a, rfl, by simpa [Except.map] using hx⟩

theorem whichVectors_fromViewOrig (map : Option Map) (view origView : DualView)
    (Y : MultiVector) (hY : MultiVector.fromViewOrig map view origView = .ok Y) :
    Y.whichVectors_ = [] := by
  unfold MultiVector.fromViewOrig at hY
  simp only [] at hY
  split at hY
  · cases hY
  · cases hY; rfl

theorem whichVectors_fromViewOrigWhich {S : Type} [Zero S] (h : Heap S) (map : Option Map)
    (view origView : DualView) (wv : List Nat) (r : Heap S × MultiVector)
    (hr : MultiVector.fromViewOrigWhich h map view origView wv = .ok r) :
    r.2.whichVectors_.length ≠ 1 := by
  unfold MultiVector.fromViewOrigWhich at hr
  simp only [] at hr
  split at hr
  · cases hr
  · split at hr
    · cases hr
    · split at hr
      · cases hr
      · split at hr
        · cases hr
        · split at hr
          · cases hr; simp
          · rename_i hlen
            cases hr
            exact hlen

theorem whichVectors_subView {S : Type} [Zero S] (h : Heap S) (X : MultiVector)
    (colRng : Range1D) (r : Heap S × MultiVector) (hr : X.subView h colRng = .ok r) :
    r.2.whichVectors_.length ≠ 1 := by
  unfold MultiVector.subView at hr
  simp only [] at hr
  split at hr
  · cases hr
  · split at hr
    · cases hr
    · split at hr
      · obtain ⟨Y, hY, rfl⟩ := except_map_ok _ _ _ hr
        simp [whichVectors_fromViewOrig _ _ _ _ hY]
      · split at hr
        · obtain ⟨Y, hY, rfl⟩ := except_map_ok _ _ _ hr
          simp [whichVectors_fromViewOrig _ _ _ _ hY]
        · split at hr
          · obtain ⟨Y, hY, rfl⟩ := except_map_ok _ _ _ hr
            simp [whichVectors_fromViewOrig _ _ _ _ hY]
          · exact whichVectors_fromViewOrigWhich _ _ _ _ _ _ hr

theorem whichVectors_subView_single {S : Type} [Zero S] (h : Heap S) (X : MultiVector)
    (colRng : Range1D) (hsize : colRng.size = 1) (r : Heap S × MultiVector)
    (hr : X.subView h colRng = .ok r) : r.2.whichVectors_ = [] := by
  have h1 : size_t_cast colRng.size = 1 := by rw [hsize]; rfl
  have h0 : colRng.size ≠ 0 := by rw [hsize]; decide
  unfold MultiVector.subView at hr
  simp only [h1, if_neg h0, if_true] at hr
  split at hr
  · cases hr
  · split at hr
    · cases hr
    · split at hr
      · obtain ⟨Y, hY, rfl⟩ := except_map_ok _ _ _ hr
        exact whichVectors_fromViewOrig _ _ _ _ hY
      · obtain ⟨Y, hY, rfl⟩ := except_map_ok _ _ _ hr
        exact whichVectors_fromViewOrig _ _ _ _ hY

end Tpetra
namespace Tpetra

theorem whichVectors_subViewCols {S : Type} [Zero S] (h : Heap S) (X : MultiVector)
    (cols : List Nat) (r : Heap S × MultiVector) (hr : X.subViewCols h cols = .ok r) :
    r.2.whichVectors_.length ≠ 1 := by
  unfold MultiVector.subViewCols at hr
  simp only [] at hr
  split at hr
  · cases hr
  · split at hr
    · split at hr
      · cases hr; simp [MultiVector.fromMap]
      · exact whichVectors_subView _ _ _ _ hr
    · split at hr
      · exact whichVectors_fromViewOrigWhich _ _ _ _ _ _ hr
      · exact whichVectors_fromViewOrigWhich _ _ _ _ _ _ hr

theorem whichVectors_getVector {S : Type} [Zero S] (h : Heap S) (X : MultiVector) (j : Nat)
    (r : Heap S × MultiVector) (hr : X.getVector h j = .ok r) : r.2.whichVectors_ = [] := by
  unfold MultiVector.getVector at hr
  obtain ⟨Y, hY, rfl⟩ := except_map_ok _ _ _ hr
  exact whichVectors_fromViewOrig _ _ _ _ hY

theorem whichVectors_offsetViewCtor {S : Type} [Zero S] (h : Heap S) (X : MultiVector)
    (subMap : Map) (offset : Nat) (r : Heap S × MultiVector)
    (hr : X.offsetViewCtor h subMap offset = .ok r) : r.2.whichVectors_.length ≠ 1 := by
  unfold MultiVector.offsetViewCtor at hr
  simp only [] at hr
  split at hr
  · cases hr
  · split at hr
    · obtain ⟨Y, hY, rfl⟩ := except_map_ok _ _ _ hr
      simp [whichVectors_fromViewOrig _ _ _ _ hY]
    · exact whichVectors_fromViewOrigWhich _ _ _ _ _ _ hr

theorem whichVectors_fromSource {S : Type} [Zero S] (h : Heap S) (X : MultiVector)
    (hX : X.whichVectors_.length ≠ 1) (copyOrView : DataAccess) (r : Heap S × MultiVector)
    (hr : MultiVector.fromSource h X copyOrView = .ok r) : r.2.whichVectors_.length ≠ 1 := by
  cases copyOrView with
  | Copy =>
    unfold MultiVector.fromSource at hr
    obtain ⟨q, hq, rfl⟩ := except_map_ok _ _ _ hr
    unfold createCopy at hq
    obtain ⟨h1, -, rfl⟩ := except_map_ok _ _ _ hq
    simp [MultiVector.fromMap]
  | View =>
    unfold MultiVector.fromSource at hr
    cases hr
    exact hX
  | other =>
    unfold MultiVector.fromSource at hr
    cases hr

/-- C38: for every block `X` whose column list does not have exactly one entry,
the block returned by each constructor, by the assignment operator, by `subView`
(on a range and on a list of columns), by `getVector` and by the offset-view
constructor again has a column list that does not have exactly one entry: the
list is empty (constant stride) or has at least two entries.  For such a block
`getNumVectors () == 1` implies `isConstantStride ()`, and `getVector`, `subView`
on a range of one column and `subView` on a list of one column return a
constant-stride block, whether `X` is constant stride or not. -/
theorem C38_column_list_never_has_one_entry {S : Type} [Zero S] (h : Heap S)
    (X : MultiVector) (hX : X.whichVectors_.length ≠ 1) :
    ((MultiVector.defaultCtor h).2.whichVectors_.length ≠ 1 ∧
      (∀ map numVecs zeroOut,
        (MultiVector.fromMap h map numVecs zeroOut).2.whichVectors_.length ≠ 1) ∧
      (MultiVector.copyCtor X).whichVectors_.length ≠ 1 ∧
      (∀ copyOrView r, MultiVector.fromSource h X copyOrView = .ok r →
        r.2.whichVectors_.length ≠ 1) ∧
      (∀ map view Y, MultiVector.fromView map view = .ok Y → Y.whichVectors_.length ≠ 1) ∧
      (∀ map (d_view : DeviceView S) r, MultiVector.fromDeviceView h map d_view = .ok r →
        r.2.whichVectors_.length ≠ 1) ∧
      (∀ map view origView Y, MultiVector.fromViewOrig map view origView = .ok Y →
        Y.whichVectors_.length ≠ 1) ∧
      (∀ map view wv r, MultiVector.fromViewWhich h map view wv = .ok r →
        r.2.whichVectors_.length ≠ 1) ∧
      (∀ map view origView wv r, MultiVector.fromViewOrigWhich h map view origView wv = .ok r →
        r.2.whichVectors_.length ≠ 1) ∧
      (∀ map data LDA numVecs r, MultiVector.fromFlatArray h map data LDA numVecs = .ok r →
        r.2.whichVectors_.length ≠ 1) ∧
      (∀ map ArrayOfPtrs numVecs r,
        MultiVector.fromArrayOfPtrs h map ArrayOfPtrs numVecs = .ok r →
        r.2.whichVectors_.length ≠ 1) ∧
      (∀ subMap offset r, X.offsetViewCtor h subMap offset = .ok r →
        r.2.whichVectors_.length ≠ 1)) ∧
    (∀ self, (MultiVector.assignFrom self X).whichVectors_.length ≠ 1) ∧
    ((∀ colRng r, X.subView h colRng = .ok r → r.2.whichVectors_.length ≠ 1) ∧
      (∀ cols r, X.subViewCols h cols = .ok r → r.2.whichVectors_.length ≠ 1) ∧
      (∀ j r, X.getVector h j = .ok r → r.2.whichVectors_.length ≠ 1)) ∧
    ((X.getNumVectors = 1 → X.isConstantStride = true) ∧
      (∀ j r, X.getVector h j = .ok r → r.2.isConstantStride = true) ∧
      (∀ j r, X.subView h ⟨j, j⟩ = .ok r → r.2.isConstantStride = true) ∧
      (∀ c r, X.subViewCols h [c] = .ok r → r.2.isConstantStride = true)) := by
  refine ⟨⟨?_, ?_, hX, ?_, ?_, ?_, ?_, ?_, ?_, ?_, ?_, ?_⟩, fun _ => hX, ⟨?_, ?_, ?_⟩,
    ⟨?_, ?_, ?_, ?_⟩⟩
  · simp [MultiVector.defaultCtor]
  · intro map numVecs zeroOut
    simp [MultiVector.fromMap]
  · exact fun c r hr => whichVectors_fromSource h X hX c r hr
  · intro map view Y hY
    simp [whichVectors_fromViewOrig _ _ _ _ hY]
  · intro map d_view r hr
    unfold MultiVector.fromDeviceView at hr
    simp only [] at hr
    split_ifs at hr
    all_goals first | (cases hr; done) | (cases hr; simp)
  · intro map view origView Y hY
    simp [whichVectors_fromViewOrig _ _ _ _ hY]
  · exact fun map view wv r hr => whichVectors_fromViewOrigWhich _ _ _ _ _ _ hr
  · exact fun map view origView wv r hr => whichVectors_fromViewOrigWhich _ _ _ _ _ _ hr
  · intro map data LDA numVecs r hr
    unfold MultiVector.fromFlatArray at hr
    simp only [] at hr
    split_ifs at hr
    all_goals first | (cases hr; done) | (cases hr; simp)
  · intro map ArrayOfPtrs numVecs r hr
    unfold MultiVector.fromArrayOfPtrs at hr
    simp only [] at hr
    split_ifs at hr
    all_goals first | (cases hr; done) | (cases hr; simp)
  · exact fun subMap offset r hr => whichVectors_offsetViewCtor _ _ _ _ _ hr
  · exact fun colRng r hr => whichVectors_subView _ _ _ _ hr
  · exact fun cols r hr => whichVectors_subViewCols _ _ _ _ hr
  · intro j r hr
    simp [whichVectors_getVector _ _ _ _ hr]
  · intro h1
    unfold MultiVector.getNumVectors at h1
    by_cases hcs : X.isConstantStride = true
    · exact hcs
    · rw [if_neg hcs] at h1
      exact absurd h1 hX
  · intro j r hr
    simp [MultiVector.isConstantStride, whichVectors_getVector _ _ _ _ hr]
  · intro j r hr
    have := whichVectors_subView_single h X ⟨j, j⟩ (by simp [Range1D.size]) r hr
    simp [MultiVector.isConstantStride, this]
  · intro c r hr
    unfold MultiVector.subViewCols at hr
    have hc : contiguousCols [c] = true := by simp [contiguousCols]
    simp only [List.length_singleton, hc, if_true] at hr
    rw [if_neg (by decide), if_neg (by decide)] at hr
    have := whichVectors_subView_single h X _ (by simp [Range1D.size]) r hr
    simp [MultiVector.isConstantStride, this]

end Tpetra
namespace Tpetra

/-- Witness for C38, on the column view `demoColumnView` of physical columns 0
and 2: the constructor given the one-entry list `[2]`, `subView` on the range
`[1, 1]`, `subView` on the list `[1]` and `getVector (1)` return constant-stride
blocks, `subView` on the list `[1, 0]` returns a block with two listed columns,
and the offset view of the first row keeps the two listed columns. -/
theorem C38_column_list_never_has_one_entry_witness :
    demoColumnView.whichVectors_.length ≠ 1 ∧
    (∃ r, MultiVector.fromViewWhich demoHeap (some demoMap) demoView [2] = .ok r ∧
      r.2.whichVectors_.length ≠ 1) ∧
    (∃ r, demoColumnView.offsetViewCtor demoHeap oneRowMap 0 = .ok r ∧
      r.2.whichVectors_.length ≠ 1) ∧
    (∃ r, demoColumnView.subViewCols demoHeap [1, 0] = .ok r ∧
      r.2.whichVectors_.length ≠ 1) ∧
    (∃ r, demoColumnView.getVector demoHeap 1 = .ok r ∧ r.2.isConstantStride = true) ∧
    (∃ r, demoColumnView.subView demoHeap ⟨1, 1⟩ = .ok r ∧ r.2.isConstantStride = true) ∧
    (∃ r, demoColumnView.subViewCols demoHeap [1] = .ok r ∧ r.2.isConstantStride = true) := by
  obtain ⟨⟨-, -, -, -, -, -, -, hwhich, -, -, -, hoff⟩, -, ⟨-, hcols, -⟩, ⟨-, hvec, hsub, hone⟩⟩ :=
    C38_column_list_never_has_one_entry demoHeap demoColumnView (by decide)
  exact ⟨by decide, ⟨_, rfl, hwhich (some demoMap) demoView [2] _ rfl⟩,
    ⟨_, rfl, hoff oneRowMap 0 _ rfl⟩, ⟨_, rfl, hcols [1, 0] _ rfl⟩,
    ⟨_, rfl, hvec 1 _ rfl⟩, ⟨_, rfl, hsub 1 _ rfl⟩, ⟨_, rfl, hone 1 _ rfl⟩⟩

end Tpetra
namespace Tpetra

/-! ## `scale (alpha)` on the selected columns -/

theorem map_getD_range (l : List Nat) :
    (List.range l.length).map (fun k => l.getD k 0) = l := by
  apply List.ext_getElem
  · simp
  · intro n h1 h2
    simp only [List.getElem_map, List.getElem_range]
    rw [List.getD_eq_getElem _ _ h2]

theorem column_covers_iff (Y : DualView) (col r c : Nat) :
    (column Y col).covers r c = true ↔
      Y.row0 ≤ r ∧ r < Y.row0 + Y.dimension_0 ∧ c = Y.col0 + col := by
  rw [covers_iff]
  simp only [column, subviewAllRows, subview]
  omega

/-- A loop that scales pairwise distinct columns of a view in place: every entry
of a listed column is multiplied by `alpha` once, everything else is kept. -/
theorem view_foldl_scal {S : Type} [Mul S] (sp : MemSpace) (Y : DualView) (alpha : S)
    (cols : List Nat) (hnd : cols.Nodup) :
    ∀ (h : Heap S) (b : Nat) (sp' : MemSpace) (r c : Nat),
    ((cols.foldl (fun hh col => KokkosBlas.scal hh sp (column Y col) alpha (column Y col))
        h).cells b).view sp' r c =
      if b = Y.buf ∧ sp' = sp ∧ ∃ col ∈ cols, (column Y col).covers r c = true
      then alpha * (h.cells b).view sp' r c else (h.cells b).view sp' r c := by
  induction cols with
  | nil => intro h b sp' r c; simp
  | cons col cols ih =>
    intro h b sp' r c
    have hnd' := (List.nodup_cons.mp hnd)
    rw [List.foldl_cons, ih hnd'.2]
    unfold KokkosBlas.scal
    rw [view_write]
    have hbuf : (column Y col).buf = Y.buf := rfl
    rw [hbuf]
    by_cases h1 : b = Y.buf ∧ sp' = sp
    · obtain ⟨hb, hsp⟩ := h1
      subst hb hsp
      by_cases h2 : (column Y col).covers r c = true
      · have h3 : ¬ ∃ col' ∈ cols, (column Y col').covers r c = true := by
          rintro ⟨c', hc', hcov⟩
          have e1 := ((column_covers_iff Y col r c).mp h2).2.2
          have e2 := ((column_covers_iff Y c' r c).mp hcov).2.2
          have : c' = col := by omega
          subst this
          exact hnd'.1 hc'
        have h4 : ∃ col' ∈ col :: cols, (column Y col').covers r c = true :=
          ⟨col, List.mem_cons_self _ _, h2⟩
        rw [if_neg (fun hh => h3 hh.2.2), if_pos ⟨rfl, rfl, h2⟩, if_pos ⟨rfl, rfl, h4⟩]
        have hc := (covers_iff (column Y col) r c).mp h2
        simp only [DualView.get]
        rw [hbuf, Nat.add_sub_cancel' hc.1, Nat.add_sub_cancel' hc.2.2.1]
      · by_cases h3 : ∃ col' ∈ cols, (column Y col').covers r c = true
        · have h4 : ∃ col' ∈ col :: cols, (column Y col').covers r c = true := by
            obtain ⟨c', hc', hcov⟩ := h3
            exact ⟨c', List.mem_cons_of_mem _ hc', hcov⟩
          rw [if_pos ⟨rfl, rfl, h3⟩, if_neg (fun hh => h2 hh.2.2), if_pos ⟨rfl, rfl, h4⟩]
        · have h4 : ¬ ∃ col' ∈ col :: cols, (column Y col').covers r c = true := by
            rintro ⟨c', hc', hcov⟩
            rcases List.mem_cons.mp hc' with rfl | hc'
            · exact h2 hcov
            · exact h3 ⟨c', hc', hcov⟩
          rw [if_neg (fun hh => h3 hh.2.2), if_neg (fun hh => h2 hh.2.2),
            if_neg (fun hh => h4 hh.2.2)]
    · rw [if_neg (fun hh => h1 ⟨hh.1, hh.2.1⟩), if_neg (fun hh => h1 ⟨hh.1, hh.2.1⟩),
        if_neg (fun hh => h1 ⟨hh.1, hh.2.1⟩)]

theorem scale_eq_scaleOn {S : Type} [Mul S] [One S] [DecidableEq S] (h : Heap S)
    (X : MultiVector) (alpha : S) (halpha : alpha ≠ 1) :
    X.scale h alpha = MultiVector.scaleOn h X (X.current h) alpha := by
  unfold MultiVector.scale MultiVector.current
  rw [if_neg halpha]
  cases X.need_sync h .device <;> rfl

/-- What `scale (alpha)` does on residency `sp` to the allocation of a block
whose listed columns are pairwise distinct: the entries in the local rows of the
selected physical columns are multiplied by `alpha` in `sp`, everything else is
kept. -/
theorem view_scaleOn {S : Type} [Mul S] (h : Heap S) (X : MultiVector) (sp : MemSpace)
    (alpha : S) (hnd : X.whichVectors_.Nodup) (sp' : MemSpace) (r c : Nat) :
    ((MultiVector.scaleOn h X sp alpha).cells X.view_.buf).view sp' r c =
      if sp' = sp ∧ X.view_.row0 ≤ r ∧ r < X.view_.row0 + X.getLocalLength ∧
          ∃ j, j < X.getNumVectors ∧ c = X.view_.col0 + X.physicalColumn j
      then alpha * (h.cells X.view_.buf).view sp' r c
      else (h.cells X.view_.buf).view sp' r c := by
  unfold MultiVector.scaleOn
  simp only []
  by_cases hcs : X.isConstantStride = true
  · have hnv : X.getNumVectors = X.view_.dimension_1 := by simp [MultiVector.getNumVectors, hcs]
    have hpc : ∀ j, X.physicalColumn j = j := by
      intro j; simp [MultiVector.physicalColumn, hcs]
    rw [if_pos hcs]
    unfold KokkosBlas.scal
    rw [view_write]
    have hcov : (subviewAllCols X.view_ (0, X.getLocalLength)).covers r c = true ↔
        X.view_.row0 ≤ r ∧ r < X.view_.row0 + X.getLocalLength ∧
          X.view_.col0 ≤ c ∧ c < X.view_.col0 + X.view_.dimension_1 := by
      rw [covers_iff]
      simp only [subviewAllCols, subview]
      omega
    by_cases hin : sp' = sp ∧ X.view_.row0 ≤ r ∧ r < X.view_.row0 + X.getLocalLength ∧
        ∃ j, j < X.getNumVectors ∧ c = X.view_.col0 + X.physicalColumn j
    · obtain ⟨hsp, hr1, hr2, j, hj, hc⟩ := hin
      rw [hpc] at hc
      have hcv := hcov.mpr ⟨hr1, hr2, by omega, by omega⟩
      rw [if_pos ⟨rfl, hsp, hcv⟩, if_pos ⟨hsp, hr1, hr2, j, hj, by rw [hpc]; exact hc⟩]
      have hc' := (covers_iff _ r c).mp hcv
      simp only [DualView.get]
      rw [Nat.add_sub_cancel' hc'.1, Nat.add_sub_cancel' hc'.2.2.1, hsp]
      rfl
    · rw [if_neg hin, if_neg]
      rintro ⟨-, hsp, hcv⟩
      have := hcov.mp hcv
      exact hin ⟨hsp, this.1, this.2.1, c - X.view_.col0, by omega, by rw [hpc]; omega⟩
  · have hnv : X.getNumVectors = X.whichVectors_.length := by
      simp [MultiVector.getNumVectors, hcs]
    have hpc : ∀ j, X.physicalColumn j = X.whichVectors_.getD j 0 := by
      intro j; simp [MultiVector.physicalColumn, hcs]
    rw [if_neg hcs]
    have hfun : (fun (hh : Heap S) (k : Nat) =>
        KokkosBlas.scal hh sp
          (column (subviewAllCols X.view_ (0, X.getLocalLength))
            (if X.isConstantStride = true then k else X.whichVectors_.getD k 0)) alpha
          (column (subviewAllCols X.view_ (0, X.getLocalLength))
            (if X.isConstantStride = true then k else X.whichVectors_.getD k 0)))
        = (fun hh k => KokkosBlas.scal hh sp
            (column (subviewAllCols X.view_ (0, X.getLocalLength)) (X.whichVectors_.getD k 0))
            alpha
            (column (subviewAllCols X.view_ (0, X.getLocalLength))
              (X.whichVectors_.getD k 0))) := by
      funext hh k
      rw [if_neg hcs]
    rw [hfun, foldl_range_getD (fun hh col => KokkosBlas.scal hh sp
        (column (subviewAllCols X.view_ (0, X.getLocalLength)) col) alpha
        (column (subviewAllCols X.view_ (0, X.getLocalLength)) col)) X.whichVectors_,
      hnv, map_getD_range, view_foldl_scal _ _ _ _ hnd]
    have hcov : ∀ col, (column (subviewAllCols X.view_ (0, X.getLocalLength)) col).covers r c
        = true ↔ X.view_.row0 ≤ r ∧ r < X.view_.row0 + X.getLocalLength ∧
          c = X.view_.col0 + col := by
      intro col
      rw [column_covers_iff]
      simp only [subviewAllCols, subview]
      omega
    have hb : (h.cells (subviewAllCols X.view_ (0, X.getLocalLength)).buf)
        = h.cells X.view_.buf := rfl
    by_cases hin : sp' = sp ∧ X.view_.row0 ≤ r ∧ r < X.view_.row0 + X.getLocalLength ∧
        ∃ j, j < X.whichVectors_.length ∧ c = X.view_.col0 + X.physicalColumn j
    · have hin' := hin
      obtain ⟨hsp, hr1, hr2, j, hj, hc⟩ := hin
      have hL : X.view_.buf = (subviewAllCols X.view_ (0, X.getLocalLength)).buf ∧ sp' = sp ∧
          ∃ col ∈ X.whichVectors_,
            (column (subviewAllCols X.view_ (0, X.getLocalLength)) col).covers r c = true := by
        refine ⟨rfl, hsp, X.whichVectors_.getD j 0, ?_, ?_⟩
        · rw [List.getD_eq_getElem _ _ hj]
          exact List.getElem_mem _
        · rw [hcov]
          exact ⟨hr1, hr2, by rw [← hpc]; exact hc⟩
      rw [if_pos hL, if_pos hin']
    · have hL : ¬ (X.view_.buf = (subviewAllCols X.view_ (0, X.getLocalLength)).buf ∧ sp' = sp ∧
          ∃ col ∈ X.whichVectors_,
            (column (subviewAllCols X.view_ (0, X.getLocalLength)) col).covers r c = true) := by
        rintro ⟨-, hsp, col, hcol, hcv⟩
        have := (hcov col).mp hcv
        obtain ⟨j, hj, hjc⟩ := List.getElem_of_mem hcol
        refine hin ⟨hsp, this.1, this.2.1, j, hj, ?_⟩
        rw [hpc, List.getD_eq_getElem _ _ hj, hjc]
        exact this.2.2
      rw [if_neg hL, if_neg hin]

theorem need_sync_scaleOn {S : Type} [Mul S] (h : Heap S) (X : MultiVector) (sp : MemSpace)
    (alpha : S) (b : Nat) (sp' : MemSpace) :
    ((MultiVector.scaleOn h X sp alpha).cells b).need_sync sp' = (h.cells b).need_sync sp' := by
  unfold MultiVector.scaleOn
  simp only []
  split
  · exact need_sync_write _ _ _ _ _ _
  · rw [need_sync_foldl_of]
    intro hh a b sp
    exact need_sync_write _ _ _ _ _ _

theorem cells_scaleOn_of_ne {S : Type} [Mul S] (h : Heap S) (X : MultiVector) (sp : MemSpace)
    (alpha : S) (b : Nat) (hb : b ≠ X.view_.buf) :
    (MultiVector.scaleOn h X sp alpha).cells b = h.cells b := by
  unfold MultiVector.scaleOn
  simp only []
  split
  · exact cells_write_of_ne _ _ _ _ _ hb
  · rw [cells_foldl_of_ne _ b _ _]
    intro hh k
    exact cells_write_of_ne _ _ _ _ _ hb

end Tpetra
namespace Tpetra

/-- C31, counterexample: the column view that lists physical column 0 of the
2 x 3 buffer twice (the constructors accept such a list).  `scale (2)` runs the
scaling kernel on column 0 once per listed entry: entry `(1, 0)`, which is 10,
becomes 40 and not `2 * 10`. -/
theorem C31_scale_repeated_column_counterexample :
    (∃ r, MultiVector.fromViewWhich demoHeap (some demoMap) demoView [0, 0] = .ok r ∧
      r.2 = demoRepeatedView) ∧
    demoRepeatedView.value demoHeap 1 0 = 10 ∧
    demoRepeatedView.value (demoRepeatedView.scale demoHeap 2) 1 0 = 40 := by
  refine ⟨⟨_, rfl, rfl⟩, rfl, ?_⟩
  decide

/-- C31, amended: for every `alpha` other than 1 (0 included) and every block
whose listed columns are pairwise distinct, `X.scale (alpha)` runs the scaling
kernel on the residency that holds the newest data: every entry `e` in a local
row of a selected column becomes the product `alpha * e` there (whatever that
product is: nothing is assumed of the multiplication, so no entry is replaced by
a constant), and so does the logical value; every entry in a physical column
that `X` does not select, the other residency, and every other allocation are
unchanged. -/
theorem C31_scale_multiplies_selected_columns {S : Type} [Mul S] [One S] [DecidableEq S]
    (h : Heap S) (X : MultiVector) (alpha : S) (halpha : alpha ≠ 1)
    (hnd : X.whichVectors_.Nodup) :
    (∀ i j, i < X.getLocalLength → j < X.getNumVectors →
      X.entry (X.scale h alpha) (X.current h) i j = alpha * X.entry h (X.current h) i j ∧
      X.value (X.scale h alpha) i j = alpha * X.value h i j) ∧
    (∀ sp r c, (¬ ∃ j, j < X.getNumVectors ∧ c = X.view_.col0 + X.physicalColumn j) →
      ((X.scale h alpha).cells X.view_.buf).view sp r c = (h.cells X.view_.buf).view sp r c) ∧
    (∀ r c, ((X.scale h alpha).cells X.view_.buf).view (X.current h).other r c
      = (h.cells X.view_.buf).view (X.current h).other r c) ∧
    (∀ b, b ≠ X.view_.buf → (X.scale h alpha).cells b = h.cells b) := by
  rw [scale_eq_scaleOn h X alpha halpha]
  have hcur : X.current (MultiVector.scaleOn h X (X.current h) alpha) = X.current h := by
    unfold MultiVector.current MultiVector.need_sync DualView.need_sync
    rw [need_sync_scaleOn]
  refine ⟨?_, ?_, ?_, fun b hb => cells_scaleOn_of_ne h X _ alpha b hb⟩
  · intro i j hi hj
    have he : X.entry (MultiVector.scaleOn h X (X.current h) alpha) (X.current h) i j
        = alpha * X.entry h (X.current h) i j := by
      unfold MultiVector.entry DualView.get
      rw [view_scaleOn h X _ alpha hnd, if_pos]
      exact ⟨rfl, by omega, by omega, j, hj, rfl⟩
    refine ⟨he, ?_⟩
    unfold MultiVector.value
    rw [hcur]
    exact he
  · intro sp r c hc
    rw [view_scaleOn h X _ alpha hnd, if_neg]
    exact fun hh => hc hh.2.2.2
  · intro r c
    rw [view_scaleOn h X _ alpha hnd, if_neg]
    intro hh
    have := hh.1
    cases hc : X.current h <;> rw [hc] at this <;> cases this

/-- Witness for C31: the column view of physical columns 0 and 2 of a buffer
whose entry `(0, 0)` is not a number, scaled by 0: the entry stays not a
number. -/
theorem C31_scale_multiplies_selected_columns_witness :
    NanScalar.num 0 ≠ 1 ∧ demoColumnView.whichVectors_.Nodup ∧
    demoColumnView.value nanHeap 0 0 = NanScalar.nan ∧
    demoColumnView.value (demoColumnView.scale nanHeap (NanScalar.num 0)) 0 0
      = NanScalar.nan ∧
    (∀ sp r c, (¬ ∃ j, j < demoColumnView.getNumVectors ∧
        c = demoColumnView.view_.col0 + demoColumnView.physicalColumn j) →
      ((demoColumnView.scale nanHeap (NanScalar.num 0)).cells demoColumnView.view_.buf).view
          sp r c
        = (nanHeap.cells demoColumnView.view_.buf).view sp r c) :=
  ⟨by decide, by decide, rfl,
    ((C31_scale_multiplies_selected_columns nanHeap demoColumnView (NanScalar.num 0)
      (by decide) (by decide)).1 0 0 (by decide) (by decide)).2.trans rfl,
    (C31_scale_multiplies_selected_columns nanHeap demoColumnView (NanScalar.num 0)
      (by decide) (by decide)).2.1⟩

end Tpetra
namespace Tpetra

/-! ## `scale (alpha, A)` and `update (alpha, A, beta)` -/

/-- C32 (the code departs from the claim): `scale (alpha, A)` raises
`std::invalid_argument` exactly when the local lengths or the column counts
differ, but it chooses the residency it works on from the markers of `*this` and
never synchronises `A`.  With `*this` current on the device and `A = [5]` last
modified on the host (its device copy still holds 3), `this->scale (2, A)`
leaves 6 in `*this`, not `2 * 5`; after `A.sync<device> ()` the same call gives
10. -/
theorem C32_scale_from_reads_stale_argument :
    (∀ (S : Type) [Mul S] (h : Heap S) (X A : MultiVector) (alpha : S),
      X.scaleFrom h alpha A = .error .invalid_argument ↔
        (X.getLocalLength ≠ A.getLocalLength ∨ X.getNumVectors ≠ A.getNumVectors)) ∧
    staleTarget.getLocalLength = staleSource.getLocalLength ∧
    staleTarget.getNumVectors = staleSource.getNumVectors ∧
    staleTarget.need_sync staleHeap .device = false ∧
    staleSource.need_sync staleHeap .device = true ∧
    staleSource.value staleHeap 0 0 = 5 ∧
    (∃ h1, staleTarget.scaleFrom staleHeap 2 staleSource = .ok h1 ∧
      staleTarget.value h1 0 0 = 6) ∧
    (∃ h2, staleTarget.scaleFrom (staleSource.sync staleHeap .device) 2 staleSource = .ok h2 ∧
      staleTarget.value h2 0 0 = 10) := by
  refine ⟨?_, rfl, rfl, rfl, rfl, ?_, ⟨_, rfl, ?_⟩, ⟨_, rfl, ?_⟩⟩
  · intro S _ h X A alpha
    unfold MultiVector.scaleFrom
    by_cases h1 : X.getLocalLength ≠ A.getLocalLength
    · simp [h1]
    · by_cases h2 : X.getNumVectors ≠ A.getNumVectors
      · simp [h1, h2]
      · rw [if_neg h1, if_neg h2]
        simp only [h1, h2, or_self, iff_false]
        split <;> simp
  all_goals
    simp [MultiVector.value, MultiVector.current, MultiVector.entry, DualView.get,
      MultiVector.physicalColumn, staleTarget, staleSource, staleHeap,
      Heap.write, Heap.setCell, DualViewData.setView, DualViewData.view,
      MultiVector.sync, DualView.sync, MultiVector.modify, DualView.modify, DualViewData.modify,
      MultiVector.need_sync, DualView.need_sync, DualViewData.need_sync, subview,
      subviewAllCols, MultiVector.isConstantStride, MultiVector.getNumVectors,
      MultiVector.getLocalLength, DualView.covers, MemSpace.other,
      KokkosBlas.scal, MultiVector.scaleFromOn]
  all_goals norm_num

/-- C33 (the code departs from the claim): `update (alpha, A, beta)` chooses the
residency it works on from the markers of `*this` and never synchronises `A`.
With `*this = [1]` current on the device and `A = [5]` last modified on the host
(its device copy still holds 3), `this->update (2, A, 1)` leaves 7 in `*this`,
not `2 * 5 + 1 * 1`; after `A.sync<device> ()` the same call gives 11. -/
theorem C33_update_reads_stale_argument :
    staleTarget.getLocalLength = staleSource.getLocalLength ∧
    staleTarget.getNumVectors = staleSource.getNumVectors ∧
    staleTarget.need_sync staleHeap .device = false ∧
    staleSource.need_sync staleHeap .device = true ∧
    staleTarget.value staleHeap 0 0 = 1 ∧
    staleSource.value staleHeap 0 0 = 5 ∧
    (∃ h1, staleTarget.update staleHeap 2 staleSource 1 = .ok h1 ∧
      staleTarget.value h1 0 0 = 7) ∧
    (∃ h2, staleTarget.update (staleSource.sync staleHeap .device) 2 staleSource 1 = .ok h2 ∧
      staleTarget.value h2 0 0 = 11) := by
  refine ⟨rfl, rfl, rfl, rfl, ?_, ?_, ⟨_, rfl, ?_⟩, ⟨_, rfl, ?_⟩⟩
  all_goals
    simp [MultiVector.value, MultiVector.current, MultiVector.entry, DualView.get,
      MultiVector.physicalColumn, staleTarget, staleSource, staleHeap,
      Heap.write, Heap.setCell, DualViewData.setView, DualViewData.view,
      MultiVector.sync, DualView.sync, MultiVector.modify, DualView.modify, DualViewData.modify,
      MultiVector.need_sync, DualView.need_sync, DualViewData.need_sync, subview,
      subviewAllCols, MultiVector.isConstantStride, MultiVector.getNumVectors,
      MultiVector.getLocalLength, DualView.covers, MemSpace.other,
      KokkosBlas.axpby, MultiVector.updateOn]
  all_goals norm_num

end Tpetra

namespace Tpetra

/-! ## Lemmas on the calls with their all-reduces -/

theorem gblDotImplTraced_snd {S : Type} [LinearOrderedField S] (dotsOut : Nat → S)
    (numVecs : Nat) (comm : Option Nat) (distributed : Bool) (sendBufs : List (Nat → S)) :
    (gblDotImplTraced dotsOut numVecs comm distributed sendBufs).2
      = gblDotImpl dotsOut numVecs comm distributed sendBufs := by
  unfold gblDotImplTraced gblDotImpl
  split <;> rfl

theorem DotCall.dotTraced_snd {S : Type} [LinearOrderedField S] (c : DotCall S)
    (sendBufs : List (Nat → S)) : (c.dotTraced sendBufs).2 = c.dot sendBufs := by
  unfold DotCall.dotTraced DotCall.dot
  rcases c.localPhase with e | o
  · rfl
  · rcases o with _ | r
    · rfl
    · simp only [gblDotImplTraced_snd]

theorem gblNormImplTraced_snd {S : Type} [LinearOrderedField S] (sqrt : S → S)
    (normsOut : Nat → S) (numVecs : Nat) (comm : Option Nat) (distributed : Bool)
    (whichNorm : EWhichNormImpl) (sendBufs : List (Nat → S)) :
    (gblNormImplTraced sqrt normsOut numVecs comm distributed whichNorm sendBufs).2
      = gblNormImpl sqrt normsOut numVecs comm distributed whichNorm sendBufs := by
  unfold gblNormImplTraced gblNormImpl
  by_cases hp : distributed = true ∧ comm.isSome = true
  · cases whichNorm <;> simp [hp]
  · cases whichNorm <;> simp [hp]

theorem NormCall.normImplTraced_snd {S : Type} [LinearOrderedField S] (sqrt : S → S)
    (c : NormCall S) (whichNorm : EWhichNorm) (sendBufs : List (Nat → S)) :
    (c.normImplTraced sqrt whichNorm sendBufs).2 = c.normImpl sqrt whichNorm sendBufs := by
  unfold NormCall.normImplTraced NormCall.normImpl
  rcases c.localPhase whichNorm with e | o
  · rfl
  · rcases o with _ | r
    · rfl
    · simp only [gblNormImplTraced_snd]

theorem MeanCall.meanValueTraced_snd {S : Type} [LinearOrderedField S] (c : MeanCall S)
    (sendBufs : List (Nat → S)) : (c.meanValueTraced sendBufs).2 = c.meanValue sendBufs := by
  unfold MeanCall.meanValueTraced MeanCall.meanValue
  rcases c.localPhase with e | lcl
  · rfl
  · by_cases hp : c.X.getComm.isSome = true ∧ c.X.isDistributed = true
    · simp only [hp, and_self, if_true]
    · simp only [hp, if_false]

theorem reduceTraced_snd {S : Type} [LinearOrderedField S] (h : Heap S) (X : MultiVector)
    (commSize : Nat) (sendBufs : List (Nat → S)) :
    (X.reduceTraced h commSize sendBufs).2 = X.reduce h commSize sendBufs := by
  unfold MultiVector.reduceTraced MultiVector.reduce
  rcases X.reducePack h commSize with e | o
  · rfl
  · rcases o with _ | r
    · rfl
    · rfl

theorem MultiplyCall.multiplyTraced_release_snd {S : Type} [LinearOrderedField S]
    (c : MultiplyCall S) (lclGoods : List Int) (sendBufs : List (Nat → S)) :
    (c.multiplyTraced false lclGoods sendBufs).2 = c.multiply sendBufs := by
  unfold MultiplyCall.multiplyTraced MultiplyCall.multiply
  simp only [Bool.false_eq_true, if_false]
  rcases c.localPhase with e | h1
  · rfl
  · by_cases h2 : c.Case2 = true
    · simp only [h2, if_true, reduceTraced_snd]
    · have h3 : c.Case2 = false := by simpa using h2
      simp only [h3, Bool.false_eq_true, if_false]

theorem DotCall.dot_localPhase_of_zero {S : Type} [LinearOrderedField S] (c : DotCall S)
    (h0 : c.X.getNumVectors = 0) : c.localPhase = .ok none := by
  unfold DotCall.localPhase
  simp only [h0, if_true]

theorem DotCall.dot_localPhase_ne_none {S : Type} [LinearOrderedField S] (c : DotCall S)
    (h0 : c.X.getNumVectors ≠ 0) : c.localPhase ≠ .ok none := by
  unfold DotCall.localPhase
  simp only [h0, if_false]
  intro he
  split_ifs at he
  all_goals cases he

theorem NormCall.norm_localPhase_of_zero {S : Type} [LinearOrderedField S] (c : NormCall S)
    (w : EWhichNorm) (h0 : c.X.getNumVectors = 0) : c.localPhase w = .ok none := by
  unfold NormCall.localPhase
  simp only [h0, if_true]

theorem except_map_some_ne_none {α : Type} (x : Except Err α) :
    x.map some ≠ .ok none := by
  cases x with
  | error e =>
    intro he
    simp only [Except.map] at he
    cases he
  | ok a =>
    intro he
    simp only [Except.map] at he
    cases he

theorem NormCall.norm_localPhase_ne_none {S : Type} [LinearOrderedField S] (c : NormCall S)
    (w : EWhichNorm) (h0 : c.X.getNumVectors ≠ 0) : c.localPhase w ≠ .ok none := by
  unfold NormCall.localPhase
  simp only [h0, if_false]
  intro he
  split_ifs at he
  all_goals exact except_map_some_ne_none _ he

/-- What `reduce` issues and returns, by the tests it runs before its
all-reduce. -/
theorem reduceTraced_cases {S : Type} [LinearOrderedField S] (h : Heap S) (X : MultiVector)
    (commSize : Nat) (sendBufs : List (Nat → S)) :
    (X.isDistributed = true → X.reduceTraced h commSize sendBufs = ([], .error .runtime_error)) ∧
    (X.isDistributed = false → commSize = 1 →
      X.reduceTraced h commSize sendBufs = ([], .ok h)) ∧
    (X.isDistributed = false → commSize ≠ 1 → INT_MAX < X.getLocalLength →
      X.reduceTraced h commSize sendBufs = ([], .error .runtime_error)) ∧
    (X.isDistributed = false → commSize ≠ 1 → X.getLocalLength ≤ INT_MAX →
      ∃ b h1, X.reduceTraced h commSize sendBufs
        = ([.scalars .REDUCE_SUM (int_cast (size_t_mul X.getLocalLength X.getNumVectors)).toNat b],
            .ok h1)) := by
  unfold MultiVector.reduceTraced MultiVector.reducePack
  refine ⟨?_, ?_, ?_, ?_⟩
  · intro hd
    simp only [hd, if_true]
  · intro hd h1
    simp only [hd, h1, Bool.false_eq_true, if_false, if_true]
  · intro hd h1 hr
    simp only [hd, h1, Bool.false_eq_true, if_false, gt_iff_lt, hr, if_true]
  · intro hd h1 hr
    have hr2 : ¬ X.getLocalLength > INT_MAX := by omega
    simp only [hd, h1, Bool.false_eq_true, if_false, hr2]
    by_cases hns : X.need_sync h .device = true
    · simp only [hns, if_true]
      exact ⟨_, _, rfl⟩
    · simp only [hns, if_false]
      exact ⟨_, _, rfl⟩

/-- An exception of `reduce` is raised before its all-reduce. -/
theorem reduceTraced_error {S : Type} [LinearOrderedField S] (h : Heap S) (X : MultiVector)
    (commSize : Nat) (sendBufs : List (Nat → S)) (e : Err)
    (he : (X.reduceTraced h commSize sendBufs).2 = .error e) :
    (X.reduceTraced h commSize sendBufs).1 = [] ∧ e = .runtime_error := by
  obtain ⟨c1, c2, c3, c4⟩ := reduceTraced_cases h X commSize sendBufs
  by_cases hd : X.isDistributed = true
  · rw [c1 hd] at he ⊢
    cases he
    exact ⟨rfl, rfl⟩
  · have hd2 : X.isDistributed = false := by simpa using hd
    by_cases h1 : commSize = 1
    · rw [c2 hd2 h1] at he
      cases he
    · by_cases hr : INT_MAX < X.getLocalLength
      · rw [c3 hd2 h1 hr] at he ⊢
        cases he
        exact ⟨rfl, rfl⟩
      · obtain ⟨b, h2, hb⟩ := c4 hd2 h1 (by omega)
        rw [hb] at he
        cases he

theorem MultiplyCall.debugStep_eq {S : Type} (debug : Bool) (c : MultiplyCall S)
    (lclGoods : List Int) :
    ((debug = true ∧ c.C.map_.isSome = true ∧ c.C.getComm.isSome = true ∧
        reduceAllMin lclGoods 0 ≠ 1) →
      (if debug = true then c.debugCheck lclGoods
        else (([], .ok ()) : List (Collective S) × Except Err Unit))
        = ([.goodFlag c.lclGood], .error .runtime_error)) ∧
    (¬ (debug = true ∧ c.C.map_.isSome = true ∧ c.C.getComm.isSome = true ∧
        reduceAllMin lclGoods 0 ≠ 1) →
      (if debug = true then c.debugCheck lclGoods
        else (([], .ok ()) : List (Collective S) × Except Err Unit))
        = ((if debug = true ∧ c.C.map_.isSome = true ∧ c.C.getComm.isSome = true
            then [.goodFlag c.lclGood] else []), .ok ())) := by
  unfold MultiplyCall.debugCheck
  cases debug
  · simp
  · by_cases hp : c.C.map_.isSome = true ∧ c.C.getComm.isSome = true
    · by_cases hg : reduceAllMin lclGoods 0 = 1 <;> simp [hp, hg]
    · have hp3 : ¬ (c.C.map_.isSome = true ∧ c.C.getComm.isSome = true ∧
          reduceAllMin lclGoods 0 ≠ 1) := fun hh => hp ⟨hh.1, hh.2.1⟩
      simp only [if_true, hp, if_false, true_and, hp3, not_false_eq_true, implies_true,
        false_implies, and_self]

/-- The result of `multiply` in either build, by the tests that the call runs:
the all-reduce of the debug build, the test of the cases, and in Case 2 the
tests of `reduce`. -/
theorem MultiplyCall.multiplyTraced_cases {S : Type} [LinearOrderedField S] (debug : Bool)
    (c : MultiplyCall S) (lclGoods : List Int) (sendBufs : List (Nat → S)) :
    ((debug = true ∧ c.C.map_.isSome = true ∧ c.C.getComm.isSome = true ∧
        reduceAllMin lclGoods 0 ≠ 1) →
      c.multiplyTraced debug lclGoods sendBufs
        = ([.goodFlag c.lclGood], .error .runtime_error)) ∧
    (¬ (debug = true ∧ c.C.map_.isSome = true ∧ c.C.getComm.isSome = true ∧
        reduceAllMin lclGoods 0 ≠ 1) →
      ∃ pre : List (Collective S),
        (pre = if debug = true ∧ c.C.map_.isSome = true ∧ c.C.getComm.isSome = true
          then [.goodFlag c.lclGood] else []) ∧
        ((c.Case1 = false ∧ c.Case2 = false ∧ c.Case3 = false) →
          c.multiplyTraced debug lclGoods sendBufs = (pre, .error .runtime_error)) ∧
        (¬ (c.Case1 = false ∧ c.Case2 = false ∧ c.Case3 = false) →
          ∃ h1, c.localPhase = .ok h1 ∧
            (c.Case2 = false → c.multiplyTraced debug lclGoods sendBufs = (pre, .ok h1)) ∧
            (c.Case2 = true →
              c.multiplyTraced debug lclGoods sendBufs
                = (pre ++ (c.C.reduceTraced h1 c.commSize sendBufs).1,
                    (c.C.reduceTraced h1 c.commSize sendBufs).2)))) := by
  obtain ⟨hD, hN⟩ := MultiplyCall.debugStep_eq debug c lclGoods
  constructor
  · intro hd
    unfold MultiplyCall.multiplyTraced
    simp only []
    rw [hD hd]
  · intro hnd
    refine ⟨_, rfl, ?_, ?_⟩
    · intro hu
      unfold MultiplyCall.multiplyTraced
      simp only []
      rw [hN hnd, MultiplyCall.localPhase_unsupported c hu]
    · intro hs
      obtain ⟨h1, hlp⟩ := MultiplyCall.localPhase_ok c hs
      refine ⟨h1, hlp, ?_, ?_⟩
      · intro h2
        unfold MultiplyCall.multiplyTraced
        simp only []
        rw [hN hnd, hlp]
        simp only [h2, Bool.false_eq_true, if_false]
      · intro h2
        unfold MultiplyCall.multiplyTraced
        simp only []
        rw [hN hnd, hlp]
        simp only [h2, if_true]

end Tpetra

namespace Tpetra

/-! ## When `multiply` raises -/

/-- The result of `multiply` in either build is `runtime_error` under one of
three conditions, and a memory otherwise: the all-reduced flag of the debug
build is not 1; the operands fit none of the cases; the call is in Case 2 on
more than one process and the local row count of `*this` does not fit in
`int`. -/
theorem MultiplyCall.multiplyTraced_result {S : Type} [LinearOrderedField S] (debug : Bool)
    (c : MultiplyCall S) (lclGoods : List Int) (sendBufs : List (Nat → S)) :
    (((c.Case1 = false ∧ c.Case2 = false ∧ c.Case3 = false) ∨
        (c.Case2 = true ∧ c.commSize ≠ 1 ∧ INT_MAX < c.C.getLocalLength) ∨
        (debug = true ∧ c.C.map_.isSome = true ∧ c.C.getComm.isSome = true ∧
          reduceAllMin lclGoods 0 ≠ 1)) →
      (c.multiplyTraced debug lclGoods sendBufs).2 = .error .runtime_error) ∧
    (¬ ((c.Case1 = false ∧ c.Case2 = false ∧ c.Case3 = false) ∨
        (c.Case2 = true ∧ c.commSize ≠ 1 ∧ INT_MAX < c.C.getLocalLength) ∨
        (debug = true ∧ c.C.map_.isSome = true ∧ c.C.getComm.isSome = true ∧
          reduceAllMin lclGoods 0 ≠ 1)) →
      ∃ h1, (c.multiplyTraced debug lclGoods sendBufs).2 = .ok h1) := by
  obtain ⟨hD, hN⟩ := MultiplyCall.multiplyTraced_cases debug c lclGoods sendBufs
  by_cases hd : debug = true ∧ c.C.map_.isSome = true ∧ c.C.getComm.isSome = true ∧
      reduceAllMin lclGoods 0 ≠ 1
  · refine ⟨fun _ => by rw [hD hd], fun hn => absurd (Or.inr (Or.inr hd)) hn⟩
  · obtain ⟨pre, -, hU, hS⟩ := hN hd
    by_cases hu : c.Case1 = false ∧ c.Case2 = false ∧ c.Case3 = false
    · refine ⟨fun _ => by rw [hU hu], fun hn => absurd (Or.inl hu) hn⟩
    · obtain ⟨h1, -, h2f, h2t⟩ := hS hu
      by_cases h2 : c.Case2 = true
      · have hnd : c.C.isDistributed = false := ((MultiplyCall.case_iff c).2.1.mp h2).1
        obtain ⟨-, c2, c3, c4⟩ := reduceTraced_cases h1 c.C c.commSize sendBufs
        by_cases hs : c.commSize = 1
        · constructor
          · rintro (h | h | h)
            · exact absurd h hu
            · exact absurd hs h.2.1
            · exact absurd h hd
          · intro _
            rw [h2t h2, c2 hnd hs]
            exact ⟨_, rfl⟩
        · by_cases hr : INT_MAX < c.C.getLocalLength
          · refine ⟨fun _ => by rw [h2t h2, c3 hnd hs hr],
              fun hn => absurd (Or.inr (Or.inl ⟨h2, hs, hr⟩)) hn⟩
          · constructor
            · rintro (h | h | h)
              · exact absurd h hu
              · exact absurd h.2.2 hr
              · exact absurd h hd
            · intro _
              obtain ⟨b, h3, hb⟩ := c4 hnd hs (by omega)
              rw [h2t h2, hb]
              exact ⟨_, rfl⟩
      · have h2' : c.Case2 = false := by simpa using h2
        constructor
        · rintro (h | h | h)
          · exact absurd h hu
          · exact absurd h.1 h2
          · exact absurd h hd
        · intro _
          rw [h2f h2']
          exact ⟨_, rfl⟩

/-- An exception of `multiply` is raised with no all-reduce of scalars issued;
in the build without the debug block no all-reduce at all has been issued. -/
theorem MultiplyCall.multiplyTraced_error_trace {S : Type} [LinearOrderedField S]
    (debug : Bool) (c : MultiplyCall S) (lclGoods : List Int) (sendBufs : List (Nat → S))
    (e : Err) (he : (c.multiplyTraced debug lclGoods sendBufs).2 = .error e) :
    e = .runtime_error ∧
    (c.multiplyTraced debug lclGoods sendBufs).1
      = (if debug = true ∧ c.C.map_.isSome = true ∧ c.C.getComm.isSome = true
          then [.goodFlag c.lclGood] else []) := by
  obtain ⟨hD, hN⟩ := MultiplyCall.multiplyTraced_cases debug c lclGoods sendBufs
  by_cases hd : debug = true ∧ c.C.map_.isSome = true ∧ c.C.getComm.isSome = true ∧
      reduceAllMin lclGoods 0 ≠ 1
  · rw [hD hd] at he ⊢
    cases he
    refine ⟨rfl, ?_⟩
    rw [if_pos ⟨hd.1, hd.2.1, hd.2.2.1⟩]
  · obtain ⟨pre, hpre, hU, hS⟩ := hN hd
    by_cases hu : c.Case1 = false ∧ c.Case2 = false ∧ c.Case3 = false
    · rw [hU hu] at he ⊢
      cases he
      exact ⟨rfl, hpre⟩
    · obtain ⟨h1, -, h2f, h2t⟩ := hS hu
      by_cases h2 : c.Case2 = true
      · rw [h2t h2] at he ⊢
        obtain ⟨ht, hr⟩ := reduceTraced_error h1 c.C c.commSize sendBufs e he
        refine ⟨hr, ?_⟩
        simp only [ht, List.append_nil]
        exact hpre
      · have h2' : c.Case2 = false := by simpa using h2
        rw [h2f h2'] at he
        cases he

/-- The all-reduced flag over flags that are 0 or 1: it is 1 exactly when every
process hands in 1. -/
theorem reduceAllMin_flags (lclGoods : List Int) (hne : lclGoods ≠ [])
    (hflags : ∀ g ∈ lclGoods, g = 0 ∨ g = 1) :
    reduceAllMin lclGoods 0 ≠ 1 ↔ (0 : Int) ∈ lclGoods := by
  have hfold : ∀ (vs : List Int) (v : Int), (v = 0 ∨ v = 1) → (∀ g ∈ vs, g = 0 ∨ g = 1) →
      (vs.foldl min v = 0 ∨ vs.foldl min v = 1) ∧ (vs.foldl min v = 0 ↔ v = 0 ∨ (0 : Int) ∈ vs) := by
    intro vs
    induction vs with
    | nil =>
      intro v hv _
      simp [hv]
    | cons a as ih =>
      intro v hv hvs
      have ha : a = 0 ∨ a = 1 := hvs a (List.mem_cons_self _ _)
      have hm : min v a = 0 ∨ min v a = 1 := by
        rcases hv with rfl | rfl <;> rcases ha with rfl | rfl <;> simp
      obtain ⟨i1, i2⟩ := ih (min v a) hm (fun g hg => hvs g (List.mem_cons_of_mem _ hg))
      refine ⟨i1, ?_⟩
      rw [List.foldl_cons, i2, List.mem_cons]
      rcases hv with rfl | rfl <;> rcases ha with rfl | rfl <;> simp
  cases lclGoods with
  | nil => exact absurd rfl hne
  | cons v vs =>
    obtain ⟨i1, i2⟩ := hfold vs v (hflags v (List.mem_cons_self _ _))
      (fun g hg => hflags g (List.mem_cons_of_mem _ hg))
    simp only [reduceAllMin, List.mem_cons]
    constructor
    · intro h1
      rcases i1 with h0 | h0
      · rcases i2.mp h0 with hv | hv
        · exact Or.inl hv.symm
        · exact Or.inr hv
      · exact absurd h0 h1
    · intro h0 h1
      have : vs.foldl min v = 0 := i2.mpr (by
        rcases h0 with h | h
        · exact Or.inl h.symm
        · exact Or.inr h)
      rw [this] at h1
      exact absurd h1 (by decide)

/-- The flag `lclGood` is 1 exactly when the local dimensions of `*this`,
`op(A)` and `op(B)` are consistent, and 0 otherwise. -/
theorem MultiplyCall.lclGood_iff {S : Type} (c : MultiplyCall S) :
    (c.lclGood = 0 ∨ c.lclGood = 1) ∧
    (c.lclGood = 1 ↔
      c.C.getLocalLength = (if c.transA ≠ .NO_TRANS then c.A.getNumVectors
        else c.A.getLocalLength) ∧
      c.C.getNumVectors = (if c.transB ≠ .NO_TRANS then c.B.getLocalLength
        else c.B.getNumVectors) ∧
      (if c.transA ≠ .NO_TRANS then c.A.getLocalLength else c.A.getNumVectors)
        = (if c.transB ≠ .NO_TRANS then c.B.getNumVectors else c.B.getLocalLength)) := by
  unfold MultiplyCall.lclGood
  simp only []
  generalize (if c.transA ≠ .NO_TRANS then c.A.getNumVectors else c.A.getLocalLength) = ar
  generalize (if c.transA ≠ .NO_TRANS then c.A.getLocalLength else c.A.getNumVectors) = ac
  generalize (if c.transB ≠ .NO_TRANS then c.B.getNumVectors else c.B.getLocalLength) = br
  generalize (if c.transB ≠ .NO_TRANS then c.B.getLocalLength else c.B.getNumVectors) = bc
  by_cases h1 : c.C.getLocalLength = ar <;> by_cases h2 : c.C.getNumVectors = bc <;>
    by_cases h3 : ac = br <;> simp [h1, h2, h3]

theorem flatten_map_toList {α β : Type} (f : α → Option β) (l : List α) :
    (l.map (fun a => (f a).toList)).flatten = l.filterMap f := by
  induction l with
  | nil => rfl
  | cons a as ih =>
    rw [List.map_cons, List.flatten_cons, ih, List.filterMap_cons]
    cases f a <;> rfl

/-- In the build without the debug block, the buffers of the all-reduces that
`multiply` issues are the buffer `sendBuf` of the call. -/
theorem MultiplyCall.multiplyTraced_release_bufs {S : Type} [LinearOrderedField S]
    (c : MultiplyCall S) (lclGoods : List Int) (sendBufs : List (Nat → S)) :
    (c.multiplyTraced false lclGoods sendBufs).1.filterMap Collective.scalarBuf
      = c.sendBuf.toList := by
  unfold MultiplyCall.multiplyTraced MultiplyCall.sendBuf MultiVector.reduceTraced
  simp only [Bool.false_eq_true, if_false]
  rcases c.localPhase with e | h1
  · rfl
  · by_cases h2 : c.Case2 = true
    · simp only [h2, if_true]
      rcases c.C.reducePack h1 c.commSize with e | o
      · rfl
      · rcases o with _ | r
        · rfl
        · rfl
    · have h3 : c.Case2 = false := by simpa using h2
      simp only [h3, Bool.false_eq_true, if_false]
      rfl

/-- In the build without the debug block, the collective `multiply` with its
all-reduces returns what `multiplyAll` returns. -/
theorem multiplyAllTraced_release {S : Type} [LinearOrderedField S]
    (cs : List (MultiplyCall S)) :
    (multiplyAllTraced false cs).map Prod.snd = multiplyAll cs := by
  unfold multiplyAllTraced multiplyAll
  simp only [List.map_map]
  have hb : ∀ g : List Int, (cs.map (fun c =>
      (c.multiplyTraced false g []).1.filterMap Collective.scalarBuf)).flatten
      = cs.filterMap MultiplyCall.sendBuf := by
    intro g
    rw [← flatten_map_toList]
    congr 1
    apply List.map_congr_left
    intro c _
    exact MultiplyCall.multiplyTraced_release_bufs c g []
  rw [hb]
  apply List.map_congr_left
  intro c _
  exact MultiplyCall.multiplyTraced_release_snd c _ _

end Tpetra

namespace Tpetra

/-! ## The size test of the flat-array constructor -/

end Tpetra

namespace Tpetra

/-! ## The bound test of the offset-view constructor -/

end Tpetra

namespace Tpetra

/-! ## `multiply` into a block last modified on the host -/

set_option maxHeartbeats 4000000 in
/-- C16 (the code departs from the claim): two processes run Case 2 of
`multiply` with `alpha = beta = 1`, `A = [r + 1]` and `B = [r + 1, r + 1]` on
process `r`, and `C` the constant-stride 1 x 2 block that holds the replicated
value 7, last modified on the host (its device copy still holds 3).  The claimed
result is `1 * (1 * 1 + 2 * 2) + 1 * 7 = 12` in both entries.  `multiply` runs
the local product on the device copies, without a sync and without marking the
device copy modified, and `reduce` then sums the host copies, which the product
never touched: both processes end with `7 + 7 = 14` in both entries.  After
`C.sync<device> ()` the same calls give 12. -/
theorem C16_multiply_case2_host_modified_target_sums_old_values :
    (hostNewestCall 0).Case2 = true ∧ (hostNewestCall 1).Case2 = true ∧
    productC.isConstantStride = true ∧
    productC.need_sync (hostNewestHeap 0) .device = true ∧
    productC.need_sync (hostNewestHeap 1) .device = true ∧
    (∀ c ∈ hostNewestCalls, ∀ j, j < 2 → c.C.value c.heap 0 j = 7) ∧
    (∀ j, j < 2 →
      1 * (hostNewestCalls.map (fun c => ∑ l in Finset.range c.A.getLocalLength,
          c.A.value c.heap l 0 * c.B.value c.heap l j)).sum + 1 * (7 : ℚ) = 12) ∧
    (∃ h0 h1, (multiplyAll hostNewestCalls)[0]? = some (.ok h0) ∧
      (multiplyAll hostNewestCalls)[1]? = some (.ok h1) ∧
      productC.value h0 0 0 = 14 ∧ productC.value h0 0 1 = 14 ∧
      productC.value h1 0 0 = 14 ∧ productC.value h1 0 1 = 14) ∧
    (∃ h0 h1, (multiplyAll deviceSyncedCalls)[0]? = some (.ok h0) ∧
      (multiplyAll deviceSyncedCalls)[1]? = some (.ok h1) ∧
      productC.value h0 0 0 = 12 ∧ productC.value h0 0 1 = 12 ∧
      productC.value h1 0 0 = 12 ∧ productC.value h1 0 1 = 12) := by
  refine ⟨rfl, rfl, rfl, rfl, rfl, ?_, ?_, ⟨_, _, rfl, rfl, ?_, ?_, ?_, ?_⟩,
    ⟨_, _, rfl, rfl, ?_, ?_, ?_, ?_⟩⟩
  · intro c hc j hj
    simp only [hostNewestCalls, List.mem_cons, List.mem_singleton, List.not_mem_nil,
      or_false] at hc
    rcases hc with rfl | rfl <;>
      simp [MultiVector.value, MultiVector.current, MultiVector.entry, DualView.get,
        hostNewestCall, productC, hostNewestHeap, DualViewData.view, MultiVector.need_sync,
        DualView.need_sync, DualViewData.need_sync]
  · intro j hj
    simp [hostNewestCalls, hostNewestCall, hostNewestHeap, factorA, factorB,
      MultiVector.value, MultiVector.current, MultiVector.entry, DualView.get,
      MultiVector.physicalColumn, MultiVector.isConstantStride, DualViewData.view,
      MultiVector.need_sync, DualView.need_sync, DualViewData.need_sync,
      MultiVector.getLocalLength, Finset.sum_range_succ]
    norm_num
  all_goals
    simp [MultiVector.value, MultiVector.current, MultiVector.entry, DualView.get,
      MultiVector.physicalColumn, productC, hostNewestCalls, deviceSyncedCalls,
      deviceSyncedCall,
      MultiVector.assignBody, GEMM, MultiVector.fromMap, hostNewestCall, hostNewestHeap, factorA,
      factorB, Heap.write, Heap.setCell, DualViewData.setView, DualViewData.view,
      MultiVector.sync, DualView.sync,
      MultiVector.modify, DualView.modify, DualViewData.modify, MultiVector.need_sync,
      DualView.need_sync, DualViewData.need_sync, subview,
      column, subviewAllRows, subviewAllCols, MultiVector.isConstantStride,
      MultiVector.getNumVectors,
      MultiVector.getLocalLength, MultiplyCall.beta_local, DualView.covers, List.range_succ,
      MemSpace.other, Finset.sum_range_succ, MultiVector.reduceWriteBack,
      MultiVector.reduceSrcView, MultiVector.reduceContig, MultiVector.getStride,
      MultiVector.LDA, size_t_mul, int_cast, reduceAll, MultiplyCall.sendBuf,
      MultiplyCall.localPhase, MultiplyCall.Case1, MultiplyCall.Case2, MultiplyCall.Case3,
      MultiplyCall.C_is_local, MultiplyCall.A_is_local, MultiplyCall.B_is_local,
      constantStrideTmp, multiplyOnTmp, MultiVector.assign,
      MultiVector.isDistributed, MultiVector.reducePack, MultiVector.reduceSrcBuf, INT_MAX,
      MultiVector.getGlobalLength, Except.map]
  all_goals norm_num

end Tpetra

namespace Tpetra

/-! ## Which calls issue an all-reduce -/

/-- C12 (counterexample): the block `noColumnsBlock` has a distributed map and a
non-null communicator, but no columns.  `dot` and the norms return at once,
with the output as it was, and issue no all-reduce; `meanValue` on the same
block, which has no such early return, issues one. -/
theorem C12_zero_columns_return_before_all_reduce_counterexample :
    noColumnsBlock.isDistributed = true ∧ noColumnsBlock.getComm.isSome = true ∧
    noColumnsBlock.getNumVectors = 0 ∧
    noColumnsDotCall.dotTraced [] = ([], .ok (noColumnsDotCall.heap, noColumnsDotCall.dots)) ∧
    noColumnsDotCall.dot [] = .ok (noColumnsDotCall.heap, noColumnsDotCall.dots) ∧
    noColumnsNormCall.normImplTraced id .NORM_ONE [] = ([], .ok noColumnsNormCall.norms) ∧
    noColumnsNormCall.normImplTraced id .NORM_TWO [] = ([], .ok noColumnsNormCall.norms) ∧
    noColumnsNormCall.normImplTraced id .NORM_INF [] = ([], .ok noColumnsNormCall.norms) ∧
    noColumnsNormCall.normImpl id .NORM_ONE [] = .ok noColumnsNormCall.norms ∧
    (noColumnsMeanCall.meanValueTraced []).1.length = 1 :=
  ⟨rfl, rfl, rfl, rfl, rfl, rfl, rfl, rfl, rfl, rfl⟩

/-- C12 (amended): `dotTraced`, `normImplTraced` and `meanValueTraced` return
what `dot`, `normImpl` and `meanValue` return, together with the all-reduces
that the call has issued, and the buffer of those all-reduces is the buffer
`sendBuf` of the call.  `dot` and the norms issue an all-reduce exactly when the
call returns, the map is distributed, the communicator is non-null and the block
has at least one column; `meanValue` exactly when the call returns, the map is
distributed and the communicator is non-null.  A call that got through its local
phase on a participating process issues one all-reduce of the local result over
`numVectors` slots (`REDUCE_MAX` for `normInf`, `REDUCE_SUM` otherwise) and
returns the reduction (`norm2` its square root in the first `numVectors` slots,
`meanValue` the reduction times the reciprocal of the global row count); on any
other process it issues none and returns exactly the local result (`norm2` the
square root, `meanValue` the local sums divided by the global row count).  A
call on a block without columns gets through no local phase: `dot` and the norms
return the output as it was.  For operands of matching shape the local phase
succeeds, and slot `k` of the local result of `dot` and `meanValue` is the local
sum of products and the local column sum. -/
theorem C12_all_reduce_iff_participating_past_early_return {S : Type}
    [LinearOrderedField S] (sqrt : S → S) (dc : DotCall S) (nc : NormCall S) (mc : MeanCall S)
    (w : EWhichNorm) (dbufs nbufs mbufs : List (Nat → S)) :
    ((dc.dotTraced dbufs).2 = dc.dot dbufs ∧
      (dc.dotTraced dbufs).1.filterMap Collective.scalarBuf = dc.sendBuf.toList ∧
      ((dc.dotTraced dbufs).1 ≠ [] ↔
        (∃ r, dc.dot dbufs = .ok r) ∧
          (dc.X.isDistributed = true ∧ dc.X.getComm.isSome = true) ∧
          dc.X.getNumVectors ≠ 0) ∧
      (∀ h1 lcl, dc.localPhase = .ok (some (h1, lcl)) →
        (dc.X.isDistributed = true ∧ dc.X.getComm.isSome = true →
          (dc.dotTraced dbufs).1 = [.scalars .REDUCE_SUM dc.X.getNumVectors lcl] ∧
          dc.dot dbufs = .ok (h1, reduceAll .REDUCE_SUM dc.X.getNumVectors dbufs lcl)) ∧
        (¬ (dc.X.isDistributed = true ∧ dc.X.getComm.isSome = true) →
          (dc.dotTraced dbufs).1 = [] ∧ dc.dot dbufs = .ok (h1, lcl))) ∧
      (dc.X.getNumVectors = 0 → dc.dotTraced dbufs = ([], .ok (dc.heap, dc.dots))) ∧
      (dc.X.getNumVectors ≠ 0 → dc.X.getLocalLength = dc.A.getLocalLength →
        dc.X.getNumVectors = dc.A.getNumVectors → dc.numDots = dc.X.getNumVectors →
        ∃ h1 lcl, dc.localPhase = .ok (some (h1, lcl)) ∧
          ∀ k, k < dc.X.getNumVectors → lcl k = dc.localDot k)) ∧
    ((nc.normImplTraced sqrt w nbufs).2 = nc.normImpl sqrt w nbufs ∧
      (nc.normImplTraced sqrt w nbufs).1.filterMap Collective.scalarBuf
        = (NormCall.sendBuf w nc).toList ∧
      ((nc.normImplTraced sqrt w nbufs).1 ≠ [] ↔
        (∃ r, nc.normImpl sqrt w nbufs = .ok r) ∧
          (nc.X.isDistributed = true ∧ nc.X.getComm.isSome = true) ∧
          nc.X.getNumVectors ≠ 0) ∧
      (∀ lcl, nc.localPhase w = .ok (some lcl) →
        (nc.X.isDistributed = true ∧ nc.X.getComm.isSome = true →
          (nc.normImplTraced sqrt w nbufs).1
            = [.scalars (if w = .NORM_INF then .REDUCE_MAX else .REDUCE_SUM)
                nc.X.getNumVectors lcl] ∧
          ∃ r, nc.normImpl sqrt w nbufs = .ok r ∧
            (w = .NORM_ONE → r = reduceAll .REDUCE_SUM nc.X.getNumVectors nbufs lcl) ∧
            (w = .NORM_INF → r = reduceAll .REDUCE_MAX nc.X.getNumVectors nbufs lcl) ∧
            (w = .NORM_TWO → ∀ k, r k =
              if k < nc.X.getNumVectors then
                sqrt (reduceAll .REDUCE_SUM nc.X.getNumVectors nbufs lcl k)
              else reduceAll .REDUCE_SUM nc.X.getNumVectors nbufs lcl k)) ∧
        (¬ (nc.X.isDistributed = true ∧ nc.X.getComm.isSome = true) →
          (nc.normImplTraced sqrt w nbufs).1 = [] ∧
          ∃ r, nc.normImpl sqrt w nbufs = .ok r ∧
            (w ≠ .NORM_TWO → r = lcl) ∧
            (w = .NORM_TWO → ∀ k, r k =
              if k < nc.X.getNumVectors then sqrt (lcl k) else lcl k))) ∧
      (nc.X.getNumVectors = 0 → nc.normImplTraced sqrt w nbufs = ([], .ok nc.norms)) ∧
      (nc.X.getNumVectors ≠ 0 → nc.X.getNumVectors ≤ nc.numNorms →
        nc.X.getNumVectors ≤ nc.X.view_.dimension_1 →
        ∃ lcl, nc.localPhase w = .ok (some lcl))) ∧
    ((mc.meanValueTraced mbufs).2 = mc.meanValue mbufs ∧
      (mc.meanValueTraced mbufs).1.filterMap Collective.scalarBuf = mc.sendBuf.toList ∧
      ((mc.meanValueTraced mbufs).1 ≠ [] ↔
        (∃ r, mc.meanValue mbufs = .ok r) ∧
          (mc.X.isDistributed = true ∧ mc.X.getComm.isSome = true)) ∧
      (∀ lcl, mc.localPhase = .ok lcl →
        (mc.X.isDistributed = true ∧ mc.X.getComm.isSome = true →
          (mc.meanValueTraced mbufs).1 = [.scalars .REDUCE_SUM mc.X.getNumVectors lcl] ∧
          ∃ r, mc.meanValue mbufs = .ok r ∧
            ∀ k, k < mc.numMeans →
              r k = reduceAll .REDUCE_SUM mc.X.getNumVectors mbufs mc.means k
                * (1 / (mc.X.getGlobalLength : S))) ∧
        (¬ (mc.X.isDistributed = true ∧ mc.X.getComm.isSome = true) →
          (mc.meanValueTraced mbufs).1 = [] ∧
          ∃ r, mc.meanValue mbufs = .ok r ∧
            ∀ k, k < mc.numMeans → r k = lcl k / (mc.X.getGlobalLength : S))) ∧
      (mc.numMeans = mc.X.getNumVectors →
        ∃ lcl, mc.localPhase = .ok lcl ∧
          ∀ k, k < mc.X.getNumVectors → lcl k = mc.X.localSum mc.heap k)) := by
  refine ⟨⟨DotCall.dotTraced_snd dc dbufs, ?_, ?_, ?_, ?_, ?_⟩,
    ⟨NormCall.normImplTraced_snd sqrt nc w nbufs, ?_, ?_, ?_, ?_, ?_⟩,
    ⟨MeanCall.meanValueTraced_snd mc mbufs, ?_, ?_, ?_, ?_⟩⟩
  -- dot
  · unfold DotCall.dotTraced DotCall.sendBuf gblDotImplTraced
    rcases dc.localPhase with e | o
    · rfl
    · rcases o with _ | r
      · rfl
      · by_cases hp : dc.X.isDistributed = true ∧ dc.X.getComm.isSome = true
        · simp [hp, Collective.scalarBuf]
        · simp [hp]
  · rcases hlp : dc.localPhase with e | o
    · simp [DotCall.dotTraced, DotCall.dot, hlp]
    · rcases o with _ | r
      · have h0 : dc.X.getNumVectors = 0 := by
          by_contra h0
          exact DotCall.dot_localPhase_ne_none dc h0 hlp
        simp [DotCall.dotTraced, DotCall.dot, hlp, h0]
      · have h0 : dc.X.getNumVectors ≠ 0 := by
          intro h0
          rw [DotCall.dot_localPhase_of_zero dc h0] at hlp
          cases hlp
        by_cases hp : dc.X.isDistributed = true ∧ dc.X.getComm.isSome = true
        · simp [DotCall.dotTraced, DotCall.dot, hlp, h0, gblDotImplTraced, hp]
        · simp [DotCall.dotTraced, DotCall.dot, hlp, h0, gblDotImplTraced, hp]
  · intro h1 lcl hlp
    constructor
    · intro hp
      simp [DotCall.dotTraced, DotCall.dot, hlp, gblDotImplTraced, gblDotImpl, hp]
    · intro hp
      simp [DotCall.dotTraced, DotCall.dot, hlp, gblDotImplTraced, gblDotImpl, hp]
  · intro h0
    unfold DotCall.dotTraced
    rw [DotCall.dot_localPhase_of_zero dc h0]
  · intro hn hl hv hd
    exact ⟨_, _, DotCall.dot_localPhase_eq dc hn hl hv hd,
      fun k hk => DotCall.dot_lcl_apply dc k hk⟩
  -- norms
  · unfold NormCall.normImplTraced NormCall.sendBuf gblNormImplTraced
    rcases nc.localPhase w with e | o
    · rfl
    · rcases o with _ | r
      · rfl
      · by_cases hp : nc.X.isDistributed = true ∧ nc.X.getComm.isSome = true
        · cases w <;> simp [hp, Collective.scalarBuf, lclNormType]
        · cases w <;> simp [hp, lclNormType]
  · rcases hlp : nc.localPhase w with e | o
    · simp [NormCall.normImplTraced, NormCall.normImpl, hlp]
    · rcases o with _ | r
      · have h0 : nc.X.getNumVectors = 0 := by
          by_contra h0
          exact NormCall.norm_localPhase_ne_none nc w h0 hlp
        simp [NormCall.normImplTraced, NormCall.normImpl, hlp, h0]
      · have h0 : nc.X.getNumVectors ≠ 0 := by
          intro h0
          rw [NormCall.norm_localPhase_of_zero nc w h0] at hlp
          cases hlp
        by_cases hp : nc.X.isDistributed = true ∧ nc.X.getComm.isSome = true
        · cases w <;>
            simp [NormCall.normImplTraced, NormCall.normImpl, hlp, h0, gblNormImplTraced, hp,
              lclNormType]
        · cases w <;>
            simp [NormCall.normImplTraced, NormCall.normImpl, hlp, h0, gblNormImplTraced, hp,
              lclNormType]
  · intro lcl hlp
    constructor
    · intro hp
      cases w <;>
        simp [NormCall.normImplTraced, NormCall.normImpl, hlp, gblNormImplTraced, gblNormImpl,
          hp, lclNormType]
    · intro hp
      cases w <;>
        simp [NormCall.normImplTraced, NormCall.normImpl, hlp, gblNormImplTraced, gblNormImpl,
          hp, lclNormType]
  · intro h0
    unfold NormCall.normImplTraced
    rw [NormCall.norm_localPhase_of_zero nc w h0]
  · intro hn hnn hcols
    exact ⟨_, NormCall.norm_localPhase_eq nc w hn hnn hcols⟩
  -- meanValue
  · unfold MeanCall.meanValueTraced MeanCall.sendBuf
    rcases mc.localPhase with e | lcl
    · rfl
    · by_cases hp : mc.X.getComm.isSome = true ∧ mc.X.isDistributed = true
      · simp [hp, Collective.scalarBuf]
      · simp [hp]
  · rcases hlp : mc.localPhase with e | lcl
    · simp [MeanCall.meanValueTraced, MeanCall.meanValue, hlp]
    · by_cases hp : mc.X.getComm.isSome = true ∧ mc.X.isDistributed = true
      · simp [MeanCall.meanValueTraced, MeanCall.meanValue, hlp, hp]
      · have hp2 : ¬ (mc.X.isDistributed = true ∧ mc.X.getComm.isSome = true) :=
          fun hh => hp ⟨hh.2, hh.1⟩
        simp [MeanCall.meanValueTraced, MeanCall.meanValue, hlp, hp, hp2]
  · intro lcl hlp
    constructor
    · intro hp
      have hp2 : mc.X.getComm.isSome = true ∧ mc.X.isDistributed = true := ⟨hp.2, hp.1⟩
      refine ⟨by simp [MeanCall.meanValueTraced, hlp, hp2], ?_⟩
      unfold MeanCall.meanValue
      rw [hlp]
      refine ⟨_, rfl, ?_⟩
      intro k hk
      simp only [hp2, and_self, if_true, hk]
    · intro hp
      have hp2 : ¬ (mc.X.getComm.isSome = true ∧ mc.X.isDistributed = true) :=
        fun hh => hp ⟨hh.2, hh.1⟩
      refine ⟨by simp [MeanCall.meanValueTraced, hlp, hp2], ?_⟩
      unfold MeanCall.meanValue
      rw [hlp]
      refine ⟨_, rfl, ?_⟩
      intro k hk
      simp only [hp2, if_false, hk, if_true, mul_one_div]
  · intro hm
    exact ⟨_, MeanCall.mean_localPhase_eq mc hm,
      fun k hk => MeanCall.mean_lcl_apply mc k hk⟩

/-- Witness for C12: the replicated single-column block on process 1, with the
identity in the place of the square root and `norm2` as the norm.  Its map is
not distributed: the three calls get through their local phase, issue no
all-reduce and return the local result. -/
theorem C12_all_reduce_iff_participating_past_early_return_witness :
    (replicatedDotCall.X.getNumVectors ≠ 0 ∧
      replicatedDotCall.X.getLocalLength = replicatedDotCall.A.getLocalLength ∧
      replicatedDotCall.X.getNumVectors = replicatedDotCall.A.getNumVectors ∧
      replicatedDotCall.numDots = replicatedDotCall.X.getNumVectors) ∧
    (replicatedNormCall.X.getNumVectors ≠ 0 ∧
      replicatedNormCall.X.getNumVectors ≤ replicatedNormCall.numNorms ∧
      replicatedNormCall.X.getNumVectors ≤ replicatedNormCall.X.view_.dimension_1) ∧
    replicatedMeanCall.numMeans = replicatedMeanCall.X.getNumVectors ∧
    ¬ (replicatedBlock.isDistributed = true ∧ replicatedBlock.getComm.isSome = true) ∧
    (∃ h1 lcl, replicatedDotCall.localPhase = .ok (some (h1, lcl)) ∧
      (∀ k, k < replicatedDotCall.X.getNumVectors → lcl k = replicatedDotCall.localDot k) ∧
      (replicatedDotCall.dotTraced []).1 = [] ∧ replicatedDotCall.dot [] = .ok (h1, lcl)) ∧
    (∃ lcl, replicatedNormCall.localPhase .NORM_TWO = .ok (some lcl) ∧
      (replicatedNormCall.normImplTraced id .NORM_TWO []).1 = [] ∧
      ∃ r, replicatedNormCall.normImpl id .NORM_TWO [] = .ok r ∧
        (EWhichNorm.NORM_TWO ≠ .NORM_TWO → r = lcl) ∧
        (EWhichNorm.NORM_TWO = .NORM_TWO → ∀ k, r k =
          if k < replicatedNormCall.X.getNumVectors then id (lcl k) else lcl k)) ∧
    (∃ lcl, replicatedMeanCall.localPhase = .ok lcl ∧
      (∀ k, k < replicatedMeanCall.X.getNumVectors →
        lcl k = replicatedMeanCall.X.localSum replicatedMeanCall.heap k) ∧
      (replicatedMeanCall.meanValueTraced []).1 = [] ∧
      ∃ r, replicatedMeanCall.meanValue [] = .ok r ∧
        ∀ k, k < replicatedMeanCall.numMeans →
          r k = lcl k / (replicatedMeanCall.X.getGlobalLength : ℚ)) := by
  have H := C12_all_reduce_iff_participating_past_early_return id replicatedDotCall
    replicatedNormCall replicatedMeanCall .NORM_TWO [] [] []
  obtain ⟨⟨-, -, -, hd3, -, hd5⟩, ⟨-, -, -, hn3, -, hn5⟩, ⟨-, -, -, hm3, hm4⟩⟩ := H
  have hnp : ¬ (replicatedBlock.isDistributed = true ∧ replicatedBlock.getComm.isSome = true) := by
    decide
  obtain ⟨h1, lcl, hlp, hl⟩ := hd5 (by decide) (by decide) (by decide) (by decide)
  obtain ⟨nl, hnl⟩ := hn5 (by decide) (by decide) (by decide)
  obtain ⟨ml, hml, hmv⟩ := hm4 (by decide)
  exact ⟨⟨by decide, by decide, by decide, by decide⟩, ⟨by decide, by decide, by decide⟩,
    by decide, hnp,
    ⟨h1, lcl, hlp, hl, ((hd3 h1 lcl hlp).2 hnp).1, ((hd3 h1 lcl hlp).2 hnp).2⟩,
    ⟨nl, hnl, ((hn3 nl hnl).2 hnp).1, ((hn3 nl hnl).2 hnp).2⟩,
    ⟨ml, hml, hmv, ((hm3 ml hml).2 hnp).1, ((hm3 ml hml).2 hnp).2⟩⟩

end Tpetra

namespace Tpetra

/-! ## When `multiply` raises `runtime_error` -/

/-- C15 (counterexample): two calls in the supported Case 2 (`C` not
distributed, `A` and `B` distributed, `A` transposed, `B` not) raise
`runtime_error`.  `tallCall 0` has consistent local dimensions and a block `C`
of `2 ^ 31` local rows on a communicator of two processes: the `reduce` that
ends Case 2 raises because the row count does not fit in `int`.  In the debug
build, `productCall 0` has consistent local dimensions but runs with
`mismatchedCall 1`, whose local dimensions are not consistent: both processes
raise after the all-reduce of the flags. -/
theorem C15_multiply_raises_in_supported_case_counterexample :
    ((tallCall 0).C.isDistributed = false ∧ (tallCall 0).A.isDistributed = true ∧
      (tallCall 0).B.isDistributed = true ∧ (tallCall 0).transA ≠ .NO_TRANS ∧
      (tallCall 0).transB = .NO_TRANS) ∧
    (tallCall 0).lclGood = 1 ∧ (tallCall 0).commSize = 2 ∧
    (tallCall 0).C.getLocalLength = 2 ^ 31 ∧ INT_MAX < 2 ^ 31 ∧
    (∀ bufs, (tallCall 0).multiply bufs = .error .runtime_error) ∧
    ((productCall 0).C.isDistributed = false ∧ (productCall 0).A.isDistributed = true ∧
      (productCall 0).B.isDistributed = true ∧ (productCall 0).transA ≠ .NO_TRANS ∧
      (productCall 0).transB = .NO_TRANS) ∧
    ((mismatchedCall 1).C.isDistributed = false ∧ (mismatchedCall 1).A.isDistributed = true ∧
      (mismatchedCall 1).B.isDistributed = true ∧ (mismatchedCall 1).transA ≠ .NO_TRANS ∧
      (mismatchedCall 1).transB = .NO_TRANS) ∧
    (productCall 0).lclGood = 1 ∧ (mismatchedCall 1).lclGood = 0 ∧
    multiplyAllTraced true [productCall 0, mismatchedCall 1]
      = [([.goodFlag 1], .error .runtime_error), ([.goodFlag 0], .error .runtime_error)] := by
  refine ⟨by decide, by decide, rfl, rfl, by decide, ?_, by decide, by decide, by decide,
    by decide, rfl⟩
  intro bufs
  rw [← MultiplyCall.multiplyTraced_release_snd (tallCall 0) [] bufs]
  exact (MultiplyCall.multiplyTraced_result false (tallCall 0) [] bufs).1
    (Or.inr (Or.inl ⟨rfl, by decide, by decide⟩))

/-- C15 (amended): `multiplyTraced debug` is `multiply` in the build with
(`debug = true`) or without the block under `HAVE_TPETRA_DEBUG`; without it, it
returns what `multiply` returns.  The call raises `runtime_error` exactly when
(a) the operands fit none of the three supported cases: (1) `C`, `A`, `B` all
not distributed; (2) `C` not distributed, `A` and `B` distributed, `A`
transposed and `B` not transposed; (3) `C` and `A` distributed, `A` not
transposed, `B` not distributed; or (b) the operands fit case (2), the
communicator has more than one process and the local row count of `C` exceeds
`INT_MAX`; or (c) in the debug build, with a non-null map and communicator, the
all-reduced minimum of the flags `lclGood` is not 1.  Otherwise the call
returns.  For flags 0 or 1 from at least one process, (c) says that some
process handed in 0, and a process hands in 1 exactly when its local dimensions
of `C`, `op(A)` and `op(B)` are consistent.  So without the debug block and with
a row count of `C` within `INT_MAX`, `multiply` raises exactly when the operands
fit none of the three cases. -/
theorem C15_multiply_raises_iff_unsupported_or_guarded {S : Type} [LinearOrderedField S]
    (debug : Bool) (c : MultiplyCall S) (lclGoods : List Int) (bufs : List (Nat → S)) :
    ((c.multiplyTraced debug lclGoods bufs).2 = .error .runtime_error ↔
      (¬ ((c.C.isDistributed = false ∧ c.A.isDistributed = false ∧
            c.B.isDistributed = false) ∨
          (c.C.isDistributed = false ∧ c.A.isDistributed = true ∧ c.B.isDistributed = true ∧
            c.transA ≠ .NO_TRANS ∧ c.transB = .NO_TRANS) ∨
          (c.C.isDistributed = true ∧ c.A.isDistributed = true ∧ c.transA = .NO_TRANS ∧
            c.B.isDistributed = false)) ∨
        ((c.C.isDistributed = false ∧ c.A.isDistributed = true ∧ c.B.isDistributed = true ∧
            c.transA ≠ .NO_TRANS ∧ c.transB = .NO_TRANS) ∧
          c.commSize ≠ 1 ∧ INT_MAX < c.C.getLocalLength) ∨
        (debug = true ∧ c.C.map_.isSome = true ∧ c.C.getComm.isSome = true ∧
          reduceAllMin lclGoods 0 ≠ 1))) ∧
    (¬ (¬ ((c.C.isDistributed = false ∧ c.A.isDistributed = false ∧
            c.B.isDistributed = false) ∨
          (c.C.isDistributed = false ∧ c.A.isDistributed = true ∧ c.B.isDistributed = true ∧
            c.transA ≠ .NO_TRANS ∧ c.transB = .NO_TRANS) ∨
          (c.C.isDistributed = true ∧ c.A.isDistributed = true ∧ c.transA = .NO_TRANS ∧
            c.B.isDistributed = false)) ∨
        ((c.C.isDistributed = false ∧ c.A.isDistributed = true ∧ c.B.isDistributed = true ∧
            c.transA ≠ .NO_TRANS ∧ c.transB = .NO_TRANS) ∧
          c.commSize ≠ 1 ∧ INT_MAX < c.C.getLocalLength) ∨
        (debug = true ∧ c.C.map_.isSome = true ∧ c.C.getComm.isSome = true ∧
          reduceAllMin lclGoods 0 ≠ 1)) →
      ∃ h1, (c.multiplyTraced debug lclGoods bufs).2 = .ok h1) ∧
    (c.multiplyTraced false lclGoods bufs).2 = c.multiply bufs ∧
    (c.multiply bufs = .error .runtime_error ↔
      (¬ ((c.C.isDistributed = false ∧ c.A.isDistributed = false ∧
            c.B.isDistributed = false) ∨
          (c.C.isDistributed = false ∧ c.A.isDistributed = true ∧ c.B.isDistributed = true ∧
            c.transA ≠ .NO_TRANS ∧ c.transB = .NO_TRANS) ∨
          (c.C.isDistributed = true ∧ c.A.isDistributed = true ∧ c.transA = .NO_TRANS ∧
            c.B.isDistributed = false)) ∨
        ((c.C.isDistributed = false ∧ c.A.isDistributed = true ∧ c.B.isDistributed = true ∧
            c.transA ≠ .NO_TRANS ∧ c.transB = .NO_TRANS) ∧
          c.commSize ≠ 1 ∧ INT_MAX < c.C.getLocalLength))) ∧
    (c.C.getLocalLength ≤ INT_MAX →
      (c.multiply bufs = .error .runtime_error ↔
        ¬ ((c.C.isDistributed = false ∧ c.A.isDistributed = false ∧
            c.B.isDistributed = false) ∨
          (c.C.isDistributed = false ∧ c.A.isDistributed = true ∧ c.B.isDistributed = true ∧
            c.transA ≠ .NO_TRANS ∧ c.transB = .NO_TRANS) ∨
          (c.C.isDistributed = true ∧ c.A.isDistributed = true ∧ c.transA = .NO_TRANS ∧
            c.B.isDistributed = false)))) ∧
    (lclGoods ≠ [] → (∀ g ∈ lclGoods, g = 0 ∨ g = 1) →
      (reduceAllMin lclGoods 0 ≠ 1 ↔ (0 : Int) ∈ lclGoods)) ∧
    (c.lclGood = 0 ∨ c.lclGood = 1) ∧
    (c.lclGood = 1 ↔
      c.C.getLocalLength = (if c.transA ≠ .NO_TRANS then c.A.getNumVectors
        else c.A.getLocalLength) ∧
      c.C.getNumVectors = (if c.transB ≠ .NO_TRANS then c.B.getLocalLength
        else c.B.getNumVectors) ∧
      (if c.transA ≠ .NO_TRANS then c.A.getLocalLength else c.A.getNumVectors)
        = (if c.transB ≠ .NO_TRANS then c.B.getNumVectors else c.B.getLocalLength)) := by
  obtain ⟨h1, h2, h3⟩ := MultiplyCall.case_iff c
  have hU : (¬ (c.Case1 = true ∨ c.Case2 = true ∨ c.Case3 = true)) ↔
      (c.Case1 = false ∧ c.Case2 = false ∧ c.Case3 = false) := by
    cases c.Case1 <;> cases c.Case2 <;> cases c.Case3 <;> simp
  rw [← h1, ← h2, ← h3, hU]
  have key : ∀ dbg : Bool,
      ((c.multiplyTraced dbg lclGoods bufs).2 = .error .runtime_error ↔
        ((c.Case1 = false ∧ c.Case2 = false ∧ c.Case3 = false) ∨
          (c.Case2 = true ∧ c.commSize ≠ 1 ∧ INT_MAX < c.C.getLocalLength) ∨
          (dbg = true ∧ c.C.map_.isSome = true ∧ c.C.getComm.isSome = true ∧
            reduceAllMin lclGoods 0 ≠ 1))) := by
    intro dbg
    obtain ⟨hE, hO⟩ := MultiplyCall.multiplyTraced_result dbg c lclGoods bufs
    refine ⟨?_, hE⟩
    intro he
    by_contra hn
    obtain ⟨hh, hk⟩ := hO hn
    rw [hk] at he
    cases he
  have hrel : c.multiply bufs = .error .runtime_error ↔
      ((c.Case1 = false ∧ c.Case2 = false ∧ c.Case3 = false) ∨
        (c.Case2 = true ∧ c.commSize ≠ 1 ∧ INT_MAX < c.C.getLocalLength)) := by
    rw [← MultiplyCall.multiplyTraced_release_snd c lclGoods bufs, key false]
    simp
  refine ⟨key debug, (MultiplyCall.multiplyTraced_result debug c lclGoods bufs).2,
    MultiplyCall.multiplyTraced_release_snd c lclGoods bufs, hrel, ?_,
    fun hne hfl => reduceAllMin_flags lclGoods hne hfl, (MultiplyCall.lclGood_iff c).1,
    (MultiplyCall.lclGood_iff c).2⟩
  intro hrows
  rw [hrel]
  constructor
  · rintro (h | h)
    · exact h
    · omega
  · intro h
    exact Or.inl h

/-- Witness for C15: process 0 of the product `productCalls`, a Case 2 call on a
block of one local row, in the build without the debug block. -/
theorem C15_multiply_raises_iff_unsupported_or_guarded_witness :
    (productCall 0).C.getLocalLength ≤ INT_MAX ∧
    ((productCall 0).multiply [] = .error .runtime_error ↔
      ¬ (((productCall 0).C.isDistributed = false ∧ (productCall 0).A.isDistributed = false ∧
          (productCall 0).B.isDistributed = false) ∨
        ((productCall 0).C.isDistributed = false ∧ (productCall 0).A.isDistributed = true ∧
          (productCall 0).B.isDistributed = true ∧
          (productCall 0).transA ≠ .NO_TRANS ∧ (productCall 0).transB = .NO_TRANS) ∨
        ((productCall 0).C.isDistributed = true ∧ (productCall 0).A.isDistributed = true ∧
          (productCall 0).transA = .NO_TRANS ∧ (productCall 0).B.isDistributed = false))) ∧
    (([1, 0] : List Int) ≠ [] ∧ (∀ g ∈ ([1, 0] : List Int), g = 0 ∨ g = 1) ∧
      (reduceAllMin [1, 0] 0 ≠ 1 ↔ (0 : Int) ∈ ([1, 0] : List Int))) :=
  ⟨by decide,
    (C15_multiply_raises_iff_unsupported_or_guarded false (productCall 0) [] []).2.2.2.2.1
      (by decide),
    by decide, by decide,
    (C15_multiply_raises_iff_unsupported_or_guarded false (productCall 0) [1, 0] []).2.2.2.2.2.1
      (by decide) (by decide)⟩

end Tpetra

namespace Tpetra

/-! ## Failures and the all-reduce -/

/-- C13 (counterexample): in the build with the block under
`HAVE_TPETRA_DEBUG`, `multiply` raises after an all-reduce.  The call
`unsupportedSquareCall`, alone on its communicator, has consistent local
dimensions and fits none of the supported cases: it issues the all-reduce of its
flag and then raises `runtime_error`.  Of the two processes `productCall 0` and
`mismatchedCall 1`, the second has inconsistent local dimensions: both issue the
all-reduce of their flag and then raise `runtime_error`. -/
theorem C13_debug_multiply_raises_after_all_reduce_counterexample :
    (unsupportedSquareCall.Case1 = false ∧ unsupportedSquareCall.Case2 = false ∧
      unsupportedSquareCall.Case3 = false) ∧
    unsupportedSquareCall.lclGood = 1 ∧
    multiplyAllTraced true [unsupportedSquareCall]
      = [([.goodFlag 1], .error .runtime_error)] ∧
    (productCall 0).lclGood = 1 ∧ (mismatchedCall 1).lclGood = 0 ∧
    multiplyAllTraced true [productCall 0, mismatchedCall 1]
      = [([.goodFlag 1], .error .runtime_error), ([.goodFlag 0], .error .runtime_error)] :=
  ⟨by decide, by decide, rfl, by decide, by decide, rfl⟩

/-- C13 (amended): `dotTraced`, `normImplTraced`, `meanValueTraced` and
`multiplyTraced false` are `dot`, `normImpl`, `meanValue` and `multiply` as
compiled without `HAVE_TPETRA_DEBUG`, with the all-reduces issued by the call.
In that build a precondition failure (operands of different local length or
column count, an output view of the wrong size, an unsupported case of
`multiply`) makes the call raise `runtime_error`, and a call that raises any
exception has issued no all-reduce.  In the build with the debug block,
`multiply` on a block with a non-null map and communicator issues the all-reduce
of its flag `lclGood` first: every exception it raises comes after that
all-reduce and before any other, be it for a flag that is not 1 on some process
or for an unsupported case.  On a block with a null map or communicator the two
builds of `multiply` agree. -/
theorem C13_errors_precede_all_reduce_without_debug_block {S : Type} [LinearOrderedField S]
    (sqrt : S → S) (dc : DotCall S) (nc : NormCall S) (mc : MeanCall S) (xc : MultiplyCall S)
    (w : EWhichNorm) (lclGoods : List Int) (dbufs nbufs mbufs xbufs : List (Nat → S)) :
    ((dc.dotTraced dbufs).2 = dc.dot dbufs ∧
      (dc.X.getNumVectors ≠ 0 →
        (dc.X.getLocalLength ≠ dc.A.getLocalLength ∨
          dc.X.getNumVectors ≠ dc.A.getNumVectors ∨ dc.numDots ≠ dc.X.getNumVectors) →
        dc.dot dbufs = .error .runtime_error) ∧
      (∀ e, dc.dot dbufs = .error e → (dc.dotTraced dbufs).1 = [])) ∧
    ((nc.normImplTraced sqrt w nbufs).2 = nc.normImpl sqrt w nbufs ∧
      (nc.X.getNumVectors ≠ 0 → nc.numNorms < nc.X.getNumVectors →
        nc.normImpl sqrt w nbufs = .error .runtime_error) ∧
      (∀ e, nc.normImpl sqrt w nbufs = .error e → (nc.normImplTraced sqrt w nbufs).1 = [])) ∧
    ((mc.meanValueTraced mbufs).2 = mc.meanValue mbufs ∧
      (mc.numMeans ≠ mc.X.getNumVectors → mc.meanValue mbufs = .error .runtime_error) ∧
      (∀ e, mc.meanValue mbufs = .error e → (mc.meanValueTraced mbufs).1 = [])) ∧
    ((xc.multiplyTraced false lclGoods xbufs).2 = xc.multiply xbufs ∧
      (xc.Case1 = false ∧ xc.Case2 = false ∧ xc.Case3 = false →
        xc.multiply xbufs = .error .runtime_error) ∧
      (∀ e, xc.multiply xbufs = .error e → (xc.multiplyTraced false lclGoods xbufs).1 = [])) ∧
    (xc.C.map_.isSome = true ∧ xc.C.getComm.isSome = true →
      (∃ rest, (xc.multiplyTraced true lclGoods xbufs).1 = .goodFlag xc.lclGood :: rest) ∧
      (∀ e, (xc.multiplyTraced true lclGoods xbufs).2 = .error e →
        (xc.multiplyTraced true lclGoods xbufs).1 = [.goodFlag xc.lclGood]) ∧
      (reduceAllMin lclGoods 0 ≠ 1 →
        (xc.multiplyTraced true lclGoods xbufs).2 = .error .runtime_error) ∧
      (xc.Case1 = false ∧ xc.Case2 = false ∧ xc.Case3 = false →
        (xc.multiplyTraced true lclGoods xbufs).2 = .error .runtime_error)) ∧
    (¬ (xc.C.map_.isSome = true ∧ xc.C.getComm.isSome = true) →
      xc.multiplyTraced true lclGoods xbufs = xc.multiplyTraced false lclGoods xbufs) := by
  refine ⟨⟨DotCall.dotTraced_snd dc dbufs, ?_, ?_⟩,
    ⟨NormCall.normImplTraced_snd sqrt nc w nbufs, ?_, ?_⟩,
    ⟨MeanCall.meanValueTraced_snd mc mbufs, ?_, ?_⟩,
    ⟨MultiplyCall.multiplyTraced_release_snd xc lclGoods xbufs, ?_, ?_⟩, ?_, ?_⟩
  · intro hn hbad
    have hlp : dc.localPhase = .error .runtime_error := by
      unfold DotCall.localPhase
      simp only []
      rw [if_neg hn]
      by_cases h1 : dc.X.getLocalLength ≠ dc.A.getLocalLength
      · rw [if_pos h1]
      · rw [if_neg h1]
        by_cases h2 : dc.X.getNumVectors ≠ dc.A.getNumVectors
        · rw [if_pos h2]
        · rw [if_neg h2]
          rcases hbad with h | h | h
          · exact absurd h h1
          · exact absurd h h2
          · rw [if_pos h]
    unfold DotCall.dot
    rw [hlp]
  · intro e he
    rcases hlp : dc.localPhase with e1 | o
    · simp [DotCall.dotTraced, hlp]
    · rcases o with _ | r
      · simp [DotCall.dot, hlp] at he
      · simp [DotCall.dot, hlp] at he
  · intro hn hbad
    have hlp : nc.localPhase w = .error .runtime_error := by
      unfold NormCall.localPhase
      simp only []
      rw [if_neg hn, if_pos hbad]
    unfold NormCall.normImpl
    rw [hlp]
  · intro e he
    rcases hlp : nc.localPhase w with e1 | o
    · simp [NormCall.normImplTraced, hlp]
    · rcases o with _ | r
      · simp [NormCall.normImpl, hlp] at he
      · simp [NormCall.normImpl, hlp] at he
  · intro hbad
    have hlp : mc.localPhase = .error .runtime_error := by
      unfold MeanCall.localPhase
      rw [if_pos hbad]
    unfold MeanCall.meanValue
    rw [hlp]
  · intro e he
    rcases hlp : mc.localPhase with e1 | o
    · simp [MeanCall.meanValueTraced, hlp]
    · simp [MeanCall.meanValue, hlp] at he
  · intro hbad
    unfold MultiplyCall.multiply
    rw [MultiplyCall.localPhase_unsupported xc hbad]
  · intro e he
    rw [← MultiplyCall.multiplyTraced_release_snd xc lclGoods xbufs] at he
    rw [(MultiplyCall.multiplyTraced_error_trace false xc lclGoods xbufs e he).2]
    simp
  · intro hp
    obtain ⟨hD, hN⟩ := MultiplyCall.multiplyTraced_cases true xc lclGoods xbufs
    refine ⟨?_, ?_, ?_, ?_⟩
    · by_cases hg : reduceAllMin lclGoods 0 ≠ 1
      · rw [hD ⟨rfl, hp.1, hp.2, hg⟩]
        exact ⟨_, rfl⟩
      · obtain ⟨pre, hpre, hU, hS⟩ := hN (fun hh => hg hh.2.2.2)
        rw [if_pos ⟨rfl, hp.1, hp.2⟩] at hpre
        subst hpre
        by_cases hu : xc.Case1 = false ∧ xc.Case2 = false ∧ xc.Case3 = false
        · rw [hU hu]
          exact ⟨_, rfl⟩
        · obtain ⟨h1, -, h2f, h2t⟩ := hS hu
          by_cases h2 : xc.Case2 = true
          · rw [h2t h2]
            exact ⟨_, rfl⟩
          · have h2' : xc.Case2 = false := by simpa using h2
            rw [h2f h2']
            exact ⟨_, rfl⟩
    · intro e he
      rw [(MultiplyCall.multiplyTraced_error_trace true xc lclGoods xbufs e he).2,
        if_pos ⟨rfl, hp.1, hp.2⟩]
    · intro hg
      exact (MultiplyCall.multiplyTraced_result true xc lclGoods xbufs).1
        (Or.inr (Or.inr ⟨rfl, hp.1, hp.2, hg⟩))
    · intro hu
      exact (MultiplyCall.multiplyTraced_result true xc lclGoods xbufs).1 (Or.inl hu)
  · intro hp
    unfold MultiplyCall.multiplyTraced MultiplyCall.debugCheck
    simp [hp]

/-- Witness for C13: a `dot` with an output view of the wrong size, a norm with
too short an output view, a `meanValue` with two output slots for one column and
an unsupported `multiply`; without the debug block each raises and has issued no
all-reduce, and with it the unsupported `multiply` raises after the all-reduce
of its flag. -/
theorem C13_errors_precede_all_reduce_without_debug_block_witness :
    widerDotCall.dot [] = .error .runtime_error ∧ (widerDotCall.dotTraced []).1 = [] ∧
    NormCall.normImpl id ⟨rankHeap 1, replicatedBlock, 0, fun _ => 0⟩ .NORM_TWO []
      = .error .runtime_error ∧
    (NormCall.normImplTraced id (⟨rankHeap 1, replicatedBlock, 0, fun _ => 0⟩ : NormCall ℚ)
      .NORM_TWO []).1 = [] ∧
    MeanCall.meanValue ⟨rankHeap 1, replicatedBlock, 2, fun _ => 0⟩ [] = .error .runtime_error ∧
    (MeanCall.meanValueTraced (⟨rankHeap 1, replicatedBlock, 2, fun _ => 0⟩ : MeanCall ℚ)
      []).1 = [] ∧
    unsupportedCall.multiply [] = .error .runtime_error ∧
    (unsupportedCall.multiplyTraced false [1] []).1 = [] ∧
    (unsupportedCall.C.map_.isSome = true ∧ unsupportedCall.C.getComm.isSome = true) ∧
    (unsupportedCall.multiplyTraced true [1] []).2 = .error .runtime_error ∧
    (unsupportedCall.multiplyTraced true [1] []).1 = [.goodFlag unsupportedCall.lclGood] := by
  have H := C13_errors_precede_all_reduce_without_debug_block id widerDotCall
    ⟨rankHeap 1, replicatedBlock, 0, fun _ => 0⟩ ⟨rankHeap 1, replicatedBlock, 2, fun _ => 0⟩
    unsupportedCall .NORM_TWO [1] [] [] [] []
  obtain ⟨⟨-, hd1, hd2⟩, ⟨-, hn1, hn2⟩, ⟨-, hm1, hm2⟩, ⟨-, hx1, hx2⟩, hdbg, -⟩ := H
  have e1 := hd1 (by decide) (Or.inr (Or.inr (by decide)))
  have e2 := hn1 (by decide) (by decide)
  have e3 := hm1 (by decide)
  have e4 := hx1 (by decide)
  have hp : unsupportedCall.C.map_.isSome = true ∧ unsupportedCall.C.getComm.isSome = true := by
    decide
  obtain ⟨-, g2, -, g4⟩ := hdbg hp
  have e5 := g4 (by decide)
  exact ⟨e1, hd2 _ e1, e2, hn2 _ e2, e3, hm2 _ e3, e4, hx2 _ e4, hp, e5, g2 _ e5⟩

end Tpetra
